import Mathlib

/-!
# Drawing one buffer line on the screen: `win_line` of `src/nvim/drawline.c`

A shallow embedding of the middle layer of the display pipeline.  The C function
`win_line` is one long loop over display cells; it is embedded here as a pure
step function on an explicit state:

* `winlinevars_T` is the C struct of the same name (the "line context");
* `LoopState` adds the local variables of `win_line` that live across loop
  iterations, the row buffer `linebuf_char` / `linebuf_attr`, the fields of the
  window that `win_line` writes, and the list of rows handed to the grid layer;
* `win_T` holds the options and window fields that are only read;
* `Env` holds the window, the global variables that are read, and the
  collaborators whose code is outside `drawline.c` (UTF-8 decoding, highlight
  combination, syntax, search, decorations, folds, signs, status column builder).

Conventions.  C `int`, `long`, `colnr_T`, `linenr_T` are `Int`.  A byte is an `Int`
in `0..255`.  A `char *` is a `CharPtr`: the buffer it points into (tagged with
the object it belongs to, so that pointer comparisons can be expressed), and an
offset.  The buffer line is the byte list `Env.line` (without the terminating
NUL) and `ptr` is an offset into it.  A screen cell (`schar_T`) is the list of
code points of its grapheme; the empty list is the cell whose first byte is NUL
(the right half of a double-width character).  Memory management (`xmalloc`,
`xfree`, `p_extra_free`) has no counterpart.  Each C block of the loop body is
one definition, in the order of the source, and `win_line_iter` composes them.
-/

set_option autoImplicit false

namespace Drawline

/-! ## Constants -/

abbrev NUL : Int := 0
abbrev TAB : Int := 9
abbrev MAXCOL : Int := 0x7fffffff
abbrev INT_MAX : Int := 0x7fffffff
abbrev MAX_MCO : Nat := 6
/-- The character used when a double-width character does not fit at the left
side: `MB_FILLER_CHAR`, the byte `'<'`. -/
abbrev MB_FILLER_CHAR : Int := 60
/-- Number of bytes of `winlinevars_T.extra`. -/
abbrev EXTRA_SIZE : Nat := 57
/-- The constant `MAX_NUMBERWIDTH` of `option_defs.h`. -/
abbrev MAX_NUMBERWIDTH : Int := 20
/-- Number of columns for which terminal attributes are kept, `TERM_ATTRS_MAX`. -/
abbrev TERM_ATTRS_MAX : Int := 1024

/-! The draw states of `LineDrawState`, as the integers of the C enum. -/

abbrev WL_START : Int := 0
abbrev WL_CMDLINE : Int := 1
abbrev WL_FOLD : Int := 2
abbrev WL_SIGN : Int := 3
abbrev WL_NR : Int := 4
abbrev WL_STC : Int := 5
abbrev WL_BRI : Int := 6
abbrev WL_SBR : Int := 7
abbrev WL_LINE : Int := 8

/-- The highlight groups `hlf_T` that `drawline.c` names.  `HLF_8` is the first
value of the C enum, the one `(hlf_T)0` denotes. -/
inductive hlf_T
  | HLF_8 | HLF_AT | HLF_0 | HLF_V | HLF_I | HLF_N | HLF_CLN | HLF_LNA | HLF_LNB
  | HLF_FL | HLF_FC | HLF_CLF | HLF_SC | HLF_CLS | HLF_CUL | HLF_CUC | HLF_MC
  | HLF_QFL | HLF_ADD | HLF_CHD | HLF_TXD | HLF_DED | HLF_CONCEAL
  deriving DecidableEq, Repr

open hlf_T

/-! ## Character pointers and screen cells -/

/-- The object a `char *` points into. -/
inductive PBuf
  | null        -- the NULL pointer
  | at_end_str  -- the static empty string `at_end_str` of `win_line`
  | extra       -- `wlv.extra`
  | heap        -- an allocated buffer (`p_extra_free`)
  | transbuf    -- the static buffer of `get_statuscol_display_info`
  | showbreak   -- the value of 'showbreak'
  | transchar   -- the static buffer of `transchar_buf`
  | foldtext    -- the text returned by `get_foldtext`
  deriving DecidableEq, Repr

/-- A `char *`: the bytes of the object pointed into and the offset in it. -/
structure CharPtr where
  base : PBuf
  buf : List Int
  pos : Int
  deriving DecidableEq, Repr

/-- Byte `i` of a byte string; NUL outside of it. -/
def byteAt (l : List Int) (i : Int) : Int :=
  if 0 ≤ i then l.getD i.toNat 0 else 0

/-- The bytes from offset `i` on. -/
def bytesFrom (l : List Int) (i : Int) : List Int :=
  if 0 ≤ i then l.drop i.toNat else []

/-- Number of bytes before the first NUL: `strlen`. -/
def cstrlen (l : List Int) : Int :=
  ((l.takeWhile (fun b => b ≠ 0)).length : Int)

def CharPtr.NULL : CharPtr := ⟨PBuf.null, [], 0⟩

/-- The pointer `at_end_str` of `win_line`: a static empty string. -/
def at_end_str : CharPtr := ⟨PBuf.at_end_str, [], 0⟩

def CharPtr.isNull (p : CharPtr) : Bool := p.base == PBuf.null

/-- The byte `*p`. -/
def CharPtr.deref (p : CharPtr) : Int := byteAt p.buf p.pos

/-- The bytes from `p` on. -/
def CharPtr.rest (p : CharPtr) : List Int := bytesFrom p.buf p.pos

/-- The pointer `p + n`. -/
def CharPtr.add (p : CharPtr) (n : Int) : CharPtr := { p with pos := p.pos + n }

/-- The test `p == q` on pointers: same object, same offset. -/
def CharPtr.same (p q : CharPtr) : Bool := p.base == q.base && p.pos == q.pos

/-- A screen cell: the code points of the grapheme it holds. -/
abbrev schar_T := List Int

/-- The macro `schar_from_ascii` of `grid.h`: a cell holding one ASCII character. -/
def schar_from_ascii (c : Int) : schar_T := [c]

/-- The function `schar_from_cc` of `grid.c`: a cell holding the character `c`
followed by the composing characters of `u8cc` up to its first zero entry. -/
def schar_from_cc (c : Int) (u8cc : List Int) : schar_T :=
  c :: (u8cc.takeWhile (fun x => x ≠ 0)).take MAX_MCO

/-- The cell whose first byte is NUL: the second half of a double-width character. -/
def schar_zero : schar_T := []

/-- Write `x` at index `i` of a row buffer. -/
def bufSet {α : Type} (f : Int → α) (i : Int) (x : α) : Int → α :=
  fun j => if j = i then x else f j

/-- The macro `ARABIC_CHAR` of `arabic.h`. -/
def ARABIC_CHAR (ch : Int) : Bool := (ch.toNat &&& 0xFF00) == 0x0600 && 0 ≤ ch

/-- The macro `ascii_iswhite`. -/
def ascii_iswhite (c : Int) : Bool := c == 32 || c == 9

/-! ## Data read by `win_line` -/

structure foldinfo_T where
  fi_lnum : Int
  fi_level : Int
  fi_low_level : Int
  fi_lines : Int
  deriving DecidableEq, Repr

/-- One entry of the sign attributes `wlv.sattrs`. -/
structure SignTextAttrs where
  text : Option (List Int)
  hl_id : Int
  deriving DecidableEq, Repr

/-- The fields of `wp->w_p_lcs_chars` that `win_line` reads. -/
structure lcs_chars_T where
  eol : Int
  ext : Int
  prec : Int
  nbsp : Int
  space : Int
  tab1 : Int
  tab2 : Int
  tab3 : Int
  lead : Int
  trail : Int
  conceal : Int
  multispace : Option (List Int)
  leadmultispace : Option (List Int)

/-- The fields of `wp->w_p_fcs_chars` that `drawline.c` reads. -/
structure fcs_chars_T where
  diff : Int
  fold : Int
  foldopen : Int
  foldclosed : Int
  foldsep : Int

/-- The highlight entry `HlAttrs` as far as `apply_cursorline_highlight` reads it. -/
structure HlAttrs where
  rgb_fg_color : Int
  cterm_fg_color : Int

/-- A highlight record of the built status column: where the section starts in
the text (`NULL` after the last one) and its highlight. -/
structure StlHlRec where
  start : Option Int
  userhl : Int
  deriving DecidableEq, Repr

/-- The struct `statuscol_T`.  `textp` and `text_end` are offsets into `text`. -/
structure statuscol_T where
  width : Int
  cur_attr : Int
  num_attr : Int
  sign_cul_id : Int
  truncate : Int
  draw : Bool
  use_cul : Bool
  text : List Int
  textp : Option Int
  text_end : Int
  hlrec : List StlHlRec
  hlrecp : Nat

/-- What `build_statuscol_str` leaves behind: the text, its highlight records,
the truncated width, the width it returns, and the value of 'statuscolumn'
afterwards (emptied when evaluating the option failed). -/
structure StcBuilt where
  text : List Int
  hlrec : List StlHlRec
  truncate : Int
  width : Int
  w_p_stc : List Int

/-- A virtual line attached to the buffer line. -/
structure VirtLine where
  left_col : Bool

/-- The window `wp` (and its buffer) as far as `win_line` only reads it. -/
structure win_T where
  is_curwin : Bool
  cols : Int
  rows : Int
  w_width_inner : Int
  w_p_rl : Bool
  w_p_wrap : Bool
  w_p_list : Bool
  w_p_lbr : Bool
  w_p_bri : Bool
  w_briopt_sbr : Bool
  w_p_cul : Bool
  culopt_line : Bool
  culopt_scrline : Bool
  culopt_nbr : Bool
  w_p_cuc : Bool
  w_p_nu : Bool
  w_p_rnu : Bool
  w_p_spell : Bool
  w_p_cole : Int
  w_p_cocu : List Int
  w_p_scl : List Int
  w_scwidth : Int
  w_skipcol : Int
  w_leftcol : Int
  w_cursorline : Int
  w_cursor_lnum : Int
  w_cursor_col : Int
  w_virtcol : Int
  w_topline : Int
  w_topfill : Int
  w_botfill : Bool
  w_cline_row : Int
  w_cline_height : Int
  w_old_cursor_fcol : Int
  w_old_cursor_lcol : Int
  w_p_cc_cols : Option (List Int)
  w_p_lcs_chars : lcs_chars_T
  w_p_fcs_chars : fcs_chars_T
  b_p_ts : Int
  b_p_vts_array : List Int
  b_terminal : Bool
  ml_line_count : Int

/-- A position `pos_T`. -/
structure pos_T where
  lnum : Int
  col : Int
  coladd : Int
  deriving DecidableEq, Repr

/-- What a query of the syntax collaborator at a column yields: `get_syntax_attr`
followed by `get_syntax_info` and `syn_get_sub_char`. -/
structure SynCol where
  attr : Int
  can_spell : Bool
  did_emsg : Bool
  syn_slow : Bool
  flags_conceal : Bool
  seqnr : Int
  sub_char : Int

/-- What `decor_redraw_col` yields: the attribute and the conceal and spell
fields it leaves in `decor_state`. -/
structure DecorCol where
  attr : Int
  conceal : Int
  conceal_char : Int
  conceal_attr : Int
  spell : Option Bool

/-- The variables `update_search_hl` returns or updates through pointers. -/
structure SearchHl where
  search_attr : Int
  has_match_conc : Int
  match_conc : Int
  on_last_col : Bool
  search_attr_from_match : Bool

/-- What `spell_check` yields: the length of the word, the attribute of the
highlight group of a bad word (`none` for `HLF_COUNT`), and the new `cap_col`. -/
structure SpellRes where
  len : Int
  attr : Option Int
  cap_col : Int

/-- The static variables of `margin_columns_win`, the cache of its previous
calculation.  `prev_wp` is the window the calculation was made for, `none`
for `NULL`. -/
structure MarginStatics where
  saved_w_virtcol : Int
  prev_wp : Option Nat
  prev_left_col : Int
  prev_right_col : Int
  prev_col_off : Int
  deriving DecidableEq, Repr

/-- The statics of `margin_columns_win` when the program starts. -/
def MarginStatics.zero : MarginStatics := ⟨0, none, 0, 0, 0⟩

/-- The arguments of `win_line`, the global variables it reads and the
collaborators it calls. -/
structure Env where
  wp : win_T
  lnum : Int
  startrow : Int
  endrow : Int
  nochange : Bool
  number_only : Bool
  foldinfo : foldinfo_T
  -- the bytes of the buffer line, `ml_get_buf(wp->w_buffer, lnum, false)`
  line : List Int
  -- global variables
  cmdwin_type : Int
  dollar_vcol : Int
  highlight_match : Bool
  VIsual_active : Bool
  VIsual_mode : Int
  VIsual : pos_T
  curwin_cursor : pos_T
  curwin_same_buffer : Bool
  p_sel_e : Bool
  cursor_is_block_during_visual : Bool
  virtual_active : Bool
  search_match_lines : Int
  search_match_endcol : Int
  p_arshape : Bool
  p_tbidi : Bool
  mode_insert : Bool
  cpo_numcol : Bool
  dy_uhex : Bool
  Columns : Int
  ui_multigrid : Bool
  -- multi-byte and character tables (mbyte.c, charset.c)
  utf_ptr2cells : List Int → Int
  utfc_ptr2len : List Int → Int
  utf_ptr2len : List Int → Int
  utf_ptr2char : List Int → Int
  utfc_ptr2char : List Int → Int × List Int
  utf_char2cells : Int → Int
  utf_char2len : Int → Int
  utf_char2bytes : Int → List Int
  utf_iscomposing : Int → Bool
  utf_head_off : List Int → Int → Int
  mb_string2cells : List Int → Int
  mb_charlen : List Int → Int
  vim_isprintc : Int → Bool
  vim_isbreak : Int → Bool
  byte2cells : Int → Int
  char2cells : Int → Int
  transchar_buf : Int → List Int
  transchar_hex : Int → List Int
  transstr_buf : List Int → List Int
  -- distance to the next tab stop (indent.c): column, 'tabstop', 'vartabstop'
  tabstop_padding : Int → Int → List Int → Int
  arabic_shape : Int → Int → Int → Int → Int → Int → Int × Int × Int
  win_lbr_chartabsize : Int → Int → Int
  -- highlight tables (highlight.c, highlight_group.c)
  hl_combine_attr : Int → Int → Int
  win_hl_attr : hlf_T → Int
  syn_id2attr : Int → Int
  syn_attr2entry : Int → HlAttrs
  hl_get_underline : Int
  win_bg_attr : Int
  -- window geometry (move.c, option.c, fold.c, indent.c)
  win_col_off : Int
  win_col_off2 : Int
  -- the address of the window and the statics of `margin_columns_win`
  wp_addr : Nat
  margin_statics : MarginStatics
  number_width : Int
  compute_foldcolumn : Int
  get_cursor_rel_lnum : Int → Int
  get_breakindent_win : Int
  showbreak : List Int
  getvvcol_start : pos_T → Int
  getvvcol_end : pos_T → Int
  getvcol_start : pos_T → Int
  gchar_pos : pos_T → Int
  -- quickfix
  bt_quickfix : Bool
  qf_current_entry : Int
  -- syntax
  syntax_present : Bool
  b_syn_error : Bool
  b_syn_slow : Bool
  syntax_start_emsg : Bool
  get_syntax_attr : Int → SynCol
  -- spelling
  spell_enabled : Bool
  spo_npbuffer : Bool
  next_line : Option (List Int)
  spell_cat_line : List Int → List Int
  spell_check : Int → Bool → Int → SpellRes
  spell_move_to : Int → Int × Int × Option Int
  spell_to_word_end : Int → Int
  checked_lnum : Int
  checked_col : Int
  cap_col : Int
  capcol_lnum : Int
  -- search and match highlighting (match.c)
  prepare_search_hl_line : Int → Bool × Int × Bool
  update_search_hl : Int → Int → SearchHl → SearchHl
  get_prevcol_hl_flag : Int → Bool
  get_search_match_hl : Int → Int → Int
  -- decorations (decoration.c)
  decor_redraw_line : Bool
  decor_providers_has_decor : Bool → Bool
  decor_provider_err : Bool
  decor_redraw_col : Int → Int → Bool → DecorCol
  decor_redraw_eol : Int → Int → Bool × Int
  decor_virt_lines : Bool → List VirtLine
  draw_virt_text : Int → Int → Int → Int → (Int → schar_T) → (Int → Int) →
    (Int → schar_T) × (Int → Int) × Int
  draw_virt_text_item : Int → Nat → (Int → schar_T) → (Int → Int) →
    (Int → schar_T) × (Int → Int)
  -- diff (diff.c)
  diff_check_with_linestatus : Int × Int
  diff_find_change : Bool × Int × Int
  -- signs (sign.c)
  buf_signattrs : List SignTextAttrs
  num_signs : Int
  sign_num_hl_id : Int
  sign_cul_hl_id : Int
  line_hl_id : Int
  sign_get_attr : Int → List SignTextAttrs → Int → Option SignTextAttrs
  -- folds, status column, terminal
  get_foldtext : List Int
  build_statuscol_str : Int → Int → Int → Int → List Int → StcBuilt
  w_p_stc : List Int
  w_nrwidth : Int
  w_nrwidth_line_count : Int
  w_statuscol_line_count : Int
  term_attrs : Int → Int
  w_redr_statuscol : Bool
  conceal_cursor_line : Bool
  -- the row buffer as the previous line left it
  linebuf_char : Int → schar_T
  linebuf_attr : Int → Int

/-- The struct `winlinevars_T`: the variables passed between `win_line` and
the functions it calls.  (`extra` and `p_extra_free` are the buffers `p_extra`
may point into; their contents travel with the pointer.) -/
structure winlinevars_T where
  draw_state : Int
  lnum : Int
  foldinfo : foldinfo_T
  startrow : Int
  row : Int
  vcol : Int
  col : Int
  boguscols : Int
  vcol_off : Int
  off : Int
  cul_attr : Int
  line_attr : Int
  line_attr_lowprio : Int
  fromcol : Int
  tocol : Int
  vcol_sbr : Int
  need_showbreak : Bool
  char_attr : Int
  n_extra : Int
  p_extra : CharPtr
  extra_attr : Int
  c_extra : Int
  c_final : Int
  saved_n_extra : Int
  saved_p_extra : CharPtr
  saved_c_extra : Int
  saved_c_final : Int
  saved_char_attr : Int
  diff_hlf : hlf_T
  n_virt_lines : Int
  filler_lines : Int
  filler_todo : Int
  sattrs : List SignTextAttrs

/-- One call of `grid_put_linebuf`: the arguments and the row buffer at the
time of the call. -/
structure Commit where
  row : Int
  coloff : Int
  endcol : Int
  clear_width : Int
  rl : Bool
  bg_attr : Int
  wrap : Bool
  chars : Int → schar_T
  attrs : Int → Int

/-- What `win_line` hands to the grid layer. -/
inductive GridCall
  | put (c : Commit)
  | draw_end (row : Int)

/-- The state of the loop of `win_line`: the line context `wlv`, the local
variables that live across iterations (with their C names), the row buffer,
the window fields that are written, and the calls to the grid layer so far. -/
structure LoopState where
  wlv : winlinevars_T
  c : Int
  vcol_prev : Int
  ptr : Int
  v : Int
  n_attr : Int
  saved_attr2 : Int
  n_attr3 : Int
  saved_attr3 : Int
  n_skip : Int
  fromcol_prev : Int
  noinvcur : Bool
  lnum_in_visual_area : Bool
  attr_pri : Bool
  area_highlighting : Bool
  vi_attr : Int
  area_attr : Int
  search_attr : Int
  vcol_save_attr : Int
  syntax_attr : Int
  has_syntax : Bool
  b_syn_error : Bool
  eol_hl_off : Int
  draw_color_col : Bool
  color_cols : List Int
  has_spell : Bool
  nextlinecol : Int
  nextline_idx : Int
  spell_attr : Int
  word_end : Int
  checked_lnum : Int
  checked_col : Int
  cap_col : Int
  capcol_lnum : Int
  cur_checked_col : Int
  extra_check : Bool
  multi_attr : Int
  mb_l : Int
  mb_c : Int
  mb_utf8 : Bool
  u8cc : List Int
  change_start : Int
  change_end : Int
  in_multispace : Bool
  multispace_pos : Int
  line_attr_save : Int
  line_attr_lowprio_save : Int
  prev_c : Int
  prev_c1 : Int
  search_attr_from_match : Bool
  has_decor : Bool
  win_col_offset : Int
  area_active : Bool
  cul_screenline : Bool
  left_curline_col : Int
  right_curline_col : Int
  match_conc : Int
  on_last_col : Bool
  syntax_flags_conceal : Bool
  syntax_seqnr : Int
  syn_sub_char : Int
  prev_syntax_id : Int
  is_concealing : Bool
  did_wcol : Bool
  old_boguscols : Int
  lcs_eol_one : Int
  lcs_prec_todo : Int
  trailcol : Int
  leadcol : Int
  sign_idx : Int
  sign_cul_attr : Int
  sign_num_attr : Int
  num_signs : Int
  virt_lines : List VirtLine
  virt_line_index : Int
  virt_line_offset : Int
  statuscol : statuscol_T
  bg_attr : Int
  end_fill : Bool
  has_fold : Bool
  -- variables declared in the loop body, set anew in every iteration
  has_match_conc : Int
  decor_conceal : Int
  did_decrement_ptr : Bool
  c0 : Int
  can_spell : Bool
  -- fields of `decor_state` read after `decor_redraw_col`
  decor_conceal_char : Int
  decor_conceal_attr : Int
  -- the row buffer
  linebuf_char : Int → schar_T
  linebuf_attr : Int → Int
  -- window fields written by `win_line`
  w_wcol : Int
  w_wrow : Int
  w_p_stc : List Int
  w_nrwidth : Int
  w_nrwidth_width : Int
  w_nrwidth_line_count : Int
  w_statuscol_line_count : Int
  w_redr_statuscol : Bool
  cline : Option (Int × Int × Bool)
  spell_redraw_lnum : Int
  -- calls to the grid layer, the latest first
  grid : List GridCall
  -- the statics of `margin_columns_win`
  margin_statics : MarginStatics

/-! ## Helpers whose code is outside `drawline.c` -/

/-- The function `rl_mirror_ascii`: reverse the bytes of a string. -/
def rl_mirror_ascii (str : List Int) : List Int :=
  (str.takeWhile (fun b => b ≠ 0)).reverse

/-- Overwrite the bytes of `buf` from offset `pos` on with `bytes`. -/
def writeBytes (buf : List Int) (pos : Nat) (bytes : List Int) : List Int :=
  buf.take pos ++ bytes ++ buf.drop (pos + bytes.length)

/-- The decimal digits of a natural number, most significant first. -/
def natDigits : Nat → Nat → List Int → List Int
  | 0, _, acc => acc
  | f + 1, n, acc =>
    if n / 10 = 0 then ((48 + (n % 10 : Nat) : Int)) :: acc
    else natDigits f (n / 10) ((48 + (n % 10 : Nat) : Int) :: acc)

/-- The conversion `%ld` of `snprintf`. -/
def fmt_ld (num : Int) : List Int :=
  if num < 0 then 45 :: natDigits (num.natAbs + 1) num.natAbs []
  else natDigits (num.toNat + 1) num.toNat []

/-- The call `snprintf(buf, buf_len, "%*ld ", width, num)`, or with the format
`"%-*ld "` when `left` is set: the bytes written before the NUL. -/
def snprintf_ld (buf_len : Nat) (left : Bool) (width num : Int) : List Int :=
  let digits := fmt_ld num
  let left := left || width < 0
  let pad := List.replicate (width.natAbs - digits.length) (32 : Int)
  ((if left then digits ++ pad else pad ++ digits) ++ [32]).take (buf_len - 1)

/-! ## The functions of `drawline.c` before `win_line` -/

/-- Advance `color_cols` past the columns left of `vcol`; the list is the int
array up to its negative terminator.  Returns the advanced pointer and whether
there are columns to draw. -/
def advance_color_col (vcol : Int) : List Int → List Int × Bool
  | [] => ([], false)
  | c :: cs =>
    if c ≥ 0 ∧ vcol > c then advance_color_col vcol cs else (c :: cs, decide (c ≥ 0))

/-- The value `*color_cols`. -/
def color_cols_head (l : List Int) : Int := l.headD (-1)

/-- Return true if CursorLineSign highlight is to be used. -/
def use_cursor_line_highlight (wp : win_T) (lnum : Int) : Bool :=
  wp.w_p_cul && lnum == wp.w_cursorline && wp.culopt_nbr

/-- The loop variables of `fill_foldcolumn`. -/
structure FoldFill where
  i : Int
  char_counter : Int
  symbol : Int
  len : Int
  p : List Int

/-- The symbol that the `for` loop of `fill_foldcolumn` chooses for the column
`i`: the open fold, the separator, the digit of the level, or `'>'`. -/
def fold_symbol (e : Env) (fi : foldinfo_T) (lnum first_level i : Int) : Int :=
  if fi.fi_lnum = lnum ∧ first_level + i ≥ fi.fi_low_level then
    e.wp.w_p_fcs_chars.foldopen
  else if first_level = 1 then e.wp.w_p_fcs_chars.foldsep
  else if first_level + i ≤ 9 then 48 + first_level + i
  else 62

/-- The `for` loop of `fill_foldcolumn`; the first argument bounds the number
of iterations by `MIN(fdc, level)`. -/
def fill_foldcolumn_loop (e : Env) (fi : foldinfo_T) (lnum first_level level fdc : Int) :
    Nat → FoldFill → FoldFill
  | 0, st => st
  | n + 1, st =>
    if st.i < min fdc level then
      let symbol := fold_symbol e fi lnum first_level st.i
      let bytes := e.utf_char2bytes symbol
      let p := writeBytes st.p st.char_counter.toNat bytes
      let cc := st.char_counter + bytes.length
      if first_level + st.i ≥ level then ⟨st.i + 1, cc, symbol, bytes.length, p⟩
      else fill_foldcolumn_loop e fi lnum first_level level fdc n
        ⟨st.i + 1, cc, symbol, bytes.length, p⟩
    else st

/-- Fills the foldcolumn: returns the char array written and the number of
chars added to it. -/
def fill_foldcolumn (e : Env) (foldinfo : foldinfo_T) (lnum : Int) : List Int × Int :=
  let fdc := e.compute_foldcolumn
  let closed := decide (foldinfo.fi_lines > 0)
  let p0 := List.replicate (MAX_MCO * fdc.toNat + 1) (32 : Int)
  let level := foldinfo.fi_level
  let first_level0 := level - fdc - (if closed then 1 else 0) + 1
  let first_level := if first_level0 < 1 then 1 else first_level0
  let st : FoldFill := fill_foldcolumn_loop e foldinfo lnum first_level level fdc
    (min fdc level).toNat ⟨0, 0, 0, 0, p0⟩
  let st : FoldFill :=
    if closed then
      let st : FoldFill :=
        if st.symbol ≠ 0 then
          { st with
              char_counter := st.char_counter - st.len,
              p := writeBytes st.p (st.char_counter - st.len).toNat
                (List.replicate st.len.toNat 32) }
        else st
      let bytes := e.utf_char2bytes e.wp.w_p_fcs_chars.foldclosed
      { st with
          len := bytes.length,
          p := writeBytes st.p st.char_counter.toNat bytes,
          char_counter := st.char_counter + bytes.length }
    else st
  (st.p, max (st.char_counter + (fdc - st.i)) fdc)

/-- Setup for drawing the 'foldcolumn', if there is one. -/
def handle_foldcolumn (e : Env) (wlv : winlinevars_T) : winlinevars_T :=
  let fdc := e.compute_foldcolumn
  if fdc ≤ 0 then wlv
  else
    let r := fill_foldcolumn e wlv.foldinfo wlv.lnum
    { wlv with
      n_extra := r.2
      p_extra := ⟨PBuf.heap, r.1.set r.2.toNat 0, 0⟩
      c_extra := NUL
      c_final := NUL
      char_attr := if use_cursor_line_highlight e.wp wlv.lnum then e.win_hl_attr HLF_CLF
                   else e.win_hl_attr HLF_FC }

/-- Returns width of the signcolumn that should be used for the whole window. -/
def win_signcol_width (_wp : win_T) : Int := 2

/-- Get information needed to display the sign in line `wlv.lnum`.  If `nrcol`
is true, the sign is going to be displayed in the number column, otherwise in
the sign column. -/
def get_sign_display_info (e : Env) (nrcol : Bool) (wlv : winlinevars_T) (sign_idx : Int)
    (sign_cul_attr : Int) : winlinevars_T :=
  let wp := e.wp
  let wlv : winlinevars_T := { wlv with c_extra := 32, c_final := NUL }
  let wlv : winlinevars_T :=
    if nrcol then { wlv with n_extra := e.number_width + 1 }
    else
      { wlv with
        char_attr := if use_cursor_line_highlight wp wlv.lnum then e.win_hl_attr HLF_CLS
                     else e.win_hl_attr HLF_SC
        n_extra := win_signcol_width wp }
  if wlv.row = wlv.startrow + wlv.filler_lines ∧ wlv.filler_todo ≤ 0 then
    match e.sign_get_attr sign_idx wlv.sattrs wp.w_scwidth with
    | none => wlv
    | some sattr =>
      let wlv : winlinevars_T :=
        match sattr.text with
        | none => { wlv with p_extra := CharPtr.NULL }
        | some text =>
          let wlv : winlinevars_T := { wlv with c_extra := NUL, c_final := NUL }
          if nrcol then
            let width := e.number_width - 2
            let n := width.toNat
            let str := (text.takeWhile (fun b => b ≠ 0)) ++ [32]
            let extra := List.replicate n (32 : Int) ++ str.take (EXTRA_SIZE - n - 1)
            { wlv with p_extra := ⟨PBuf.extra, extra, 0⟩, n_extra := cstrlen extra }
          else
            let symbol_blen := cstrlen text
            let n_extra := symbol_blen + win_signcol_width wp - e.mb_string2cells text
            let extra := writeBytes (List.replicate EXTRA_SIZE (32 : Int)) 0
              (text.take symbol_blen.toNat)
            { wlv with n_extra := n_extra
                       p_extra := ⟨PBuf.extra, extra.set n_extra.toNat 0, 0⟩ }
      { wlv with
        char_attr :=
          if use_cursor_line_highlight wp wlv.lnum ∧ sign_cul_attr > 0 then sign_cul_attr
          else if sattr.hl_id ≠ 0 then e.syn_id2attr sattr.hl_id else 0 }
  else wlv

/-- The text of the number column for line `lnum`: what `get_line_number_str`
writes into a buffer of `buf_len` bytes. -/
def get_line_number_str (e : Env) (lnum : Int) (buf_len : Nat) : List Int :=
  let wp := e.wp
  if wp.w_p_nu ∧ ¬ wp.w_p_rnu then
    snprintf_ld buf_len false e.number_width lnum
  else
    let num := |e.get_cursor_rel_lnum lnum|
    if num = 0 ∧ wp.w_p_nu ∧ wp.w_p_rnu then
      snprintf_ld buf_len true e.number_width lnum
    else
      snprintf_ld buf_len false e.number_width num

/-- Return true if CursorLineNr highlight is to be used for the number column. -/
def use_cursor_line_nr (wp : win_T) (wlv : winlinevars_T) : Bool :=
  wp.w_p_cul
  && wlv.lnum == wp.w_cursorline
  && wp.culopt_nbr
  && (wlv.row == wlv.startrow + wlv.filler_lines
      || (decide (wlv.row > wlv.startrow + wlv.filler_lines) && wp.culopt_line))

def get_line_number_attr (e : Env) (wlv : winlinevars_T) : Int :=
  if use_cursor_line_nr e.wp wlv then e.win_hl_attr HLF_CLN
  else if e.wp.w_p_rnu ∧ wlv.lnum < e.wp.w_cursor_lnum then e.win_hl_attr HLF_LNA
  else if e.wp.w_p_rnu ∧ wlv.lnum > e.wp.w_cursor_lnum then e.win_hl_attr HLF_LNB
  else e.win_hl_attr HLF_N

/-- Replace the leading spaces of the number text by `'-'` (the loop of
`handle_lnum_col` for a non-zero `w_skipcol`). -/
def dash_leading_spaces (extra : List Int) : List Int :=
  let n := (extra.takeWhile (fun b => b = 32)).length
  List.replicate n (45 : Int) ++ extra.drop n

/-- Reverse the number in the number text, keeping the white space around it
(the mirroring of `handle_lnum_col` for 'rightleft'). -/
def mirror_line_number (extra : List Int) : List Int :=
  let n1 := (extra.takeWhile (fun b => ascii_iswhite b)).length
  let seg := (extra.drop n1).takeWhile (fun b => b ≠ 32 ∧ b ≠ 9 ∧ b ≠ 0)
  extra.take n1 ++ seg.reverse ++ extra.drop (n1 + seg.length)

/-- Display the absolute or relative line number.  After the first row fill
with blanks when the 'n' flag is not in 'cpo'. -/
def handle_lnum_col (e : Env) (wlv : winlinevars_T) (num_signs sign_idx sign_num_attr
    sign_cul_attr : Int) : winlinevars_T :=
  let wp := e.wp
  if (wp.w_p_nu ∨ wp.w_p_rnu)
      ∧ (wlv.row = wlv.startrow + wlv.filler_lines ∨ ¬ e.cpo_numcol) then
    if byteAt wp.w_p_scl 0 = 110 ∧ byteAt wp.w_p_scl 1 = 117 ∧ num_signs > 0 then
      get_sign_display_info e true wlv sign_idx sign_cul_attr
    else
      let wlv : winlinevars_T :=
        if wlv.row = wlv.startrow + wlv.filler_lines then
          let extra := get_line_number_str e wlv.lnum EXTRA_SIZE
          let extra := if wp.w_skipcol > 0 then dash_leading_spaces extra else extra
          let extra := if wp.w_p_rl then mirror_line_number extra else extra
          { wlv with p_extra := ⟨PBuf.extra, extra, 0⟩, c_extra := NUL }
        else { wlv with c_extra := 32 }
      let wlv : winlinevars_T := { wlv with c_final := NUL, n_extra := e.number_width + 1 }
      if sign_num_attr > 0 then { wlv with char_attr := sign_num_attr }
      else { wlv with char_attr := get_line_number_attr e wlv }
  else wlv

/-- The first part of `get_statuscol_str`: when a buffer's line count has
changed, make a best estimate for the full width of the status column by
building with `w_nrwidth_line_count`, and add the truncated width. -/
def statuscol_estimate (e : Env) (s : LoopState) : LoopState :=
  if s.w_statuscol_line_count ≠ s.w_nrwidth_line_count then
    let s : LoopState := { s with w_statuscol_line_count := s.w_nrwidth_line_count }
    let b := e.build_statuscol_str s.statuscol.width s.w_nrwidth_line_count 0 0 s.w_p_stc
    let s : LoopState := { s with
        statuscol.text := b.text, statuscol.hlrec := b.hlrec,
        statuscol.truncate := b.truncate, w_p_stc := b.w_p_stc }
    if s.statuscol.truncate > 0 then
      let addwidth := min s.statuscol.truncate (MAX_NUMBERWIDTH - s.w_nrwidth)
      { s with
          statuscol.truncate := 0,
          statuscol.width := s.statuscol.width + addwidth,
          w_nrwidth := s.w_nrwidth + addwidth,
          w_nrwidth_width := s.w_nrwidth + addwidth }
    else s
  else s

/-- Prepare and build the 'statuscolumn' string for line `lnum`.  Fills
`s.statuscol` with the built status column string and attributes. -/
def get_statuscol_str (e : Env) (lnum virtnum : Int) (s : LoopState) : LoopState :=
  let relnum := if virtnum = 0 then |e.get_cursor_rel_lnum lnum| else -1
  let s : LoopState := statuscol_estimate e s
  let b := e.build_statuscol_str s.statuscol.width lnum relnum virtnum s.w_p_stc
  let width := b.width
  let s : LoopState := { s with
      statuscol.text := b.text, statuscol.hlrec := b.hlrec,
      statuscol.truncate := b.truncate, w_p_stc := b.w_p_stc }
  if byteAt s.w_p_stc 0 = NUL ∨ (s.statuscol.truncate > 0 ∧ s.w_nrwidth < MAX_NUMBERWIDTH) then
    let s : LoopState :=
      if s.statuscol.truncate ≠ 0 then
        { s with
            w_nrwidth := min MAX_NUMBERWIDTH (s.w_nrwidth + s.statuscol.truncate),
            w_nrwidth_width := min MAX_NUMBERWIDTH (s.w_nrwidth + s.statuscol.truncate) }
      else
        { s with
            w_nrwidth_line_count := 0,
            w_nrwidth := if e.wp.w_p_nu ∨ e.wp.w_p_rnu then e.number_width else 0 }
    { s with w_redr_statuscol := true }
  else
    let text_end := cstrlen s.statuscol.text
    let s : LoopState := { s with
        statuscol.textp := some 0, statuscol.hlrecp := 0,
        statuscol.cur_attr := s.statuscol.num_attr,
        statuscol.text_end := text_end }
    let fill := s.statuscol.width - width
    if fill > 0 then
      { s with statuscol.text := s.statuscol.text.take text_end.toNat
                                  ++ List.replicate fill.toNat 32,
               statuscol.text_end := text_end + fill }
    else s

/-- One pass through the body of the `do ... while` loop of
`get_statuscol_display_info`. -/
def get_statuscol_display_body (e : Env) (stcp : statuscol_T) (wlv : winlinevars_T) :
    statuscol_T × winlinevars_T :=
  let textp := stcp.textp.getD 0
  let rec_ := stcp.hlrec.getD stcp.hlrecp ⟨none, 0⟩
  let n_extra := rec_.start.getD stcp.text_end - textp
  let wlv : winlinevars_T := { wlv with
      draw_state := WL_STC, char_attr := stcp.cur_attr,
      p_extra := ⟨PBuf.transbuf, stcp.text, textp⟩,
      n_extra := n_extra }
  -- prepare for next highlight section if not yet at the end
  if textp + n_extra < stcp.text_end then
    ({ stcp with
        textp := rec_.start,
        cur_attr := if rec_.userhl < 0 then e.syn_id2attr (-rec_.userhl)
          else stcp.num_attr,
        hlrecp := stcp.hlrecp + 1 },
     { wlv with draw_state := WL_STC - 1 })
  else (stcp, wlv)

/-- The `do ... while` loop of `get_statuscol_display_info`; the first argument
bounds the number of iterations (every iteration but the last one advances
`hlrecp`). -/
def get_statuscol_display_loop (e : Env) : Nat → statuscol_T × winlinevars_T →
    statuscol_T × winlinevars_T
  | 0, r => r
  | fuel + 1, r =>
    let r := get_statuscol_display_body e r.1 r.2
    -- skip over empty highlight sections
    if r.2.n_extra = 0 ∧ r.1.textp.getD 0 < r.1.text_end then
      get_statuscol_display_loop e fuel r
    else r

/-- Get information needed to display the next segment in the 'statuscolumn'.
If not yet at the end, prepare for next segment and decrement `wlv.draw_state`. -/
def get_statuscol_display_info (e : Env) (stcp : statuscol_T) (wlv : winlinevars_T) :
    statuscol_T × winlinevars_T :=
  let wlv : winlinevars_T := { wlv with c_extra := NUL, c_final := NUL }
  let r := get_statuscol_display_loop e (stcp.hlrec.length + 2) (stcp, wlv)
  if r.2.n_extra > 0 then
    let src := (bytesFrom r.2.p_extra.buf r.2.p_extra.pos).take r.2.n_extra.toNat
    let transbuf := e.transstr_buf src
    (r.1, { r.2 with n_extra := transbuf.length, p_extra := ⟨PBuf.transbuf, transbuf, 0⟩ })
  else r

def handle_breakindent (e : Env) (wlv : winlinevars_T) : winlinevars_T :=
  let wp := e.wp
  let wlv : winlinevars_T :=
    if wp.w_briopt_sbr ∧ wlv.draw_state = WL_BRI - 1 ∧ byteAt e.showbreak 0 ≠ NUL then
      -- draw indent after showbreak value
      { wlv with draw_state := WL_BRI }
    else if wp.w_briopt_sbr ∧ wlv.draw_state = WL_SBR then
      -- after the showbreak, draw the breakindent
      { wlv with draw_state := WL_BRI - 1 }
    else wlv
  -- draw 'breakindent': indent wrapped text accordingly
  if wlv.draw_state = WL_BRI - 1 ∧ wlv.n_extra = 0 then
    let wlv : winlinevars_T := { wlv with draw_state := WL_BRI }
    if wp.w_p_bri ∧ (wlv.row ≠ wlv.startrow ∨ wlv.need_showbreak) ∧ wlv.filler_lines = 0 then
      let wlv : winlinevars_T := { wlv with
        char_attr := if wlv.diff_hlf ≠ HLF_8 then e.win_hl_attr wlv.diff_hlf else 0,
        p_extra := CharPtr.NULL,
        c_extra := 32,
        c_final := NUL,
        n_extra := e.get_breakindent_win }
      let wlv : winlinevars_T :=
        if wlv.row = wlv.startrow then
          let n := wlv.n_extra - e.win_col_off2
          { wlv with n_extra := if n < 0 then 0 else n }
        else wlv
      let wlv : winlinevars_T :=
        if wp.w_skipcol > 0 ∧ wp.w_p_wrap ∧ wp.w_briopt_sbr then
          { wlv with need_showbreak := false }
        else wlv
      if wlv.tocol = wlv.vcol then { wlv with tocol := wlv.tocol + wlv.n_extra } else wlv
    else wlv
  else wlv

def handle_showbreak_and_filler (e : Env) (wlv : winlinevars_T) : winlinevars_T :=
  let wp := e.wp
  let wlv : winlinevars_T :=
    if wlv.filler_todo > wlv.filler_lines - wlv.n_virt_lines then
      { wlv with
          c_extra := 32, c_final := NUL,
          n_extra := if wp.w_p_rl then wlv.col + 1 else wp.cols - wlv.col,
          char_attr := 0 }
    else if wlv.filler_todo > 0 then
      -- draw "deleted" diff line(s)
      { wlv with c_extra := if e.char2cells wp.w_p_fcs_chars.diff > 1 then 45
                            else wp.w_p_fcs_chars.diff,
                 c_final := NUL,
                 n_extra := if wp.w_p_rl then wlv.col + 1 else wp.cols - wlv.col,
                 char_attr := e.win_hl_attr HLF_DED }
    else wlv
  let sbr := e.showbreak
  if byteAt sbr 0 ≠ NUL ∧ wlv.need_showbreak then
    -- draw 'showbreak' at the start of each broken line
    let wlv : winlinevars_T := { wlv with
        p_extra := ⟨PBuf.showbreak, sbr, 0⟩, c_extra := NUL, c_final := NUL,
        n_extra := cstrlen sbr,
        char_attr := e.win_hl_attr HLF_AT }
    let wlv : winlinevars_T :=
      if wp.w_skipcol = 0 ∨ ¬ wp.w_p_wrap then { wlv with need_showbreak := false } else wlv
    let wlv : winlinevars_T := { wlv with vcol_sbr := wlv.vcol + e.mb_charlen sbr }
    let wlv : winlinevars_T :=
      if wlv.tocol = wlv.vcol then { wlv with tocol := wlv.tocol + wlv.n_extra } else wlv
    if wlv.cul_attr ≠ 0 then
      { wlv with char_attr := e.hl_combine_attr wlv.cul_attr wlv.char_attr }
    else wlv
  else wlv

def apply_cursorline_highlight (e : Env) (wlv : winlinevars_T) : winlinevars_T :=
  let wlv : winlinevars_T := { wlv with cul_attr := e.win_hl_attr HLF_CUL }
  let ae := e.syn_attr2entry wlv.cul_attr
  -- low-priority CursorLine if fg is not set, high-priority if fg is set
  if ae.rgb_fg_color = -1 ∧ ae.cterm_fg_color = 0 then
    { wlv with line_attr_lowprio := wlv.cul_attr }
  else if ¬ e.mode_insert ∧ e.bt_quickfix ∧ e.qf_current_entry = wlv.lnum then
    { wlv with line_attr := e.hl_combine_attr wlv.cul_attr wlv.line_attr }
  else
    { wlv with line_attr := wlv.cul_attr }

/-- The function `check_mb_utf8` on `(c, u8cc)`: returns the new `c`, the new
composing characters and whether the character is drawn as UTF-8. -/
def check_mb_utf8 (e : Env) (c : Int) (u8cc : List Int) : Int × List Int × Bool :=
  if e.utf_char2len c > 1 then (0xc0, [], true) else (c, u8cc, false)

/-- Start of the trailing white space of the line from `ptr` on. -/
def get_trailcol (e : Env) (ptr : Int) : Int :=
  if e.wp.w_p_lcs_chars.trail ≠ 0 then
    let rest := (bytesFrom e.line ptr).takeWhile (fun b => b ≠ 0)
    ((rest.reverse.dropWhile (fun b => ascii_iswhite b)).length : Int) + ptr
  else MAXCOL

/-- End of the leading white space of the line from `ptr` on. -/
def get_leadcol (e : Env) (ptr : Int) : Int :=
  if e.wp.w_p_lcs_chars.lead ≠ 0 ∨ e.wp.w_p_lcs_chars.leadmultispace.isSome then
    let rest := bytesFrom e.line ptr
    let leadcol : Int := ((rest.takeWhile (fun b => ascii_iswhite b)).length : Int)
    if byteAt rest leadcol = NUL then 0 else leadcol + (ptr + 1)
  else 0

/-- Start a screen line at column zero. -/
def win_line_start (wp : win_T) (wlv : winlinevars_T) (save_extra : Bool) : winlinevars_T :=
  let wlv : winlinevars_T := { wlv with col := 0, off := 0 }
  let wlv : winlinevars_T :=
    if wp.w_p_rl then
      -- rightleft window: start at the rightmost column of the window
      { wlv with col := wp.cols - 1, off := wlv.off + (wp.cols - 1) }
    else wlv
  if save_extra then
    -- reset the drawing state for the start of a wrapped line
    { wlv with
        draw_state := WL_START,
        saved_n_extra := wlv.n_extra,
        saved_p_extra := wlv.p_extra,
        saved_c_extra := wlv.c_extra,
        saved_c_final := wlv.c_final,
        saved_char_attr := wlv.char_attr,
        n_extra := 0 }
  else wlv

/-- Called when `wlv.draw_state` is set to `WL_LINE`. -/
def win_line_continue (wlv : winlinevars_T) : winlinevars_T :=
  if wlv.saved_n_extra > 0 then
    -- continue item from end of wrapped line
    { wlv with
        n_extra := wlv.saved_n_extra,
        c_extra := wlv.saved_c_extra,
        c_final := wlv.saved_c_final,
        p_extra := wlv.saved_p_extra,
        char_attr := wlv.saved_char_attr }
  else { wlv with char_attr := 0 }

/-! ## The loop body of `win_line`, block by block

The blocks follow the source from the top of the `for (;;)` loop.  A block that
can leave the loop with `break` returns the state together with a flag. -/

/-- The variables declared at the top of the loop body. -/
def iter_begin (s : LoopState) : LoopState :=
  { s with has_match_conc := 0, decor_conceal := 0, did_decrement_ptr := false }

/-- With 'cursorlineopt' "screenline" the line attributes are reset while the
gutter is drawn. -/
def gutter_cul_screenline (s : LoopState) : LoopState :=
  if s.cul_screenline then
    { s with
        wlv.cul_attr := 0,
        wlv.line_attr := s.line_attr_save,
        wlv.line_attr_lowprio := s.line_attr_lowprio_save }
  else s

/-- The cmdline window column. -/
def gutter_cmdline (e : Env) (s : LoopState) : LoopState :=
  if s.wlv.draw_state = WL_CMDLINE - 1 ∧ s.wlv.n_extra = 0 then
    let s : LoopState := { s with wlv.draw_state := WL_CMDLINE }
    if e.cmdwin_type ≠ 0 ∧ e.wp.is_curwin then
      -- draw the cmdline character
      { s with
          wlv.n_extra := 1,
          wlv.c_extra := e.cmdwin_type,
          wlv.c_final := NUL,
          wlv.char_attr := e.win_hl_attr HLF_AT }
    else s
  else s

/-- Before the fold column: a virtual line with "virt_left_col" skips the
column states, 'statuscolumn' skips the fold, sign and number states. -/
def gutter_skip (e : Env) (s : LoopState) : LoopState :=
  if s.wlv.draw_state = WL_FOLD - 1 ∧ s.wlv.n_extra = 0 then
    let s : LoopState :=
      if s.wlv.filler_todo > 0 then
        let index := s.wlv.filler_todo - (s.wlv.filler_lines - s.wlv.n_virt_lines)
        if index > 0 then
          let virt_line_index := (s.virt_lines.length : Int) - index
          { s with
              virt_line_index := virt_line_index,
              virt_line_offset :=
                if (s.virt_lines.getD virt_line_index.toNat ⟨false⟩).left_col then 0
                else e.win_col_off }
        else s
      else s
    if s.virt_line_offset = 0 then
      { s with wlv.draw_state := WL_BRI - 1 }
    else if s.statuscol.draw then
      { s with wlv.draw_state := WL_STC - 1 }
    else s
  else s

/-- The 'foldcolumn'. -/
def gutter_fold (e : Env) (s : LoopState) : LoopState :=
  if s.wlv.draw_state = WL_FOLD - 1 ∧ s.wlv.n_extra = 0 then
    { s with wlv := handle_foldcolumn e { s.wlv with draw_state := WL_FOLD } }
  else s

/-- The sign column; this is hit until `sign_idx` reaches the count. -/
def gutter_sign (e : Env) (s : LoopState) : LoopState :=
  if s.wlv.draw_state = WL_SIGN - 1 ∧ s.wlv.n_extra = 0 then
    let s : LoopState := { s with wlv.draw_state := WL_SIGN }
    if e.wp.w_scwidth > 0 then
      let s : LoopState :=
        { s with
            wlv := get_sign_display_info e false s.wlv s.sign_idx s.sign_cul_attr,
            sign_idx := s.sign_idx + 1 }
      if s.sign_idx < e.wp.w_scwidth then { s with wlv.draw_state := WL_SIGN - 1 }
      else { s with sign_idx := 0 }
    else s
  else s

/-- The line number column. -/
def gutter_nr (e : Env) (s : LoopState) : LoopState :=
  if s.wlv.draw_state = WL_NR - 1 ∧ s.wlv.n_extra = 0 then
    { s with
        wlv := handle_lnum_col e { s.wlv with draw_state := WL_NR } s.num_signs s.sign_idx
          s.sign_num_attr s.sign_cul_attr }
  else s

/-- Fetch the next segment of the built status column. -/
def gutter_stc_display (e : Env) (s : LoopState) : LoopState :=
  let r := get_statuscol_display_info e s.statuscol s.wlv
  { s with statuscol := r.1, wlv := r.2 }

/-- The 'statuscolumn'.  The flag is set when the loop is left because the
status column has to be rebuilt. -/
def gutter_stc (e : Env) (s : LoopState) : LoopState × Bool :=
  if s.wlv.draw_state = WL_STC - 1 ∧ s.wlv.n_extra = 0 then
    let s : LoopState := { s with wlv.draw_state := WL_STC }
    if s.statuscol.draw then
      if s.statuscol.textp.isNone then
        let s : LoopState :=
          get_statuscol_str e e.lnum (s.wlv.row - e.startrow - s.wlv.filler_lines)
            { s with v := s.ptr }
        if s.w_redr_statuscol then (s, true) else (gutter_stc_display e s, false)
      else (gutter_stc_display e s, false)
    else (s, false)
  else (s, false)

/-- Remember the offset at which the text starts. -/
def gutter_col_offset (s : LoopState) : LoopState :=
  if s.wlv.draw_state = WL_STC ∧ s.wlv.n_extra = 0 then
    { s with win_col_offset := s.wlv.off }
  else s

/-- Check if 'breakindent' applies and show it. -/
def gutter_bri (e : Env) (s : LoopState) : LoopState :=
  if s.wlv.n_extra = 0 then { s with wlv := handle_breakindent e s.wlv } else s

/-- The 'showbreak' string and the filler lines. -/
def gutter_sbr (e : Env) (s : LoopState) : LoopState :=
  if s.wlv.draw_state = WL_SBR - 1 ∧ s.wlv.n_extra = 0 then
    { s with wlv := handle_showbreak_and_filler e { s.wlv with draw_state := WL_SBR } }
  else s

/-- Enter the text of the line. -/
def gutter_line (s : LoopState) : LoopState :=
  if s.wlv.draw_state = WL_LINE - 1 ∧ s.wlv.n_extra = 0 then
    { s with
        sign_idx := 0,
        wlv := win_line_continue { s.wlv with draw_state := WL_LINE } }
  else s

/-- The block `if (wlv.draw_state != WL_LINE)` at the top of the loop body. -/
def gutter_phase (e : Env) (s : LoopState) : LoopState × Bool :=
  if s.wlv.draw_state ≠ WL_LINE then
    let r := gutter_stc e
      (gutter_nr e (gutter_sign e (gutter_fold e (gutter_skip e (gutter_cmdline e
        (gutter_cul_screenline s))))))
    if r.2 then r
    else (gutter_line (gutter_sbr e (gutter_bri e (gutter_col_offset r.1))), false)
  else (s, false)

/-- The macro `VCOL_HLC`. -/
def VCOL_HLC (s : LoopState) : Int := s.wlv.vcol - s.wlv.vcol_off

/-- The macro `FIX_FOR_BOGUSCOLS`. -/
def FIX_FOR_BOGUSCOLS (s : LoopState) : LoopState :=
  { s with
      wlv.n_extra := s.wlv.n_extra + s.wlv.vcol_off,
      wlv.vcol := s.wlv.vcol - s.wlv.vcol_off,
      wlv.vcol_off := 0,
      wlv.col := s.wlv.col - s.wlv.boguscols,
      old_boguscols := s.wlv.boguscols,
      wlv.boguscols := 0 }

/-- The call `grid_put_linebuf(grid, wlv.row, 0, endcol, clear_width, wp->w_p_rl,
wp, bg_attr, wrap)`, recorded with the row buffer of the moment. -/
def grid_put_linebuf (e : Env) (s : LoopState) (endcol clear_width : Int) (wrap : Bool) :
    LoopState :=
  { s with
      grid := GridCall.put ⟨s.wlv.row, 0, endcol, clear_width, e.wp.w_p_rl, s.bg_attr, wrap,
        s.linebuf_char, s.linebuf_attr⟩ :: s.grid }

/-- 'cursorlineopt' "screenline": highlight between the margins. -/
def cul_screenline_apply (e : Env) (s : LoopState) : LoopState :=
  if s.cul_screenline ∧ s.wlv.draw_state = WL_LINE
      ∧ s.wlv.vcol ≥ s.left_curline_col ∧ s.wlv.vcol < s.right_curline_col then
    { s with wlv := apply_cursorline_highlight e s.wlv }
  else s

/-- The condition of the block "when still displaying '$' of change command,
stop at cursor". -/
def dollar_cond (e : Env) (s : LoopState) : Prop :=
  ((e.dollar_vcol ≥ 0 ∧ e.wp.is_curwin ∧ e.lnum = e.wp.w_cursor_lnum
      ∧ s.wlv.vcol ≥ e.wp.w_virtcol)
    ∨ (e.number_only ∧ s.wlv.draw_state > WL_STC))
  ∧ s.wlv.filler_todo ≤ 0

instance (e : Env) (s : LoopState) : Decidable (dollar_cond e s) := by
  unfold dollar_cond; infer_instance

/-- The body of that block; the loop is left after it. -/
def dollar_block (e : Env) (s : LoopState) : LoopState :=
  let r := e.draw_virt_text s.win_col_offset s.wlv.col e.wp.cols s.wlv.row
    s.linebuf_char s.linebuf_attr
  let s : LoopState := { s with linebuf_char := r.1, linebuf_attr := r.2.1, wlv.col := r.2.2 }
  let s : LoopState := grid_put_linebuf e s s.wlv.col (-e.wp.cols) false
  -- pretend we have finished updating the window, except when 'cursorcolumn' is set
  if e.wp.w_p_cuc then { s with wlv.row := e.wp.w_cline_row + e.wp.w_cline_height }
  else { s with wlv.row := e.wp.rows }

/-- A closed fold: the fold text becomes the pending run. -/
def fold_text (e : Env) (s : LoopState) : LoopState :=
  if s.wlv.draw_state = WL_LINE ∧ s.has_fold ∧ s.wlv.col = s.win_col_offset
      ∧ s.wlv.n_extra = 0 ∧ s.wlv.row = e.startrow + s.wlv.filler_lines then
    let text := e.get_foldtext
    { s with
        wlv.char_attr := e.win_hl_attr HLF_FL,
        wlv.p_extra := ⟨PBuf.foldtext, text.takeWhile (fun b => b ≠ 0), 0⟩,
        wlv.n_extra := cstrlen text,
        wlv.c_extra := NUL,
        wlv.c_final := NUL,
        ptr := s.v }
  else s

/-- A closed fold: fill the rest of the line with 'fold'. -/
def fold_fill (e : Env) (s : LoopState) : LoopState :=
  if s.wlv.draw_state = WL_LINE ∧ s.has_fold ∧ s.wlv.col < e.wp.cols
      ∧ s.wlv.n_extra = 0 ∧ s.wlv.row = e.startrow + s.wlv.filler_lines then
    { s with
        wlv.c_extra := e.wp.w_p_fcs_chars.fold,
        wlv.c_final := NUL,
        wlv.n_extra := if e.wp.w_p_rl then s.wlv.col + 1 else e.wp.cols - s.wlv.col }
  else s

/-- A closed fold: truncate the folding. -/
def fold_truncate (e : Env) (s : LoopState) : LoopState :=
  if s.wlv.draw_state = WL_LINE ∧ s.has_fold ∧ s.wlv.col ≥ e.wp.cols
      ∧ s.wlv.n_extra ≠ 0 ∧ s.wlv.row = e.startrow + s.wlv.filler_lines then
    { s with wlv.n_extra := 0 }
  else s

/-- Start or stop the Visual or match highlighting at the current column. -/
def area_start_stop (e : Env) (s : LoopState) : LoopState :=
  if s.wlv.vcol = s.wlv.fromcol
      ∨ (s.wlv.vcol + 1 = s.wlv.fromcol ∧ s.wlv.n_extra = 0
          ∧ e.utf_ptr2cells (bytesFrom e.line s.ptr) > 1)
      ∨ (s.vcol_prev = s.fromcol_prev
          ∧ s.vcol_prev < s.wlv.vcol       -- not at margin
          ∧ s.wlv.vcol < s.wlv.tocol) then
    -- start highlighting
    { s with area_attr := s.vi_attr, area_active := s.area_highlighting || s.area_active }
  else if s.area_attr ≠ 0
      ∧ (s.wlv.vcol = s.wlv.tocol ∨ (s.noinvcur ∧ s.wlv.vcol = e.wp.w_virtcol)) then
    -- stop highlighting
    { s with area_attr := 0, area_active := false }
  else s

/-- Check for start/end of 'hlsearch' and other matches. -/
def area_search (e : Env) (s : LoopState) : LoopState :=
  if s.wlv.n_extra = 0 then
    let r := e.update_search_hl s.ptr s.lcs_eol_one
      ⟨s.search_attr, s.has_match_conc, s.match_conc, s.on_last_col, s.search_attr_from_match⟩
    { s with
        v := s.ptr,
        search_attr := r.search_attr,
        -- do not allow a conceal over EOL
        has_match_conc := if byteAt e.line s.ptr = NUL then 0 else r.has_match_conc,
        match_conc := r.match_conc,
        on_last_col := r.on_last_col,
        search_attr_from_match := r.search_attr_from_match }
  else s

/-- The diff highlighting of the line attribute. -/
def area_diff (e : Env) (s : LoopState) : LoopState :=
  if s.wlv.diff_hlf ≠ HLF_8 then
    let s : LoopState :=
      if s.wlv.diff_hlf = HLF_CHD ∧ s.ptr ≥ s.change_start ∧ s.wlv.n_extra = 0 then
        { s with wlv.diff_hlf := HLF_TXD }   -- changed text
      else s
    let s : LoopState :=
      if s.wlv.diff_hlf = HLF_TXD ∧ s.ptr > s.change_end ∧ s.wlv.n_extra = 0 then
        { s with wlv.diff_hlf := HLF_CHD }   -- changed line
      else s
    let s : LoopState := { s with wlv.line_attr := e.win_hl_attr s.wlv.diff_hlf }
    -- overlay CursorLine onto diff-mode highlight
    if s.wlv.cul_attr ≠ 0 then
      { s with
          wlv.line_attr :=
            if 0 ≠ s.wlv.line_attr_lowprio then
              e.hl_combine_attr (e.hl_combine_attr s.wlv.cul_attr s.wlv.line_attr)
                e.hl_get_underline
            else e.hl_combine_attr s.wlv.line_attr s.wlv.cul_attr }
    else s
  else s

/-- Decide which of the highlight attributes to use. -/
def decide_attr (e : Env) (s : LoopState) : LoopState :=
  let s : LoopState := { s with attr_pri := true }
  if s.area_attr ≠ 0 then
    let s : LoopState :=
      { s with wlv.char_attr := e.hl_combine_attr s.wlv.line_attr s.area_attr }
    if ¬ e.highlight_match then
      -- let search highlight show in Visual area if possible
      { s with wlv.char_attr := e.hl_combine_attr s.search_attr s.wlv.char_attr }
    else s
  else if s.search_attr ≠ 0 then
    { s with wlv.char_attr := e.hl_combine_attr s.wlv.line_attr s.search_attr }
  else if s.wlv.line_attr ≠ 0
      ∧ ((s.wlv.fromcol = -10 ∧ s.wlv.tocol = MAXCOL)
          ∨ s.wlv.vcol < s.wlv.fromcol
          ∨ s.vcol_prev < s.fromcol_prev
          ∨ s.wlv.vcol ≥ s.wlv.tocol) then
    -- use wlv.line_attr when not in the Visual or 'incsearch' area
    { s with wlv.char_attr := s.wlv.line_attr }
  else
    { s with attr_pri := false, wlv.char_attr := if s.has_syntax then s.syntax_attr else 0 }

/-- The block "handle Visual or match highlighting in this line". -/
def area_block (e : Env) (s : LoopState) : LoopState :=
  if s.wlv.draw_state = WL_LINE ∧ (s.area_highlighting ∨ s.has_spell) then
    decide_attr e (area_diff e (area_search e (area_start_stop e s)))
  else s

/-! ### Get the next character to put on the screen -/

/-- The test whether a double-width character does not fit: the column is the
last one of the row. -/
def at_last_col (e : Env) (s : LoopState) : Bool :=
  if e.wp.w_p_rl then decide (s.wlv.col ≤ 0) else decide (s.wlv.col ≥ e.wp.cols - 1)

/-- A character of the pending run taken from the string `p_extra`. -/
def next_extra_str (e : Env) (s : LoopState) : LoopState :=
  let s : LoopState :=
    { s with
        c := s.wlv.p_extra.deref,
        mb_c := s.wlv.p_extra.deref,
        mb_l := e.utfc_ptr2len s.wlv.p_extra.rest,
        mb_utf8 := false }
  -- if the UTF-8 character is more than one byte: decode it into "mb_c"
  let s : LoopState :=
    if s.mb_l > s.wlv.n_extra then { s with mb_l := 1 }
    else if s.mb_l > 1 then
      { s with
          mb_c := (e.utfc_ptr2char s.wlv.p_extra.rest).1,
          u8cc := (e.utfc_ptr2char s.wlv.p_extra.rest).2,
          mb_utf8 := true,
          c := 0xc0 }
    else s
  let s : LoopState := if s.mb_l = 0 then { s with mb_l := 1 } else s
  -- if a double-width char doesn't fit display a '>' in the last column
  let s : LoopState :=
    if at_last_col e s ∧ e.utf_char2cells s.mb_c = 2 then
      let multi_attr := e.win_hl_attr HLF_AT
      { s with
          c := 62,
          mb_c := 62,
          mb_l := 1,
          multi_attr :=
            if s.wlv.cul_attr ≠ 0 then
              (if 0 ≠ s.wlv.line_attr_lowprio then e.hl_combine_attr s.wlv.cul_attr multi_attr
               else e.hl_combine_attr multi_attr s.wlv.cul_attr)
            else multi_attr,
          -- put the pointer back to output the double-width character at the
          -- start of the next line
          wlv.n_extra := s.wlv.n_extra + 1,
          wlv.p_extra := s.wlv.p_extra.add (-1) }
    else
      { s with
          wlv.n_extra := s.wlv.n_extra - (s.mb_l - 1),
          wlv.p_extra := s.wlv.p_extra.add (s.mb_l - 1) }
  { s with wlv.p_extra := s.wlv.p_extra.add 1 }

/-- The branch `if (wlv.n_extra > 0)`: the next character of the pending run. -/
def next_extra (e : Env) (s : LoopState) : LoopState :=
  let s : LoopState :=
    if s.wlv.c_extra ≠ NUL ∨ (s.wlv.n_extra = 1 ∧ s.wlv.c_final ≠ NUL) then
      let c := if s.wlv.n_extra = 1 ∧ s.wlv.c_final ≠ NUL then s.wlv.c_final else s.wlv.c_extra
      let r := check_mb_utf8 e c s.u8cc
      { s with mb_c := c, c := r.1, u8cc := r.2.1, mb_utf8 := r.2.2 }
    else next_extra_str e s
  { s with wlv.n_extra := s.wlv.n_extra - 1 }

/-- Get a character from the line itself and decode it. -/
def buf_decode (e : Env) (s : LoopState) : LoopState :=
  let s : LoopState :=
    { s with
        c0 := byteAt e.line s.ptr,
        c := byteAt e.line s.ptr,
        mb_c := byteAt e.line s.ptr,
        mb_l := e.utfc_ptr2len (bytesFrom e.line s.ptr),
        mb_utf8 := false }
  if s.mb_l > 1 then
    let s : LoopState :=
      { s with
          mb_c := (e.utfc_ptr2char (bytesFrom e.line s.ptr)).1,
          u8cc := (e.utfc_ptr2char (bytesFrom e.line s.ptr)).2 }
    -- overlong encoded ASCII or ASCII with composing char is displayed
    -- normally, except a NUL
    let s : LoopState := if s.mb_c < 0x80 then { s with c0 := s.mb_c, c := s.mb_c } else s
    let s : LoopState := { s with mb_utf8 := true }
    -- at start of the line we can have a composing char: draw it as a space
    -- with a composing char
    if e.utf_iscomposing s.mb_c then
      { s with u8cc := s.mb_c :: s.u8cc.take (MAX_MCO - 1), mb_c := 32 }
    else s
  else s

/-- Do Arabic shaping. -/
def buf_arabic (e : Env) (s : LoopState) : LoopState :=
  let next := bytesFrom e.line (s.ptr + s.mb_l)
  let pc := if e.wp.w_p_rl then s.prev_c else (e.utfc_ptr2char next).1
  let pc1 := if e.wp.w_p_rl then s.prev_c1 else (e.utfc_ptr2char next).2.headD 0
  let nc := if e.wp.w_p_rl then e.utf_ptr2char next else s.prev_c
  let s : LoopState := if e.wp.w_p_rl then { s with prev_c1 := s.u8cc.headD 0 } else s
  let s : LoopState := { s with prev_c := s.mb_c }
  let r := e.arabic_shape s.mb_c s.c (s.u8cc.headD 0) pc pc1 nc
  { s with
      mb_c := r.1,
      c := r.2.1,
      u8cc := if r.2.2 = s.u8cc.headD 0 then s.u8cc
              else if r.2.2 = 0 then [] else r.2.2 :: s.u8cc.tail }

/-- Illegal bytes and unprintable characters become an escape run `<xx>`;
Arabic characters are shaped. -/
def buf_special (e : Env) (s : LoopState) : LoopState :=
  if (s.mb_l = 1 ∧ s.c ≥ 0x80) ∨ (s.mb_l ≥ 1 ∧ s.mb_c = 0)
      ∨ (s.mb_l > 1 ∧ ¬ e.vim_isprintc s.mb_c) then
    -- illegal UTF-8 byte: display as <xx>
    let extra := if e.wp.w_p_rl then rl_mirror_ascii (e.transchar_hex s.mb_c)
                 else e.transchar_hex s.mb_c
    let p : CharPtr := ⟨PBuf.extra, extra, 0⟩
    let p1 : CharPtr := p.add (e.utfc_ptr2len p.rest)
    let s : LoopState :=
      { s with
          wlv.p_extra := p1,
          c := p.deref,
          mb_c := e.utf_ptr2char p.rest,
          mb_utf8 := decide (p.deref ≥ 0x80),
          wlv.n_extra := cstrlen p1.rest,
          wlv.c_extra := NUL,
          wlv.c_final := NUL }
    if s.area_attr = 0 ∧ s.search_attr = 0 then
      { s with
          n_attr := s.wlv.n_extra + 1,
          wlv.extra_attr := e.win_hl_attr HLF_8,
          saved_attr2 := s.wlv.char_attr }   -- save current attr
    else s
  else if s.mb_l = 0 then { s with mb_l := 1 }   -- at the NUL at end-of-line
  else if e.p_arshape ∧ ¬ e.p_tbidi ∧ ARABIC_CHAR s.mb_c then buf_arabic e s
  else { s with prev_c := s.mb_c }

/-- If a double-width char doesn't fit display a '>' in the last column; the
character is displayed at the start of the next line. -/
def buf_overflow (e : Env) (s : LoopState) : LoopState :=
  if at_last_col e s ∧ e.utf_char2cells s.mb_c = 2 then
    { s with
        c := 62,
        mb_c := 62,
        mb_utf8 := false,
        mb_l := 1,
        multi_attr := e.win_hl_attr HLF_AT,
        -- put pointer back so that the character will be displayed at the
        -- start of the next line
        ptr := s.ptr - 1,
        did_decrement_ptr := true }
  else if byteAt e.line s.ptr ≠ NUL then { s with ptr := s.ptr + (s.mb_l - 1) }
  else s

/-- If a double-width char doesn't fit at the left side display a '<' in the
first column. -/
def buf_left_filler (e : Env) (s : LoopState) : LoopState :=
  if s.n_skip > 0 ∧ s.mb_l > 1 ∧ s.wlv.n_extra = 0 then
    let s : LoopState :=
      { s with wlv.n_extra := 1, wlv.c_extra := MB_FILLER_CHAR, wlv.c_final := NUL, c := 32 }
    let s : LoopState :=
      if s.area_attr = 0 ∧ s.search_attr = 0 then
        { s with
            n_attr := s.wlv.n_extra + 1,
            wlv.extra_attr := e.win_hl_attr HLF_AT,
            saved_attr2 := s.wlv.char_attr }
      else s
    { s with mb_c := s.c, mb_utf8 := false, mb_l := 1 }
  else s

/-- The statement `ptr++`. -/
def buf_advance (s : LoopState) : LoopState := { s with ptr := s.ptr + 1 }

/-! ### The block `if (extra_check)` -/

/-- Get the syntax attribute for the character. -/
def ec_syntax (e : Env) (s : LoopState) : LoopState :=
  let s : LoopState := { s with can_spell := ! e.spo_npbuffer, v := s.ptr }
  if s.has_syntax ∧ s.v > 0 then
    let syn := e.get_syntax_attr (s.v - 1)
    let s : LoopState :=
      { s with
          syntax_attr := syn.attr,
          can_spell := if s.has_spell then syn.can_spell else s.can_spell,
          syn_sub_char := syn.sub_char }
    -- if there is an error, disable syntax highlighting
    let s : LoopState :=
      if syn.did_emsg then { s with b_syn_error := true, has_syntax := false } else s
    let s : LoopState := if syn.syn_slow then { s with has_syntax := false } else s
    let s : LoopState :=
      if ¬ s.attr_pri then
        if s.wlv.cul_attr ≠ 0 then
          { s with
              wlv.char_attr :=
                if 0 ≠ s.wlv.line_attr_lowprio then
                  e.hl_combine_attr s.wlv.cul_attr s.syntax_attr
                else e.hl_combine_attr s.syntax_attr s.wlv.cul_attr }
        else { s with wlv.char_attr := s.syntax_attr }
      else { s with wlv.char_attr := e.hl_combine_attr s.syntax_attr s.wlv.char_attr }
    -- no concealing past the end of the line
    if s.c = NUL then { s with syntax_flags_conceal := false }
    else { s with syntax_flags_conceal := syn.flags_conceal, syntax_seqnr := syn.seqnr }
  else if ¬ s.attr_pri then { s with wlv.char_attr := 0 }
  else s

/-- Get the decoration attribute for the character. -/
def ec_decor (e : Env) (s : LoopState) : LoopState :=
  if s.has_decor ∧ s.v > 0 then
    let selected := s.area_active
      || (s.area_highlighting && s.noinvcur && decide (s.wlv.vcol = e.wp.w_virtcol))
    let d := e.decor_redraw_col (s.v - 1) s.wlv.off selected
    let s : LoopState :=
      if d.attr ≠ 0 then
        if ¬ s.attr_pri then
          { s with wlv.char_attr := e.hl_combine_attr s.wlv.char_attr d.attr }
        else { s with wlv.char_attr := e.hl_combine_attr d.attr s.wlv.char_attr }
      else s
    { s with
        decor_conceal := if d.conceal ≠ 0 ∧ d.conceal_char ≠ 0 then 2 else d.conceal,
        decor_conceal_char := d.conceal_char,
        decor_conceal_attr := d.conceal_attr,
        can_spell := d.spell.getD s.can_spell }
  else s

/-- Check spelling of the word that starts at the character. -/
def ec_spell_word (e : Env) (s : LoopState) : LoopState :=
  let prev_ptr := s.ptr - s.mb_l
  let s : LoopState := { s with v := s.v - (s.mb_l - 1) }
  -- use nextline[] if possible, it has the start of the next line concatenated
  let use_nextline := decide (prev_ptr - s.nextlinecol ≥ 0)
  let p_off := prev_ptr - s.nextlinecol
  let r := e.spell_check prev_ptr use_nextline (s.cap_col - prev_ptr)
  let s : LoopState := { s with cap_col := r.cap_col, word_end := s.v + r.len }
  -- in Insert mode only highlight a word that doesn't touch the cursor
  let hide := r.attr.isSome ∧ e.mode_insert ∧ e.wp.w_cursor_lnum = e.lnum
      ∧ e.wp.w_cursor_col ≥ prev_ptr ∧ e.wp.w_cursor_col < s.word_end
  let spell_hlf : Option Int := if hide then none else r.attr
  let s : LoopState := if hide then { s with spell_redraw_lnum := e.lnum } else s
  let s : LoopState :=
    if spell_hlf.isNone ∧ use_nextline ∧ p_off + r.len > s.nextline_idx then
      -- remember that the good word continues at the start of the next line
      { s with checked_lnum := e.lnum + 1, checked_col := p_off + r.len - s.nextline_idx }
    else s
  let s : LoopState :=
    match spell_hlf with
    | some a => { s with spell_attr := a }
    | none => s
  if s.cap_col > 0 then
    if use_nextline ∧ p_off + s.cap_col ≥ s.nextline_idx then
      -- remember that the word in the next line must start with a capital
      { s with capcol_lnum := e.lnum + 1, cap_col := p_off + s.cap_col - s.nextline_idx }
    else { s with cap_col := s.cap_col + prev_ptr }
  else s

/-- Check spelling (unless at the end of the line). -/
def ec_spell (e : Env) (s : LoopState) : LoopState :=
  let s : LoopState := { s with v := s.ptr }
  let s : LoopState :=
    if s.has_spell ∧ s.v ≥ s.word_end ∧ s.v > s.cur_checked_col then
      let s : LoopState := { s with spell_attr := 0 }
      if s.c ≠ 0 ∧ ((¬ s.has_syntax ∧ ¬ e.spo_npbuffer) ∨ s.can_spell) then ec_spell_word e s
      else s
    else s
  let s : LoopState :=
    if s.spell_attr ≠ 0 then
      if ¬ s.attr_pri then
        { s with wlv.char_attr := e.hl_combine_attr s.wlv.char_attr s.spell_attr }
      else { s with wlv.char_attr := e.hl_combine_attr s.spell_attr s.wlv.char_attr }
    else s
  if e.wp.b_terminal then
    { s with wlv.char_attr := e.hl_combine_attr (e.term_attrs s.wlv.vcol) s.wlv.char_attr }
  else s

/-- Found last space before word: check for line break. -/
def ec_linebreak (e : Env) (s : LoopState) : LoopState :=
  if e.wp.w_p_lbr ∧ s.c0 = s.c ∧ e.vim_isbreak s.c
      ∧ ¬ e.vim_isbreak (byteAt e.line s.ptr) then
    let mb_off := e.utf_head_off e.line (s.ptr - 1)
    let p := s.ptr - (mb_off + 1)
    let s : LoopState := { s with wlv.n_extra := e.win_lbr_chartabsize s.wlv.vcol p - 1 }
    -- we have just drawn the showbreak value, no need to add space for it again
    let s : LoopState :=
      if s.wlv.vcol = s.wlv.vcol_sbr then
        let n := s.wlv.n_extra - e.mb_charlen e.showbreak
        { s with wlv.n_extra := if n < 0 then 0 else n }
      else s
    let s : LoopState :=
      if s.on_last_col ∧ s.c ≠ TAB then { s with search_attr := 0 } else s
    let s : LoopState :=
      if s.c = TAB ∧ s.wlv.n_extra + s.wlv.col > e.wp.cols then
        { s with wlv.n_extra := e.tabstop_padding s.wlv.vcol e.wp.b_p_ts e.wp.b_p_vts_array - 1 }
      else s
    let s : LoopState :=
      { s with wlv.c_extra := if mb_off > 0 then MB_FILLER_CHAR else 32, wlv.c_final := NUL }
    if ascii_iswhite s.c then
      let s : LoopState := if s.c = TAB then FIX_FOR_BOGUSCOLS s else s
      if ¬ e.wp.w_p_list then { s with c := 32 } else s
    else s
  else s

/-- Track runs of consecutive spaces. -/
def ec_multispace (e : Env) (s : LoopState) : LoopState :=
  let in_multispace := decide (s.c = 32)
    && ((decide (s.ptr > 1) && decide (byteAt e.line (s.ptr - 2) = 32))
        || decide (byteAt e.line s.ptr = 32))
  { s with
      in_multispace := in_multispace,
      multispace_pos := if in_multispace then s.multispace_pos else 0 }

/-- What the 'listchars' blocks do after choosing the character `c`. -/
def list_char (e : Env) (s : LoopState) (c : Int) : LoopState :=
  let r := check_mb_utf8 e c s.u8cc
  { s with
      n_attr := 1,
      wlv.extra_attr := e.win_hl_attr HLF_0,
      saved_attr2 := s.wlv.char_attr,   -- save current attr
      mb_c := c,
      c := r.1,
      u8cc := r.2.1,
      mb_utf8 := r.2.2 }

/-- 'list': change char 160 to 'nbsp' and space to 'space'. -/
def ec_list_space (e : Env) (s : LoopState) : LoopState :=
  let lcs := e.wp.w_p_lcs_chars
  if e.wp.w_p_list
      ∧ ((((s.c = 160 ∧ s.mb_l = 1)
            ∨ (s.mb_utf8 ∧ ((s.mb_c = 160 ∧ s.mb_l = 2) ∨ (s.mb_c = 0x202f ∧ s.mb_l = 3))))
          ∧ lcs.nbsp ≠ 0)
        ∨ (s.c = 32 ∧ s.mb_l = 1
            ∧ (lcs.space ≠ 0 ∨ (s.in_multispace ∧ lcs.multispace.isSome))
            ∧ s.ptr ≥ s.leadcol ∧ s.ptr ≤ s.trailcol)) then
    match (if s.in_multispace then lcs.multispace else none) with
    | some ms =>
      let c := ms.getD s.multispace_pos.toNat 0
      let pos := s.multispace_pos + 1
      list_char e { s with multispace_pos := if ms.getD pos.toNat 0 = NUL then 0 else pos } c
    | none => list_char e s (if s.c = 32 then lcs.space else lcs.nbsp)
  else s

/-- 'list': leading and trailing spaces. -/
def ec_lead_trail (e : Env) (s : LoopState) : LoopState :=
  let lcs := e.wp.w_p_lcs_chars
  if s.c = 32 ∧ ((s.trailcol ≠ MAXCOL ∧ s.ptr > s.trailcol)
      ∨ (s.leadcol ≠ 0 ∧ s.ptr < s.leadcol)) then
    match (if s.leadcol ≠ 0 ∧ s.in_multispace ∧ s.ptr < s.leadcol then lcs.leadmultispace
           else none) with
    | some ms =>
      let c := ms.getD s.multispace_pos.toNat 0
      let pos := s.multispace_pos + 1
      list_char e { s with multispace_pos := if ms.getD pos.toNat 0 = NUL then 0 else pos } c
    | none =>
      if s.ptr > s.trailcol ∧ lcs.trail ≠ 0 then list_char e s lcs.trail
      else if s.ptr < s.leadcol ∧ lcs.lead ≠ 0 then list_char e s lcs.lead
      else if s.leadcol ≠ 0 ∧ lcs.space ≠ 0 then list_char e s lcs.space
      else list_char e s s.c
  else s

/-- The block `if (extra_check)`. -/
def extra_check_block (e : Env) (s : LoopState) : LoopState :=
  if s.extra_check then
    ec_lead_trail e (ec_list_space e (ec_multispace e (ec_linebreak e (ec_spell e
      (ec_decor e ( ec_syntax e s))))))
  else s

/-! ### Handling of non-printable characters -/

/-- The loop variables of the `for` loop that fills the 'listchars' tab string. -/
structure TabFill where
  i : Int
  tab_len : Int
  pos : Int
  p : List Int
  n_extra : Int

/-- The `for` loop of the tab block for 'list' with 'linebreak': write the
characters of the tab into `p`; the first argument bounds the iterations. -/
def tab_fill_loop (e : Env) (saved_nextra : Int) : Nat → TabFill → TabFill
  | 0, t => t
  | n + 1, t =>
    if t.i < t.tab_len then
      if byteAt t.p t.pos = NUL then { t with tab_len := t.i }
      else
        let lcs :=
          -- if tab3 is given, use it for the last char
          if e.wp.w_p_lcs_chars.tab3 ≠ 0 ∧ t.i = t.tab_len - 1 then e.wp.w_p_lcs_chars.tab3
          else e.wp.w_p_lcs_chars.tab2
        let bytes := e.utf_char2bytes lcs
        tab_fill_loop e saved_nextra n
          { t with
              i := t.i + 1,
              p := writeBytes t.p t.pos.toNat bytes,
              pos := t.pos + bytes.length,
              n_extra := t.n_extra + (e.utf_char2len lcs - (if saved_nextra > 0 then 1 else 0)) }
    else t

/-- The tab block for 'list' with 'linebreak': returns the state and `tab_len`. -/
def tab_list_linebreak (e : Env) (s : LoopState) (tab_len : Int) : LoopState × Int :=
  let lcs := e.wp.w_p_lcs_chars
  let saved_nextra := s.wlv.n_extra
  -- there are characters to conceal
  let tab_len := if s.wlv.vcol_off > 0 then tab_len + s.wlv.vcol_off else tab_len
  -- boguscols before FIX_FOR_BOGUSCOLS macro from above
  let tab_len :=
    if lcs.tab1 ≠ 0 ∧ s.old_boguscols > 0 ∧ s.wlv.n_extra > tab_len then
      tab_len + (s.wlv.n_extra - tab_len)
    else tab_len
  if tab_len > 0 then
    let tab2_len := e.utf_char2len lcs.tab2
    let len := tab_len * tab2_len
    let len := if lcs.tab3 ≠ 0 then len + (e.utf_char2len lcs.tab3 - tab2_len) else len
    let len := if s.wlv.n_extra > 0 then len + (s.wlv.n_extra - tab_len) else len
    let t := tab_fill_loop e saved_nextra tab_len.toNat
      ⟨0, tab_len, 0, List.replicate len.toNat 32, s.wlv.n_extra⟩
    let s : LoopState :=
      { s with
          c := lcs.tab1,
          wlv.p_extra := ⟨PBuf.heap, t.p, 0⟩,
          -- n_extra will be increased by FIX_FOR_BOGUSCOLS, adjust for that here
          wlv.n_extra := if s.wlv.vcol_off > 0 then t.n_extra - s.wlv.vcol_off else t.n_extra }
    (s, t.tab_len)
  else (s, tab_len)

/-- A TAB, without 'list' or with the "tab" setting of 'listchars'. -/
def nonprint_tab (e : Env) (s : LoopState) : LoopState :=
  let wp := e.wp
  let lcs := wp.w_p_lcs_chars
  let sbr := e.showbreak
  -- only adjust the tab_len, when at the first column after the showbreak
  -- value was drawn
  let vcol_adjusted :=
    if byteAt sbr 0 ≠ NUL ∧ s.wlv.vcol = s.wlv.vcol_sbr ∧ wp.w_p_wrap then
      s.wlv.vcol - e.mb_charlen sbr
    else s.wlv.vcol
  -- tab amount depends on current column
  let tab_len0 := e.tabstop_padding vcol_adjusted wp.b_p_ts wp.b_p_vts_array - 1
  let r : LoopState × Int :=
    if ¬ wp.w_p_lbr ∨ ¬ wp.w_p_list then ({ s with wlv.n_extra := tab_len0 }, tab_len0)
    else tab_list_linebreak e s tab_len0
  let vc_saved := r.1.wlv.vcol_off
  -- tab alignment should be identical regardless of 'conceallevel' value
  let s : LoopState := FIX_FOR_BOGUSCOLS r.1
  let tab_len :=
    if s.wlv.n_extra = r.2 + vc_saved ∧ wp.w_p_list ∧ lcs.tab1 ≠ 0 then r.2 + vc_saved
    else r.2
  let s : LoopState := { s with mb_utf8 := false }   -- don't draw as UTF-8
  if wp.w_p_list then
    let c := if s.wlv.n_extra = 0 ∧ lcs.tab3 ≠ 0 then lcs.tab3 else lcs.tab1
    let u := check_mb_utf8 e c s.u8cc
    { s with
        wlv.c_extra :=
          if wp.w_p_lbr ∧ ¬ s.wlv.p_extra.isNull ∧ s.wlv.p_extra.deref ≠ NUL then NUL
          else lcs.tab2,
        wlv.c_final := lcs.tab3,
        n_attr := tab_len + 1,
        wlv.extra_attr := e.win_hl_attr HLF_0,
        saved_attr2 := s.wlv.char_attr,
        mb_c := c,
        c := u.1,
        u8cc := u.2.1,
        mb_utf8 := u.2.2 }
  else
    { s with wlv.c_final := NUL, wlv.c_extra := 32, c := 32 }

/-- The condition for displaying a '$' after the line or highlighting an extra
character if the line break is included. -/
def nonprint_eol_cond (e : Env) (s : LoopState) : Prop :=
  s.c = NUL
  ∧ (e.wp.w_p_list
      ∨ ((s.wlv.fromcol ≥ 0 ∨ s.fromcol_prev ≥ 0)
          ∧ s.wlv.tocol > s.wlv.vcol
          ∧ e.VIsual_mode ≠ 22
          ∧ (if e.wp.w_p_rl then s.wlv.col ≥ 0 else s.wlv.col < e.wp.cols)
          ∧ ¬ (s.noinvcur ∧ e.lnum = e.wp.w_cursor_lnum ∧ s.wlv.vcol = e.wp.w_virtcol)))
  ∧ s.lcs_eol_one > 0

instance (e : Env) (s : LoopState) : Decidable (nonprint_eol_cond e s) := by
  unfold nonprint_eol_cond; infer_instance

/-- Display a '$' after the line or highlight an extra character if the line
break is included. -/
def nonprint_eol (e : Env) (s : LoopState) : LoopState :=
  let s : LoopState :=
    if s.wlv.diff_hlf = HLF_8 ∧ s.wlv.line_attr = 0 ∧ s.wlv.line_attr_lowprio = 0 then
      -- in virtualedit, visual selections may extend beyond end of line
      if s.area_highlighting ∧ e.virtual_active ∧ s.wlv.tocol ≠ MAXCOL
          ∧ s.wlv.vcol < s.wlv.tocol then
        { s with wlv.n_extra := 0 }
      else
        { s with
            wlv.p_extra := at_end_str,
            wlv.n_extra := 1,
            wlv.c_extra := NUL,
            wlv.c_final := NUL }
    else s
  let c := if e.wp.w_p_list ∧ e.wp.w_p_lcs_chars.eol > 0 then e.wp.w_p_lcs_chars.eol else 32
  let u := check_mb_utf8 e c s.u8cc
  { s with
      lcs_eol_one := -1,
      ptr := s.ptr - 1,    -- put it back at the NUL
      wlv.extra_attr := e.win_hl_attr HLF_AT,
      n_attr := 1,
      mb_c := c,
      c := u.1,
      u8cc := u.2.1,
      mb_utf8 := u.2.2 }

/-- An unprintable character other than NUL: display its `transchar` form. -/
def nonprint_ctrl (e : Env) (s : LoopState) : LoopState :=
  let str0 := e.transchar_buf s.c
  let s : LoopState :=
    if s.wlv.n_extra = 0 then { s with wlv.n_extra := e.byte2cells s.c - 1 } else s
  let str := if e.dy_uhex ∧ e.wp.w_p_rl then rl_mirror_ascii str0 else str0   -- reverse "<12>"
  let s : LoopState := { s with wlv.c_extra := NUL, wlv.c_final := NUL }
  let s : LoopState :=
    if e.wp.w_p_lbr then
      let p := (writeBytes (List.replicate s.wlv.n_extra.toNat 32) 0
        ((str.drop 1).takeWhile (fun b => b ≠ 0))).take s.wlv.n_extra.toNat
      { s with c := byteAt str 0, wlv.p_extra := ⟨PBuf.heap, p, 0⟩ }
    else
      { s with
          wlv.n_extra := e.byte2cells s.c - 1,
          c := byteAt str 0,
          wlv.p_extra := ⟨PBuf.transchar, str, 1⟩ }
  { s with
      n_attr := s.wlv.n_extra + 1,
      wlv.extra_attr := e.win_hl_attr HLF_8,
      saved_attr2 := s.wlv.char_attr,   -- save current attr
      mb_utf8 := false }                -- don't draw as UTF-8

/-- The condition under which a blank is shown after the line for a Visual
selection with 'virtualedit'. -/
def nonprint_virtualedit_cond (e : Env) (s : LoopState) : Prop :=
  e.VIsual_active ∧ (e.VIsual_mode = 22 ∨ e.VIsual_mode = 118) ∧ e.virtual_active
  ∧ s.wlv.tocol ≠ MAXCOL ∧ s.wlv.vcol < s.wlv.tocol
  ∧ (if e.wp.w_p_rl then s.wlv.col ≥ 0 else s.wlv.col < e.wp.cols)

instance (e : Env) (s : LoopState) : Decidable (nonprint_virtualedit_cond e s) := by
  unfold nonprint_virtualedit_cond; infer_instance

/-- The block "handling of non-printable characters". -/
def nonprint_block (e : Env) (s : LoopState) : LoopState :=
  if ¬ e.vim_isprintc s.c then
    if s.c = TAB ∧ (¬ e.wp.w_p_list ∨ e.wp.w_p_lcs_chars.tab1 ≠ 0) then nonprint_tab e s
    else if nonprint_eol_cond e s then nonprint_eol e s
    else if s.c ≠ NUL then nonprint_ctrl e s
    else if nonprint_virtualedit_cond e s then
      { s with c := 32, ptr := s.ptr - 1 }   -- put it back at the NUL
    else s
  else s

/-- The condition under which the character is concealed. -/
def conceal_cond (e : Env) (s : LoopState) : Prop :=
  e.wp.w_p_cole > 0
  ∧ (¬ e.wp.is_curwin ∨ e.lnum ≠ e.wp.w_cursor_lnum ∨ e.conceal_cursor_line)
  ∧ (s.syntax_flags_conceal ∨ s.has_match_conc > 0 ∨ s.decor_conceal > 0)
  ∧ ¬ (s.lnum_in_visual_area ∧ ¬ (118 ∈ e.wp.w_p_cocu))

instance (e : Env) (s : LoopState) : Decidable (conceal_cond e s) := by
  unfold conceal_cond; infer_instance

/-- The condition under which the first character of a concealed item is
replaced by one character. -/
def conceal_first_cond (e : Env) (s : LoopState) : Prop :=
  ((s.prev_syntax_id ≠ s.syntax_seqnr ∧ s.syntax_flags_conceal)
      ∨ s.has_match_conc > 1 ∨ s.decor_conceal > 1)
  ∧ (s.syn_sub_char ≠ NUL
      ∨ (s.has_match_conc ≠ 0 ∧ s.match_conc ≠ 0)
      ∨ (s.decor_conceal ≠ 0 ∧ s.decor_conceal_char ≠ 0)
      ∨ e.wp.w_p_cole = 1)
  ∧ e.wp.w_p_cole ≠ 3

instance (e : Env) (s : LoopState) : Decidable (conceal_first_cond e s) := by
  unfold conceal_first_cond; infer_instance

/-- First time at this concealed item: display one character. -/
def conceal_first (e : Env) (s : LoopState) : LoopState :=
  let s : LoopState :=
    if s.has_match_conc ≠ 0 ∧ s.match_conc ≠ 0 then { s with c := s.match_conc }
    else if s.decor_conceal ≠ 0 ∧ s.decor_conceal_char ≠ 0 then
      { s with
          c := s.decor_conceal_char,
          wlv.char_attr := if s.decor_conceal_attr ≠ 0 then s.decor_conceal_attr
                           else s.wlv.char_attr }
    else if s.syn_sub_char ≠ NUL then { s with c := s.syn_sub_char }
    else if e.wp.w_p_lcs_chars.conceal ≠ NUL then { s with c := e.wp.w_p_lcs_chars.conceal }
    else { s with c := 32 }
  let s : LoopState := { s with prev_syntax_id := s.syntax_seqnr }
  let s : LoopState :=
    if s.wlv.n_extra > 0 then { s with wlv.vcol_off := s.wlv.vcol_off + s.wlv.n_extra } else s
  let s : LoopState := { s with wlv.vcol := s.wlv.vcol + s.wlv.n_extra }
  let s : LoopState :=
    if e.wp.w_p_wrap ∧ s.wlv.n_extra > 0 then
      if e.wp.w_p_rl then
        { s with
            wlv.col := s.wlv.col - s.wlv.n_extra,
            wlv.boguscols := s.wlv.boguscols - s.wlv.n_extra }
      else
        { s with
            wlv.boguscols := s.wlv.boguscols + s.wlv.n_extra,
            wlv.col := s.wlv.col + s.wlv.n_extra }
    else s
  { s with wlv.n_extra := 0, n_attr := 0 }

/-- The conceal block at the end of "printing from buffer content". -/
def conceal_block (e : Env) (s : LoopState) : LoopState :=
  if conceal_cond e s then
    let s : LoopState := { s with wlv.char_attr := e.win_hl_attr HLF_CONCEAL }
    let s : LoopState :=
      if conceal_first_cond e s then conceal_first e s
      else if s.n_skip = 0 then { s with is_concealing := true, n_skip := 1 }
      else s
    let u := check_mb_utf8 e s.c s.u8cc
    { s with mb_c := s.c, c := u.1, u8cc := u.2.1, mb_utf8 := u.2.2 }
  else { s with prev_syntax_id := 0, is_concealing := false }

/-- Not showing the '>', put pointer back to avoid getting stuck. -/
def buf_unstick (s : LoopState) : LoopState :=
  if s.n_skip > 0 ∧ s.did_decrement_ptr then { s with ptr := s.ptr + 1 } else s

/-- The branch that prints from buffer content. -/
def next_from_buffer (e : Env) (s : LoopState) : LoopState :=
  buf_unstick (conceal_block e (nonprint_block e (extra_check_block e (buf_advance
    (buf_left_filler e (buf_overflow e (buf_special e (buf_decode e s))))))))

/-- Get the next character to put on the screen. -/
def next_char (e : Env) (s : LoopState) : LoopState :=
  if s.wlv.n_extra > 0 then next_extra e s
  else if e.foldinfo.fi_lines > 0 then
    -- skip writing the buffer line itself
    { s with c := NUL }
  else next_from_buffer e s

/-! ### After the character has been chosen -/

/-- In the cursor line and we may be concealing characters: correct the cursor
column when we reach its position. -/
def cursor_wcol (e : Env) (s : LoopState) : LoopState :=
  if ¬ s.did_wcol ∧ s.wlv.draw_state = WL_LINE ∧ e.wp.is_curwin
      ∧ e.lnum = e.wp.w_cursor_lnum ∧ e.conceal_cursor_line
      ∧ e.wp.w_virtcol ≤ s.wlv.vcol + s.n_skip then
    { s with
        w_wcol := if e.wp.w_p_rl then e.wp.cols - s.wlv.col + s.wlv.boguscols - 1
                  else s.wlv.col - s.wlv.boguscols,
        w_wrow := s.wlv.row,
        did_wcol := true }
  else s

/-- Combine the attribute of the special run, but don't override visual
selection highlighting. -/
def extra_attr_combine (e : Env) (s : LoopState) : LoopState :=
  if s.n_attr > 0 ∧ s.wlv.draw_state = WL_LINE ∧ ¬ s.search_attr_from_match then
    { s with wlv.char_attr := e.hl_combine_attr s.wlv.char_attr s.wlv.extra_attr }
  else s

/-- The condition for showing the "precedes" character of 'listchars'. -/
def lcs_prec_cond (e : Env) (s : LoopState) : Prop :=
  s.lcs_prec_todo ≠ NUL ∧ e.wp.w_p_list
  ∧ (if e.wp.w_p_wrap then e.wp.w_skipcol > 0 ∧ s.wlv.row = 0 else e.wp.w_leftcol > 0)
  ∧ s.wlv.filler_todo ≤ 0 ∧ s.wlv.draw_state > WL_STC ∧ s.c ≠ NUL

instance (e : Env) (s : LoopState) : Decidable (lcs_prec_cond e s) := by
  unfold lcs_prec_cond; infer_instance

/-- Show the "precedes" character of 'listchars' in column 0. -/
def lcs_prec_block (e : Env) (s : LoopState) : LoopState :=
  if lcs_prec_cond e s then
    let s : LoopState := { s with c := e.wp.w_p_lcs_chars.prec, lcs_prec_todo := NUL }
    let s : LoopState :=
      if e.utf_char2cells s.mb_c > 1 then
        -- double-width character being overwritten by the "precedes"
        -- character, need to fill up half the character
        { s with
            wlv.c_extra := MB_FILLER_CHAR,
            wlv.c_final := NUL,
            wlv.n_extra := 1,
            n_attr := 2,
            wlv.extra_attr := e.win_hl_attr HLF_AT }
      else s
    let u := check_mb_utf8 e s.c s.u8cc
    { s with
        mb_c := s.c,
        c := u.1,
        u8cc := u.2.1,
        mb_utf8 := u.2.2,
        saved_attr3 := s.wlv.char_attr,              -- save current attr
        wlv.char_attr := e.win_hl_attr HLF_AT,       -- overwriting char_attr
        n_attr3 := 1 }
  else s

/-- The condition for inverting at least one char at the end of the line. -/
def eol_hl_cond (e : Env) (s : LoopState) : Prop :=
  e.wp.w_p_lcs_chars.eol = s.lcs_eol_one
  ∧ ((s.area_attr ≠ 0 ∧ s.wlv.vcol = s.wlv.fromcol
        ∧ (e.VIsual_mode ≠ 22 ∨ e.lnum = e.VIsual.lnum ∨ e.lnum = e.curwin_cursor.lnum))
      -- highlight 'hlsearch' match at end of line
      ∨ e.get_prevcol_hl_flag (s.ptr - 1))

instance (e : Env) (s : LoopState) : Decidable (eol_hl_cond e s) := by
  unfold eol_hl_cond; infer_instance

/-- At end of the text line or just after the last character: invert at least
one char, used for Visual and empty line or highlight match at end of line. -/
def eol_hl_block (e : Env) (s : LoopState) : LoopState :=
  if s.c = NUL ∧ s.eol_hl_off = 0 then
    if eol_hl_cond e s then
      let n : Int :=
        if e.wp.w_p_rl then (if s.wlv.col < 0 then 1 else 0)
        else (if s.wlv.col ≥ e.wp.cols then -1 else 0)
      let s : LoopState :=
        if n ≠ 0 then
          -- at the window boundary, highlight the last character instead
          { s with wlv.off := s.wlv.off + n, wlv.col := s.wlv.col + n }
        else
          -- add a blank character to highlight
          { s with linebuf_char := bufSet s.linebuf_char s.wlv.off (schar_from_ascii 32) }
      let s : LoopState :=
        if s.area_attr = 0 ∧ ¬ s.has_fold then
          { s with wlv.char_attr := e.get_search_match_hl s.ptr s.wlv.char_attr }
        else s
      let eol_attr :=
        if s.wlv.cul_attr ≠ 0 then e.hl_combine_attr s.wlv.cul_attr s.wlv.char_attr
        else s.wlv.char_attr
      let s : LoopState := { s with linebuf_attr := bufSet s.linebuf_attr s.wlv.off eol_attr }
      let s : LoopState :=
        if e.wp.w_p_rl then { s with wlv.col := s.wlv.col - 1, wlv.off := s.wlv.off - 1 }
        else { s with wlv.col := s.wlv.col + 1, wlv.off := s.wlv.off + 1 }
      { s with wlv.vcol := s.wlv.vcol + 1, eol_hl_off := 1 }
    else s
  else s

/-- The values computed before the loop that fills the columns after the end
of the line. -/
structure EolFill where
  rightmost_vcol : Int
  cuc_attr : Int
  mc_attr : Int
  base_attr : Int

/-- The `while` loop that highlights 'cursorcolumn' and 'colorcolumn' past the
end of the line; the first argument bounds the iterations by the columns left. -/
def eol_fill_loop (e : Env) (f : EolFill) : Nat → LoopState → LoopState
  | 0, s => s
  | n + 1, s =>
    if (if e.wp.w_p_rl then s.wlv.col ≥ 0 else s.wlv.col < e.wp.cols) then
      let col_stride : Int := if e.wp.w_p_rl then -1 else 1
      let s : LoopState :=
        { s with
            linebuf_char := bufSet s.linebuf_char s.wlv.off (schar_from_ascii 32),
            wlv.col := s.wlv.col + col_stride }
      let s : LoopState :=
        if s.draw_color_col then
          { s with
              color_cols := (advance_color_col (VCOL_HLC s) s.color_cols).1,
              draw_color_col := (advance_color_col (VCOL_HLC s) s.color_cols).2 }
        else s
      let col_attr :=
        if e.wp.w_p_cuc ∧ VCOL_HLC s = e.wp.w_virtcol then f.cuc_attr
        else if s.draw_color_col ∧ VCOL_HLC s = color_cols_head s.color_cols then
          e.hl_combine_attr s.wlv.line_attr_lowprio f.mc_attr
        else f.base_attr
      let col_attr := e.hl_combine_attr col_attr s.wlv.line_attr
      let s : LoopState :=
        { s with
            linebuf_attr := bufSet s.linebuf_attr s.wlv.off col_attr,
            wlv.off := s.wlv.off + col_stride }
      if VCOL_HLC s ≥ f.rightmost_vcol then s
      else eol_fill_loop e f n { s with wlv.vcol := s.wlv.vcol + 1 }
    else s

/-- The largest entry of the remaining 'colorcolumn' columns, at least `r`. -/
def rightmost_color_col (r : Int) : List Int → Int
  | [] => r
  | c :: cs => if c ≥ 0 then rightmost_color_col (if r < c then c else r) cs else r

/-- The loop that highlights beyond the end of the line in a terminal buffer. -/
def eol_term_loop (e : Env) : Nat → LoopState → LoopState
  | 0, s => s
  | n + 1, s =>
    if s.wlv.col ≥ 0 ∧ s.wlv.col < e.wp.cols then
      let d : Int := if e.wp.w_p_rl then -1 else 1
      eol_term_loop e n
        { s with
            linebuf_char := bufSet s.linebuf_char s.wlv.off (schar_from_ascii 32),
            linebuf_attr := bufSet s.linebuf_attr s.wlv.off
              (if s.wlv.vcol ≥ TERM_ATTRS_MAX then 0 else e.term_attrs s.wlv.vcol),
            wlv.off := s.wlv.off + d,
            wlv.vcol := s.wlv.vcol + d,
            wlv.col := s.wlv.col + d }
    else s

/-- Number of iterations the loops past the end of the line can make. -/
def cols_left (e : Env) (s : LoopState) : Nat :=
  (if e.wp.w_p_rl then s.wlv.col + 1 else e.wp.cols - s.wlv.col).toNat

/-- At end of the text line: the margin.  The line may end before the left
margin, the boguscols are dropped and 'colorcolumn' is advanced. -/
def eol_margin (e : Env) (s : LoopState) : LoopState :=
  let wp := e.wp
  let s : LoopState := { s with v := if wp.w_p_wrap then wp.w_skipcol else wp.w_leftcol }
  -- check if line ends before left margin
  let s : LoopState :=
    if s.wlv.vcol < s.v + s.wlv.col - e.win_col_off then
      { s with wlv.vcol := s.v + s.wlv.col - e.win_col_off }
    else s
  -- get rid of the boguscols now, we want to draw until the right edge for
  -- 'cursorcolumn'
  let s : LoopState := { s with wlv.col := s.wlv.col - s.wlv.boguscols, wlv.boguscols := 0 }
  if s.draw_color_col then
    { s with
        color_cols := (advance_color_col (VCOL_HLC s) s.color_cols).1,
        draw_color_col := (advance_color_col (VCOL_HLC s) s.color_cols).2 }
  else s

/-- At end of the text line: highlight 'cursorcolumn', 'colorcolumn' and the
line attributes past the end of the line, and in a terminal buffer the cells
beyond it. -/
def eol_highlight (e : Env) (s : LoopState) : LoopState :=
  let wp := e.wp
  -- make sure alignment is the same regardless if listchars=eol:X is used or not
  let eol_skip : Int := if wp.w_p_lcs_chars.eol = s.lcs_eol_one ∧ s.eol_hl_off = 0 then 1 else 0
  let has_virttext :=
    if s.has_decor then (e.decor_redraw_eol s.wlv.line_attr (s.wlv.col + eol_skip)).1 else false
  let s : LoopState :=
    if s.has_decor then
      { s with wlv.line_attr := (e.decor_redraw_eol s.wlv.line_attr (s.wlv.col + eol_skip)).2 }
    else s
  let s : LoopState :=
    if (wp.w_p_cuc ∧ wp.w_virtcol ≥ VCOL_HLC s - s.eol_hl_off
          ∧ wp.w_virtcol < wp.cols * (s.wlv.row - e.startrow + 1) + s.v
          ∧ e.lnum ≠ wp.w_cursor_lnum)
        ∨ s.draw_color_col ∨ s.wlv.line_attr_lowprio ≠ 0 ∨ s.wlv.line_attr ≠ 0
        ∨ s.wlv.diff_hlf ≠ HLF_8 ∨ has_virttext then
      let rightmost_vcol : Int := if wp.w_p_cuc then wp.w_virtcol else 0
      -- determine rightmost colorcolumn to possibly draw
      let rightmost_vcol :=
        if s.draw_color_col then rightmost_color_col rightmost_vcol s.color_cols
        else rightmost_vcol
      let s : LoopState :=
        if s.wlv.diff_hlf = HLF_TXD then { s with wlv.diff_hlf := HLF_CHD } else s
      let diff_attr := if s.wlv.diff_hlf ≠ HLF_8 then e.win_hl_attr s.wlv.diff_hlf else 0
      let base_attr := e.hl_combine_attr s.wlv.line_attr_lowprio diff_attr
      let rightmost_vcol :=
        if base_attr ≠ 0 ∨ s.wlv.line_attr ≠ 0 ∨ has_virttext then INT_MAX else rightmost_vcol
      eol_fill_loop e ⟨rightmost_vcol, e.win_hl_attr HLF_CUC, e.win_hl_attr HLF_MC, base_attr⟩
        (cols_left e s) s
    else s
  -- terminal buffers may need to highlight beyond the end of the logical line
  if wp.b_terminal then eol_term_loop e (cols_left e s) s else s

/-- At end of the text line: hand the row to the grid and advance the row
counter. -/
def eol_commit (e : Env) (s : LoopState) : LoopState :=
  let wp := e.wp
  let r := e.draw_virt_text s.win_col_offset s.wlv.col wp.cols s.wlv.row
    s.linebuf_char s.linebuf_attr
  let s : LoopState := { s with linebuf_char := r.1, linebuf_attr := r.2.1, wlv.col := r.2.2 }
  let s : LoopState := grid_put_linebuf e s s.wlv.col wp.cols false
  let s : LoopState := { s with wlv.row := s.wlv.row + 1 }
  -- update w_cline_height and w_cline_folded if the cursor line was updated
  if wp.is_curwin ∧ e.lnum = e.curwin_cursor.lnum then
    { s with cline := some (e.startrow, s.wlv.row - e.startrow, decide (e.foldinfo.fi_lines > 0)) }
  else s

/-- At end of the text line: highlight past the end of the line, hand the row
to the grid and leave the loop. -/
def end_of_line (e : Env) (s : LoopState) : LoopState :=
  eol_commit e (eol_highlight e (eol_margin e s))

/-- The condition for showing the "extends" character of 'listchars'. -/
def lcs_ext_cond (e : Env) (s : LoopState) : Prop :=
  e.wp.w_p_lcs_chars.ext ≠ NUL ∧ s.wlv.draw_state = WL_LINE ∧ e.wp.w_p_list ∧ ¬ e.wp.w_p_wrap
  ∧ s.wlv.filler_todo ≤ 0
  ∧ (if e.wp.w_p_rl then s.wlv.col = 0 else s.wlv.col = e.wp.cols - 1)
  ∧ ¬ s.has_fold
  ∧ (byteAt e.line s.ptr ≠ NUL ∨ s.lcs_eol_one > 0
      ∨ (s.wlv.n_extra ≠ 0 ∧ (s.wlv.c_extra ≠ NUL ∨ s.wlv.p_extra.deref ≠ NUL)))

instance (e : Env) (s : LoopState) : Decidable (lcs_ext_cond e s) := by
  unfold lcs_ext_cond; infer_instance

/-- Show "extends" character from 'listchars' if beyond the line end and
'list' is set. -/
def lcs_ext_block (e : Env) (s : LoopState) : LoopState :=
  if lcs_ext_cond e s then
    let u := check_mb_utf8 e e.wp.w_p_lcs_chars.ext s.u8cc
    { s with
        wlv.char_attr := e.win_hl_attr HLF_AT,
        mb_c := e.wp.w_p_lcs_chars.ext,
        c := u.1,
        u8cc := u.2.1,
        mb_utf8 := u.2.2 }
  else s

/-- Advance to the next 'colorcolumn'. -/
def color_col_advance (s : LoopState) : LoopState :=
  if s.draw_color_col then
    { s with
        color_cols := (advance_color_col (VCOL_HLC s) s.color_cols).1,
        draw_color_col := (advance_color_col (VCOL_HLC s) s.color_cols).2 }
  else s

/-- Highlight the cursor column if 'cursorcolumn' is set, and the
'colorcolumn'. -/
def cursorcolumn_attr (e : Env) (s : LoopState) : LoopState :=
  let s : LoopState := { s with vcol_save_attr := -1 }
  if (s.wlv.draw_state = WL_LINE ∨ s.wlv.draw_state = WL_BRI ∨ s.wlv.draw_state = WL_SBR)
      ∧ ¬ s.lnum_in_visual_area ∧ s.search_attr = 0 ∧ s.area_attr = 0
      ∧ s.wlv.filler_todo ≤ 0 then
    if e.wp.w_p_cuc ∧ VCOL_HLC s = e.wp.w_virtcol ∧ e.lnum ≠ e.wp.w_cursor_lnum then
      { s with
          vcol_save_attr := s.wlv.char_attr,
          wlv.char_attr := e.hl_combine_attr (e.win_hl_attr HLF_CUC) s.wlv.char_attr }
    else if s.draw_color_col ∧ VCOL_HLC s = color_cols_head s.color_cols then
      { s with
          vcol_save_attr := s.wlv.char_attr,
          wlv.char_attr := e.hl_combine_attr (e.win_hl_attr HLF_MC) s.wlv.char_attr }
    else s
  else s

/-- Apply lowest-priority line attr now, so everything can override it. -/
def lowprio_attr (e : Env) (s : LoopState) : LoopState :=
  if s.wlv.draw_state = WL_LINE then
    { s with wlv.char_attr := e.hl_combine_attr s.wlv.line_attr_lowprio s.wlv.char_attr }
  else s

/-- Store the character: the branch `if (wlv.draw_state < WL_LINE || n_skip <= 0)`
of "store character to be displayed". -/
def store_char (e : Env) (s : LoopState) : LoopState :=
  let rl := e.wp.w_p_rl
  let wide := decide (e.utf_char2cells s.mb_c > 1)
  -- a double-wide character is: put first half in left cell
  let s : LoopState :=
    if rl ∧ wide then { s with wlv.off := s.wlv.off - 1, wlv.col := s.wlv.col - 1 } else s
  let s : LoopState :=
    { s with
        linebuf_char := bufSet s.linebuf_char s.wlv.off
          (if s.mb_utf8 then schar_from_cc s.mb_c s.u8cc else schar_from_ascii s.c) }
  let s : LoopState :=
    if s.multi_attr ≠ 0 then
      { s with linebuf_attr := bufSet s.linebuf_attr s.wlv.off s.multi_attr, multi_attr := 0 }
    else { s with linebuf_attr := bufSet s.linebuf_attr s.wlv.off s.wlv.char_attr }
  let s : LoopState :=
    if wide then
      -- need to fill two screen columns
      let s : LoopState := { s with wlv.off := s.wlv.off + 1, wlv.col := s.wlv.col + 1 }
      -- UTF-8: put a 0 in the second screen char
      let s : LoopState :=
        { s with
            linebuf_char := bufSet s.linebuf_char s.wlv.off schar_zero,
            linebuf_attr := bufSet s.linebuf_attr s.wlv.off (s.linebuf_attr (s.wlv.off - 1)) }
      let s : LoopState :=
        if s.wlv.draw_state > WL_STC ∧ s.wlv.filler_todo ≤ 0 then
          { s with wlv.vcol := s.wlv.vcol + 1 }
        else s
      -- when "wlv.tocol" is halfway through a character, set it to the end of
      -- the character, otherwise highlighting won't stop
      let s : LoopState :=
        if s.wlv.tocol = s.wlv.vcol then { s with wlv.tocol := s.wlv.tocol + 1 } else s
      -- now it's time to backup one cell
      if rl then { s with wlv.off := s.wlv.off - 1, wlv.col := s.wlv.col - 1 } else s
    else s
  if rl then { s with wlv.off := s.wlv.off - 1, wlv.col := s.wlv.col - 1 }
  else { s with wlv.off := s.wlv.off + 1, wlv.col := s.wlv.col + 1 }

/-- The branch `else if (wp->w_p_cole > 0 && is_concealing)` of "store
character to be displayed": the character is concealed. -/
def skip_concealed (e : Env) (s : LoopState) : LoopState :=
  let rl := e.wp.w_p_rl
  let s : LoopState := { s with n_skip := s.n_skip - 1, wlv.vcol_off := s.wlv.vcol_off + 1 }
  let s : LoopState :=
    if s.wlv.n_extra > 0 then { s with wlv.vcol_off := s.wlv.vcol_off + s.wlv.n_extra } else s
  if e.wp.w_p_wrap then
    -- advance the column indicator to force the line drawing to wrap early;
    -- 'boguscols' keeps track of the number of bad columns we have advanced
    let s : LoopState :=
      if s.wlv.n_extra > 0 then
        let s : LoopState := { s with wlv.vcol := s.wlv.vcol + s.wlv.n_extra }
        let s : LoopState :=
          if rl then
            { s with
                wlv.col := s.wlv.col - s.wlv.n_extra,
                wlv.boguscols := s.wlv.boguscols - s.wlv.n_extra }
          else
            { s with
                wlv.col := s.wlv.col + s.wlv.n_extra,
                wlv.boguscols := s.wlv.boguscols + s.wlv.n_extra }
        { s with wlv.n_extra := 0, n_attr := 0 }
      else s
    let s : LoopState :=
      if e.utf_char2cells s.mb_c > 1 then
        -- need to fill two screen columns
        if rl then { s with wlv.boguscols := s.wlv.boguscols - 1, wlv.col := s.wlv.col - 1 }
        else { s with wlv.boguscols := s.wlv.boguscols + 1, wlv.col := s.wlv.col + 1 }
      else s
    if rl then { s with wlv.boguscols := s.wlv.boguscols - 1, wlv.col := s.wlv.col - 1 }
    else { s with wlv.boguscols := s.wlv.boguscols + 1, wlv.col := s.wlv.col + 1 }
  else if s.wlv.n_extra > 0 then
    { s with wlv.vcol := s.wlv.vcol + s.wlv.n_extra, wlv.n_extra := 0, n_attr := 0 }
  else s

/-- Store character to be displayed.  Skip characters that are left of the
screen for 'nowrap'. -/
def put_char (e : Env) (s : LoopState) : LoopState :=
  let s : LoopState := { s with vcol_prev := s.wlv.vcol }
  if s.wlv.draw_state < WL_LINE ∨ s.n_skip ≤ 0 then store_char e s
  else if e.wp.w_p_cole > 0 ∧ s.is_concealing then skip_concealed e s
  else { s with n_skip := s.n_skip - 1 }

/-- Advance `vcol` and restore the attributes saved for special characters. -/
def after_put (s : LoopState) : LoopState :=
  -- only advance the "wlv.vcol" when after the 'number' or 'relativenumber' column
  let s : LoopState :=
    if s.wlv.draw_state > WL_STC ∧ s.wlv.filler_todo ≤ 0 then
      { s with wlv.vcol := s.wlv.vcol + 1 }
    else s
  let s : LoopState :=
    if s.vcol_save_attr ≥ 0 then { s with wlv.char_attr := s.vcol_save_attr } else s
  -- restore attributes after "precedes" in 'listchars'
  let s : LoopState :=
    if s.wlv.draw_state > WL_STC ∧ s.n_attr3 > 0 then
      let s : LoopState := { s with n_attr3 := s.n_attr3 - 1 }
      if s.n_attr3 = 0 then { s with wlv.char_attr := s.saved_attr3 } else s
    else s
  -- restore attributes after last 'listchars' or 'number' char
  if s.n_attr > 0 ∧ s.wlv.draw_state = WL_LINE then
    let s : LoopState := { s with n_attr := s.n_attr - 1 }
    if s.n_attr = 0 then { s with wlv.char_attr := s.saved_attr2 } else s
  else s

/-- The condition "at end of screen line and there is more to come". -/
def row_end_cond (e : Env) (s : LoopState) : Prop :=
  (if e.wp.w_p_rl then s.wlv.col < 0 else s.wlv.col ≥ e.wp.cols)
  ∧ (¬ s.has_fold ∨ s.virt_line_offset ≥ 0)
  ∧ (s.wlv.draw_state ≠ WL_LINE
      ∨ byteAt e.line s.ptr ≠ NUL
      ∨ s.wlv.filler_todo > 0
      ∨ (e.wp.w_p_list ∧ e.wp.w_p_lcs_chars.eol ≠ NUL ∧ ¬ s.wlv.p_extra.same at_end_str)
      ∨ (s.wlv.n_extra ≠ 0 ∧ (s.wlv.c_extra ≠ NUL ∨ s.wlv.p_extra.deref ≠ NUL)))

instance (e : Env) (s : LoopState) : Decidable (row_end_cond e s) := by
  unfold row_end_cond; infer_instance

/-- The flag `wrap` handed to the grid when a row is full. -/
def row_wrap_flag (e : Env) (s : LoopState) : Bool :=
  e.wp.w_p_wrap                               -- wrapping enabled
  && decide (s.wlv.filler_todo ≤ 0)           -- not drawing diff filler lines
  && decide (s.lcs_eol_one ≠ -1)              -- haven't printed the lcs_eol character
  && decide (s.wlv.row ≠ e.endrow - 1)        -- not the last line being displayed
  && (decide (e.wp.cols = e.Columns)          -- window spans the width of the screen,
      || e.ui_multigrid)                      -- or has dedicated grid
  && ! e.wp.w_p_rl                            -- not right-to-left

/-- What happens to the status column at the start of a further row. -/
def row_next_statuscol (e : Env) (s : LoopState) : LoopState :=
  if s.statuscol.draw then
    if s.wlv.row = e.startrow + s.wlv.filler_lines then
      { s with statuscol.textp := none }   -- re-evaluate for first non-filler line
    else if e.cpo_numcol ∧ s.wlv.row > e.startrow + s.wlv.filler_lines then
      { s with statuscol.draw := false }   -- don't draw status column if "n" is in 'cpo'
    else if s.wlv.row = e.startrow + s.wlv.filler_lines + 1 then
      { s with statuscol.textp := none }   -- re-evaluate for first wrapped line
    else
      -- draw the already built 'statuscolumn' on the next wrapped or filler line
      { s with statuscol.textp := some 0, statuscol.hlrecp := 0 }
  else s

/-- At end of screen line and there is more to come: hand the row to the grid
and advance the row counter. -/
def row_commit (e : Env) (s : LoopState) : LoopState :=
  let wrap := row_wrap_flag e s
  let draw_col := s.wlv.col - s.wlv.boguscols
  let s : LoopState :=
    if s.virt_line_offset ≥ 0 then
      let r := e.draw_virt_text_item s.virt_line_offset s.virt_line_index.toNat
        s.linebuf_char s.linebuf_attr
      grid_put_linebuf e { s with linebuf_char := r.1, linebuf_attr := r.2 }
        draw_col e.wp.cols wrap
    else
      let r := e.draw_virt_text s.win_col_offset draw_col e.wp.cols s.wlv.row
        s.linebuf_char s.linebuf_attr
      grid_put_linebuf e { s with linebuf_char := r.1, linebuf_attr := r.2.1 }
        r.2.2 e.wp.cols wrap
  { s with wlv.boguscols := 0, wlv.row := s.wlv.row + 1 }

/-- When the window is too narrow draw all "@" lines. -/
def row_too_narrow (e : Env) (s : LoopState) : LoopState :=
  if s.wlv.draw_state ≠ WL_LINE ∧ s.wlv.filler_todo ≤ 0 then
    { s with grid := GridCall.draw_end s.wlv.row :: s.grid, wlv.row := e.endrow }
  else s

/-- Start the next row of the line. -/
def row_next (e : Env) (s : LoopState) : LoopState :=
  let s : LoopState := { s with wlv := win_line_start e.wp s.wlv true }
  let s : LoopState := { s with lcs_prec_todo := e.wp.w_p_lcs_chars.prec }
  let s : LoopState :=
    if s.wlv.filler_todo ≤ 0 then { s with wlv.need_showbreak := true } else s
  let s : LoopState := row_next_statuscol e s
  { s with wlv.filler_todo := s.wlv.filler_todo - 1, virt_line_offset := -1 }

/-- At end of screen line and there is more to come: display the line so far.
The flag tells whether the loop is left. -/
def row_end (e : Env) (s : LoopState) : LoopState × Bool :=
  if row_end_cond e s then
    let s : LoopState := row_commit e s
    -- when not wrapping and finished diff lines, or when displayed '$' and
    -- highlighting until last column, break here
    if (¬ e.wp.w_p_wrap ∧ s.wlv.filler_todo ≤ 0) ∨ s.lcs_eol_one = -1 then (s, true)
    else
      let s : LoopState := row_too_narrow e s
      -- when line got too long for screen break here
      if s.wlv.row = e.endrow then ({ s with wlv.row := s.wlv.row + 1 }, true)
      else
        let s : LoopState := row_next e s
        -- when the filler lines are actually below the last line of the file,
        -- don't draw the line itself, break here
        if s.wlv.filler_todo = 0 ∧ (e.wp.w_botfill ∨ s.end_fill) then (s, true)
        else (s, false)
  else (s, false)

/-- The part of the loop body that chooses the character: from the closed
fold blocks to the highlighting at the end of the line. -/
def iter_choose_char (e : Env) (s : LoopState) : LoopState :=
  eol_hl_block e (lcs_prec_block e (extra_attr_combine e (cursor_wcol e
    (next_char e (area_block e (fold_truncate e (fold_fill e (fold_text e s))))))))

/-- The part of the loop body that follows the end-of-line test, up to the
store: the state in which "apply lowest-priority line attr" is reached. -/
def iter_before_store (e : Env) (s : LoopState) : LoopState :=
  cursorcolumn_attr e (color_col_advance (lcs_ext_block e s))

/-- The store of the character and what follows it in the loop body. -/
def iter_store (e : Env) (s : LoopState) : LoopState :=
  after_put (put_char e (lowprio_attr e s))

/-- One pass through the body of the `for (;;)` loop of `win_line`.  The flag
tells whether the loop is left. -/
def win_line_iter (e : Env) (s : LoopState) : LoopState × Bool :=
  let g := gutter_phase e (iter_begin s)
  if g.2 then g
  else
    let s : LoopState := cul_screenline_apply e g.1
    if dollar_cond e s then (dollar_block e s, true)
    else
      let s : LoopState := iter_choose_char e s
      if s.c = NUL then (end_of_line e s, true)
      else row_end e (iter_store e (iter_before_store e s))

/-- The loop `for (;;)` of `win_line`, for at most `fuel` iterations: the state
in which the loop is left, or `none` when it is not left within `fuel`
iterations. -/
def win_line_loop (e : Env) : Nat → LoopState → Option LoopState
  | 0, _ => none
  | fuel + 1, s =>
    let r := win_line_iter e s
    if r.2 then some r.1 else win_line_loop e fuel r.1

/-! ## The part of `win_line` before the loop -/

/-- The line context after `CLEAR_FIELD(wlv)` and the assignments that follow. -/
def wlv_init (e : Env) : winlinevars_T :=
  { draw_state := 0,
    lnum := e.lnum,
    foldinfo := e.foldinfo,
    startrow := e.startrow,
    row := e.startrow,
    vcol := 0,
    col := 0,
    boguscols := 0,
    vcol_off := 0,
    off := 0,
    cul_attr := 0,
    line_attr := 0,
    line_attr_lowprio := 0,
    fromcol := -10,
    tocol := MAXCOL,
    vcol_sbr := -1,
    need_showbreak := false,
    char_attr := 0,
    n_extra := 0,
    p_extra := CharPtr.NULL,
    extra_attr := 0,
    c_extra := 0,
    c_final := 0,
    saved_n_extra := 0,
    saved_p_extra := CharPtr.NULL,
    saved_c_extra := 0,
    saved_c_final := 0,
    saved_char_attr := 0,
    diff_hlf := HLF_8,
    n_virt_lines := 0,
    filler_lines := 0,
    filler_todo := 0,
    sattrs := [] }

/-- The status column struct after `statuscol_T statuscol = { 0 }`. -/
def statuscol_zero : statuscol_T :=
  { width := 0,
    cur_attr := 0,
    num_attr := 0,
    sign_cul_id := 0,
    truncate := 0,
    draw := false,
    use_cul := false,
    text := [],
    textp := none,
    text_end := 0,
    hlrec := [],
    hlrecp := 0 }

/-- The local variables of `win_line` with their initial values. -/
def loop_state_init (e : Env) : LoopState :=
  { wlv := wlv_init e,
    c := 0,
    vcol_prev := -1,
    ptr := 0,
    v := 0,
    n_attr := 0,
    saved_attr2 := 0,
    n_attr3 := 0,
    saved_attr3 := 0,
    n_skip := 0,
    fromcol_prev := -2,
    noinvcur := false,
    lnum_in_visual_area := false,
    attr_pri := false,
    area_highlighting := false,
    vi_attr := 0,
    area_attr := 0,
    search_attr := 0,
    vcol_save_attr := 0,
    syntax_attr := 0,
    has_syntax := false,
    b_syn_error := e.b_syn_error,
    eol_hl_off := 0,
    draw_color_col := false,
    color_cols := [],
    has_spell := false,
    nextlinecol := 0,
    nextline_idx := 0,
    spell_attr := 0,
    word_end := 0,
    checked_lnum := e.checked_lnum,
    checked_col := e.checked_col,
    cap_col := e.cap_col,
    capcol_lnum := e.capcol_lnum,
    cur_checked_col := 0,
    extra_check := false,
    multi_attr := 0,
    mb_l := 1,
    mb_c := 0,
    mb_utf8 := false,
    u8cc := [],
    change_start := MAXCOL,
    change_end := -1,
    in_multispace := false,
    multispace_pos := 0,
    line_attr_save := 0,
    line_attr_lowprio_save := 0,
    prev_c := 0,
    prev_c1 := 0,
    search_attr_from_match := false,
    has_decor := false,
    win_col_offset := 0,
    area_active := false,
    cul_screenline := false,
    left_curline_col := 0,
    right_curline_col := 0,
    match_conc := 0,
    on_last_col := false,
    syntax_flags_conceal := false,
    syntax_seqnr := 0,
    syn_sub_char := 0,
    prev_syntax_id := 0,
    is_concealing := false,
    did_wcol := false,
    old_boguscols := 0,
    lcs_eol_one := 0,
    lcs_prec_todo := 0,
    trailcol := MAXCOL,
    leadcol := 0,
    sign_idx := 0,
    sign_cul_attr := 0,
    sign_num_attr := 0,
    num_signs := 0,
    virt_lines := [],
    virt_line_index := 0,
    virt_line_offset := -1,
    statuscol := statuscol_zero,
    bg_attr := 0,
    end_fill := decide (e.lnum = e.wp.ml_line_count + 1),
    has_fold := decide (e.foldinfo.fi_level ≠ 0 ∧ e.foldinfo.fi_lines > 0),
    has_match_conc := 0,
    decor_conceal := 0,
    did_decrement_ptr := false,
    c0 := 0,
    can_spell := false,
    decor_conceal_char := 0,
    decor_conceal_attr := 0,
    linebuf_char := e.linebuf_char,
    linebuf_attr := e.linebuf_attr,
    w_wcol := 0,
    w_wrow := 0,
    w_p_stc := e.w_p_stc,
    w_nrwidth := e.w_nrwidth,
    w_nrwidth_width := e.w_nrwidth,
    w_nrwidth_line_count := e.w_nrwidth_line_count,
    w_statuscol_line_count := e.w_statuscol_line_count,
    w_redr_statuscol := e.w_redr_statuscol,
    cline := none,
    spell_redraw_lnum := 0,
    grid := [],
    margin_statics := e.margin_statics }

/-- The function `ltoreq` on positions: `a` is before or equal to `b`. -/
def ltoreq (a b : pos_T) : Bool :=
  decide (a.lnum < b.lnum) || (decide (a.lnum = b.lnum) && (decide (a.col < b.col)
    || (decide (a.col = b.col) && decide (a.coladd ≤ b.coladd))))

/-- The part of `margin_columns_win` after the test of the cache: the margins
between which 'cursorlineopt' "screenline" highlights, computed from the
window, or `none` where the C code divides by zero. -/
def margin_columns (w_virtcol w_width_inner cur_col_off col_off2 : Int) : Option (Int × Int) :=
  let width1 := w_width_inner - cur_col_off
  let width2 := width1 + col_off2
  if w_virtcol ≥ width1 ∧ width2 = 0 then none
  else
    let right_col :=
      if w_virtcol ≥ width1 then width1 + (Int.tdiv (w_virtcol - width1) width2 + 1) * width2
      else width1
    let left_col :=
      if w_virtcol ≥ width1 ∧ width2 > 0 then Int.tdiv (w_virtcol - width1) width2 * width2 + width1
      else 0
    some (left_col, right_col)

/-- Used when 'cursorlineopt' contains "screenline": compute the margins
between which the highlighting is used.  `st` holds the statics, `wp` is the
address of the window, `cur_col_off` and `col_off2` are `win_col_off(wp)` and
`win_col_off2(wp)`.  The result is `(left_col, right_col)` with the statics
afterwards, or `none` where the C code divides by zero. -/
def margin_columns_win (st : MarginStatics) (wp : Nat)
    (w_virtcol w_width_inner cur_col_off col_off2 : Int) :
    Option ((Int × Int) × MarginStatics) :=
  -- cache previous calculations depending on w_virtcol
  if st.saved_w_virtcol = w_virtcol ∧ st.prev_wp = some wp ∧ st.prev_col_off = cur_col_off then
    some ((st.prev_left_col, st.prev_right_col), st)
  else
    match margin_columns w_virtcol w_width_inner cur_col_off col_off2 with
    | none => none
    | some m =>
      -- cache values
      some (m, { saved_w_virtcol := w_virtcol, prev_wp := some wp, prev_left_col := m.1,
                 prev_right_col := m.2, prev_col_off := cur_col_off })

/-- Prepare for syntax highlighting, decorations and 'colorcolumn'. -/
def init_syntax_decor (e : Env) (s : LoopState) : LoopState :=
  -- to speed up the loop, set extra_check when there is linebreak, trailing
  -- white space and/or syntax processing to be done
  let s : LoopState := { s with extra_check := e.wp.w_p_lbr }
  let s : LoopState :=
    if e.syntax_present ∧ ¬ e.b_syn_error ∧ ¬ e.b_syn_slow ∧ ¬ s.has_fold ∧ ¬ s.end_fill then
      if e.syntax_start_emsg then { s with b_syn_error := true }
      else if ¬ e.b_syn_slow then { s with has_syntax := true, extra_check := true }
      else s
    else s
  let s : LoopState :=
    { s with has_decor := e.decor_providers_has_decor e.decor_redraw_line || e.decor_provider_err }
  let s : LoopState := if s.has_decor then { s with extra_check := true } else s
  -- check for columns to display for 'colorcolumn'
  match (if e.wp.b_terminal then none else e.wp.w_p_cc_cols) with
  | some cc =>
    { s with
        color_cols := (advance_color_col (VCOL_HLC s) cc).1,
        draw_color_col := (advance_color_col (VCOL_HLC s) cc).2 }
  | none => s

/-- Prepare for spell checking. -/
def init_spell (e : Env) (s : LoopState) : LoopState :=
  if e.wp.w_p_spell ∧ ¬ s.has_fold ∧ ¬ s.end_fill ∧ e.spell_enabled then
    let s : LoopState := { s with has_spell := true, extra_check := true }
    -- when a word wrapped from the previous line the start of the current
    -- line is valid
    let s : LoopState :=
      if e.lnum = s.checked_lnum then { s with cur_checked_col := s.checked_col } else s
    let s : LoopState := { s with checked_lnum := 0 }
    -- when there was a sentence end in the previous line may require a word
    -- starting with capital in this line; in line 1 always check the first word
    let s : LoopState := if e.lnum ≠ s.capcol_lnum then { s with cap_col := -1 } else s
    let s : LoopState := if e.lnum = 1 then { s with cap_col := 0 } else s
    { s with capcol_lnum := 0 }
  else s

/-- Handle Visual active in this window: the non-block modes. -/
def init_visual_nonblock (e : Env) (top bot : pos_T) (s : LoopState) : LoopState :=
  let s : LoopState :=
    if e.lnum > top.lnum ∧ e.lnum ≤ bot.lnum then { s with wlv.fromcol := 0 }
    else if e.lnum = top.lnum then
      if e.VIsual_mode = 86 then { s with wlv.fromcol := 0 }   -- linewise
      else
        let s : LoopState := { s with wlv.fromcol := e.getvvcol_start top }
        if e.gchar_pos top = NUL then { s with wlv.tocol := s.wlv.fromcol + 1 } else s
    else s
  if e.VIsual_mode ≠ 86 ∧ e.lnum = bot.lnum then
    if e.p_sel_e ∧ bot.col = 0 ∧ bot.coladd = 0 then
      { s with wlv.fromcol := -10, wlv.tocol := MAXCOL }
    else if bot.col = MAXCOL then { s with wlv.tocol := MAXCOL }
    else if e.p_sel_e then { s with wlv.tocol := e.getvvcol_start bot }
    else { s with wlv.tocol := e.getvvcol_end bot + 1 }
  else s

/-- Handle Visual active in this window, or 'incsearch' and ":s///c"
highlighting. -/
def init_visual (e : Env) (s : LoopState) : LoopState :=
  if e.VIsual_active ∧ e.curwin_same_buffer then
    let top := if ltoreq e.curwin_cursor e.VIsual then e.curwin_cursor else e.VIsual
    let bot := if ltoreq e.curwin_cursor e.VIsual then e.VIsual else e.curwin_cursor
    let s : LoopState :=
      { s with lnum_in_visual_area := decide (e.lnum ≥ top.lnum ∧ e.lnum ≤ bot.lnum) }
    let s : LoopState :=
      if e.VIsual_mode = 22 then
        -- block mode
        if s.lnum_in_visual_area then
          { s with wlv.fromcol := e.wp.w_old_cursor_fcol, wlv.tocol := e.wp.w_old_cursor_lcol }
        else s
      else init_visual_nonblock e top bot s
    -- check if the char under the cursor should be inverted (highlighted)
    let s : LoopState :=
      if ¬ e.highlight_match ∧ e.lnum = e.curwin_cursor.lnum ∧ e.wp.is_curwin
          ∧ e.cursor_is_block_during_visual then
        { s with noinvcur := true }
      else s
    -- if inverting in this line set area_highlighting
    if s.wlv.fromcol ≥ 0 then
      { s with area_highlighting := true, vi_attr := e.win_hl_attr HLF_V }
    else s
  else if e.highlight_match ∧ e.wp.is_curwin ∧ ¬ s.has_fold
      ∧ e.lnum ≥ e.curwin_cursor.lnum
      ∧ e.lnum ≤ e.curwin_cursor.lnum + e.search_match_lines then
    let s : LoopState :=
      if e.lnum = e.curwin_cursor.lnum then
        { s with wlv.fromcol := e.getvcol_start e.curwin_cursor }
      else { s with wlv.fromcol := 0 }
    let s : LoopState :=
      if e.lnum = e.curwin_cursor.lnum + e.search_match_lines then
        { s with wlv.tocol := e.getvcol_start ⟨e.lnum, e.search_match_endcol, 0⟩ }
      else s
    -- do at least one character; happens when past end of line
    let s : LoopState :=
      if s.wlv.fromcol = s.wlv.tocol ∧ e.search_match_endcol ≠ 0 then
        { s with wlv.tocol := s.wlv.fromcol + 1 }
      else s
    { s with area_highlighting := true, vi_attr := e.win_hl_attr HLF_I }
  else s

/-- The filler lines of diff mode and the virtual lines. -/
def init_filler (e : Env) (s : LoopState) : LoopState :=
  let s : LoopState := { s with bg_attr := e.win_bg_attr }
  let linestatus := e.diff_check_with_linestatus.2
  let s : LoopState := { s with wlv.filler_lines := e.diff_check_with_linestatus.1 }
  let s : LoopState :=
    if s.wlv.filler_lines < 0 ∨ linestatus < 0 then
      let s : LoopState :=
        if s.wlv.filler_lines = -1 ∨ linestatus = -1 then
          let s : LoopState :=
            { s with
                change_start := e.diff_find_change.2.1,
                change_end := e.diff_find_change.2.2 }
          if e.diff_find_change.1 then { s with wlv.diff_hlf := HLF_ADD }   -- added line
          else if s.change_start = 0 then { s with wlv.diff_hlf := HLF_TXD }   -- changed text
          else { s with wlv.diff_hlf := HLF_CHD }   -- changed line
        else { s with wlv.diff_hlf := HLF_ADD }   -- added line
      let s : LoopState := if linestatus = 0 then { s with wlv.filler_lines := 0 } else s
      { s with area_highlighting := true }
    else s
  let s : LoopState :=
    { s with
        virt_lines := e.decor_virt_lines s.has_fold,
        wlv.n_virt_lines := ((e.decor_virt_lines s.has_fold).length : Int) }
  let s : LoopState := { s with wlv.filler_lines := s.wlv.filler_lines + s.wlv.n_virt_lines }
  let s : LoopState :=
    if e.lnum = e.wp.w_topline then
      { s with
          wlv.filler_lines := e.wp.w_topfill,
          wlv.n_virt_lines := min s.wlv.n_virt_lines e.wp.w_topfill }
    else s
  { s with wlv.filler_todo := s.wlv.filler_lines }

/-- Cursor line highlighting for 'cursorline' in the current window; `none`
where `margin_columns_win` divides by zero. -/
def init_cursorline (e : Env) (s : LoopState) : Option LoopState :=
  if e.wp.w_p_cul ∧ ¬ (e.wp.culopt_nbr ∧ ¬ e.wp.culopt_line ∧ ¬ e.wp.culopt_scrline)
      ∧ e.lnum = e.wp.w_cursorline
      -- do not show the cursor line in the text when Visual mode is active
      ∧ ¬ (e.wp.is_curwin ∧ e.VIsual_active) then
    let s : LoopState :=
      { s with
          cul_screenline := e.wp.w_p_wrap && e.wp.culopt_scrline,
          area_highlighting := true }
    if ¬ s.cul_screenline then some { s with wlv := apply_cursorline_highlight e s.wlv }
    else
      match margin_columns_win s.margin_statics e.wp_addr e.wp.w_virtcol e.wp.w_width_inner
          e.win_col_off e.win_col_off2 with
      | some r =>
        some { s with left_curline_col := r.1.1, right_curline_col := r.1.2,
                      margin_statics := r.2 }
      | none => none
  else some s

/-- The signs, the status column and the attribute of the whole line. -/
def init_signs (e : Env) (s : LoopState) : LoopState :=
  let s : LoopState := { s with wlv.sattrs := e.buf_signattrs, num_signs := e.num_signs }
  let s : LoopState :=
    if byteAt e.w_p_stc 0 ≠ NUL then
      -- draw the 'statuscolumn' if option is set
      { s with
          statuscol.draw := true,
          statuscol.width := e.win_col_off - (if e.cmdwin_type ≠ 0 ∧ e.wp.is_curwin then 1 else 0),
          statuscol.use_cul := use_cursor_line_highlight e.wp e.lnum,
          statuscol.sign_cul_id :=
            if use_cursor_line_highlight e.wp e.lnum then e.sign_cul_hl_id else 0,
          statuscol.num_attr :=
            if e.sign_num_hl_id ≠ 0 then e.syn_id2attr e.sign_num_hl_id
            else get_line_number_attr e s.wlv }
    else
      { s with
          sign_cul_attr := if e.sign_cul_hl_id > 0 then e.syn_id2attr e.sign_cul_hl_id else 0,
          sign_num_attr := if e.sign_num_hl_id > 0 then e.syn_id2attr e.sign_num_hl_id else 0 }
  let s : LoopState :=
    if e.line_hl_id > 0 then { s with wlv.line_attr := e.syn_id2attr e.line_hl_id } else s
  -- highlight the current line in the quickfix window
  let s : LoopState :=
    if e.bt_quickfix ∧ e.qf_current_entry = e.lnum then
      { s with wlv.line_attr := e.win_hl_attr HLF_QFL }
    else s
  let s : LoopState :=
    if s.wlv.line_attr_lowprio ≠ 0 ∨ s.wlv.line_attr ≠ 0 then
      { s with area_highlighting := true }
    else s
  if s.cul_screenline then
    { s with
        line_attr_save := s.wlv.line_attr,
        line_attr_lowprio_save := s.wlv.line_attr_lowprio }
  else s

/-- The constant `SPWORDLEN` of `win_line`. -/
abbrev SPWORDLEN : Int := 150

/-- Set up `nextline[]` for spell checking over line boundaries. -/
def init_spell_nextline (e : Env) (s : LoopState) : LoopState :=
  if s.has_spell ∧ ¬ e.number_only then
    -- for checking first word with a capital skip white space
    let s : LoopState :=
      if s.cap_col = 0 then
        { s with cap_col := ((e.line.takeWhile (fun b => ascii_iswhite b)).length : Int) }
      else s
    let next : List Int :=
      match (if e.lnum < e.wp.ml_line_count then e.next_line else none) with
      | some l => e.spell_cat_line l
      | none => []
    if byteAt next 0 = NUL then
      -- no next line or it is empty
      { s with nextlinecol := MAXCOL, nextline_idx := 0 }
    else
      let v := cstrlen e.line
      let s : LoopState := { s with v := v }
      if v < SPWORDLEN then
        -- short line, use it completely and append the start of the next line
        { s with nextlinecol := 0, nextline_idx := v + 1 }
      else
        -- long line, use only the last SPWORDLEN bytes
        { s with nextlinecol := v - SPWORDLEN, nextline_idx := SPWORDLEN + 1 }
  else s

/-- The 'listchars' settings used until they have been shown, and the columns
of leading and trailing white space. -/
def init_list (e : Env) (s : LoopState) : LoopState :=
  let lcs := e.wp.w_p_lcs_chars
  let s : LoopState :=
    { s with trailcol := MAXCOL, leadcol := 0, lcs_eol_one := lcs.eol, lcs_prec_todo := lcs.prec }
  if e.wp.w_p_list ∧ ¬ s.has_fold ∧ ¬ s.end_fill then
    let s : LoopState :=
      if lcs.space ≠ 0 ∨ lcs.multispace.isSome ∨ lcs.leadmultispace.isSome ∨ lcs.trail ≠ 0
          ∨ lcs.lead ≠ 0 ∨ lcs.nbsp ≠ 0 then
        { s with extra_check := true }
      else s
    { s with trailcol := get_trailcol e s.ptr, leadcol := get_leadcol e s.ptr }
  else s

/-- The variables of the loop that advances to the first displayed character. -/
structure SkipState where
  cts_vcol : Int
  cts_ptr : Int
  prev_ptr : Int
  charsize : Int

/-- The `while` loop that advances to the first character to be displayed; the
first argument bounds the iterations by the bytes of the line. -/
def init_skip_loop (e : Env) (v : Int) : Nat → SkipState → SkipState
  | 0, k => k
  | n + 1, k =>
    if k.cts_vcol < v ∧ byteAt e.line k.cts_ptr ≠ NUL then
      let charsize := e.win_lbr_chartabsize k.cts_vcol k.cts_ptr
      init_skip_loop e v n
        { cts_vcol := k.cts_vcol + charsize,
          cts_ptr := k.cts_ptr + e.utfc_ptr2len (bytesFrom e.line k.cts_ptr),
          prev_ptr := k.cts_ptr,
          charsize := charsize }
    else k

/-- When spell checking a word at the start of the displayed part, figure out
the start of the word and if it's badly spelled or not. -/
def init_skip_spell (e : Env) (s : LoopState) : LoopState :=
  if s.has_spell then
    let r := e.spell_move_to s.ptr
    if r.1 = 0 ∨ r.2.1 > s.ptr then
      -- no bad word found at line start, don't check until end of a word
      { s with word_end := e.spell_to_word_end s.ptr + 1 }
    else
      -- bad word found, use attributes until end of word
      let s : LoopState := { s with word_end := r.2.1 + r.1 + 1 }
      match r.2.2 with
      | some a => { s with spell_attr := a }
      | none => s
  else s

/-- 'nowrap' or 'wrap' and a single line that doesn't fit: advance to the first
character to be displayed. -/
def init_skip (e : Env) (s : LoopState) : LoopState :=
  let wp := e.wp
  let s : LoopState := { s with v := if wp.w_p_wrap then wp.w_skipcol else wp.w_leftcol }
  if s.v > 0 ∧ ¬ e.number_only then
    let v := s.v
    let k := init_skip_loop e v e.line.length ⟨s.wlv.vcol, s.ptr, s.ptr, 0⟩
    let s : LoopState := { s with wlv.vcol := k.cts_vcol, ptr := k.cts_ptr }
    -- the end of the line may be before the start of the displayed part
    let s : LoopState :=
      if s.wlv.vcol < v ∧ (wp.w_p_cuc ∨ s.draw_color_col ∨ e.virtual_active
          ∨ (e.VIsual_active ∧ e.curwin_same_buffer)) then
        { s with wlv.vcol := v }
      else s
    -- handle a character that's not completely on the screen: put ptr at
    -- that character but skip the first few screen characters
    let s : LoopState :=
      if s.wlv.vcol > v then
        let s : LoopState := { s with wlv.vcol := s.wlv.vcol - k.charsize, ptr := k.prev_ptr }
        -- if the character fits on the screen, don't need to skip it, except
        -- for a TAB
        if e.utf_ptr2cells (bytesFrom e.line s.ptr) ≥ k.charsize ∨ byteAt e.line s.ptr = TAB then
          { s with n_skip := v - s.wlv.vcol }
        else s
      else s
    -- adjust for when the inverted text is before the screen, and when the
    -- start of the inverted text is before the screen
    let s : LoopState :=
      if s.wlv.tocol ≤ s.wlv.vcol then { s with wlv.fromcol := 0 }
      else if s.wlv.fromcol ≥ 0 ∧ s.wlv.fromcol < s.wlv.vcol then
        { s with wlv.fromcol := s.wlv.vcol }
      else s
    -- when w_skipcol is non-zero, first line needs 'showbreak'
    let s : LoopState := if wp.w_p_wrap then { s with wlv.need_showbreak := true } else s
    init_skip_spell e s
  else s

/-- Correct highlighting for cursor that can't be disabled. -/
def init_fromcol (e : Env) (s : LoopState) : LoopState :=
  if s.wlv.fromcol ≥ 0 then
    let s : LoopState :=
      if s.noinvcur then
        if s.wlv.fromcol = e.wp.w_virtcol then
          -- highlighting starts at cursor, let it start just after the cursor
          { s with fromcol_prev := s.wlv.fromcol, wlv.fromcol := -1 }
        else if s.wlv.fromcol < e.wp.w_virtcol then
          -- restart highlighting after the cursor
          { s with fromcol_prev := e.wp.w_virtcol }
        else s
      else s
    if s.wlv.fromcol ≥ s.wlv.tocol then { s with wlv.fromcol := -1 } else s
  else s

/-- Prepare the search highlighting of the line, start the first screen line
and fetch the terminal attributes. -/
def init_search_start (e : Env) (s : LoopState) : LoopState :=
  let s : LoopState :=
    if ¬ e.number_only ∧ ¬ s.has_fold ∧ ¬ s.end_fill then
      let r := e.prepare_search_hl_line s.ptr
      { s with
          v := s.ptr,
          area_highlighting := s.area_highlighting || r.1,
          search_attr := r.2.1,
          search_attr_from_match := r.2.2 }
    else s
  let s : LoopState := { s with wlv := win_line_start e.wp s.wlv false }
  let s : LoopState := if e.wp.b_terminal then { s with extra_check := true } else s
  { s with sign_idx := 0, virt_line_offset := -1 }

/-- The state in which `win_line` enters its loop; `none` where the C code
divides by zero on the way. -/
def win_line_init (e : Env) : Option LoopState :=
  let s : LoopState := loop_state_init e
  let s : LoopState :=
    if ¬ e.number_only then init_visual e (init_spell e (init_syntax_decor e s)) else s
  match init_cursorline e (init_filler e s) with
  | none => none
  | some s =>
    some (init_search_start e (init_fromcol e (init_skip e (init_list e
      (init_spell_nextline e (init_signs e s))))))

/-- What `win_line` does: the value it returns (the row counter when the loop
is left) and the calls it made to the grid layer, latest first; `none` when the
loop is not left within `fuel` iterations. -/
def win_line (e : Env) (fuel : Nat) : Option (Int × List GridCall) :=
  if e.startrow > e.endrow then some (e.startrow, [])   -- past the end already!
  else
    match win_line_init e with
    | none => none
    | some s0 =>
      match win_line_loop e fuel s0 with
      | none => none
      | some s => some (s.wlv.row, s.grid)

/-- The state in which `win_line` leaves its loop. -/
def win_line_final (e : Env) (fuel : Nat) : Option LoopState :=
  match win_line_init e with
  | none => none
  | some s0 => win_line_loop e fuel s0

/-- The state at the top of the loop after `k` passes through its body, from
the state `s`; `none` when the loop is left before. -/
def loop_passes (e : Env) : Nat → LoopState → Option LoopState
  | 0, s => some s
  | k + 1, s =>
    let r := win_line_iter e s
    if r.2 then none else loop_passes e k r.1

/-- The state in which `win_line` is at the top of its loop for pass number
`k` (counted from 0). -/
def loop_head (e : Env) (k : Nat) : Option LoopState :=
  match win_line_init e with
  | none => none
  | some s0 => loop_passes e k s0

/-- The state of pass number `k` of the loop when the character has been
chosen (after the gutter and the character source). -/
def pass_char (e : Env) (k : Nat) : Option LoopState :=
  (loop_head e k).map (fun s =>
    iter_choose_char e (cul_screenline_apply e (gutter_phase e (iter_begin s)).1))

/-- The state of pass number `k` of the loop when "apply lowest-priority line
attr" is reached. -/
def pass_before_store (e : Env) (k : Nat) : Option LoopState :=
  (pass_char e k).map (iter_before_store e)

/-! ## A concrete environment

Plain tables for the collaborators, used to evaluate the embedding on concrete
lines: standard UTF-8 decoding without composing characters, double width for
the CJK and emoji blocks, attributes that record how they were combined. -/

namespace Sample

/-- Is `b` a UTF-8 continuation byte. -/
def is_cont (b : Int) : Bool := decide (0x80 ≤ b) && decide (b < 0xC0)

/-- Byte length of the UTF-8 sequence at the start of `l`; 1 for an illegal
byte, 0 at the end of the string. -/
def utf_ptr2len (l : List Int) : Int :=
  match l with
  | [] => 0
  | b :: r =>
    if b = 0 then 0
    else if b < 0xC2 then 1
    else if b < 0xE0 then (if is_cont (r.getD 0 0) then 2 else 1)
    else if b < 0xF0 then (if is_cont (r.getD 0 0) && is_cont (r.getD 1 0) then 3 else 1)
    else if b < 0xF5 then
      (if is_cont (r.getD 0 0) && is_cont (r.getD 1 0) && is_cont (r.getD 2 0) then 4 else 1)
    else 1

/-- The character at the start of `l`; the byte itself for an illegal byte. -/
def utf_ptr2char (l : List Int) : Int :=
  let b := l.getD 0 0
  if utf_ptr2len l = 2 then (b % 32) * 64 + l.getD 1 0 % 64
  else if utf_ptr2len l = 3 then (b % 16) * 4096 + (l.getD 1 0 % 64) * 64 + l.getD 2 0 % 64
  else if utf_ptr2len l = 4 then
    (b % 8) * 262144 + (l.getD 1 0 % 64) * 4096 + (l.getD 2 0 % 64) * 64 + l.getD 3 0 % 64
  else b

/-- Display cells of a character. -/
def utf_char2cells (c : Int) : Int :=
  if (0x1100 ≤ c ∧ c ≤ 0x115F) ∨ (0x2E80 ≤ c ∧ c ≤ 0xA4CF) ∨ (0xAC00 ≤ c ∧ c ≤ 0xD7A3)
      ∨ (0xF900 ≤ c ∧ c ≤ 0xFAFF) ∨ (0xFF00 ≤ c ∧ c ≤ 0xFF60) ∨ (0x1F300 ≤ c ∧ c ≤ 0x1FAFF)
  then 2 else 1

/-- Bytes needed for a character. -/
def utf_char2len (c : Int) : Int :=
  if c < 0x80 then 1 else if c < 0x800 then 2 else if c < 0x10000 then 3 else 4

/-- The UTF-8 bytes of a character. -/
def utf_char2bytes (c : Int) : List Int :=
  if c < 0x80 then [c]
  else if c < 0x800 then [0xC0 + c / 64, 0x80 + c % 64]
  else if c < 0x10000 then [0xE0 + c / 4096, 0x80 + c / 64 % 64, 0x80 + c % 64]
  else [0xF0 + c / 262144, 0x80 + c / 4096 % 64, 0x80 + c / 64 % 64, 0x80 + c % 64]

/-- Number of characters of a string. -/
def mb_charlen : Nat → List Int → Int
  | 0, _ => 0
  | n + 1, l => if utf_ptr2len l ≤ 0 then 0 else 1 + mb_charlen n (l.drop (utf_ptr2len l).toNat)

/-- Display cells of a string. -/
def mb_string2cells : Nat → List Int → Int
  | 0, _ => 0
  | n + 1, l =>
    if utf_ptr2len l ≤ 0 then 0
    else utf_char2cells (utf_ptr2char l) + mb_string2cells n (l.drop (utf_ptr2len l).toNat)

/-- Printable characters. -/
def vim_isprintc (c : Int) : Bool :=
  (decide (0x20 ≤ c) && decide (c < 0x7F)) || decide (0xA0 ≤ c)

/-- Display cells of a byte: two for a control character shown as `^X`, four
for a byte shown as `<xx>`. -/
def byte2cells (c : Int) : Int :=
  if vim_isprintc c ∧ c < 0x100 then 1 else if c < 0x80 then 2 else 4

/-- The hexadecimal digit of the low four bits of `n`. -/
def nr2hex (n : Int) : Int :=
  if n % 16 ≤ 9 then n % 16 + 48 else n % 16 - 10 + 97

/-- The escape form `<xx>` of a byte, with two more hexadecimal digits for a
character above 0xff and two more above 0xffff. -/
def transchar_hex (c : Int) : List Int :=
  [60] ++ (if c > 0xFF then
      (if c > 0xFFFF then [nr2hex (c / 0x100000), nr2hex (c / 0x10000)] else [])
        ++ [nr2hex (c / 0x1000), nr2hex (c / 0x100)] else [])
    ++ [nr2hex (c / 16), nr2hex c, 62]

/-- The distance from column `col` to the next tab stop, without 'vartabstop'. -/
def tabstop_padding (col ts : Int) (_vts : List Int) : Int := ts - col % ts

/-- The printable form of an unprintable byte: `^X` or `<xx>`. -/
def transchar_buf (c : Int) : List Int :=
  if c < 0x20 then [94, c + 64] else if c = 0x7F then [94, 63] else transchar_hex c

/-- The characters of the default 'breakat'. -/
def vim_isbreak (c : Int) : Bool := [32, 9, 33, 64, 42, 45, 43, 59, 58, 44, 46, 47, 63].contains c

/-- Combining two attributes: zero is neutral, otherwise the pair is recorded. -/
def hl_combine_attr (a b : Int) : Int :=
  if a = 0 then b else if b = 0 then a else a * 1000 + b

/-- The attribute of a highlight group: its number in `hlf_T` plus one. -/
def win_hl_attr (h : hlf_T) : Int := (h.toCtorIdx : Int) + 1

def lcs_chars : lcs_chars_T :=
  { eol := 0, ext := 0, prec := 0, nbsp := 0, space := 0, tab1 := 0, tab2 := 0, tab3 := 0,
    lead := 0, trail := 0, conceal := 0, multispace := none, leadmultispace := none }

def fcs_chars : fcs_chars_T :=
  { diff := 45, fold := 183, foldopen := 45, foldclosed := 43, foldsep := 124 }

/-- A window of `cols` columns with default options: 'wrap' on, 'tabstop' 8,
no gutter. -/
def win (cols : Int) : win_T :=
  { is_curwin := true, cols := cols, rows := 24, w_width_inner := cols,
    w_p_rl := false, w_p_wrap := true, w_p_list := false, w_p_lbr := false, w_p_bri := false,
    w_briopt_sbr := false, w_p_cul := false, culopt_line := true, culopt_scrline := false,
    culopt_nbr := true, w_p_cuc := false, w_p_nu := false, w_p_rnu := false,
    w_p_spell := false, w_p_cole := 0, w_p_cocu := [], w_p_scl := [110, 111], w_scwidth := 0,
    w_skipcol := 0, w_leftcol := 0, w_cursorline := 1, w_cursor_lnum := 1, w_cursor_col := 0,
    w_virtcol := 0, w_topline := 1, w_topfill := 0, w_botfill := false, w_cline_row := 0,
    w_cline_height := 1, w_old_cursor_fcol := 0, w_old_cursor_lcol := 0, w_p_cc_cols := none,
    w_p_lcs_chars := lcs_chars, w_p_fcs_chars := fcs_chars, b_p_ts := 8, b_p_vts_array := [],
    b_terminal := false, ml_line_count := 100 }

/-- Line 2 of a buffer shown in rows 0 to 9 of the window `wp`, the cursor in
line 1, with no syntax, spelling, search, decorations, diff, signs or folds. -/
def env (wp : win_T) (line : List Int) : Env :=
  { wp := wp, lnum := 2, startrow := 0, endrow := 10, nochange := false, number_only := false,
    foldinfo := ⟨0, 0, 0, 0⟩, line := line,
    cmdwin_type := 0, dollar_vcol := -1, highlight_match := false, VIsual_active := false,
    VIsual_mode := 118, VIsual := ⟨1, 0, 0⟩, curwin_cursor := ⟨1, 0, 0⟩,
    curwin_same_buffer := true, p_sel_e := false, cursor_is_block_during_visual := false,
    virtual_active := false, search_match_lines := 0, search_match_endcol := 0,
    p_arshape := true, p_tbidi := false, mode_insert := false, cpo_numcol := false,
    dy_uhex := false, Columns := wp.cols, ui_multigrid := false,
    utf_ptr2cells := fun l => utf_char2cells (utf_ptr2char l),
    utfc_ptr2len := utf_ptr2len,
    utf_ptr2len := utf_ptr2len,
    utf_ptr2char := utf_ptr2char,
    utfc_ptr2char := fun l => (utf_ptr2char l, []),
    utf_char2cells := utf_char2cells,
    utf_char2len := utf_char2len,
    utf_char2bytes := utf_char2bytes,
    utf_iscomposing := fun c => decide (0x300 ≤ c ∧ c ≤ 0x36F),
    utf_head_off := fun _ _ => 0,
    mb_string2cells := fun l => mb_string2cells l.length l,
    mb_charlen := fun l => mb_charlen l.length l,
    vim_isprintc := vim_isprintc,
    vim_isbreak := vim_isbreak,
    byte2cells := byte2cells,
    char2cells := fun c => if c < 0x100 then byte2cells c else utf_char2cells c,
    transchar_buf := transchar_buf,
    transchar_hex := transchar_hex,
    tabstop_padding := tabstop_padding,
    transstr_buf := fun l => l,
    arabic_shape := fun c cc c1 _ _ _ => (c, cc, c1),
    win_lbr_chartabsize := fun _ _ => 1,
    hl_combine_attr := hl_combine_attr,
    win_hl_attr := win_hl_attr,
    syn_id2attr := fun id => 100 + id,
    syn_attr2entry := fun _ => ⟨-1, 0⟩,
    hl_get_underline := 50,
    win_bg_attr := 0,
    win_col_off := 0, win_col_off2 := 0, wp_addr := 1, margin_statics := MarginStatics.zero,
    number_width := 3, compute_foldcolumn := 0,
    get_cursor_rel_lnum := fun lnum => lnum - wp.w_cursor_lnum,
    get_breakindent_win := 0, showbreak := [],
    getvvcol_start := fun p => p.col, getvvcol_end := fun p => p.col,
    getvcol_start := fun p => p.col, gchar_pos := fun p => byteAt line p.col,
    bt_quickfix := false, qf_current_entry := 0,
    syntax_present := false, b_syn_error := false, b_syn_slow := false,
    syntax_start_emsg := false,
    get_syntax_attr := fun _ => ⟨0, true, false, false, false, 0, 0⟩,
    spell_enabled := false, spo_npbuffer := false, next_line := none,
    spell_cat_line := fun l => l, spell_check := fun _ _ cap => ⟨1, none, cap⟩,
    spell_move_to := fun _ => (0, 0, none), spell_to_word_end := fun p => p,
    checked_lnum := 0, checked_col := 0, cap_col := -1, capcol_lnum := 0,
    prepare_search_hl_line := fun _ => (false, 0, false),
    update_search_hl := fun _ _ h => { h with search_attr := 0 },
    get_prevcol_hl_flag := fun _ => false,
    get_search_match_hl := fun _ a => a,
    decor_redraw_line := false, decor_providers_has_decor := fun b => b,
    decor_provider_err := false,
    decor_redraw_col := fun _ _ _ => ⟨0, 0, 0, 0, none⟩,
    decor_redraw_eol := fun a _ => (false, a),
    decor_virt_lines := fun _ => [],
    draw_virt_text := fun _ end_col _ _ ch at_ => (ch, at_, end_col),
    draw_virt_text_item := fun _ _ ch at_ => (ch, at_),
    diff_check_with_linestatus := (0, 0), diff_find_change := (false, MAXCOL, -1),
    buf_signattrs := [], num_signs := 0, sign_num_hl_id := 0, sign_cul_hl_id := 0,
    line_hl_id := 0, sign_get_attr := fun _ _ _ => none,
    get_foldtext := [], build_statuscol_str := fun _ _ _ _ stc => ⟨[], [], 0, 0, stc⟩,
    w_p_stc := [], w_nrwidth := 0, w_nrwidth_line_count := 0, w_statuscol_line_count := 0,
    term_attrs := fun _ => 0, w_redr_statuscol := false, conceal_cursor_line := false,
    linebuf_char := fun _ => [0], linebuf_attr := fun _ => 0 }

/-- The cells `0 .. n-1` of a row buffer. -/
def cells {α : Type} (f : Int → α) (n : Nat) : List α := (List.range n).map (fun i => f i)

end Sample

/-! ## States inside a pass of the loop -/

/-- The state of pass number `k` of the loop after the gutter part and the
'cursorlineopt' "screenline" block. -/
def pass_gutter (e : Env) (k : Nat) : Option LoopState :=
  (loop_head e k).map (fun s => cul_screenline_apply e (gutter_phase e (iter_begin s)).1)

/-- The state of pass number `k` of the loop when "handle Visual or match
highlighting in this line" is reached. -/
def pass_area (e : Env) (k : Nat) : Option LoopState :=
  (pass_gutter e k).map (fun s => fold_truncate e (fold_fill e (fold_text e s)))

/-- The state in which "decide which of the highlight attributes to use" is
reached from the state `s` at the start of the highlighting block. -/
def area_before_decide (e : Env) (s : LoopState) : LoopState :=
  area_diff e (area_search e (area_start_stop e s))

/-- The test of the highlighting block whether the column is outside the
Visual or 'incsearch' area. -/
def outside_area (s : LoopState) : Prop :=
  (s.wlv.fromcol = -10 ∧ s.wlv.tocol = MAXCOL)
  ∨ s.wlv.vcol < s.wlv.fromcol
  ∨ s.vcol_prev < s.fromcol_prev
  ∨ s.wlv.vcol ≥ s.wlv.tocol

instance (s : LoopState) : Decidable (outside_area s) := by
  unfold outside_area; infer_instance

/-- The cell in which the cell writer puts the character: the left one of the
two cells of a double-width character in a right-to-left row. -/
def store_cell (e : Env) (s : LoopState) : Int :=
  if e.wp.w_p_rl ∧ e.utf_char2cells s.mb_c > 1 then s.wlv.off - 1 else s.wlv.off

/-- The state of pass number `k` of the loop when "handling of non-printable
characters" is reached in the branch that prints from buffer content. -/
def pass_nonprint (e : Env) (k : Nat) : Option LoopState :=
  (pass_area e k).map (fun s =>
    extra_check_block e (buf_advance (buf_left_filler e (buf_overflow e
      (buf_special e (buf_decode e (area_block e s)))))))

/-- The column from which the width of a TAB is computed: `vcol`, less the
width of 'showbreak' when at the first column after it was drawn. -/
def tab_vcol (e : Env) (s : LoopState) : Int :=
  if byteAt e.showbreak 0 ≠ NUL ∧ s.wlv.vcol = s.wlv.vcol_sbr ∧ e.wp.w_p_wrap then
    s.wlv.vcol - e.mb_charlen e.showbreak
  else s.wlv.vcol

/-- The part of "get a character from the line itself" from the decoding to
the statement `ptr++`. -/
def buf_fetch (e : Env) (s : LoopState) : LoopState :=
  buf_advance (buf_left_filler e (buf_overflow e (buf_special e (buf_decode e s))))

/-- The state of a pass through the loop body from the state `s` at the top of
the loop when the cell has been stored, before "at end of screen line and
there is more to come". -/
def iter_stored (e : Env) (s : LoopState) : LoopState :=
  iter_store e (iter_before_store e (iter_choose_char e
    (cul_screenline_apply e (gutter_phase e (iter_begin s)).1)))

/-- The attribute with which a cell is stored in the body phase: the pending
attribute of a character of several cells, or else the cell attribute with
the low-priority line attribute underneath. -/
def stored_attr (e : Env) (s : LoopState) : Int :=
  if s.multi_attr ≠ 0 then s.multi_attr
  else (lowprio_attr e (cursorcolumn_attr e (color_col_advance (lcs_ext_block e s)))).wlv.char_attr

/-- The next character of the pending run is taken from the string `p_extra`
and is a double-width character while the screen column is the last one of
the row. -/
def WideLastExtra (e : Env) (s : LoopState) : Prop :=
  s.wlv.c_extra = NUL ∧ ¬ (s.wlv.n_extra = 1 ∧ s.wlv.c_final ≠ NUL)
  ∧ 1 < e.utfc_ptr2len s.wlv.p_extra.rest
  ∧ e.utfc_ptr2len s.wlv.p_extra.rest ≤ s.wlv.n_extra
  ∧ e.utf_char2cells (e.utfc_ptr2char s.wlv.p_extra.rest).1 = 2
  ∧ at_last_col e s = true

instance (e : Env) (s : LoopState) : Decidable (WideLastExtra e s) := by
  unfold WideLastExtra; infer_instance

/-- A window and a line without the features that replace, hide or add
characters: left-to-right, 'list', 'conceallevel', 'cursorcolumn' off, not a
terminal buffer, no closed fold, no pending `$` of a change command, and a
line of printable ASCII bytes only. -/
def PlainEnv (e : Env) : Prop :=
  e.wp.w_p_rl = false ∧ e.wp.w_p_list = false ∧ e.wp.w_p_cole = 0 ∧ e.wp.w_p_cuc = false
  ∧ e.wp.b_terminal = false ∧ e.foldinfo.fi_lines ≤ 0 ∧ e.dollar_vcol < 0
  ∧ e.number_only = false
  ∧ ∀ b ∈ e.line, 0x20 ≤ b ∧ b < 0x7F

instance (e : Env) : Decidable (PlainEnv e) := by
  unfold PlainEnv; infer_instance

/-- The loop is in the body phase with no pending run, and nothing of line
highlighting, selection, syntax, spelling, decorations or 'colorcolumn' is
active. -/
def PlainBody (s : LoopState) : Prop :=
  s.wlv.draw_state = WL_LINE ∧ s.wlv.n_extra = 0 ∧ s.wlv.filler_todo ≤ 0
  ∧ s.wlv.boguscols = 0 ∧ s.has_fold = false ∧ s.cul_screenline = false
  ∧ s.area_highlighting = false ∧ s.has_spell = false ∧ s.extra_check = false
  ∧ s.n_skip = 0 ∧ s.draw_color_col = false ∧ s.has_decor = false ∧ s.area_attr = 0
  ∧ s.wlv.fromcol < 0 ∧ s.fromcol_prev < 0 ∧ s.wlv.tocol = MAXCOL
  ∧ s.wlv.line_attr = 0 ∧ s.wlv.line_attr_lowprio = 0 ∧ s.wlv.diff_hlf = HLF_8
  ∧ s.eol_hl_off = 0

instance (s : LoopState) : Decidable (PlainBody s) := by
  unfold PlainBody; infer_instance

/-- The loop is in the body phase with no pending run and a selection
`fromcol <= v < tocol` to highlight with the non-zero attribute `vi_attr`, the
cursor cell not excepted (`noinvcur` off); nothing of line highlighting,
search matches, syntax, spelling, decorations or 'colorcolumn' is active. -/
def SelBody (s : LoopState) : Prop :=
  s.wlv.draw_state = WL_LINE ∧ s.wlv.n_extra = 0 ∧ s.wlv.filler_todo ≤ 0
  ∧ s.wlv.boguscols = 0 ∧ s.has_fold = false ∧ s.cul_screenline = false
  ∧ s.area_highlighting = true ∧ s.has_spell = false ∧ s.extra_check = false
  ∧ s.n_skip = 0 ∧ s.draw_color_col = false ∧ s.has_decor = false
  ∧ s.has_syntax = false ∧ s.n_attr = 0 ∧ s.multi_attr = 0 ∧ s.noinvcur = false
  ∧ 0 ≤ s.wlv.fromcol ∧ s.wlv.fromcol < s.wlv.tocol ∧ s.fromcol_prev < -1
  ∧ s.vi_attr ≠ 0 ∧ s.search_attr = 0
  ∧ s.wlv.line_attr = 0 ∧ s.wlv.line_attr_lowprio = 0 ∧ s.wlv.diff_hlf = HLF_8
  ∧ s.eol_hl_off = 0 ∧ -1 ≤ s.vcol_prev ∧ 0 ≤ s.wlv.vcol

instance (s : LoopState) : Decidable (SelBody s) := by
  unfold SelBody; infer_instance

/-- The selection attribute that is active at the virtual column `v`. -/
def area_at (s : LoopState) (v : Int) : Int :=
  if s.wlv.fromcol ≤ v ∧ v < s.wlv.tocol then s.vi_attr else 0

/-- The attribute of a body cell at the virtual column `v` of a line with a
selection and no other highlighting: inside `fromcol <= v < tocol` the
selection attribute `vi_attr` combined on top of the (zero) line attribute,
with the (zero) search attribute underneath unless an incremental-search match
is shown; outside, the zero attribute; the (zero) low-priority line attribute
underneath in both cases. -/
def sel_cell_attr (e : Env) (s : LoopState) (v : Int) : Int :=
  e.hl_combine_attr 0
    (if s.wlv.fromcol ≤ v ∧ v < s.wlv.tocol then
      (if e.highlight_match then e.hl_combine_attr 0 s.vi_attr
       else e.hl_combine_attr 0 (e.hl_combine_attr 0 s.vi_attr))
     else 0)

/-! ## Concrete lines -/

namespace Sample

/-- A line context with a pending run of three blanks. -/
def wlv_run : winlinevars_T :=
  { wlv_init (env (win 5) [97]) with
      n_extra := 3,
      p_extra := CharPtr.NULL,
      c_extra := 32,
      c_final := 0,
      char_attr := 5 }

/-- The line context `wlv_run` after a row boundary and a gutter producer that
used the run fields for a line number. -/
def wlv_mid : winlinevars_T :=
  { win_line_start (win 5) wlv_run true with
      n_extra := 0,
      c_extra := 45,
      c_final := 45,
      char_attr := 9 }

/-- The line "a中": a letter and a double-width character. -/
def line_wide : List Int := [97, 0xE4, 0xB8, 0xAD]

/-- The line "a中" in a window of ten columns. -/
def env_wide : Env := env (win 10) line_wide

/-- The pass for the double-width character of `env_wide`, before it is stored. -/
def state_wide : LoopState :=
  (((pass_before_store env_wide 1).map (lowprio_attr env_wide)).getD (loop_state_init env_wide))

/-- The line "a中" in a window of two columns, so that the double-width
character starts in the last column. -/
def env_wide_last : Env := env (win 2) line_wide

/-- The line "a中" in a window of two columns with 'cursorline', the cursor in
this line. -/
def env_wide_cul : Env := env { win 2 with w_p_cul := true, w_cursorline := 2 } line_wide

/-- The pass of `env_wide_cul` that writes the last column of the first row,
when "apply lowest-priority line attr" is reached. -/
def state_wide_cul : LoopState :=
  (pass_before_store env_wide_cul 1).getD (loop_state_init env_wide_cul)

/-- The pass of `env_wide_cul` that writes the first column of the first row,
when "apply lowest-priority line attr" is reached. -/
def state_wide_cul_first : LoopState :=
  (pass_before_store env_wide_cul 0).getD (loop_state_init env_wide_cul)

/-- The line "abcde" with characterwise Visual mode from column 1 to column 3
of this line, the cursor at the end of the selection. -/
def env_visual : Env :=
  { env { win 10 with w_cursor_lnum := 2, w_cursor_col := 3, w_virtcol := 3 }
      [97, 98, 99, 100, 101] with
    VIsual_active := true,
    VIsual_mode := 118,
    VIsual := ⟨2, 1, 0⟩,
    curwin_cursor := ⟨2, 3, 0⟩ }

/-- The pass for column 2 of `env_visual` when the highlighting is decided. -/
def state_visual : LoopState := (pass_area env_visual 2).getD (loop_state_init env_visual)

/-- The line "a", the illegal byte 0x80, "b". -/
def line_illegal : List Int := [97, 0x80, 98]

/-- The line with the illegal byte in a window of ten columns. -/
def env_illegal : Env := env (win 10) line_illegal

/-- The line with the illegal byte inside a linewise Visual selection of lines
2 to 3. -/
def env_illegal_visual : Env :=
  { env (win 10) line_illegal with
    VIsual_active := true,
    VIsual_mode := 86,
    VIsual := ⟨2, 0, 0⟩,
    curwin_cursor := ⟨3, 0, 0⟩ }

/-- The pass of `env_illegal` that reaches the illegal byte, when the
character is fetched from the line. -/
def state_illegal : LoopState := (pass_area env_illegal 1).getD (loop_state_init env_illegal)

/-- The line "a", TAB, "b". -/
def line_tab : List Int := [97, 9, 98]

/-- The line "a<TAB>b" in a window of twenty columns with 'tabstop' 4. -/
def env_tab : Env := env { win 20 with b_p_ts := 4 } line_tab

/-- The pass of `env_tab` that reaches the TAB, at "handling of non-printable
characters". -/
def state_tab : LoopState := (pass_nonprint env_tab 1).getD (loop_state_init env_tab)

/-- The line "xxxx", TAB, "b". -/
def line_conceal_tab : List Int := [120, 120, 120, 120, 9, 98]

/-- The line "xxxx<TAB>b" in a window of twenty columns with 'tabstop' 4 and
'conceallevel' 2, the four bytes before the TAB concealed by syntax. -/
def env_conceal_tab : Env :=
  { env { win 20 with b_p_ts := 4, w_p_cole := 2 } line_conceal_tab with
    syntax_present := true,
    get_syntax_attr := fun col =>
      if col < 4 then ⟨0, true, false, false, true, 1, 0⟩
      else ⟨0, true, false, false, false, 0, 0⟩ }

/-- The pass of `env_conceal_tab` that reaches the TAB, at "handling of
non-printable characters". -/
def state_conceal_tab : LoopState :=
  (pass_nonprint env_conceal_tab 4).getD (loop_state_init env_conceal_tab)

/-- The loop state of `env_wide_last` at the top of the pass that reaches the
double-width character. -/
def state_wide_last : LoopState :=
  (loop_head env_wide_last 1).getD (loop_state_init env_wide_last)

/-- The line "a中" in a window of two columns without 'wrap'. -/
def env_wide_nowrap : Env := env { win 2 with w_p_wrap := false } line_wide

/-- The line "a中" in a window of two columns without 'wrap', with 'list' and
"extends" of 'listchars' set to `$`. -/
def env_wide_ext : Env :=
  env { win 2 with
          w_p_wrap := false,
          w_p_list := true,
          w_p_lcs_chars := { lcs_chars with ext := 36 } } line_wide

/-- The line "abc" in a window of ten columns. -/
def env_abc : Env := env (win 10) [97, 98, 99]

/-- The loop state of `env_abc` at the top of the first pass. -/
def state_abc : LoopState := (loop_head env_abc 0).getD (loop_state_init env_abc)

/-- The line "a", the control character 0x01, "b" in a window of ten columns. -/
def env_ctrl : Env := env (win 10) [97, 1, 98]

/-- The loop state of `env_visual` at the top of the first pass. -/
def state_visual_head : LoopState :=
  (loop_head env_visual 0).getD (loop_state_init env_visual)

/-- The line "abcde" with characterwise Visual mode from column 1 to column 3
of this line, the cursor at the end of the selection and shown as a block. -/
def env_visual_cursor : Env :=
  { env_visual with cursor_is_block_during_visual := true }

end Sample

namespace Sample

/-- Line 12 of a buffer in a window with 'number' and 'relativenumber', the
cursor in line 1, the number column 4 cells wide. -/
def env_number : Env :=
  { env { win 10 with w_p_nu := true, w_p_rnu := true } [97] with
      lnum := 12, number_width := 4 }

end Sample

namespace Sample

/-- The state `state_wide` with the end of the selection in the middle of the
double-width character. -/
def state_wide_sel : LoopState :=
  { state_wide with wlv.tocol := state_wide.wlv.vcol + 1 }

end Sample

namespace Sample

/-- The line context of the first row of a line without filler rows, with the
sign "é" (two bytes, one cell) for the first sign column. -/
def wlv_sign : winlinevars_T :=
  { wlv_init (env (win 10) [97]) with sattrs := [⟨some [0xC3, 0xA9], 7⟩] }

/-- The window of `env` with a sign column, `sign_get_attr` giving the entry
of `sattrs` with the index asked for. -/
def env_sign : Env :=
  { env { win 10 with w_scwidth := 1 } [97] with
      sign_get_attr := fun idx sattrs _ => sattrs[idx.toNat]? }

end Sample

/-- The state of a pass of the loop, begun in the state `s`, in which the
block "at end of the text line or just after the last character" is reached. -/
def iter_before_eol (e : Env) (s : LoopState) : LoopState :=
  lcs_prec_block e (extra_attr_combine e (cursor_wcol e (next_char e (area_block e
    (fold_truncate e (fold_fill e (fold_text e
      (cul_screenline_apply e (gutter_phase e (iter_begin s)).1))))))))

/-- A pass of the loop, begun in the state `s`, reaches the choice of the
character: it is not left in the gutter part nor for the '$' of a change. -/
def reaches_char (e : Env) (s : LoopState) : Prop :=
  (gutter_phase e (iter_begin s)).2 = false
  ∧ ¬ dollar_cond e (cul_screenline_apply e (gutter_phase e (iter_begin s)).1)

instance (e : Env) (s : LoopState) : Decidable (reaches_char e s) := by
  unfold reaches_char; infer_instance

namespace Sample

/-- An empty line in characterwise Visual mode, the selection and the cursor
in this line. -/
def env_visual_empty : Env :=
  { env { win 10 with w_cursor_lnum := 2, w_cursor_col := 0, w_virtcol := 0 } [] with
    VIsual_active := true,
    VIsual_mode := 118,
    VIsual := ⟨2, 0, 0⟩,
    curwin_cursor := ⟨2, 0, 0⟩ }

/-- The state of `env_visual_empty` at the top of the loop. -/
def state_visual_empty : LoopState :=
  (loop_head env_visual_empty 0).getD (loop_state_init env_visual_empty)

end Sample

/-- The bytes of the symbols that the loop of `fill_foldcolumn` chooses for the
columns `0` to `k - 1`. -/
def fold_glyphs (e : Env) (fi : foldinfo_T) (lnum first_level : Int) (k : Nat) : List Int :=
  ((List.range k).map (fun j => fold_symbol e fi lnum first_level (j : Int))).flatMap
    e.utf_char2bytes

namespace Sample

/-- The window of `env` with a fold column of two cells. -/
def env_foldcolumn : Env := { env (win 10) [97] with compute_foldcolumn := 2 }

end Sample

/-- The state of a pass of the loop, begun in the state `s`, in which the
'statuscolumn' block of the gutter part is reached. -/
def iter_before_stc (e : Env) (s : LoopState) : LoopState :=
  gutter_nr e (gutter_sign e (gutter_fold e (gutter_skip e (gutter_cmdline e
    (gutter_cul_screenline (iter_begin s))))))

/-- What `build_statuscol_str` gives when `get_statuscol_str` builds the status
column in the state `s`, after the estimate of the width. -/
def statuscol_built (e : Env) (lnum virtnum : Int) (s : LoopState) : StcBuilt :=
  e.build_statuscol_str (statuscol_estimate e s).statuscol.width lnum
    (if virtnum = 0 then |e.get_cursor_rel_lnum lnum| else -1) virtnum
    (statuscol_estimate e s).w_p_stc

/-- The state in which the 'statuscolumn' block calls `get_statuscol_str`, from
the state `u` in which the block is reached. -/
def stc_call_state (u : LoopState) : LoopState :=
  { u with wlv.draw_state := WL_STC, v := u.ptr }

namespace Sample

/-- The window of `env` with a 'statuscolumn' that `build_statuscol_str`
truncates by three cells, the number column being `w` cells wide. -/
def env_stc (w : Int) : Env :=
  { env (win 10) [97] with
      w_p_stc := [37, 108], w_nrwidth := w, win_col_off := 2,
      build_statuscol_str := fun _ _ _ _ stc => ⟨[49, 50], [], 3, 2, stc⟩ }

/-- The state of `env_stc w` at the top of the loop. -/
def state_stc (w : Int) : LoopState :=
  (loop_head (env_stc w) 0).getD (loop_state_init (env_stc w))

end Sample

/-- The state of a pass of the loop, begun in the state `s`, in which the test
"at end of screen line and there is more to come" is reached. -/
def iter_before_row_end (e : Env) (s : LoopState) : LoopState :=
  iter_store e (iter_before_store e (iter_choose_char e
    (cul_screenline_apply e (gutter_phase e (iter_begin s)).1)))

/-- A pass of the loop, begun in the state `s`, reaches the test "at end of
screen line and there is more to come": it is not left before, and the
character chosen is not NUL. -/
def reaches_row_end (e : Env) (s : LoopState) : Prop :=
  (gutter_phase e (iter_begin s)).2 = false
  ∧ ¬ dollar_cond e (cul_screenline_apply e (gutter_phase e (iter_begin s)).1)
  ∧ (iter_choose_char e (cul_screenline_apply e (gutter_phase e (iter_begin s)).1)).c ≠ NUL

instance (e : Env) (s : LoopState) : Decidable (reaches_row_end e s) := by
  unfold reaches_row_end; infer_instance

namespace Sample

/-- The line "abc" in a window of two columns without 'wrap'. -/
def env_abc_nowrap : Env := env { win 2 with w_p_wrap := false } [97, 98, 99]

/-- The state of `env_abc_nowrap` at the top of the loop for the pass that
writes the last column. -/
def state_abc_nowrap : LoopState :=
  (loop_head env_abc_nowrap 1).getD (loop_state_init env_abc_nowrap)

end Sample

/-- The row of a call to the grid layer: the row handed over, or the first row
that `win_draw_end` fills. -/
def GridCall.row : GridCall → Int
  | GridCall.put c => c.row
  | GridCall.draw_end r => r

namespace Sample

/-- Line 2 starts a closed fold of three lines with the fold text "+--x", in a
window of eight columns. -/
def env_fold : Env :=
  { env (win 8) [97, 98, 99] with
      foldinfo := ⟨2, 1, 1, 3⟩, get_foldtext := [43, 45, 45, 120] }

/-- The closed fold of `env_fold` in the cursor line of a window with
'cursorline'. -/
def env_fold_cul : Env :=
  { env { win 8 with w_p_cul := true, w_cursorline := 2 } [97, 98, 99] with
      foldinfo := ⟨2, 1, 1, 3⟩, get_foldtext := [43, 45, 45, 120] }

end Sample

/-- The fold text up to its NUL. -/
def fold_text_bytes (e : Env) : List Int := e.get_foldtext.takeWhile (fun b => b ≠ 0)

/-- The cell expected at place `j` of the text part of the row of a closed
fold: byte `j` of the fold text, and after the fold text the 'fold' character
of 'fillchars'. -/
def fold_row_cell (e : Env) (j : Nat) : schar_T :=
  if j < (fold_text_bytes e).length then schar_from_ascii ((fold_text_bytes e).getD j 0)
  else if e.utf_char2len e.wp.w_p_fcs_chars.fold > 1 then
    schar_from_cc e.wp.w_p_fcs_chars.fold []
  else schar_from_ascii e.wp.w_p_fcs_chars.fold

/-- A left-to-right window without 'cursorcolumn', not of a terminal buffer;
the line starts a closed fold; no pending `$` of a change command. -/
def FoldEnv (e : Env) : Prop :=
  e.wp.w_p_rl = false ∧ e.wp.w_p_cuc = false ∧ e.wp.b_terminal = false
  ∧ e.foldinfo.fi_lines > 0 ∧ e.dollar_vcol < 0 ∧ e.number_only = false

instance (e : Env) : Decidable (FoldEnv e) := by
  unfold FoldEnv; infer_instance

/-- The loop is in the body phase of the first non-filler row of a closed fold,
and nothing of line highlighting, selection, spelling, decorations,
'colorcolumn', "precedes" of 'listchars' or skipped columns is active. -/
def FoldBody (e : Env) (s : LoopState) : Prop :=
  s.wlv.draw_state = WL_LINE ∧ s.has_fold = true ∧ s.virt_line_offset < 0
  ∧ s.wlv.row = e.startrow + s.wlv.filler_lines ∧ s.wlv.filler_todo ≤ 0
  ∧ s.wlv.boguscols = 0 ∧ s.cul_screenline = false ∧ s.area_highlighting = false
  ∧ s.has_spell = false ∧ s.n_skip = 0 ∧ s.draw_color_col = false ∧ s.has_decor = false
  ∧ s.area_attr = 0 ∧ s.wlv.line_attr = 0 ∧ s.wlv.line_attr_lowprio = 0
  ∧ s.wlv.diff_hlf = HLF_8 ∧ s.n_attr = 0 ∧ s.n_attr3 = 0 ∧ s.multi_attr = 0
  ∧ s.lcs_prec_todo = NUL

instance (e : Env) (s : LoopState) : Decidable (FoldBody e s) := by
  unfold FoldBody; infer_instance

/-- The pending run of the row of a closed fold when `k` cells of the text
part have been written: nothing is pending at the start; then the rest of the
fold text is pending, and after it the 'fold' character of 'fillchars' up to
the edge of the grid. -/
def FoldRun (e : Env) (g : LoopState) (k : Nat) : Prop :=
  g.wlv.col = g.win_col_offset + k
  ∧ ((k = 0 ∧ g.wlv.n_extra = 0)
      ∨ (0 < k ∧ g.wlv.char_attr = e.win_hl_attr HLF_FL ∧ g.wlv.c_final = NUL ∧ g.ptr = g.v
          ∧ ((k ≤ (fold_text_bytes e).length ∧ g.wlv.c_extra = NUL
                ∧ g.wlv.p_extra = ⟨PBuf.foldtext, fold_text_bytes e, k⟩
                ∧ g.wlv.n_extra = ((fold_text_bytes e).length : Int) - k)
              ∨ ((fold_text_bytes e).length < k ∧ g.wlv.c_extra = e.wp.w_p_fcs_chars.fold
                  ∧ g.wlv.n_extra = e.wp.cols - g.wlv.col))))

namespace Sample

/-- The state of `env_fold` at the top of the loop for the first pass. -/
def state_fold : LoopState := (loop_head env_fold 0).getD (loop_state_init env_fold)

/-- The state of `env_fold` after the gutter part of the first pass. -/
def state_fold_body : LoopState := (gutter_phase env_fold (iter_begin state_fold)).1

end Sample

/-- The window as `margin_columns_win` reads it in a call: its address,
`w_virtcol`, `w_width_inner`, `win_col_off(wp)` and `win_col_off2(wp)`. -/
structure MarginCall where
  wp : Nat
  w_virtcol : Int
  w_width_inner : Int
  col_off : Int
  col_off2 : Int
  deriving DecidableEq, Repr

/-- The margins computed from the window without the cache. -/
def margin_uncached (c : MarginCall) : Option (Int × Int) :=
  margin_columns c.w_virtcol c.w_width_inner c.col_off c.col_off2

/-- A sequence of calls of `margin_columns_win`, the statics being `st` before
the first one: the margins returned by the calls, or `none` when one of them
divides by zero. -/
def margin_calls : MarginStatics → List MarginCall → Option (List (Int × Int))
  | _, [] => some []
  | st, c :: cs =>
    match margin_columns_win st c.wp c.w_virtcol c.w_width_inner c.col_off c.col_off2 with
    | none => none
    | some r =>
      match margin_calls r.2 cs with
      | none => none
      | some l => some (r.1 :: l)

/-- The statics hold the margins of the window `prev_wp` as its width and
`win_col_off2` are given by `W` and `O2`. -/
def StaticsValid (W O2 : Nat → Int) (st : MarginStatics) : Prop :=
  ∀ p, st.prev_wp = some p →
    margin_columns st.saved_w_virtcol (W p) st.prev_col_off (O2 p)
      = some (st.prev_left_col, st.prev_right_col)

namespace Sample

/-- Four calls for two windows whose widths do not change: the third call
finds the values of the second one in the cache. -/
def margin_calls_fixed : List MarginCall :=
  [⟨1, 0, 80, 0, 0⟩, ⟨1, 100, 80, 0, 0⟩, ⟨1, 100, 80, 0, 0⟩, ⟨2, 100, 40, 4, 0⟩]

/-- Two calls for the same window, its width being 80 at the first call and
40 at the second, the cursor in the virtual column 0. -/
def margin_calls_resized : List MarginCall :=
  [⟨1, 0, 80, 0, 0⟩, ⟨1, 0, 40, 0, 0⟩]

end Sample

namespace Sample

/-- The line context of a line with the line attribute 7 and the low-priority
line attribute 9. -/
def wlv_cul : winlinevars_T := { wlv_init (env (win 10) [97]) with line_attr := 7,
                                                                   line_attr_lowprio := 9 }

/-- The attribute of `CursorLine` defines a foreground colour. -/
def env_cul_fg : Env := { env (win 10) [97] with syn_attr2entry := fun _ => ⟨0xff0000, 0⟩ }

/-- The attribute of `CursorLine` defines a foreground colour, and the line is
the current entry of the quickfix list. -/
def env_cul_qf : Env :=
  { env (win 10) [97] with
      syn_attr2entry := fun _ => ⟨0xff0000, 0⟩, bt_quickfix := true, qf_current_entry := 2 }

end Sample

/-- The run that a call of `get_statuscol_display_info` leaves in the line
context: the `n_extra` bytes at `p_extra`. -/
def stc_run (wlv : winlinevars_T) : List Int := wlv.p_extra.rest.take wlv.n_extra.toNat

/-- Repeated calls of `get_statuscol_display_info`, each on the result of the
one before, as long as a call leaves `draw_state` at `WL_STC - 1`: the line
context after each call.  At most `fuel` calls are made. -/
def stc_calls (e : Env) : Nat → statuscol_T → winlinevars_T → List winlinevars_T
  | 0, _, _ => []
  | fuel + 1, stcp, wlv =>
    let r := get_statuscol_display_info e stcp wlv
    if r.2.draw_state = WL_STC - 1 then r.2 :: stc_calls e fuel r.1 r.2 else [r.2]

/-- A piece of the text of the status column: where it starts, its length, its
attribute, and whether text remains after it. -/
structure StcPiece where
  start : Int
  len : Int
  attr : Int
  more : Bool
  deriving DecidableEq, Repr

/-- The piece of the text that belongs to the next call, from the offset
`textp` with the attribute `cur` and the highlight records `recs` still to
come: sections of no length that are not at the end are passed over.  With the
piece come the offset and the attribute for the call after it and the number
of records used up. -/
def stc_next_piece (e : Env) (text_end num_attr : Int) :
    Int → Int → List StlHlRec → StcPiece × Int × Int × Nat
  | textp, cur, [] => (⟨textp, text_end - textp, cur, false⟩, textp, cur, 0)
  | textp, cur, r :: rs =>
    let n := r.start.getD text_end - textp
    if textp + n < text_end then
      let cur' := if r.userhl < 0 then e.syn_id2attr (-r.userhl) else num_attr
      if n = 0 then
        let nx := stc_next_piece e text_end num_attr textp cur' rs
        (nx.1, nx.2.1, nx.2.2.1, nx.2.2.2 + 1)
      else (⟨textp, n, cur, true⟩, textp + n, cur', 1)
    else (⟨textp, n, cur, false⟩, textp, cur, 0)

/-- The pieces of the text of the status column in the order of the calls. -/
def stc_pieces (e : Env) (text_end num_attr : Int) :
    Nat → Int → Int → List StlHlRec → List StcPiece
  | 0, _, _, _ => []
  | fuel + 1, textp, cur, recs =>
    let nx := stc_next_piece e text_end num_attr textp cur recs
    if nx.1.more then
      nx.1 :: stc_pieces e text_end num_attr fuel nx.2.1 nx.2.2.1 (recs.drop nx.2.2.2)
    else [nx.1]

/-- The bytes of a piece in the text. -/
def StcPiece.bytes (p : StcPiece) (text : List Int) : List Int :=
  (bytesFrom text p.start).take p.len.toNat

/-- The starts of the highlight records are in ascending order between
`textp` and `text_end`; after a record without a start none is read. -/
def RecsAscending (text_end : Int) : Int → List StlHlRec → Prop
  | _, [] => True
  | textp, r :: rs =>
    match r.start with
    | none => True
    | some st => textp ≤ st ∧ st ≤ text_end ∧ RecsAscending text_end st rs

/-- What a call shows for a piece: the translation of its bytes by
`transstr_buf`, its attribute, and the draw state the call leaves. -/
def StcPiece.shown (e : Env) (text : List Int) (p : StcPiece) : List Int × Int × Int :=
  (if 0 < p.len then e.transstr_buf (p.bytes text) else [], p.attr,
   if p.more then WL_STC - 1 else WL_STC)

/-- What a call has left in the line context: the run, its attribute, the
draw state. -/
def stc_shown (wlv : winlinevars_T) : List Int × Int × Int :=
  (stc_run wlv, wlv.char_attr, wlv.draw_state)

/-- A status column " 12 " with a highlight group on the number. -/
def Sample.stc_number : statuscol_T :=
  { statuscol_zero with
    cur_attr := 7, num_attr := 9,
    text := [32, 49, 50, 32], textp := some 0, text_end := 4,
    hlrec := [⟨some 0, 0⟩, ⟨some 1, -5⟩, ⟨some 3, 0⟩, ⟨none, 0⟩], hlrecp := 0 }

/-- An environment where `transstr_buf` shows a control character as `^` and
a letter. -/
def Sample.env_trans : Env :=
  { Sample.env (Sample.win 10) [97] with
    transstr_buf := fun l => l.flatMap (fun b => if b < 32 then [94, b + 64] else [b]) }

/-- A status column whose text is a control character and a digit. -/
def Sample.stc_ctrl : statuscol_T :=
  { statuscol_zero with
    text := [1, 49], textp := some 0, text_end := 2, hlrec := [⟨none, 0⟩], hlrecp := 0 }

/-- The run of a TAB as prepared before the macro `FIX_FOR_BOGUSCOLS` in the
TAB block, with the length `tab_len`. -/
def tab_run (e : Env) (s : LoopState) : LoopState × Int :=
  let wp := e.wp
  let sbr := e.showbreak
  let vcol_adjusted :=
    if byteAt sbr 0 ≠ NUL ∧ s.wlv.vcol = s.wlv.vcol_sbr ∧ wp.w_p_wrap then
      s.wlv.vcol - e.mb_charlen sbr
    else s.wlv.vcol
  let tab_len0 := e.tabstop_padding vcol_adjusted wp.b_p_ts wp.b_p_vts_array - 1
  if ¬ wp.w_p_lbr ∨ ¬ wp.w_p_list then ({ s with wlv.n_extra := tab_len0 }, tab_len0)
  else tab_list_linebreak e s tab_len0

/-- The state before the macro `FIX_FOR_BOGUSCOLS` in the TAB block. -/
def tab_before_fix (e : Env) (s : LoopState) : LoopState := (tab_run e s).1

/-- The columns of `b` are those of `a`. -/
@[reducible] def same_cols (a b : LoopState) : Prop :=
  b.wlv.vcol = a.wlv.vcol ∧ b.wlv.vcol_off = a.wlv.vcol_off
  ∧ b.wlv.boguscols = a.wlv.boguscols ∧ b.wlv.col = a.wlv.col

/-- The columns and the run of `b` are those of `a`. -/
@[reducible] def same_cols_run (a b : LoopState) : Prop :=
  b.wlv.vcol = a.wlv.vcol ∧ b.wlv.vcol_off = a.wlv.vcol_off
  ∧ b.wlv.boguscols = a.wlv.boguscols ∧ b.wlv.col = a.wlv.col
  ∧ b.wlv.n_extra = a.wlv.n_extra ∧ b.old_boguscols = a.old_boguscols

/-- The test of the 'linebreak' block, "found last space before word", for the
character just taken from the buffer line, with the test `extra_check` of the
block around it. -/
def lbr_break (e : Env) (s : LoopState) : Prop :=
  s.extra_check = true ∧ e.wp.w_p_lbr = true ∧ s.c0 = s.c ∧ e.vim_isbreak s.c = true
  ∧ e.vim_isbreak (byteAt e.line s.ptr) = false

instance (e : Env) (s : LoopState) : Decidable (lbr_break e s) := by
  unfold lbr_break; infer_instance

/-- The length of the run that the 'linebreak' block sets up after a TAB,
before the columns concealed so far are added: the size that
`win_lbr_chartabsize` gives for the character less one, less the width of
'showbreak' (not below 0) in the first column after it, and the padding to the
next tab stop less one when the run would pass the width of the grid. -/
def lbr_tab_run (e : Env) (s : LoopState) : Int :=
  let n0 := e.win_lbr_chartabsize s.wlv.vcol (s.ptr - (e.utf_head_off e.line (s.ptr - 1) + 1)) - 1
  let n1 :=
    if s.wlv.vcol = s.wlv.vcol_sbr then
      (if n0 - e.mb_charlen e.showbreak < 0 then 0 else n0 - e.mb_charlen e.showbreak)
    else n0
  if n1 + s.wlv.col > e.wp.cols then
    e.tabstop_padding s.wlv.vcol e.wp.b_p_ts e.wp.b_p_vts_array - 1
  else n1

/-- The state of pass number `k` of the loop after the statement `ptr++` of the
branch that prints from buffer content, before the block `if (extra_check)`. -/
def pass_fetched (e : Env) (k : Nat) : Option LoopState :=
  (pass_area e k).map (fun s => buf_fetch e (area_block e s))

/-- The first `n` cells of the row buffer handed to the grid in a call. -/
def GridCall.cells (n : Nat) : GridCall → List schar_T
  | GridCall.put c => Sample.cells c.chars n
  | GridCall.draw_end _ => []

namespace Sample

/-- The line "a", TAB, "bcdefghijk". -/
def line_lbr_tab : List Int := [97, 9, 98, 99, 100, 101, 102, 103, 104, 105, 106, 107]

/-- The line "a<TAB>bcdefghijk" in a window of ten columns with 'tabstop' 4 and
'linebreak'.  The word after the TAB does not fit in the rest of the row, so
the size that `win_lbr_chartabsize` gives for the TAB at virtual column 1 is
the rest of the row, nine columns; every other character is one column. -/
def env_lbr_tab : Env :=
  { env { win 10 with b_p_ts := 4, w_p_lbr := true } line_lbr_tab with
    win_lbr_chartabsize := fun vcol p => if vcol = 1 ∧ p = 1 then 9 else 1 }

/-- The pass of `env_lbr_tab` that reaches the TAB, after the statement
`ptr++`. -/
def state_lbr_tab : LoopState :=
  (pass_fetched env_lbr_tab 1).getD (loop_state_init env_lbr_tab)

/-- The pass of `env_tab` that reaches the TAB, after the statement `ptr++`. -/
def state_tab_fetched : LoopState :=
  (pass_fetched env_tab 1).getD (loop_state_init env_tab)

end Sample

namespace Sample

/-- The line "ab" inside a linewise Visual selection of lines 2 to 3, with
"eol" of 'listchars' set to `$` and 'list' off. -/
def env_visual_eol : Env :=
  { env { win 10 with w_p_lcs_chars := { lcs_chars with eol := 36 } } [97, 98] with
    VIsual_active := true,
    VIsual_mode := 86,
    VIsual := ⟨2, 0, 0⟩,
    curwin_cursor := ⟨3, 0, 0⟩ }

/-- The pass of `env_visual_eol` that reaches the end of the line, at
"handling of non-printable characters". -/
def state_visual_eol : LoopState :=
  (pass_nonprint env_visual_eol 2).getD (loop_state_init env_visual_eol)

/-- The line "ab" inside a blockwise Visual selection of lines 2 to 3 that
covers the virtual columns 1 to 4, with 'virtualedit' active. -/
def env_visual_ve : Env :=
  { env { win 10 with w_old_cursor_fcol := 1, w_old_cursor_lcol := 5 } [97, 98] with
    VIsual_active := true,
    VIsual_mode := 22,
    VIsual := ⟨2, 1, 0⟩,
    curwin_cursor := ⟨3, 2, 2⟩,
    virtual_active := true }

end Sample

/-- The escape form of an illegal byte as the loop displays it: what
`transchar_hex` gives, reversed by `rl_mirror_ascii` in a right-to-left
window. -/
def illegal_run (e : Env) (b : Int) : List Int :=
  if e.wp.w_p_rl then rl_mirror_ascii (e.transchar_hex b) else e.transchar_hex b

/-- The state in which the end-of-line test of a pass is reached, from the state
`s` in which "get the next character" is reached. -/
def choose_from_area (e : Env) (s : LoopState) : LoopState :=
  eol_hl_block e (lcs_prec_block e (extra_attr_combine e (cursor_wcol e (next_char e s))))

/-- The state `t` has the attributes of the cell and of the special run, the
count of the run and the draw state of the state `s`. -/
@[reducible] def same_attrs (s t : LoopState) : Prop :=
  t.wlv.char_attr = s.wlv.char_attr ∧ t.n_attr = s.n_attr
  ∧ t.wlv.extra_attr = s.wlv.extra_attr ∧ t.wlv.draw_state = s.wlv.draw_state
  ∧ t.search_attr_from_match = s.search_attr_from_match

/-- The state of pass number `k` of the loop when "get the next character" is
reached, after the highlighting block. -/
def pass_next (e : Env) (k : Nat) : Option LoopState :=
  (pass_area e k).map (area_block e)

namespace Sample

/-- The pass of `env_illegal` that reaches the illegal byte, at "get the next
character". -/
def state_illegal_next : LoopState :=
  (pass_next env_illegal 1).getD (loop_state_init env_illegal)

/-- The line with the illegal byte in a right-to-left window of ten columns. -/
def env_illegal_rl : Env := env { win 10 with w_p_rl := true } line_illegal

end Sample

/-- The state of a pass of the loop, begun in the state `s`, after the statement
`ptr++` of the branch that prints from buffer content. -/
def iter_fetched (e : Env) (s : LoopState) : LoopState :=
  buf_fetch e (area_block e (fold_truncate e (fold_fill e (fold_text e
    (cul_screenline_apply e (gutter_phase e (iter_begin s)).1)))))

/-- The state of a pass of the loop, begun in the state `s`, in which the
end-of-line test is reached. -/
def iter_chosen (e : Env) (s : LoopState) : LoopState :=
  iter_choose_char e (cul_screenline_apply e (gutter_phase e (iter_begin s)).1)

/-- The loop is in the body phase with no pending run, not in a filler row or a
closed fold, and takes from the buffer line a printable double-width character
(of several bytes, the first one not ASCII, not a composing character or an
Arabic letter)
while the screen column is the last one of the row; the character is not
skipped, not concealed and not replaced by "precedes" or "extends" of
'listchars'; and `>` is a printable character of one cell. -/
def WideLast (e : Env) (s : LoopState) : Prop :=
  s.wlv.draw_state = WL_LINE ∧ s.wlv.n_extra = 0 ∧ s.wlv.filler_todo ≤ 0
  ∧ e.foldinfo.fi_lines ≤ 0 ∧ s.has_fold = false
  ∧ ¬ dollar_cond e s
  ∧ 1 < e.utfc_ptr2len (bytesFrom e.line s.ptr)
  ∧ 0x80 ≤ byteAt e.line s.ptr
  ∧ 0x80 ≤ (e.utfc_ptr2char (bytesFrom e.line s.ptr)).1
  ∧ e.utf_iscomposing (e.utfc_ptr2char (bytesFrom e.line s.ptr)).1 = false
  ∧ e.vim_isprintc (e.utfc_ptr2char (bytesFrom e.line s.ptr)).1 = true
  ∧ ARABIC_CHAR (e.utfc_ptr2char (bytesFrom e.line s.ptr)).1 = false
  ∧ e.utf_char2cells (e.utfc_ptr2char (bytesFrom e.line s.ptr)).1 = 2
  ∧ at_last_col e s = true
  ∧ s.n_skip = 0
  ∧ ¬ conceal_cond e (extra_check_block e (iter_fetched e s))
  ∧ ¬ lcs_prec_cond e (iter_fetched e s)
  ∧ ¬ lcs_ext_cond e (iter_chosen e s)
  ∧ e.vim_isprintc 62 = true ∧ e.utf_char2cells 62 = 1

instance (e : Env) (s : LoopState) : Decidable (WideLast e s) := by
  unfold WideLast; infer_instance

/-- The state `t` is at the place of the state `s`: the position in the line,
the column, the row, the draw state, the pending run and the cells written so
far are the same. -/
@[reducible] def same_place (s t : LoopState) : Prop :=
  t.ptr = s.ptr ∧ t.wlv.col = s.wlv.col ∧ t.wlv.off = s.wlv.off ∧ t.wlv.row = s.wlv.row
  ∧ t.wlv.draw_state = s.wlv.draw_state ∧ t.wlv.n_extra = s.wlv.n_extra
  ∧ t.wlv.filler_todo = s.wlv.filler_todo ∧ t.has_fold = s.has_fold ∧ t.n_skip = s.n_skip
  ∧ t.lcs_eol_one = s.lcs_eol_one ∧ t.linebuf_char = s.linebuf_char
  ∧ t.lcs_prec_todo = s.lcs_prec_todo ∧ t.wlv.vcol = s.wlv.vcol
  ∧ t.wlv.filler_lines = s.wlv.filler_lines
/-- The line "a中" in a window of one column without 'wrap', scrolled one
column to the right, with 'list' and "precedes" of 'listchars' set to `<`. -/
def Sample.env_wide_prec : Env :=
  Sample.env { Sample.win 1 with
          w_p_wrap := false,
          w_p_list := true,
          w_leftcol := 1,
          w_p_lcs_chars := { Sample.lcs_chars with prec := 60 } } Sample.line_wide

/-- The line "a中" in a window of two columns with 'conceallevel' 1, the
character "a" concealed by syntax. -/
def Sample.env_wide_conc : Env :=
  { Sample.env { Sample.win 2 with w_p_cole := 1 } Sample.line_wide with
    syntax_present := true,
    get_syntax_attr := fun col =>
      if col < 1 then ⟨0, true, false, false, true, 1, 0⟩
      else ⟨0, true, false, false, false, 0, 0⟩ }

/-- The loop state of `env_wide_cul` at the top of the pass that reaches the
double-width character. -/
def Sample.state_wide_cul_head : LoopState :=
  (loop_head Sample.env_wide_cul 1).getD (loop_state_init Sample.env_wide_cul)

/-- The line "abc" as line 12 of a buffer in a window of ten columns with
'number' and 'relativenumber', the cursor in line 1, the number column 4
cells wide. -/
def Sample.env_abc_nu : Env := { Sample.env_number with line := [97, 98, 99] }

/-- The loop state of `env_abc_nu` at the top of the pass that follows the
five passes for the number column. -/
def Sample.state_abc_nu : LoopState :=
  (loop_head Sample.env_abc_nu 5).getD (loop_state_init Sample.env_abc_nu)

/-- The line "abc" as line 2 of a buffer in a window of six columns with
'number' and 'wrap', the number column 3 cells wide. -/
def Sample.env_abc_nu_wrap : Env :=
  { Sample.env { Sample.win 6 with w_p_nu := true } [97, 98, 99] with number_width := 3 }

/-- The line "abc" in a right-to-left window of ten columns. -/
def Sample.env_abc_rl : Env := Sample.env { Sample.win 10 with w_p_rl := true } [97, 98, 99]

/-- The line "abc" in a window of ten columns with 'list' and "eol" of
'listchars' set to `$`. -/
def Sample.env_abc_list : Env :=
  Sample.env { Sample.win 10 with
      w_p_list := true,
      w_p_lcs_chars := { Sample.lcs_chars with eol := 36 } } [97, 98, 99]

/-- The state of `env_abc_nu` after the gutter part of the pass that follows
the five passes for the number column. -/
def Sample.gutter_abc_nu : LoopState :=
  (gutter_phase Sample.env_abc_nu (iter_begin Sample.state_abc_nu)).1

/-- The closed fold of `env_fold` in a window whose cursor is in another line,
at the virtual column 2, with 'cursorcolumn'. -/
def Sample.env_fold_cuc : Env :=
  { Sample.env { Sample.win 8 with w_p_cuc := true, w_virtcol := 2, w_cursor_lnum := 5 }
      [97, 98, 99] with
      foldinfo := ⟨2, 1, 1, 3⟩, get_foldtext := [43, 45, 45, 120] }

/-- The closed fold of `env_fold` in a window with 'colorcolumn' 4. -/
def Sample.env_fold_cc : Env :=
  { Sample.env { Sample.win 8 with w_p_cc_cols := some [3, -1] } [97, 98, 99] with
      foldinfo := ⟨2, 1, 1, 3⟩, get_foldtext := [43, 45, 45, 120] }

/-- The closed fold of `env_fold` in a window without 'wrap', scrolled one
column to the right, with 'list' and "precedes" of 'listchars' set to `<`. -/
def Sample.env_fold_prec : Env :=
  { Sample.env { Sample.win 8 with
        w_p_wrap := false, w_p_list := true, w_leftcol := 1,
        w_p_lcs_chars := { Sample.lcs_chars with prec := 60 } } [97, 98, 99] with
      foldinfo := ⟨2, 1, 1, 3⟩, get_foldtext := [43, 45, 45, 120] }

/-- The closed fold of `env_fold` in a window with 'number', the number column
3 cells wide. -/
def Sample.env_fold_nu : Env :=
  { Sample.env { Sample.win 8 with w_p_nu := true } [97, 98, 99] with
      foldinfo := ⟨2, 1, 1, 3⟩, get_foldtext := [43, 45, 45, 120], number_width := 3 }

/-- The loop state of `env_fold_nu` at the top of the pass that follows the
four passes for the number column. -/
def Sample.state_fold_nu : LoopState :=
  (loop_head Sample.env_fold_nu 4).getD (loop_state_init Sample.env_fold_nu)

/-- The state of `env_fold_nu` after the gutter part of the pass that follows
the four passes for the number column. -/
def Sample.gutter_fold_nu : LoopState :=
  (gutter_phase Sample.env_fold_nu (iter_begin Sample.state_fold_nu)).1

/-- The cells and attributes of the rows that `win_line` hands to the grid,
`n` of each row, latest row first. -/
def Sample.rows (e : Env) (fuel n : Nat) : Option (Int × List (List (schar_T × Int))) :=
  (win_line e fuel).map (fun r =>
    (r.1, r.2.map (fun g =>
      match g with
      | GridCall.put c => (List.range n).map (fun i => (c.chars i, c.attrs i))
      | _ => [])))

/-- The line "a中bc" inside a blockwise Visual selection of the virtual columns
2 and 3: the left edge of the block is in the middle of the double-width
character. -/
def Sample.env_visual_wide : Env :=
  { Sample.env { Sample.win 10 with w_old_cursor_fcol := 2, w_old_cursor_lcol := 4 }
      [97, 0xE4, 0xB8, 0xAD, 98, 99] with
    VIsual_active := true, VIsual_mode := 22, VIsual := ⟨1, 2, 0⟩, curwin_cursor := ⟨3, 3, 0⟩ }

/-- The line "abcde" with characterwise Visual mode from column 1 to column 3
of this line, in a window of ten columns with 'number', the number column 3
cells wide. -/
def Sample.env_visual_nu : Env :=
  { Sample.env { Sample.win 10 with
        w_cursor_lnum := 2, w_cursor_col := 3, w_virtcol := 3, w_p_nu := true }
      [97, 98, 99, 100, 101] with
    VIsual_active := true,
    VIsual_mode := 118,
    VIsual := ⟨2, 1, 0⟩,
    curwin_cursor := ⟨2, 3, 0⟩,
    number_width := 3 }

/-- The loop state of `env_visual_nu` at the top of the pass that follows the
four passes for the number column. -/
def Sample.state_visual_nu : LoopState :=
  (loop_head Sample.env_visual_nu 4).getD (loop_state_init Sample.env_visual_nu)

/-- The state of `env_visual_nu` after the gutter part of the pass that follows
the four passes for the number column. -/
def Sample.gutter_visual_nu : LoopState :=
  (gutter_phase Sample.env_visual_nu (iter_begin Sample.state_visual_nu)).1

end Drawline

namespace Fileio

/-! # Definitions of `fileio.c`

Strings are lists of bytes without the terminating NUL; encoding names are
Lean strings.  A machine `int` is an `Int`, an `unsigned` a `Nat`; the bits of
an `int` are those of its value modulo `2^32`. -/

/-- The `FIO_` flags. -/
def FIO_LATIN1 : Int := 0x01
def FIO_UTF8 : Int := 0x02
def FIO_UCS2 : Int := 0x04
def FIO_UCS4 : Int := 0x08
def FIO_UTF16 : Int := 0x10
def FIO_ENDIAN_L : Int := 0x80
def FIO_NOCONVERT : Int := 0x2000
def FIO_UCSBOM : Int := 0x4000
def FIO_ALL : Int := -1

/-- The bits of an `int`. -/
def int_bits (a : Int) : Nat := (a % 2 ^ 32).toNat

/-- The test `a & b` of two `int`s: whether a bit is set in both. -/
def band (a b : Int) : Bool := int_bits a &&& int_bits b ≠ 0

/-- The conversion `(uint8_t)c`. -/
def u8 (c : Nat) : Nat := c % 256

/-- Convert a Unicode character to bytes: the bytes stored at `*pp` (which
advances by their number) and the value returned, true for an error. -/
def ucs2bytes (c : Nat) (flags : Int) : List Nat × Bool :=
  if band flags FIO_UCS4 then
    if band flags FIO_ENDIAN_L then
      ([u8 c, u8 (c >>> 8), u8 (c >>> 16), u8 (c >>> 24)], false)
    else
      ([u8 (c >>> 24), u8 (c >>> 16), u8 (c >>> 8), u8 c], false)
  else if band flags (Int.lor FIO_UCS2 FIO_UTF16) then
    let r : List Nat × Nat × Bool :=
      if c ≥ 0x10000 then
        if band flags FIO_UTF16 then
          -- make two words, ten bits of the character in each: the first
          -- word is 0xd800 - 0xdbff, the second one 0xdc00 - 0xdfff
          let c := c - 0x10000
          let error := decide (c ≥ 0x100000)
          let cc := ((c >>> 10) &&& 0x3ff) + 0xd800
          (if band flags FIO_ENDIAN_L then [u8 cc, u8 (cc >>> 8)] else [u8 (cc >>> 8), u8 cc],
           (c &&& 0x3ff) + 0xdc00, error)
        else ([], c, true)
      else ([], c, false)
    (r.1 ++ (if band flags FIO_ENDIAN_L then [u8 r.2.1, u8 (r.2.1 >>> 8)]
             else [u8 (r.2.1 >>> 8), u8 r.2.1]),
     r.2.2)
  else  -- Latin1
    if c ≥ 0x100 then ([0xBF], true) else ([u8 c], false)

/-- What `get_fio_flags` reads of the value of `enc_canon_props`: the bits
`ENC_UNICODE`, `ENC_2BYTE`, `ENC_4BYTE`, `ENC_2WORD`, `ENC_ENDIAN_L` and
`ENC_LATIN1`. -/
structure EncProps where
  unicode : Bool
  two_byte : Bool
  four_byte : Bool
  two_word : Bool
  endian_l : Bool
  latin1 : Bool
  deriving DecidableEq, Repr

/-- What the functions for the encodings read of the rest of the program: the
function `enc_canon_props` of `mbyte.c` and the option 'encoding'. -/
structure EncEnv where
  enc_canon_props : String → EncProps
  p_enc : String

/-- Return the FIO_ flags needed for the internal conversion if `name` was
unicode or latin1, otherwise 0.  If `name` is an empty string, use 'encoding'. -/
def get_fio_flags (E : EncEnv) (name : String) : Int :=
  let name := if name = "" then E.p_enc else name
  let prop := E.enc_canon_props name
  if prop.unicode then
    if prop.two_byte then
      if prop.endian_l then Int.lor FIO_UCS2 FIO_ENDIAN_L else FIO_UCS2
    else if prop.four_byte then
      if prop.endian_l then Int.lor FIO_UCS4 FIO_ENDIAN_L else FIO_UCS4
    else if prop.two_word then
      if prop.endian_l then Int.lor FIO_UTF16 FIO_ENDIAN_L else FIO_UTF16
    else FIO_UTF8
  else if prop.latin1 then FIO_LATIN1
  else 0  -- must be ENC_DBCS, requires iconv()

/-- Check for a Unicode BOM (Byte Order Mark) at the start of `p[size]`;
`size` must be at least 2.  The name of the encoding (`none` for `NULL` when no
BOM was found) and the length stored in `*lenp`. -/
def check_for_bom (p : List Nat) (size : Int) (flags : Int) : Option String × Int :=
  let b (i : Nat) : Nat := p.getD i 0
  if b 0 = 0xef ∧ b 1 = 0xbb ∧ size ≥ 3 ∧ b 2 = 0xbf
      ∧ (flags = FIO_ALL ∨ flags = FIO_UTF8 ∨ flags = 0) then
    (some "utf-8", 3)               -- EF BB BF
  else if b 0 = 0xff ∧ b 1 = 0xfe then
    if size ≥ 4 ∧ b 2 = 0 ∧ b 3 = 0
        ∧ (flags = FIO_ALL ∨ flags = Int.lor FIO_UCS4 FIO_ENDIAN_L) then
      (some "ucs-4le", 4)           -- FF FE 00 00
    else if flags = Int.lor FIO_UCS2 FIO_ENDIAN_L then
      (some "ucs-2le", 2)           -- FF FE
    else if flags = FIO_ALL ∨ flags = Int.lor FIO_UTF16 FIO_ENDIAN_L then
      -- utf-16le is preferred, it also works for ucs-2le text
      (some "utf-16le", 2)          -- FF FE
    else (none, 2)
  else if b 0 = 0xfe ∧ b 1 = 0xff
      ∧ (flags = FIO_ALL ∨ flags = FIO_UCS2 ∨ flags = FIO_UTF16) then
    -- default to utf-16, it works also for ucs-2 text
    if flags = FIO_UCS2 then (some "ucs-2", 2)   -- FE FF
    else (some "utf-16", 2)                       -- FE FF
  else if size ≥ 4 ∧ b 0 = 0 ∧ b 1 = 0 ∧ b 2 = 0xfe ∧ b 3 = 0xff
      ∧ (flags = FIO_ALL ∨ flags = FIO_UCS4) then
    (some "ucs-4", 4)               -- 00 00 FE FF
  else (none, 2)

/-- Generate a BOM in `buf[4]` for encoding `name`: the bytes stored in `buf`
and the length of the BOM returned (zero when no BOM). -/
def make_bom (E : EncEnv) (name : String) : List Nat × Int :=
  let flags := get_fio_flags E name
  -- can't put a BOM in a non-Unicode file
  if flags = FIO_LATIN1 ∨ flags = 0 then ([], 0)
  else if flags = FIO_UTF8 then ([0xef, 0xbb, 0xbf], 3)
  else
    let r := ucs2bytes 0xfeff flags
    (r.1, (r.1.length : Int))

/-- The properties of the names of the Unicode encodings with a BOM as
`get_fio_flags` reads them. -/
def CanonProps (E : EncEnv) : Prop :=
  E.enc_canon_props "utf-8" = ⟨true, false, false, false, false, false⟩
  ∧ E.enc_canon_props "ucs-2" = ⟨true, true, false, false, false, false⟩
  ∧ E.enc_canon_props "ucs-2le" = ⟨true, true, false, false, true, false⟩
  ∧ E.enc_canon_props "ucs-4" = ⟨true, false, true, false, false, false⟩
  ∧ E.enc_canon_props "ucs-4le" = ⟨true, false, true, false, true, false⟩
  ∧ E.enc_canon_props "utf-16" = ⟨true, false, false, true, false, false⟩
  ∧ E.enc_canon_props "utf-16le" = ⟨true, false, false, true, true, false⟩

namespace Sample

/-- The properties of some encoding names; every other name is taken to be
one of a double-byte encoding. -/
def enc_canon_props (name : String) : EncProps :=
  if name = "utf-8" then ⟨true, false, false, false, false, false⟩
  else if name = "ucs-2" then ⟨true, true, false, false, false, false⟩
  else if name = "ucs-2le" then ⟨true, true, false, false, true, false⟩
  else if name = "ucs-4" then ⟨true, false, true, false, false, false⟩
  else if name = "ucs-4le" then ⟨true, false, true, false, true, false⟩
  else if name = "utf-16" then ⟨true, false, false, true, false, false⟩
  else if name = "utf-16le" then ⟨true, false, false, true, true, false⟩
  else if name = "latin1" then ⟨false, false, false, false, false, true⟩
  else ⟨false, false, false, false, false, false⟩

/-- The encodings with 'encoding' set to "utf-8". -/
def enc_env : EncEnv := ⟨enc_canon_props, "utf-8"⟩

end Sample

/-! ## `file_pat_to_reg_pat`

The pattern is read from the memory at `pat`: `mem` holds the bytes from `pat`
up to the terminating NUL, and a read at or after the end of `mem` gives NUL.
`pat_end` is an offset from `pat`, or `none` for a NULL pointer.  The bytes
stored through `reg_pat[i++]` are collected in the order they are stored, so
`i` is the length of what has been written. -/

/-- The byte at the offset `i` from `pat`. -/
def byteAt (mem : List Nat) (i : Nat) : Nat := mem.getD i 0

/-- What `file_pat_to_reg_pat` takes from the build and from other files. -/
structure PatEnv where
  BACKSLASH_IN_FILENAME : Bool
  vim_isfilec : Nat → Bool
  vim_ispathsep : Nat → Bool
  ascii_isspace : Nat → Bool

/-- What the first loop adds to `size` for the byte `c`. -/
def pat_size_of (E : PatEnv) (c : Nat) : Nat :=
  if c = 42 ∨ c = 46 ∨ c = 44 ∨ c = 123 ∨ c = 125 ∨ c = 126 then 2  -- extra backslash
  else if E.BACKSLASH_IN_FILENAME ∧ (c = 92 ∨ c = 47) then 4  -- could become "[\/]"
  else 1

/-- The first loop: `size` for the bytes from `pat` to `pat_end`. -/
def pat_size (E : PatEnv) (mem : List Nat) (pat_end : Nat) : Nat :=
  2 + ((List.range pat_end).map (fun p => pat_size_of E (byteAt mem p))).sum

/-- The variables of the second loop: the offset `p`, the bytes written to
`reg_pat`, `nested`, and `*allow_dirs`. -/
structure PatState where
  p : Nat
  reg_pat : List Nat
  nested : Int
  allow_dirs : Bool
  deriving DecidableEq, Repr

/-- The body of the second loop with the `p++` that follows it.
`has_allow_dirs` tells that `allow_dirs` is not NULL. -/
def pat_body (E : PatEnv) (mem : List Nat) (no_bslash has_allow_dirs : Bool) (s : PatState) :
    PatState :=
  let c := byteAt mem s.p
  if c = 42 then
    -- "**" matches like "*"
    let n := ((mem.drop (s.p + 1)).takeWhile (fun b => b = 42)).length
    { s with reg_pat := s.reg_pat ++ [46, 42], p := s.p + n + 1 }
  else if c = 46 ∨ c = 126 then
    { s with reg_pat := s.reg_pat ++ [92, c], p := s.p + 1 }
  else if c = 63 then
    { s with reg_pat := s.reg_pat ++ [46], p := s.p + 1 }
  else if c = 92 then
    if byteAt mem (s.p + 1) = 0 then { s with p := s.p + 1 }
    else if E.BACKSLASH_IN_FILENAME ∧ ¬ no_bslash
        ∧ ((E.vim_isfilec (byteAt mem (s.p + 1)) ∨ byteAt mem (s.p + 1) = 42
            ∨ byteAt mem (s.p + 1) = 63) ∧ byteAt mem (s.p + 1) ≠ 43) then
      { s with reg_pat := s.reg_pat ++ [91, 92, 47, 93],
               allow_dirs := if has_allow_dirs then true else s.allow_dirs,
               p := s.p + 1 }
    else
      -- Undo escaping from ExpandEscape()
      let p := s.p + 1
      let c := byteAt mem p
      if c = 63 ∧ (¬ E.BACKSLASH_IN_FILENAME ∨ no_bslash) then
        { s with reg_pat := s.reg_pat ++ [63], p := p + 1 }
      else if c = 44 ∨ c = 37 ∨ c = 35 ∨ E.ascii_isspace c ∨ c = 123 ∨ c = 125 then
        { s with reg_pat := s.reg_pat ++ [c], p := p + 1 }
      else if c = 92 ∧ byteAt mem (p + 1) = 92 ∧ byteAt mem (p + 2) = 123 then
        { s with reg_pat := s.reg_pat ++ [92, 123], p := p + 2 + 1 }
      else
        { s with
          allow_dirs :=
            if has_allow_dirs ∧ E.vim_ispathsep c
                ∧ (¬ E.BACKSLASH_IN_FILENAME ∨ (¬ no_bslash ∨ c ≠ 92)) then true
            else s.allow_dirs,
          reg_pat := s.reg_pat ++ [92, c], p := p + 1 }
  else if E.BACKSLASH_IN_FILENAME ∧ c = 47 then
    { s with reg_pat := s.reg_pat ++ [91, 92, 47, 93],
             allow_dirs := if has_allow_dirs then true else s.allow_dirs,
             p := s.p + 1 }
  else if c = 123 then
    { s with reg_pat := s.reg_pat ++ [92, 40], nested := s.nested + 1, p := s.p + 1 }
  else if c = 125 then
    { s with reg_pat := s.reg_pat ++ [92, 41], nested := s.nested - 1, p := s.p + 1 }
  else if c = 44 then
    if s.nested ≠ 0 then { s with reg_pat := s.reg_pat ++ [92, 124], p := s.p + 1 }
    else { s with reg_pat := s.reg_pat ++ [44], p := s.p + 1 }
  else
    { s with
      allow_dirs := if has_allow_dirs ∧ E.vim_ispathsep c then true else s.allow_dirs,
      reg_pat := s.reg_pat ++ [c], p := s.p + 1 }

/-- The second loop, `for (p = pat; *p && nested >= 0 && p <= endp; p++)`; the
first argument bounds the number of iterations, `none` when it is used up. -/
def pat_loop (E : PatEnv) (mem : List Nat) (no_bslash has_allow_dirs : Bool) (endp : Nat) :
    Nat → PatState → Option PatState
  | 0, _ => none
  | fuel + 1, s =>
    if byteAt mem s.p ≠ 0 ∧ s.nested ≥ 0 ∧ s.p ≤ endp then
      pat_loop E mem no_bslash has_allow_dirs endp fuel (pat_body E mem no_bslash has_allow_dirs s)
    else some s

/-- The loop `while (endp - pat > 0 && *endp == '*') endp--`. -/
def pat_trim (mem : List Nat) (pat : Nat) : Nat → Nat
  | 0 => 0
  | endp + 1 => if endp + 1 - pat > 0 ∧ byteAt mem (endp + 1) = 42 then pat_trim mem pat endp
                else endp + 1

/-- What a call of `file_pat_to_reg_pat` leaves: the value returned (`none`
for NULL), `*allow_dirs`, the number of the error message given, the size
given to `xmalloc`, and the number of bytes stored in the result, the
terminating NUL included. -/
structure PatResult where
  reg_pat : Option (List Nat)
  allow_dirs : Bool
  emsg : Option Nat
  allocated : Nat
  written : Nat
  deriving DecidableEq, Repr

/-- The part of `file_pat_to_reg_pat` after `pat_end` has been set, with
`pat_end` as an offset from `pat`. -/
def reg_pat_to (E : PatEnv) (mem : List Nat) (pat_end : Nat) (has_allow_dirs no_bslash : Bool) :
    Option PatResult :=
  if pat_end = 0 then some ⟨some [94, 36], false, none, 3, 3⟩  -- xstrdup("^$")
  else
    let size := pat_size E mem pat_end
    -- skip the stars at the start, all but the last one
    let pat := if byteAt mem 0 = 42 then
        ((mem.take (pat_end - 1)).takeWhile (fun b => b = 42)).length
      else 0
    let reg_pat : List Nat := if byteAt mem 0 = 42 then [] else [94]
    let endp := pat_end - 1
    let trim := decide (endp ≥ pat ∧ byteAt mem endp = 42)
    let endp := if trim then pat_trim mem pat endp else endp
    let add_dollar := !trim
    match pat_loop E mem no_bslash has_allow_dirs endp (mem.length + 1)
        ⟨pat, reg_pat, 0, false⟩ with
    | none => none
    | some s =>
      let reg_pat := if add_dollar then s.reg_pat ++ [36] else s.reg_pat
      some ⟨if s.nested ≠ 0 then none else some reg_pat, s.allow_dirs,
            -- "E219: Missing {." or "E220: Missing }."
            if s.nested ≠ 0 then (if s.nested < 0 then some 219 else some 220) else none,
            size + 1, reg_pat.length + 1⟩

/-- The pointer `pat_end` as an offset from `pat`, after
`if (pat_end == NULL) pat_end = pat + strlen(pat)`. -/
def pat_end_of (mem : List Nat) (pat_end : Option Nat) : Nat :=
  match pat_end with
  | none => (mem.takeWhile (fun b => b ≠ 0)).length
  | some n => n

/-- Convert the pattern at `pat`, which has shell style wildcards in it, into
a regular expression.  `none` when the second loop has not come to its end. -/
def file_pat_to_reg_pat (E : PatEnv) (mem : List Nat) (pat_end : Option Nat)
    (has_allow_dirs no_bslash : Bool) : Option PatResult :=
  reg_pat_to E mem (pat_end_of mem pat_end) has_allow_dirs no_bslash

/-- The bytes of the pattern, from `pat` to `pat_end`. -/
def pattern_of (mem : List Nat) (pat_end : Option Nat) : List Nat :=
  mem.take (pat_end_of mem pat_end)

/-- Whether a backslash before the byte `next` is taken as a path separator
and not as an escape. -/
def pat_sep (E : PatEnv) (no_bslash : Bool) (next : Nat) : Bool :=
  E.BACKSLASH_IN_FILENAME && !no_bslash
    && ((E.vim_isfilec next || next == 42 || next == 63) && next != 43)

/-- The unescaped braces of a pattern, in their order: a backslash that is
not taken as a path separator escapes the byte after it.  The first argument
tells that the byte at the head is escaped. -/
def unescaped_braces (E : PatEnv) (no_bslash : Bool) : Bool → List Nat → List Nat
  | _, [] => []
  | true, _ :: rest => unescaped_braces E no_bslash false rest
  | false, c :: rest =>
    if c = 92 then unescaped_braces E no_bslash (!(pat_sep E no_bslash (rest.headD 0))) rest
    else if c = 123 ∨ c = 125 then c :: unescaped_braces E no_bslash false rest
    else unescaped_braces E no_bslash false rest

/-- The number of braces left open after a list of braces, from the number
`d` of open ones; `none` when a `}` comes without an open `{`. -/
def braces_depth : Int → List Nat → Option Int
  | d, [] => some d
  | d, c :: rest =>
    if c = 123 then braces_depth (d + 1) rest
    else if d ≤ 0 then none
    else braces_depth (d - 1) rest

/-- What the first loop has added to `size` for the bytes from the offset `p`
to `pat_end`. -/
def pat_rest (E : PatEnv) (mem : List Nat) (pat_end p : Nat) : Nat :=
  (((List.range pat_end).drop p).map (fun k => pat_size_of E (byteAt mem k))).sum

/-- Whether the byte after the pattern is one that the second loop stores as
a single byte when it follows a backslash, or is the NUL. -/
def pat_end_single (E : PatEnv) (c : Nat) : Prop :=
  c = 0 ∨ c = 63 ∨ c = 44 ∨ c = 37 ∨ c = 35 ∨ E.ascii_isspace c = true ∨ c = 123 ∨ c = 125

namespace Sample

/-- A build without `BACKSLASH_IN_FILENAME`, with `/` as the path separator. -/
def pat_env : PatEnv :=
  { BACKSLASH_IN_FILENAME := false,
    vim_isfilec := fun c => decide (c ≠ 0 ∧ c ≠ 32 ∧ c ≠ 42 ∧ c ≠ 63),
    vim_ispathsep := fun c => decide (c = 47),
    ascii_isspace := fun c => decide ((9 ≤ c ∧ c ≤ 13) ∨ c = 32) }

/-- A build with `BACKSLASH_IN_FILENAME`, with `/` and `\` as path
separators. -/
def pat_env_bslash : PatEnv :=
  { pat_env with BACKSLASH_IN_FILENAME := true,
                 vim_ispathsep := fun c => decide (c = 47 ∨ c = 92 ∨ c = 58) }

end Sample

/-! ## `modname`

Allocated memory is a list of bytes, `none` for a byte that has not been
written.  A pointer into it is an offset. -/

/-- The memory that `xmalloc(n)` returns. -/
def xmalloc (n : Nat) : List (Option Nat) := List.replicate n none

/-- The read `b[i]` (a byte that has not been written reads as NUL). -/
def buf_byte (b : List (Option Nat)) (i : Nat) : Nat := (b.getD i none).getD 0

/-- The store `b[i] = v`. -/
def buf_poke (b : List (Option Nat)) (i v : Nat) : List (Option Nat) := b.set i (some v)

/-- The store of the bytes `vs` at the offset `i`. -/
def buf_store : List (Option Nat) → Nat → List Nat → List (Option Nat)
  | b, _, [] => b
  | b, i, v :: vs => buf_store (buf_poke b i v) (i + 1) vs

/-- The string that memory holds: the bytes before the first NUL; `none` when
a byte that has not been written, or the end of the memory, comes first. -/
def cstr : List (Option Nat) → Option (List Nat)
  | [] => none
  | none :: _ => none
  | some c :: rest => if c = 0 then some [] else (cstr rest).map (fun l => c :: l)

/-- The string at the offset `i`. -/
def cstr_at (b : List (Option Nat)) (i : Nat) : Option (List Nat) := cstr (b.drop i)

/-- Memory `b` holds the string `c`: its bytes, none of them NUL, and then a
NUL. -/
def Holds (b : List (Option Nat)) (c : List Nat) : Prop :=
  (∀ x ∈ c, x ≠ 0) ∧ (∀ i, i < c.length → b.getD i none = some (c.getD i 0))
    ∧ b.getD c.length none = some 0

/-- What `modname` takes from other files: `utf_head_off` and `path_tail` are
given the string and work with offsets into it, `os_dirname` is the name of
the current directory, or `none` when it fails. -/
structure ModEnv where
  BASENAMELEN : Nat
  MAXPATHL : Nat
  vim_ispathsep : Nat → Bool
  utf_head_off : List Nat → Nat → Nat
  path_tail : List Nat → Nat
  os_dirname : Option (List Nat)
  add_pathsep : List Nat → List Nat

/-- The loop of `modname` that searches backwards for a path separator, from
the offset `ptr`: the offset after the separator, or 0.  The first argument
bounds the number of iterations, `none` when it is used up. -/
def modname_tail (E : ModEnv) (retval : List (Option Nat)) (str : List Nat) :
    Nat → Nat → Option Nat
  | 0, _ => none
  | fuel + 1, ptr =>
    if ptr > 0 then
      if E.vim_ispathsep (buf_byte retval ptr) then some (ptr + 1)
      else
        -- MB_PTR_BACK(retval, ptr)
        modname_tail E retval str fuel (ptr - (E.utf_head_off str (ptr - 1) + 1))
    else some ptr

/-- The loop `while (--s >= ptr)` of `modname` that replaces a byte by `_`,
and the store of `v` that follows it when no byte has been replaced. -/
def modname_differ (retval : List (Option Nat)) (ptr : Nat) : Nat → List (Option Nat)
  | 0 => buf_poke retval ptr 118
  | s + 1 =>
    if s ≥ ptr then
      if buf_byte retval s ≠ 95 then buf_poke retval s 95
      else modname_differ retval ptr s
    else buf_poke retval ptr 118  -- fname was "________.<ext>", how tricky!

/-- The part of `modname` after `retval` has been allocated and filled with
the name. -/
def modname_rest (E : ModEnv) (fname : Option (List Nat)) (ext : List Nat)
    (retval : List (Option Nat)) (fnamelen : Nat) (prepend_dot : Bool) :
    Option (Option (List (Option Nat))) :=
  (cstr_at retval 0).bind fun str =>
  -- search backwards until we hit a '/', '\' or ':'
  (modname_tail E retval str (fnamelen + 1) fnamelen).bind fun ptr =>
  (cstr_at retval ptr).bind fun base =>
  -- the file name has at most BASENAMELEN characters
  let retval := if base.length > E.BASENAMELEN then buf_poke retval (ptr + E.BASENAMELEN) 0
    else retval
  (cstr_at retval ptr).bind fun base =>
  let s := ptr + base.length
  -- append the extension
  let retval := buf_store retval s (ext ++ [0])
  -- prepend the dot if needed
  (if prepend_dot then
      (cstr_at retval 0).bind fun str =>
      let e := E.path_tail str
      if buf_byte retval e ≠ 46 then
        (cstr_at retval e).bind fun tail =>
        some (buf_poke (buf_store retval (e + 1) (tail ++ [0])) e 46)
      else some retval
    else some retval).bind fun retval =>
  -- check that, after appending the extension, the file name is really different
  (cstr_at retval 0).bind fun str =>
  if fname ≠ none ∧ fname = some str then some (some (modname_differ retval ptr s))
  else some (some retval)

/-- Make a new file name from `fname` and `ext`.  The value is `some none` for
NULL and `some (some retval)` for the allocated memory returned; it is `none`
when the search loop does not come to its end or a string is read where
memory holds none. -/
def modname (E : ModEnv) (fname : Option (List Nat)) (ext : List Nat) (prepend_dot : Bool) :
    Option (Option (List (Option Nat))) :=
  let extlen := ext.length
  if fname = none ∨ fname = some [] then
    -- the name of the current directory
    match E.os_dirname with
    | none => some none
    | some dir =>
      if dir.length = 0 then some none
      else
        modname_rest E fname ext
          (buf_store (xmalloc (E.MAXPATHL + extlen + 3)) 0 (E.add_pathsep dir ++ [0]))
          (E.add_pathsep dir).length
          false  -- nothing to prepend a dot to
  else
    modname_rest E fname ext
      (buf_store (xmalloc ((fname.getD []).length + extlen + 3)) 0 (fname.getD [] ++ [0]))
      (fname.getD []).length prepend_dot

/-- The offset that the search loop of `modname` finds in the name `fname`. -/
def modname_ptr (E : ModEnv) (fname : List Nat) : Nat :=
  (modname_tail E (buf_store (xmalloc (fname.length + 3)) 0 (fname ++ [0])) fname
    (fname.length + 1) fname.length).getD 0

/-- The offset in `fname` where `modname` puts the extension. -/
def modname_end (E : ModEnv) (fname : List Nat) : Nat :=
  min (modname_ptr E fname + E.BASENAMELEN) fname.length

namespace Sample

/-- File names of ASCII bytes with `/` as the path separator. -/
def mod_env : ModEnv :=
  { BASENAMELEN := 250,
    MAXPATHL := 4096,
    vim_ispathsep := fun c => decide (c = 47),
    utf_head_off := fun _ _ => 0,
    path_tail := fun l => l.length - (l.reverse.takeWhile (fun b => b ≠ 47)).length,
    os_dirname := some [47, 116, 109, 112],
    add_pathsep := fun d => if d.getLast? = some 47 then d else d ++ [47] }

/-- The same with base names of at most 8 bytes. -/
def mod_env_short : ModEnv := { mod_env with BASENAMELEN := 8 }

end Sample

end Fileio

/-! # Theorems -/

namespace Drawline

open hlf_T

theorem apply_cursorline_highlight_shape (e : Env) (w : winlinevars_T) :
    apply_cursorline_highlight e w
      = { w with
            cul_attr := (apply_cursorline_highlight e w).cul_attr,
            line_attr := (apply_cursorline_highlight e w).line_attr,
            line_attr_lowprio := (apply_cursorline_highlight e w).line_attr_lowprio } := by
  unfold apply_cursorline_highlight
  dsimp only
  split
  · rfl
  · split <;> rfl

theorem cul_screenline_apply_shape (e : Env) (s : LoopState) :
    cul_screenline_apply e s
      = { s with
            wlv.cul_attr := (cul_screenline_apply e s).wlv.cul_attr,
            wlv.line_attr := (cul_screenline_apply e s).wlv.line_attr,
            wlv.line_attr_lowprio := (cul_screenline_apply e s).wlv.line_attr_lowprio } := by
  unfold cul_screenline_apply
  split
  · rw [apply_cursorline_highlight_shape]
  · rfl

theorem cursor_wcol_shape (e : Env) (s : LoopState) :
    cursor_wcol e s
      = { s with
            w_wcol := (cursor_wcol e s).w_wcol,
            w_wrow := (cursor_wcol e s).w_wrow,
            did_wcol := (cursor_wcol e s).did_wcol } := by
  unfold cursor_wcol
  split <;> rfl

theorem extra_attr_combine_shape (e : Env) (s : LoopState) :
    extra_attr_combine e s
      = { s with wlv.char_attr := (extra_attr_combine e s).wlv.char_attr } := by
  unfold extra_attr_combine
  split <;> rfl

theorem color_col_advance_shape (s : LoopState) :
    color_col_advance s
      = { s with
            color_cols := (color_col_advance s).color_cols,
            draw_color_col := (color_col_advance s).draw_color_col } := by
  unfold color_col_advance
  split <;> rfl

theorem cursorcolumn_attr_shape (e : Env) (s : LoopState) :
    cursorcolumn_attr e s
      = { s with
            vcol_save_attr := (cursorcolumn_attr e s).vcol_save_attr,
            wlv.char_attr := (cursorcolumn_attr e s).wlv.char_attr } := by
  unfold cursorcolumn_attr
  dsimp only
  split
  · split
    · rfl
    · split <;> rfl
  · rfl

theorem lowprio_attr_shape (e : Env) (s : LoopState) :
    lowprio_attr e s = { s with wlv.char_attr := (lowprio_attr e s).wlv.char_attr } := by
  unfold lowprio_attr
  split <;> rfl

theorem after_put_shape (s : LoopState) :
    ∃ a b c d, after_put s
      = { s with wlv.vcol := a, wlv.char_attr := b, n_attr3 := c, n_attr := d } := by
  unfold after_put
  lift_lets
  repeat (first
    | (intro t
       have ht : ∃ a b c d, (t : LoopState)
           = { s with wlv.vcol := a, wlv.char_attr := b, n_attr3 := c, n_attr := d } := by
         simp only [t]
         repeat' split
         all_goals exact ⟨_, _, _, _, rfl⟩
       clear_value t
       obtain ⟨_, _, _, _, rfl⟩ := ht)
    | intro t)
  repeat' split
  all_goals exact ⟨_, _, _, _, rfl⟩

theorem after_put_shape2 (s : LoopState) :
    after_put s
      = { s with
            wlv.vcol := (after_put s).wlv.vcol,
            wlv.char_attr := (after_put s).wlv.char_attr,
            n_attr3 := (after_put s).n_attr3,
            n_attr := (after_put s).n_attr } := by
  obtain ⟨a, b, c, d, h⟩ := after_put_shape s
  rw [h]

theorem gutter_phase_line (e : Env) (s : LoopState) (h : s.wlv.draw_state = WL_LINE) :
    gutter_phase e s = (s, false) := by
  simp [gutter_phase, h]

theorem store_char_narrow (e : Env) (t : LoopState) (hw : ¬ e.utf_char2cells t.mb_c > 1) :
    store_char e t
      = { t with
            linebuf_char := bufSet t.linebuf_char t.wlv.off
              (if t.mb_utf8 then schar_from_cc t.mb_c t.u8cc else schar_from_ascii t.c),
            linebuf_attr := bufSet t.linebuf_attr t.wlv.off
              (if t.multi_attr ≠ 0 then t.multi_attr else t.wlv.char_attr),
            multi_attr := 0,
            wlv.off := if e.wp.w_p_rl then t.wlv.off - 1 else t.wlv.off + 1,
            wlv.col := if e.wp.w_p_rl then t.wlv.col - 1 else t.wlv.col + 1 } := by
  by_cases hm : t.multi_attr = 0 <;> by_cases hrl : e.wp.w_p_rl = true <;>
    simp [store_char, hw, hm, hrl]

theorem row_next_statuscol_shape (e : Env) (s : LoopState) :
    row_next_statuscol e s
      = { s with
            statuscol.textp := (row_next_statuscol e s).statuscol.textp,
            statuscol.draw := (row_next_statuscol e s).statuscol.draw,
            statuscol.hlrecp := (row_next_statuscol e s).statuscol.hlrecp } := by
  unfold row_next_statuscol
  repeat' split
  all_goals rfl

theorem row_end_nowrap (e : Env) (t : LoopState) (hc : row_end_cond e t)
    (hw : e.wp.w_p_wrap = false) (hf : t.wlv.filler_todo ≤ 0) :
    (row_end e t).2 = true ∧ (row_end e t).1.wlv.row = t.wlv.row + 1
    ∧ (row_end e t).1.ptr = t.ptr := by
  by_cases hv : t.virt_line_offset ≥ 0 <;>
    simp [row_end, row_commit, hc, hw, hf, hv, grid_put_linebuf]

theorem row_end_wrap (e : Env) (t : LoopState) (hc : row_end_cond e t)
    (hw : e.wp.w_p_wrap = true) (hf : t.wlv.filler_todo ≤ 0) (hl : t.lcs_eol_one ≠ -1)
    (hd : t.wlv.draw_state = WL_LINE) (hr : t.wlv.row + 1 ≠ e.endrow) :
    (row_end e t).2 = false
    ∧ (row_end e t).1.wlv.row = t.wlv.row + 1
    ∧ (row_end e t).1.ptr = t.ptr
    ∧ (row_end e t).1.wlv.draw_state = WL_START
    ∧ (row_end e t).1.wlv.col = (if e.wp.w_p_rl then e.wp.cols - 1 else 0)
    ∧ (row_end e t).1.wlv.off = (if e.wp.w_p_rl then e.wp.cols - 1 else 0) := by
  have hf2 : ¬ t.wlv.filler_todo - 1 = 0 := by omega
  by_cases hv : t.virt_line_offset ≥ 0 <;> by_cases hrl : e.wp.w_p_rl = true
  all_goals
    simp only [row_end, row_commit, row_too_narrow, row_next, hc, hw, hv, grid_put_linebuf,
      if_true, if_false]
    simp [hl, hd, hr, hf]
    rw [row_next_statuscol_shape]
    simp [win_line_start, hrl, hf2, hf]

theorem after_put_vcol (s : LoopState) :
    (after_put s).wlv.vcol
      = if s.wlv.draw_state > WL_STC ∧ s.wlv.filler_todo ≤ 0 then s.wlv.vcol + 1
        else s.wlv.vcol := by
  unfold after_put
  lift_lets
  intro w t
  have ht : t.wlv.vcol = if s.wlv.draw_state > WL_STC ∧ s.wlv.filler_todo ≤ 0 then s.wlv.vcol + 1
        else s.wlv.vcol := by
    simp only [t]
    split <;> rfl
  clear_value t
  revert ht
  generalize (if s.wlv.draw_state > WL_STC ∧ s.wlv.filler_todo ≤ 0 then s.wlv.vcol + 1
        else s.wlv.vcol) = V
  intro ht
  repeat (first
    | (intro t2
       have ht2 : (t2 : LoopState).wlv.vcol = V := by
         simp only [t2]
         repeat' split
         all_goals (first | rfl | assumption)
       clear_value t2)
    | intro t2)
  repeat' split
  all_goals (first | rfl | assumption)

theorem after_put_n_attr (s : LoopState) :
    (after_put s).n_attr
      = if s.n_attr > 0 ∧ s.wlv.draw_state = WL_LINE then s.n_attr - 1 else s.n_attr := by
  unfold after_put
  lift_lets
  repeat (first
    | (intro t
       have ht : (t : LoopState).n_attr = s.n_attr
           ∧ (t : LoopState).wlv.draw_state = s.wlv.draw_state := by
         simp only [t]
         repeat' split
         all_goals (first | exact ⟨rfl, rfl⟩ | assumption)
       clear_value t)
    | intro t)
  obtain ⟨h1, h2⟩ := ht
  by_cases hc : s.n_attr > 0 ∧ s.wlv.draw_state = WL_LINE
  · rw [if_pos hc, if_pos (by rw [h1, h2]; exact hc)]
    simp only [← h1]
    split <;> rfl
  · rw [if_neg hc, if_neg (by rw [h1, h2]; exact hc)]
    exact h1

theorem color_col_advance_off (s : LoopState) (h : s.draw_color_col = false) :
    color_col_advance s = s := by
  simp [color_col_advance, h]

set_option maxHeartbeats 1000000 in
/-- The state after a character of one cell has been stored in the body phase:
the part of the loop body from "show extends character" to the restoring of
the attributes. -/
theorem iter_store_narrow (e : Env) (t : LoopState) (hd : t.wlv.draw_state = WL_LINE)
    (hn : t.n_skip ≤ 0) (hw : ¬ e.utf_char2cells t.mb_c > 1) (hx : ¬ lcs_ext_cond e t) :
    iter_store e (iter_before_store e t)
      = { t with
            wlv.char_attr := (iter_store e (iter_before_store e t)).wlv.char_attr,
            wlv.vcol := if t.wlv.filler_todo ≤ 0 then t.wlv.vcol + 1 else t.wlv.vcol,
            wlv.off := if e.wp.w_p_rl then t.wlv.off - 1 else t.wlv.off + 1,
            wlv.col := if e.wp.w_p_rl then t.wlv.col - 1 else t.wlv.col + 1,
            color_cols := (color_col_advance t).color_cols,
            draw_color_col := (color_col_advance t).draw_color_col,
            vcol_save_attr := (iter_store e (iter_before_store e t)).vcol_save_attr,
            vcol_prev := t.wlv.vcol,
            n_attr := if t.n_attr > 0 then t.n_attr - 1 else t.n_attr,
            n_attr3 := (iter_store e (iter_before_store e t)).n_attr3,
            multi_attr := 0,
            linebuf_char := bufSet t.linebuf_char t.wlv.off
              (if t.mb_utf8 then schar_from_cc t.mb_c t.u8cc else schar_from_ascii t.c),
            linebuf_attr := bufSet t.linebuf_attr t.wlv.off (stored_attr e t) } := by
  have h0 : lcs_ext_block e t = t := by simp [lcs_ext_block, hx]
  have h1 : iter_store e (iter_before_store e t)
      = after_put (put_char e (lowprio_attr e (cursorcolumn_attr e (color_col_advance t)))) := by
    simp [iter_store, iter_before_store, h0]
  have h2 : stored_attr e t = if t.multi_attr ≠ 0 then t.multi_attr
      else (lowprio_attr e (cursorcolumn_attr e (color_col_advance t))).wlv.char_attr := by
    simp [stored_attr, h0]
  rw [h1, h2]
  generalize hA : lowprio_attr e (cursorcolumn_attr e (color_col_advance t)) = A
  have hAs : A = { t with
      wlv.char_attr := A.wlv.char_attr,
      color_cols := (color_col_advance t).color_cols,
      draw_color_col := (color_col_advance t).draw_color_col,
      vcol_save_attr := A.vcol_save_attr } := by
    have hcc : (color_col_advance t) = { t with
        color_cols := (color_col_advance t).color_cols,
        draw_color_col := (color_col_advance t).draw_color_col } := color_col_advance_shape t
    rw [← hA, lowprio_attr_shape, cursorcolumn_attr_shape]
    generalize color_col_advance t = B at *
    rw [hcc]
  have hp : put_char e A = store_char e { A with vcol_prev := A.wlv.vcol } := by
    rw [hAs]
    simp [put_char, hd, hn]
  have hds : WL_STC < WL_LINE := by decide
  rw [hp, store_char_narrow _ _ (by rw [hAs]; simpa using hw)]
  rw [after_put_shape2]
  simp only [after_put_vcol, after_put_n_attr]
  rw [hAs]
  simp [hd, hds]

/-- The attribute stored for a cell of the body phase when neither
'cursorcolumn' nor 'colorcolumn' nor "extends" of 'listchars' applies and no
attribute of a character of several cells is pending. -/
theorem stored_attr_plain (e : Env) (t : LoopState) (hd : t.wlv.draw_state = WL_LINE)
    (hx : ¬ lcs_ext_cond e t) (hcuc : e.wp.w_p_cuc = false)
    (hcc : t.draw_color_col = false) (hm : t.multi_attr = 0) :
    stored_attr e t = e.hl_combine_attr t.wlv.line_attr_lowprio t.wlv.char_attr := by
  have h0 : lcs_ext_block e t = t := by simp [lcs_ext_block, hx]
  have h1 : color_col_advance t = t := color_col_advance_off t hcc
  have h2 : (cursorcolumn_attr e t) = { t with vcol_save_attr := -1 } := by
    unfold cursorcolumn_attr
    simp [hcuc, hcc]
  simp [stored_attr, hm, h0, h1, h2, lowprio_attr, hd]

/-- C8: when a row boundary is crossed with a non-empty pending run
(`n_extra > 0`), `win_line_start` with `save_extra = true` followed by
`win_line_continue` restores `n_extra`, `p_extra`, `c_extra`, `c_final` and
`char_attr` to the values they had before the boundary, whatever the five
fields were set to in between (`mid` is any line context that still holds the
saved fields written by `win_line_start`); when the run was empty at the
boundary, `win_line_continue` only sets `char_attr` to 0. -/
theorem win_line_continue_restores (wp : win_T) (wlv mid : winlinevars_T)
    (hn : mid.saved_n_extra = (win_line_start wp wlv true).saved_n_extra)
    (hp : mid.saved_p_extra = (win_line_start wp wlv true).saved_p_extra)
    (hc : mid.saved_c_extra = (win_line_start wp wlv true).saved_c_extra)
    (hf : mid.saved_c_final = (win_line_start wp wlv true).saved_c_final)
    (ha : mid.saved_char_attr = (win_line_start wp wlv true).saved_char_attr) :
    (0 < wlv.n_extra →
      (win_line_continue mid).n_extra = wlv.n_extra
      ∧ (win_line_continue mid).p_extra = wlv.p_extra
      ∧ (win_line_continue mid).c_extra = wlv.c_extra
      ∧ (win_line_continue mid).c_final = wlv.c_final
      ∧ (win_line_continue mid).char_attr = wlv.char_attr)
    ∧ (¬ 0 < wlv.n_extra → win_line_continue mid = { mid with char_attr := 0 }) := by
  have h1 : (win_line_start wp wlv true).saved_n_extra = wlv.n_extra := by
    simp [win_line_start]; split <;> rfl
  have h2 : (win_line_start wp wlv true).saved_p_extra = wlv.p_extra := by
    simp [win_line_start]; split <;> rfl
  have h3 : (win_line_start wp wlv true).saved_c_extra = wlv.c_extra := by
    simp [win_line_start]; split <;> rfl
  have h4 : (win_line_start wp wlv true).saved_c_final = wlv.c_final := by
    simp [win_line_start]; split <;> rfl
  have h5 : (win_line_start wp wlv true).saved_char_attr = wlv.char_attr := by
    simp [win_line_start]; split <;> rfl
  rw [h1] at hn; rw [h2] at hp; rw [h3] at hc; rw [h4] at hf; rw [h5] at ha
  constructor
  · intro hpos
    simp [win_line_continue, hn, hp, hc, hf, ha, hpos]
  · intro hneg
    simp [win_line_continue, hn, hneg]

theorem win_line_continue_restores_witness :
    (0 < Sample.wlv_run.n_extra →
      (win_line_continue Sample.wlv_mid).n_extra = Sample.wlv_run.n_extra
      ∧ (win_line_continue Sample.wlv_mid).p_extra = Sample.wlv_run.p_extra
      ∧ (win_line_continue Sample.wlv_mid).c_extra = Sample.wlv_run.c_extra
      ∧ (win_line_continue Sample.wlv_mid).c_final = Sample.wlv_run.c_final
      ∧ (win_line_continue Sample.wlv_mid).char_attr = Sample.wlv_run.char_attr)
    ∧ (¬ 0 < Sample.wlv_run.n_extra →
      win_line_continue Sample.wlv_mid = { Sample.wlv_mid with char_attr := 0 }) :=
  win_line_continue_restores (Sample.win 5) Sample.wlv_run Sample.wlv_mid rfl rfl rfl rfl rfl

/-- C9: when the cell writer stores a character of two cells at offset `o`
of the row buffer, in a left-to-right row cell `o` holds the character, cell
`o + 1` the zero continuation marker with the attribute of cell `o`, and the
offset and the screen column advance by 2; in a right-to-left row the
character is in the left cell `o - 1`, the continuation marker in cell `o`
with the same attribute, and the offset and the screen column decrease by 2. -/
theorem store_char_wide (e : Env) (s : LoopState) (hw : e.utf_char2cells s.mb_c > 1) :
    (e.wp.w_p_rl = false →
      (store_char e s).linebuf_char s.wlv.off
          = (if s.mb_utf8 then schar_from_cc s.mb_c s.u8cc else schar_from_ascii s.c)
      ∧ (store_char e s).linebuf_char (s.wlv.off + 1) = schar_zero
      ∧ (store_char e s).linebuf_attr (s.wlv.off + 1) = (store_char e s).linebuf_attr s.wlv.off
      ∧ (store_char e s).wlv.off = s.wlv.off + 2
      ∧ (store_char e s).wlv.col = s.wlv.col + 2)
    ∧ (e.wp.w_p_rl = true →
      (store_char e s).linebuf_char (s.wlv.off - 1)
          = (if s.mb_utf8 then schar_from_cc s.mb_c s.u8cc else schar_from_ascii s.c)
      ∧ (store_char e s).linebuf_char s.wlv.off = schar_zero
      ∧ (store_char e s).linebuf_attr s.wlv.off = (store_char e s).linebuf_attr (s.wlv.off - 1)
      ∧ (store_char e s).wlv.off = s.wlv.off - 2
      ∧ (store_char e s).wlv.col = s.wlv.col - 2) := by
  by_cases hm : s.multi_attr = 0 <;>
  by_cases hd : s.wlv.draw_state > WL_STC ∧ s.wlv.filler_todo ≤ 0 <;>
  by_cases ht : s.wlv.tocol = s.wlv.vcol <;>
  by_cases ht1 : s.wlv.tocol = s.wlv.vcol + 1 <;>
  (constructor <;> intro hrl <;> simp [store_char, hrl, hw, hm, hd, ht, ht1, bufSet] <;> omega)

set_option maxRecDepth 100000 in
theorem store_char_wide_witness :
    Sample.env_wide.utf_char2cells Sample.state_wide.mb_c > 1
    ∧ Sample.env_wide.wp.w_p_rl = false
    ∧ (store_char Sample.env_wide Sample.state_wide).linebuf_char Sample.state_wide.wlv.off
          = (if Sample.state_wide.mb_utf8 then
              schar_from_cc Sample.state_wide.mb_c Sample.state_wide.u8cc
             else schar_from_ascii Sample.state_wide.c)
    ∧ (store_char Sample.env_wide Sample.state_wide).linebuf_char (Sample.state_wide.wlv.off + 1)
          = schar_zero
    ∧ (store_char Sample.env_wide Sample.state_wide).linebuf_attr (Sample.state_wide.wlv.off + 1)
          = (store_char Sample.env_wide Sample.state_wide).linebuf_attr Sample.state_wide.wlv.off
    ∧ (store_char Sample.env_wide Sample.state_wide).wlv.off = Sample.state_wide.wlv.off + 2
    ∧ (store_char Sample.env_wide Sample.state_wide).wlv.col = Sample.state_wide.wlv.col + 2 :=
  ⟨by decide, rfl,
    (store_char_wide Sample.env_wide Sample.state_wide (by decide)).1 rfl⟩

/-- C6: in the body phase with area highlighting active, the attribute chosen
for a cell follows a fixed precedence. With `t` the state in which the choice
is made: if the selection attribute `area_attr` is active, the result is
`area_attr` combined on top of the line attribute, with the search attribute
combined underneath unless an incremental-search match is shown; otherwise,
if the search attribute is active, it is the search attribute on top of the
line attribute; otherwise, if the line attribute is non-zero and the column is
outside the selection span, it is the line attribute; otherwise it is the
syntax attribute (0 without syntax) and `attr_pri` is cleared. In the first
three cases `attr_pri` is set. -/
theorem area_block_precedence (e : Env) (s : LoopState)
    (hd : s.wlv.draw_state = WL_LINE) (ha : s.area_highlighting = true) :
    (¬ (area_before_decide e s).area_attr = 0 →
      (area_block e s).attr_pri = true
      ∧ (area_block e s).wlv.char_attr =
          (if e.highlight_match then
            e.hl_combine_attr (area_before_decide e s).wlv.line_attr
              (area_before_decide e s).area_attr
           else
            e.hl_combine_attr (area_before_decide e s).search_attr
              (e.hl_combine_attr (area_before_decide e s).wlv.line_attr
                (area_before_decide e s).area_attr)))
    ∧ ((area_before_decide e s).area_attr = 0 → ¬ (area_before_decide e s).search_attr = 0 →
      (area_block e s).attr_pri = true
      ∧ (area_block e s).wlv.char_attr =
          e.hl_combine_attr (area_before_decide e s).wlv.line_attr
            (area_before_decide e s).search_attr)
    ∧ ((area_before_decide e s).area_attr = 0 → (area_before_decide e s).search_attr = 0 →
      ¬ (area_before_decide e s).wlv.line_attr = 0 → outside_area (area_before_decide e s) →
      (area_block e s).attr_pri = true
      ∧ (area_block e s).wlv.char_attr = (area_before_decide e s).wlv.line_attr)
    ∧ ((area_before_decide e s).area_attr = 0 → (area_before_decide e s).search_attr = 0 →
      ¬ (¬ (area_before_decide e s).wlv.line_attr = 0 ∧ outside_area (area_before_decide e s)) →
      (area_block e s).attr_pri = false
      ∧ (area_block e s).wlv.char_attr =
          (if LoopState.has_syntax (area_before_decide e s) then (area_before_decide e s).syntax_attr
           else 0)) := by
  have hb : area_block e s = decide_attr e (area_before_decide e s) := by
    simp [area_block, area_before_decide, hd, ha]
  rw [hb]
  generalize area_before_decide e s = t
  refine ⟨?_, ?_, ?_, ?_⟩
  · intro h1
    by_cases hm : e.highlight_match = true <;> simp [decide_attr, h1, hm]
  · intro h1 h2
    simp [decide_attr, h1, h2]
  · intro h1 h2 h3 h4
    have h4b := h4
    unfold outside_area at h4b
    simp [decide_attr, h1, h2, h3, h4b]
  · intro h1 h2 h3
    have h3b := h3
    unfold outside_area at h3b
    simp only [decide_attr, h1, h2]
    rw [if_neg (by simp), if_neg (by simp), if_neg h3b]
    by_cases hs : t.has_syntax = true <;> simp [hs]

set_option maxRecDepth 100000 in
theorem area_block_precedence_witness :
    Sample.state_visual.wlv.draw_state = WL_LINE
    ∧ Sample.state_visual.area_highlighting = true
    ∧ ¬ (area_before_decide Sample.env_visual Sample.state_visual).area_attr = 0
    ∧ (area_block Sample.env_visual Sample.state_visual).attr_pri = true
    ∧ (area_block Sample.env_visual Sample.state_visual).wlv.char_attr =
        (if Sample.env_visual.highlight_match then
          Sample.env_visual.hl_combine_attr
            (area_before_decide Sample.env_visual Sample.state_visual).wlv.line_attr
            (area_before_decide Sample.env_visual Sample.state_visual).area_attr
         else
          Sample.env_visual.hl_combine_attr
            (area_before_decide Sample.env_visual Sample.state_visual).search_attr
            (Sample.env_visual.hl_combine_attr
              (area_before_decide Sample.env_visual Sample.state_visual).wlv.line_attr
              (area_before_decide Sample.env_visual Sample.state_visual).area_attr)) :=
  ⟨by decide, by decide, by decide,
    (area_block_precedence Sample.env_visual Sample.state_visual (by decide) (by decide)).1
      (by decide)⟩

/-- C7 does not hold for the overflow marker of a double-width character taken
from the buffer line: in the two-column window with 'cursorline' the pass that
writes the last column of the first row is in the body phase and stores its
cell, the low-priority line attribute is 15, and the attribute stored is 2
(the attribute of the marker alone), which is not the low-priority attribute
combined with any attribute. -/
theorem lowprio_attr_counterexample :
    (pass_before_store Sample.env_wide_cul 1).isSome = true
    ∧ Sample.state_wide_cul.wlv.draw_state = WL_LINE
    ∧ Sample.state_wide_cul.n_skip ≤ 0
    ∧ Sample.state_wide_cul.wlv.line_attr_lowprio = 15
    ∧ Sample.state_wide_cul.wlv.char_attr = 0
    ∧ (iter_store Sample.env_wide_cul Sample.state_wide_cul).linebuf_attr
        (store_cell Sample.env_wide_cul Sample.state_wide_cul) = 2
    ∧ ∀ a, 0 ≤ a →
        Sample.env_wide_cul.hl_combine_attr Sample.state_wide_cul.wlv.line_attr_lowprio a ≠ 2 := by
  refine ⟨by decide, by decide, by decide, by decide, by decide, by decide, ?_⟩
  intro a ha
  have h : Sample.state_wide_cul.wlv.line_attr_lowprio = 15 := by decide
  rw [h]
  show Sample.hl_combine_attr 15 a ≠ 2
  unfold Sample.hl_combine_attr
  split_ifs <;> omega

/-- The part of the loop body after the cell writer leaves the attributes of
the row buffer alone. -/
theorem after_put_linebuf_attr (s : LoopState) : (after_put s).linebuf_attr = s.linebuf_attr := by
  unfold after_put
  lift_lets
  repeat (first
    | (intro t
       have ht : (t : LoopState).linebuf_attr = s.linebuf_attr := by
         simp only [t]
         repeat' split
         all_goals (first | rfl | assumption)
       clear_value t)
    | intro t)
  repeat' split
  all_goals (first | rfl | assumption)

/-- The attribute the cell writer stores for the character. -/
theorem store_char_attr (e : Env) (s : LoopState) :
    (store_char e s).linebuf_attr (store_cell e s)
      = if s.multi_attr = 0 then s.wlv.char_attr else s.multi_attr := by
  by_cases hw : e.utf_char2cells s.mb_c > 1 <;>
  by_cases hrl : e.wp.w_p_rl = true <;>
  by_cases hm : s.multi_attr = 0 <;>
  by_cases hd : s.wlv.draw_state > WL_STC ∧ s.wlv.filler_todo ≤ 0 <;>
  by_cases ht : s.wlv.tocol = s.wlv.vcol <;>
  by_cases ht1 : s.wlv.tocol = s.wlv.vcol + 1 <;>
  simp [store_char, store_cell, hrl, hw, hm, hd, ht, ht1, bufSet]

/-- Claim C7, what the store does: for a cell stored in the body phase (draw
state `WL_LINE`, nothing left to skip), the attribute stored in the row buffer
is the low-priority line attribute combined underneath the resolved attribute
`char_attr` when no attribute for a character of several bytes is pending
(`multi_attr = 0`); with `multi_attr` pending the attribute stored is
`multi_attr` itself, and the low-priority line attribute is in the cell only
if it was combined into `multi_attr` before. -/
theorem iter_store_attr (e : Env) (s : LoopState)
    (hd : s.wlv.draw_state = WL_LINE) (hn : s.n_skip ≤ 0) :
    (s.multi_attr = 0 →
      (iter_store e s).linebuf_attr (store_cell e s)
        = e.hl_combine_attr s.wlv.line_attr_lowprio s.wlv.char_attr)
    ∧ (¬ s.multi_attr = 0 →
      (iter_store e s).linebuf_attr (store_cell e s) = s.multi_attr) := by
  have h1 : lowprio_attr e s
      = { s with wlv.char_attr := e.hl_combine_attr s.wlv.line_attr_lowprio s.wlv.char_attr } := by
    simp [lowprio_attr, hd]
  have h2 : iter_store e s
      = after_put (store_char e
          { (lowprio_attr e s) with vcol_prev := (lowprio_attr e s).wlv.vcol }) := by
    simp [iter_store, put_char, h1, hn]
  have h3 : store_cell e { (lowprio_attr e s) with vcol_prev := (lowprio_attr e s).wlv.vcol }
      = store_cell e s := by
    simp [store_cell, h1]
  rw [h2, after_put_linebuf_attr, ← h3, store_char_attr]
  constructor <;> intro hm <;> simp [h1, hm]

set_option maxRecDepth 100000 in
theorem iter_store_attr_witness :
    Sample.state_wide_cul_first.wlv.draw_state = WL_LINE
    ∧ Sample.state_wide_cul_first.n_skip ≤ 0
    ∧ Sample.state_wide_cul_first.multi_attr = 0
    ∧ (iter_store Sample.env_wide_cul Sample.state_wide_cul_first).linebuf_attr
          (store_cell Sample.env_wide_cul Sample.state_wide_cul_first)
        = Sample.env_wide_cul.hl_combine_attr Sample.state_wide_cul_first.wlv.line_attr_lowprio
            Sample.state_wide_cul_first.wlv.char_attr :=
  ⟨by decide, by decide, by decide,
    (iter_store_attr Sample.env_wide_cul Sample.state_wide_cul_first (by decide) (by decide)).1
      (by decide)⟩

theorem byteAt_cons_zero (a : Int) (l : List Int) : byteAt (a :: l) 0 = a := by
  simp [byteAt]

theorem bytesFrom_zero (l : List Int) : bytesFrom l 0 = l := by
  simp [bytesFrom]

theorem bytesFrom_cons_one (a : Int) (l : List Int) : bytesFrom (a :: l) 1 = l := by
  simp [bytesFrom]

theorem char_ptr_back_forth (p : CharPtr) : (p.add (-1)).add 1 = p := by
  cases p
  simp [CharPtr.add]

/-- The character chosen for a double-width character of a pending run in the
last column of a row. -/
theorem next_extra_wide_last (e : Env) (u : LoopState) (h : WideLastExtra e u) :
    (next_extra e u).c = 62
    ∧ (next_extra e u).mb_c = 62
    ∧ (next_extra e u).wlv.n_extra = u.wlv.n_extra
    ∧ (next_extra e u).wlv.p_extra = u.wlv.p_extra := by
  obtain ⟨h1, h2, h3, h4, h5, h6⟩ := h
  have h3b : ¬ e.utfc_ptr2len u.wlv.p_extra.rest = 0 := by omega
  have h4b : ¬ u.wlv.n_extra < e.utfc_ptr2len u.wlv.p_extra.rest := by omega
  by_cases hrl : e.wp.w_p_rl = true
  all_goals
    simp [at_last_col, hrl] at h6
    simp [next_extra, h1, h2, next_extra_str, h3, h3b, h4b, h5, at_last_col, hrl, h6,
      char_ptr_back_forth]

theorem arabic_char_byte (b : Int) (h0 : 0 ≤ b) (h1 : b < 0x80) : ARABIC_CHAR b = false := by
  interval_cases b <;> rfl

theorem byteAt_mem (l : List Int) (i : Int) (h0 : 0 ≤ i) (h1 : i < l.length) :
    byteAt l i ∈ l := by
  have h2 : i.toNat < l.length := by omega
  simp [byteAt, h0, List.getD_eq_getElem _ _ h2, List.getElem?_eq_getElem h2]

theorem byteAt_out (l : List Int) (i : Int) (h : (l.length : Int) ≤ i) : byteAt l i = 0 := by
  unfold byteAt
  split
  · have h2 : l.length ≤ i.toNat := by omega
    exact List.getD_eq_default _ _ h2
  · rfl

set_option maxHeartbeats 1000000 in
/-- The character chosen for a printable ASCII byte of a plain line, from the
state `s` after the gutter part of the pass. -/
theorem choose_plain (e : Env) (s : LoopState) (he : PlainEnv e) (hs : PlainBody s)
    (hi0 : 0 ≤ s.ptr) (hi : s.ptr < e.line.length)
    (hlen : e.utfc_ptr2len (bytesFrom e.line s.ptr) = 1)
    (hprint : e.vim_isprintc (byteAt e.line s.ptr) = true)
    (hcells : e.utf_char2cells (byteAt e.line s.ptr) = 1) :
    iter_choose_char e (cul_screenline_apply e s)
      = { s with
            c0 := byteAt e.line s.ptr,
            c := byteAt e.line s.ptr,
            mb_c := byteAt e.line s.ptr,
            mb_l := 1,
            mb_utf8 := false,
            prev_c := byteAt e.line s.ptr,
            ptr := s.ptr + 1,
            prev_syntax_id := 0,
            is_concealing := false,
            w_wcol := (iter_choose_char e (cul_screenline_apply e s)).w_wcol,
            w_wrow := (iter_choose_char e (cul_screenline_apply e s)).w_wrow,
            did_wcol := (iter_choose_char e (cul_screenline_apply e s)).did_wcol,
            wlv.char_attr := (iter_choose_char e (cul_screenline_apply e s)).wlv.char_attr } := by
  obtain ⟨e1, e2, e3, e4, e5, e6, e7, e8, e9⟩ := he
  obtain ⟨h1, h2, h3, h4, h5, h6, h7, h8, h9, h10, h11, h12, h13, h14, h15, h16, h17, h18,
    h19, h20⟩ := hs
  have hb := e9 _ (byteAt_mem e.line s.ptr hi0 hi)
  have hb1 : ¬ 128 ≤ byteAt e.line s.ptr := by omega
  have hb2 : ¬ byteAt e.line s.ptr = 0 := by omega
  have hfi : ¬ 0 < e.foldinfo.fi_lines := by omega
  have har := arabic_char_byte (byteAt e.line s.ptr) (by omega) (by omega)
  have hcul : cul_screenline_apply e s = s := by
    simp [cul_screenline_apply, h6]
  rw [hcul]
  simp only [iter_choose_char]
  simp [fold_text, fold_fill, fold_truncate, h1, h2, h5, area_block, h7, h8, next_char, hfi,
    next_from_buffer, buf_decode, hlen, buf_special, hb1, hb2, har,
    buf_overflow, hcells, buf_left_filler, h10, buf_advance,
    extra_check_block, h9, nonprint_block, hprint, conceal_block, conceal_cond, e3,
    buf_unstick]
  rw [cursor_wcol_shape, extra_attr_combine_shape]
  simp [lcs_prec_block, lcs_prec_cond, e2, eol_hl_block, hb2, h1, h2]

theorem row_end_none (e : Env) (t : LoopState) (h : ¬ row_end_cond e t) :
    row_end e t = (t, false) := by
  simp [row_end, h]

set_option maxHeartbeats 1000000 in
/-- One pass of the loop over a printable ASCII byte of a plain line that does
not end the row, `g` being the state after the gutter part of the pass: the
byte is stored in its cell and the loop goes on. -/
theorem plain_step (e : Env) (s g : LoopState) (he : PlainEnv e)
    (hg : gutter_phase e (iter_begin s) = (g, false)) (hs : PlainBody g)
    (hi0 : 0 ≤ g.ptr) (hi : g.ptr < e.line.length)
    (hfit : g.wlv.col + (e.line.length - g.ptr) ≤ e.wp.cols)
    (hlen : e.utfc_ptr2len (bytesFrom e.line g.ptr) = 1)
    (hprint : e.vim_isprintc (byteAt e.line g.ptr) = true)
    (hcells : e.utf_char2cells (byteAt e.line g.ptr) = 1) :
    (win_line_iter e s).2 = false
    ∧ PlainBody (win_line_iter e s).1
    ∧ (win_line_iter e s).1.ptr = g.ptr + 1
    ∧ (win_line_iter e s).1.wlv.off = g.wlv.off + 1
    ∧ (win_line_iter e s).1.wlv.col = g.wlv.col + 1
    ∧ (win_line_iter e s).1.linebuf_char
        = bufSet g.linebuf_char g.wlv.off (schar_from_ascii (byteAt e.line g.ptr))
    ∧ (win_line_iter e s).1.wlv.row = g.wlv.row
    ∧ (win_line_iter e s).1.grid = g.grid
    ∧ (win_line_iter e s).1.bg_attr = g.bg_attr
    ∧ (win_line_iter e s).1.win_col_offset = g.win_col_offset := by
  have hC := choose_plain e g he hs hi0 hi hlen hprint hcells
  obtain ⟨e1, e2, e3, e4, e5, e6, e7, e8, e9⟩ := he
  obtain ⟨h1, h2, h3, h4, h5, h6, h7, h8, h9, h10, h11, h12, h13, h14, h15, h16, h17, h18,
    h19, h20⟩ := hs
  have hb := e9 _ (byteAt_mem e.line g.ptr hi0 hi)
  have hb2 : ¬ byteAt e.line g.ptr = 0 := by omega
  have hcul : cul_screenline_apply e g = g := by
    simp [cul_screenline_apply, h6]
  have hdc : ¬ dollar_cond e g := by
    have : ¬ 0 ≤ e.dollar_vcol := by omega
    simp [dollar_cond, e8, this]
  rw [hcul] at hC
  generalize hCdef : iter_choose_char e g = C at hC
  have c1 : C.c = byteAt e.line g.ptr := by rw [hC]
  have c2 : C.mb_c = byteAt e.line g.ptr := by rw [hC]
  have c3 : C.wlv.draw_state = WL_LINE := by rw [hC]; exact h1
  have c4 : C.n_skip = 0 := by rw [hC]; exact h10
  have hx : ¬ lcs_ext_cond e C := by simp [lcs_ext_cond, e2]
  have hw : ¬ e.utf_char2cells C.mb_c > 1 := by rw [c2, hcells]; decide
  have hsh := iter_store_narrow e C c3 (le_of_eq c4) hw hx
  generalize hTdef : iter_store e (iter_before_store e C) = T at hsh
  have hcc : color_col_advance C = C := color_col_advance_off C (by rw [hC]; exact h11)
  rw [hcc] at hsh
  have hbl : byteAt e.line (g.ptr + 1) ≠ 0 → g.ptr + 1 < e.line.length := by
    intro hne
    by_contra hge
    exact hne (byteAt_out _ _ (by omega))
  have hre : ¬ row_end_cond e T := by
    rw [hsh, hC]
    simp only [row_end_cond, e1, e2]
    simp [h1, h2, h3, h5]
    intro hcol
    by_contra hne
    have := hbl hne
    omega
  have hit : win_line_iter e s = (T, false) := by
    simp [win_line_iter, hg, hcul, hdc, hCdef, c1, hb2, hTdef, row_end_none e T hre]
  rw [hit]
  refine ⟨rfl, ?_, ?_, ?_, ?_, ?_, ?_, ?_, ?_, ?_⟩
  · rw [hsh, hC]
    simp [PlainBody, h1, h2, h3, h4, h5, h6, h7, h8, h9, h10, h11, h12, h13, h14, h15, h16,
      h17, h18, h19, h20]
  all_goals
    rw [hsh, hC]
    try simp [e1]

set_option maxHeartbeats 1000000 in
/-- At the end of a plain line nothing is filled in: the row is handed to the
grid as it is. -/
theorem end_of_line_plain (e : Env) (t : LoopState)
    (e4 : e.wp.w_p_cuc = false) (e5 : e.wp.b_terminal = false)
    (h4 : t.wlv.boguscols = 0) (h11 : t.draw_color_col = false) (h12 : t.has_decor = false)
    (h17 : t.wlv.line_attr = 0) (h18 : t.wlv.line_attr_lowprio = 0)
    (h19 : t.wlv.diff_hlf = HLF_8)
    (hvt : ∀ ch at_, e.draw_virt_text t.win_col_offset t.wlv.col e.wp.cols t.wlv.row ch at_
        = (ch, at_, t.wlv.col)) :
    (end_of_line e t).wlv.row = t.wlv.row + 1
    ∧ (end_of_line e t).linebuf_char = t.linebuf_char
    ∧ (end_of_line e t).linebuf_attr = t.linebuf_attr
    ∧ (end_of_line e t).grid
        = GridCall.put ⟨t.wlv.row, 0, t.wlv.col, e.wp.cols, e.wp.w_p_rl, t.bg_attr, false,
            t.linebuf_char, t.linebuf_attr⟩ :: t.grid := by
  by_cases hcw : e.wp.is_curwin = true ∧ e.lnum = e.curwin_cursor.lnum <;>
  by_cases hvc : t.wlv.vcol
      < (if e.wp.w_p_wrap then e.wp.w_skipcol else e.wp.w_leftcol) + t.wlv.col - e.win_col_off
  all_goals
    simp only [end_of_line, eol_margin, eol_highlight, eol_commit]
    simp [hvc, h4, h11, h12, h17, h18, h19, e4, e5, hvt, grid_put_linebuf, hcw]

set_option maxHeartbeats 2000000 in
/-- The pass of the loop at the end of a plain line, `g` being the state after
the gutter part of the pass: the row is handed to the grid as it is and the
loop is left. -/
theorem plain_end (e : Env) (s g : LoopState) (he : PlainEnv e)
    (hg : gutter_phase e (iter_begin s) = (g, false)) (hs : PlainBody g)
    (hp : g.ptr = e.line.length)
    (hend : e.utfc_ptr2len (bytesFrom e.line g.ptr) = 0)
    (hc0 : e.utf_char2cells 0 ≠ 2)
    (hvt : ∀ ch at_, e.draw_virt_text g.win_col_offset g.wlv.col e.wp.cols g.wlv.row ch at_
        = (ch, at_, g.wlv.col))
    (hpc : e.get_prevcol_hl_flag g.ptr = false) :
    (win_line_iter e s).2 = true
    ∧ (win_line_iter e s).1.wlv.row = g.wlv.row + 1
    ∧ (win_line_iter e s).1.linebuf_char = g.linebuf_char
    ∧ (win_line_iter e s).1.linebuf_attr = g.linebuf_attr
    ∧ (win_line_iter e s).1.grid
        = GridCall.put ⟨g.wlv.row, 0, g.wlv.col, e.wp.cols, false, g.bg_attr, false,
            g.linebuf_char, g.linebuf_attr⟩ :: g.grid := by
  obtain ⟨e1, e2, e3, e4, e5, e6, e7, e8, e9⟩ := he
  obtain ⟨h1, h2, h3, h4, h5, h6, h7, h8, h9, h10, h11, h12, h13, h14, h15, h16, h17, h18,
    h19, h20⟩ := hs
  have hb : byteAt e.line g.ptr = 0 := byteAt_out _ _ (by omega)
  have hfi : ¬ 0 < e.foldinfo.fi_lines := by omega
  have hcul : cul_screenline_apply e g = g := by
    simp [cul_screenline_apply, h6]
  have hdc : ¬ dollar_cond e g := by
    have : ¬ 0 ≤ e.dollar_vcol := by omega
    simp [dollar_cond, e8, this]
  have hf1 : ¬ 0 ≤ g.wlv.fromcol := by omega
  have hf2 : ¬ 0 ≤ g.fromcol_prev := by omega
  have hC : iter_choose_char e g
      = { g with
            c0 := 0,
            c := 0,
            mb_c := 0,
            mb_l := 1,
            mb_utf8 := false,
            ptr := g.ptr + 1,
            prev_syntax_id := 0,
            is_concealing := false,
            w_wcol := (iter_choose_char e g).w_wcol,
            w_wrow := (iter_choose_char e g).w_wrow,
            did_wcol := (iter_choose_char e g).did_wcol,
            wlv.char_attr := (iter_choose_char e g).wlv.char_attr } := by
    simp only [iter_choose_char]
    by_cases hp0 : e.vim_isprintc 0 = true
    all_goals
      simp [fold_text, fold_fill, fold_truncate, h1, h2, h5, area_block, h7, h8, next_char, hfi,
        next_from_buffer, buf_decode, hend, buf_special, hb, buf_overflow, hc0,
        buf_left_filler, h10, buf_advance, extra_check_block, h9, nonprint_block, hp0,
        nonprint_eol_cond, e2, hf1, hf2, nonprint_virtualedit_cond, h16,
        conceal_block, conceal_cond, e3, buf_unstick]
      rw [cursor_wcol_shape, extra_attr_combine_shape]
      simp [lcs_prec_block, lcs_prec_cond, e2, eol_hl_block, eol_hl_cond, h13, h20, hpc, h1, h2,
        h16]
  generalize hCdef : iter_choose_char e g = C at hC
  have c1 : C.c = 0 := by rw [hC]
  have hit : win_line_iter e s = (end_of_line e C, true) := by
    simp [win_line_iter, hg, hcul, hdc, hCdef, c1]
  obtain ⟨r1, r2, r3, r4⟩ := end_of_line_plain e C e4 e5 (by rw [hC]; exact h4)
    (by rw [hC]; exact h11) (by rw [hC]; exact h12) (by rw [hC]; exact h17)
    (by rw [hC]; exact h18) (by rw [hC]; exact h19) (by rw [hC]; exact hvt)
  rw [hit]
  refine ⟨rfl, ?_, ?_, ?_, ?_⟩
  · rw [r1, hC]
  · rw [r2, hC]
  · rw [r3, hC]
  · rw [r4, hC]
    simp [e1]

theorem plain_body_iter_begin (s : LoopState) (h : PlainBody s) : PlainBody (iter_begin s) := h

theorem win_line_loop_mono (e : Env) (n : Nat) :
    ∀ (s s' : LoopState) (m : Nat), win_line_loop e n s = some s' → n ≤ m →
      win_line_loop e m s = some s' := by
  induction n with
  | zero => intro s s' m h; simp [win_line_loop] at h
  | succ n ih =>
    intro s s' m h hm
    obtain ⟨m', rfl⟩ : ∃ m', m = m' + 1 := ⟨m - 1, by omega⟩
    simp only [win_line_loop] at h ⊢
    split
    · rename_i h2
      simpa [h2] using h
    · rename_i h2
      simp only [h2] at h
      exact ih _ _ _ h (by omega)

set_option maxHeartbeats 1000000 in
/-- The loop over the rest of a plain line that fits in the row: `n` bytes are
left, `g` is the state after the gutter part of the first pass. -/
theorem plain_loop (e : Env) (he : PlainEnv e)
    (hlen : ∀ i : Nat, i < e.line.length → e.utfc_ptr2len (bytesFrom e.line i) = 1)
    (hend : e.utfc_ptr2len (bytesFrom e.line e.line.length) = 0)
    (hprint : ∀ b, 0x20 ≤ b → b < 0x7F → e.vim_isprintc b = true)
    (hcells : ∀ b, 0x20 ≤ b → b < 0x7F → e.utf_char2cells b = 1)
    (hc0 : e.utf_char2cells 0 ≠ 2)
    (hvt : ∀ a b c d ch at_, e.draw_virt_text a b c d ch at_ = (ch, at_, b))
    (hpc : ∀ p, e.get_prevcol_hl_flag p = false) (n : Nat) :
    ∀ (s g : LoopState), gutter_phase e (iter_begin s) = (g, false) → PlainBody g →
      0 ≤ g.ptr → g.ptr + n = e.line.length → g.wlv.col + n ≤ e.wp.cols →
      ∃ s', win_line_loop e (n + 1) s = some s'
        ∧ s'.wlv.row = g.wlv.row + 1
        ∧ (∀ j : Nat, j < n →
            s'.linebuf_char (g.wlv.off + j) = schar_from_ascii (byteAt e.line (g.ptr + j)))
        ∧ (∀ k, k < g.wlv.off ∨ g.wlv.off + n ≤ k → s'.linebuf_char k = g.linebuf_char k)
        ∧ s'.grid = GridCall.put ⟨g.wlv.row, 0, g.wlv.col + n, e.wp.cols, false, g.bg_attr,
            false, s'.linebuf_char, s'.linebuf_attr⟩ :: g.grid := by
  induction n with
  | zero =>
    intro s g hg hs hp0 hp hfit
    have hp2 : g.ptr = e.line.length := by omega
    obtain ⟨r1, r2, r3, r4, r5⟩ := plain_end e s g he hg hs hp2 (by rw [hp2]; exact hend) hc0
      (fun ch at_ => hvt _ _ _ _ ch at_) (hpc _)
    refine ⟨(win_line_iter e s).1, ?_, r2, ?_, ?_, ?_⟩
    · simp [win_line_loop, r1]
    · intro j hj
      omega
    · intro k _
      rw [r3]
    · rw [r5, r3, r4]
      simp
  | succ n ih =>
    intro s g hg hs hp0 hp hfit
    have hi : g.ptr < e.line.length := by omega
    have hb := he.2.2.2.2.2.2.2.2 _ (byteAt_mem e.line g.ptr hp0 hi)
    have hl : e.utfc_ptr2len (bytesFrom e.line g.ptr) = 1 := by
      have := hlen g.ptr.toNat (by omega)
      rwa [Int.toNat_of_nonneg hp0] at this
    obtain ⟨t1, t2, t3, t4, t5, t6, t7, t8, t9, _⟩ := plain_step e s g he hg hs hp0 hi
      (by omega) hl (hprint _ hb.1 hb.2) (hcells _ hb.1 hb.2)
    generalize hT : (win_line_iter e s).1 = T at *
    have hgT : gutter_phase e (iter_begin T) = (iter_begin T, false) :=
      gutter_phase_line e (iter_begin T) t2.1
    obtain ⟨s', q1, q2, q3, q4, q5⟩ := ih T (iter_begin T) hgT (plain_body_iter_begin T t2)
      (by show 0 ≤ T.ptr; omega) (by show T.ptr + n = _; push_cast at hp; omega)
      (by show T.wlv.col + n ≤ _; push_cast at hfit; omega)
    have i1 : (iter_begin T).wlv.row = g.wlv.row := t7
    have i2 : (iter_begin T).wlv.off = g.wlv.off + 1 := t4
    have i3 : (iter_begin T).wlv.col = g.wlv.col + 1 := t5
    have i4 : (iter_begin T).ptr = g.ptr + 1 := t3
    have i5 : (iter_begin T).linebuf_char
        = bufSet g.linebuf_char g.wlv.off (schar_from_ascii (byteAt e.line g.ptr)) := t6
    have i6 : (iter_begin T).grid = g.grid := t8
    have i7 : (iter_begin T).bg_attr = g.bg_attr := t9
    rw [i1] at q2 q5
    rw [i2] at q3 q4
    rw [i3, i6, i7] at q5
    rw [i4] at q3
    rw [i5] at q4
    refine ⟨s', ?_, q2, ?_, ?_, ?_⟩
    · rw [← q1]
      simp [win_line_loop, t1, hT]
    · intro j hj
      rcases Nat.eq_zero_or_pos j with rfl | hpos
      · have := q4 g.wlv.off (Or.inl (by omega))
        simp [bufSet] at this
        simpa using this
      · obtain ⟨j', rfl⟩ : ∃ j', j = j' + 1 := ⟨j - 1, by omega⟩
        have := q3 j' (by omega)
        have e1 : g.wlv.off + ((j' + 1 : Nat) : Int) = g.wlv.off + 1 + (j' : Int) := by
          push_cast; ring
        have e2 : g.ptr + ((j' + 1 : Nat) : Int) = g.ptr + 1 + (j' : Int) := by
          push_cast; ring
        rw [e1, e2]
        exact this
    · intro k hk
      have hk2 : k < g.wlv.off + 1 ∨ g.wlv.off + 1 + (n : Int) ≤ k := by
        rcases hk with hk | hk
        · left; omega
        · right; push_cast at hk; omega
      have := q4 k hk2
      rw [this]
      have hne : k ≠ g.wlv.off := by
        rcases hk with hk | hk
        · omega
        · push_cast at hk; omega
      simp [bufSet, hne]
    · rw [q5]
      have e3 : g.wlv.col + 1 + (n : Int) = g.wlv.col + ((n + 1 : Nat) : Int) := by
        push_cast; ring
      rw [e3]

/-- The selection attribute after "start highlighting / stop highlighting" is
the one that belongs to the current column. -/
theorem area_start_stop_sel (e : Env) (g : LoopState) (hs : SelBody g)
    (hcells : e.utf_ptr2cells (bytesFrom e.line g.ptr) ≤ 1)
    (ha : g.area_attr = area_at g (g.wlv.vcol - 1)) :
    ∃ b, area_start_stop e g
      = { g with area_attr := area_at g g.wlv.vcol, area_active := b } := by
  obtain ⟨h1, h2, h3, h4, h5, h6, h7, h8, h9, h10, h11, h12, h13, h14, h15, h16, h17, h18,
    h19, h20, h21, h22, h23, h24, h25, h26, h27⟩ := hs
  have hc2 : ¬ e.utf_ptr2cells (bytesFrom e.line g.ptr) > 1 := by omega
  have hc3 : ¬ g.vcol_prev = g.fromcol_prev := by omega
  unfold area_start_stop
  by_cases hon : g.wlv.vcol = g.wlv.fromcol
  · have hat : area_at g g.wlv.vcol = g.vi_attr := by
      unfold area_at
      rw [if_pos ⟨by omega, by omega⟩]
    rw [if_pos (Or.inl hon), hat]
    exact ⟨_, rfl⟩
  · have hn1 : ¬ (g.wlv.vcol = g.wlv.fromcol
        ∨ (g.wlv.vcol + 1 = g.wlv.fromcol ∧ g.wlv.n_extra = 0
            ∧ e.utf_ptr2cells (bytesFrom e.line g.ptr) > 1)
        ∨ (g.vcol_prev = g.fromcol_prev ∧ g.vcol_prev < g.wlv.vcol
            ∧ g.wlv.vcol < g.wlv.tocol)) := by
      rintro (h | h | h)
      · exact hon h
      · exact hc2 h.2.2
      · exact hc3 h.1
    rw [if_neg hn1]
    by_cases hoff : g.area_attr ≠ 0 ∧ g.wlv.vcol = g.wlv.tocol
    · have hat : area_at g g.wlv.vcol = 0 := by
        unfold area_at
        rw [if_neg (by omega)]
      rw [if_pos ⟨hoff.1, Or.inl hoff.2⟩, hat]
      exact ⟨_, rfl⟩
    · have hn2 : ¬ (g.area_attr ≠ 0
          ∧ (g.wlv.vcol = g.wlv.tocol ∨ (g.noinvcur ∧ g.wlv.vcol = e.wp.w_virtcol))) := by
        rintro ⟨k1, k2 | k2⟩
        · exact hoff ⟨k1, k2⟩
        · rw [h16] at k2
          exact absurd k2.1 (by decide)
      rw [if_neg hn2]
      have hat : area_at g g.wlv.vcol = g.area_attr := by
        rw [ha]
        unfold area_at
        by_cases hin : g.wlv.fromcol ≤ g.wlv.vcol - 1 ∧ g.wlv.vcol - 1 < g.wlv.tocol
        · have hne : g.area_attr ≠ 0 := by
            rw [ha]
            unfold area_at
            rw [if_pos hin]
            exact h20
          have : ¬ g.wlv.vcol = g.wlv.tocol := fun h => hoff ⟨hne, h⟩
          rw [if_pos hin, if_pos ⟨by omega, by omega⟩]
        · rw [if_neg hin, if_neg (by omega)]
      rw [hat]
      exact ⟨g.area_active, rfl⟩

theorem area_at_ne_zero (g : LoopState) (hv : g.vi_attr ≠ 0) (v : Int) :
    area_at g v ≠ 0 ↔ g.wlv.fromcol ≤ v ∧ v < g.wlv.tocol := by
  unfold area_at
  split
  · simp [*]
  · simp [*]

set_option maxHeartbeats 1000000 in
/-- The block "handle Visual or match highlighting in this line" for a line
with a selection and no other highlighting. -/
theorem area_block_sel (e : Env) (g : LoopState) (hs : SelBody g)
    (hcells : e.utf_ptr2cells (bytesFrom e.line g.ptr) ≤ 1)
    (ha : g.area_attr = area_at g (g.wlv.vcol - 1))
    (hush : ∀ p l h, (e.update_search_hl p l h).search_attr = 0) :
    ∃ b m1 m2 m3 m4 p, area_block e g
      = { g with
            area_attr := area_at g g.wlv.vcol,
            area_active := b,
            v := g.ptr,
            search_attr := 0,
            has_match_conc := m1,
            match_conc := m2,
            on_last_col := m3,
            search_attr_from_match := m4,
            attr_pri := p,
            wlv.char_attr :=
              if g.wlv.fromcol ≤ g.wlv.vcol ∧ g.wlv.vcol < g.wlv.tocol then
                (if e.highlight_match then e.hl_combine_attr 0 g.vi_attr
                 else e.hl_combine_attr 0 (e.hl_combine_attr 0 g.vi_attr))
              else 0 } := by
  obtain ⟨b, hb⟩ := area_start_stop_sel e g hs hcells ha
  obtain ⟨h1, h2, h3, h4, h5, h6, h7, h8, h9, h10, h11, h12, h13, h14, h15, h16, h17, h18,
    h19, h20, h21, h22, h23, h24, h25, h26, h27⟩ := hs
  have hab : area_block e g = decide_attr e (area_diff e (area_search e (area_start_stop e g))) := by
    simp [area_block, h1, h7]
  rw [hab, hb]
  by_cases hin : g.wlv.fromcol ≤ g.wlv.vcol ∧ g.wlv.vcol < g.wlv.tocol
  · have hat : area_at g g.wlv.vcol = g.vi_attr := by
      unfold area_at; rw [if_pos hin]
    rw [hat]
    by_cases hm : e.highlight_match = true
    all_goals
      simp [area_search, h2, hush, area_diff, h24, decide_attr, h20, hm, h22, hin]
  · have hat : area_at g g.wlv.vcol = 0 := by
      unfold area_at; rw [if_neg hin]
    rw [hat]
    simp [area_search, h2, hush, area_diff, h24, decide_attr, h22, h13, hin]

set_option maxHeartbeats 1000000 in
/-- The character chosen for a printable ASCII byte after the highlighting
block, in a state `a` in which nothing of the extra checks applies. -/
theorem choose_rest_plain (e : Env) (a : LoopState) (he : PlainEnv e)
    (h1 : a.wlv.draw_state = WL_LINE) (h2 : a.wlv.n_extra = 0) (h9 : a.extra_check = false)
    (h10 : a.n_skip = 0) (h14 : a.n_attr = 0)
    (hi0 : 0 ≤ a.ptr) (hi : a.ptr < e.line.length)
    (hlen : e.utfc_ptr2len (bytesFrom e.line a.ptr) = 1)
    (hprint : e.vim_isprintc (byteAt e.line a.ptr) = true)
    (hcells : e.utf_char2cells (byteAt e.line a.ptr) = 1) :
    eol_hl_block e (lcs_prec_block e (extra_attr_combine e (cursor_wcol e (next_char e a))))
      = { a with
            c0 := byteAt e.line a.ptr,
            c := byteAt e.line a.ptr,
            mb_c := byteAt e.line a.ptr,
            mb_l := 1,
            mb_utf8 := false,
            prev_c := byteAt e.line a.ptr,
            ptr := a.ptr + 1,
            prev_syntax_id := 0,
            is_concealing := false,
            w_wcol := (eol_hl_block e (lcs_prec_block e (extra_attr_combine e
              (cursor_wcol e (next_char e a))))).w_wcol,
            w_wrow := (eol_hl_block e (lcs_prec_block e (extra_attr_combine e
              (cursor_wcol e (next_char e a))))).w_wrow,
            did_wcol := (eol_hl_block e (lcs_prec_block e (extra_attr_combine e
              (cursor_wcol e (next_char e a))))).did_wcol } := by
  obtain ⟨e1, e2, e3, e4, e5, e6, e7, e8, e9⟩ := he
  have hb := e9 _ (byteAt_mem e.line a.ptr hi0 hi)
  have hb1 : ¬ 128 ≤ byteAt e.line a.ptr := by omega
  have hb2 : ¬ byteAt e.line a.ptr = 0 := by omega
  have hfi : ¬ 0 < e.foldinfo.fi_lines := by omega
  have har := arabic_char_byte (byteAt e.line a.ptr) (by omega) (by omega)
  simp [next_char, h2, hfi, next_from_buffer, buf_decode, hlen, buf_special, hb1, hb2, har,
    buf_overflow, hcells, buf_left_filler, h10, buf_advance,
    extra_check_block, h9, nonprint_block, hprint, conceal_block, conceal_cond, e3,
    buf_unstick]
  rw [cursor_wcol_shape]
  simp [extra_attr_combine, h14, lcs_prec_block, lcs_prec_cond, e2, eol_hl_block, hb2, h1, h2]

set_option maxHeartbeats 2000000 in
/-- One pass of the loop over a printable ASCII byte of a line with a
selection, `g` being the state after the gutter part of the pass: the byte is
stored with the attribute that belongs to its column. -/
theorem sel_step (e : Env) (s g : LoopState) (he : PlainEnv e)
    (hg : gutter_phase e (iter_begin s) = (g, false)) (hs : SelBody g)
    (ha : g.area_attr = area_at g (g.wlv.vcol - 1))
    (hi0 : 0 ≤ g.ptr) (hi : g.ptr < e.line.length)
    (hfit : g.wlv.col + (e.line.length - g.ptr) ≤ e.wp.cols)
    (hlen : e.utfc_ptr2len (bytesFrom e.line g.ptr) = 1)
    (hprint : e.vim_isprintc (byteAt e.line g.ptr) = true)
    (hcells : e.utf_char2cells (byteAt e.line g.ptr) = 1)
    (hpcells : e.utf_ptr2cells (bytesFrom e.line g.ptr) ≤ 1)
    (hush : ∀ p l h, (e.update_search_hl p l h).search_attr = 0) :
    (win_line_iter e s).2 = false
    ∧ SelBody (win_line_iter e s).1
    ∧ (win_line_iter e s).1.ptr = g.ptr + 1
    ∧ (win_line_iter e s).1.wlv.vcol = g.wlv.vcol + 1
    ∧ (win_line_iter e s).1.area_attr = area_at g g.wlv.vcol
    ∧ (win_line_iter e s).1.wlv.fromcol = g.wlv.fromcol
    ∧ (win_line_iter e s).1.wlv.tocol = g.wlv.tocol
    ∧ (win_line_iter e s).1.vi_attr = g.vi_attr
    ∧ (win_line_iter e s).1.wlv.off = g.wlv.off + 1
    ∧ (win_line_iter e s).1.wlv.col = g.wlv.col + 1
    ∧ (win_line_iter e s).1.linebuf_char
        = bufSet g.linebuf_char g.wlv.off (schar_from_ascii (byteAt e.line g.ptr))
    ∧ (win_line_iter e s).1.linebuf_attr
        = bufSet g.linebuf_attr g.wlv.off (sel_cell_attr e g g.wlv.vcol)
    ∧ (win_line_iter e s).1.wlv.row = g.wlv.row
    ∧ (win_line_iter e s).1.grid = g.grid
    ∧ (win_line_iter e s).1.bg_attr = g.bg_attr := by
  obtain ⟨b, m1, m2, m3, m4, p, hA⟩ := area_block_sel e g hs hpcells ha hush
  have he' := he
  obtain ⟨e1, e2, e3, e4, e5, e6, e7, e8, e9⟩ := he
  obtain ⟨h1, h2, h3, h4, h5, h6, h7, h8, h9, h10, h11, h12, h13, h14, h15, h16, h17, h18,
    h19, h20, h21, h22, h23, h24, h25, h26, h27⟩ := hs
  have hb := e9 _ (byteAt_mem e.line g.ptr hi0 hi)
  have hb2 : ¬ byteAt e.line g.ptr = 0 := by omega
  have hcul : cul_screenline_apply e g = g := by
    simp [cul_screenline_apply, h6]
  have hdc : ¬ dollar_cond e g := by
    have : ¬ 0 ≤ e.dollar_vcol := by omega
    simp [dollar_cond, e8, this]
  have hfold : fold_truncate e (fold_fill e (fold_text e g)) = g := by
    simp [fold_text, fold_fill, fold_truncate, h5]
  generalize hAdef : area_block e g = a at hA
  have hC := choose_rest_plain e a he' (by rw [hA]; exact h1) (by rw [hA]; exact h2)
    (by rw [hA]; exact h9) (by rw [hA]; exact h10) (by rw [hA]; exact h14)
    (by rw [hA]; exact hi0) (by rw [hA]; exact hi) (by rw [hA]; exact hlen)
    (by rw [hA]; exact hprint) (by rw [hA]; exact hcells)
  have hCdef0 : iter_choose_char e g
      = eol_hl_block e (lcs_prec_block e (extra_attr_combine e (cursor_wcol e
          (next_char e a)))) := by
    simp only [iter_choose_char, hfold, hAdef]
  rw [← hCdef0] at hC
  generalize hCdef : iter_choose_char e g = C at hC
  rw [hA] at hC
  have c1 : C.c = byteAt e.line g.ptr := by rw [hC]
  have c2 : C.mb_c = byteAt e.line g.ptr := by rw [hC]
  have c3 : C.wlv.draw_state = WL_LINE := by rw [hC]; exact h1
  have c4 : C.n_skip = 0 := by rw [hC]; exact h10
  have hx : ¬ lcs_ext_cond e C := by simp [lcs_ext_cond, e2]
  have hw : ¬ e.utf_char2cells C.mb_c > 1 := by rw [c2, hcells]; decide
  have hsh := iter_store_narrow e C c3 (le_of_eq c4) hw hx
  have hsa := stored_attr_plain e C c3 hx e4 (by rw [hC]; exact h11) (by rw [hC]; exact h15)
  generalize hTdef : iter_store e (iter_before_store e C) = T at hsh
  have hcc : color_col_advance C = C := color_col_advance_off C (by rw [hC]; exact h11)
  rw [hcc, hsa] at hsh
  have hbl : byteAt e.line (g.ptr + 1) ≠ 0 → g.ptr + 1 < e.line.length := by
    intro hne
    by_contra hge
    exact hne (byteAt_out _ _ (by omega))
  have hre : ¬ row_end_cond e T := by
    rw [hsh, hC]
    simp only [row_end_cond, e1, e2]
    simp [h1, h2, h3, h5]
    intro hcol
    by_contra hne
    have := hbl hne
    omega
  have hit : win_line_iter e s = (T, false) := by
    simp [win_line_iter, hg, hcul, hdc, hCdef, c1, hb2, hTdef, row_end_none e T hre]
  rw [hit]
  refine ⟨rfl, ?_, ?_, ?_, ?_, ?_, ?_, ?_, ?_, ?_, ?_, ?_, ?_, ?_, ?_⟩
  · rw [hsh, hC]
    simp [SelBody, h1, h2, h3, h4, h5, h6, h7, h8, h9, h10, h11, h12, h13, h14, h15, h16,
      h17, h18, h19, h20, h21, h22, h23, h24, h25, h26, h27]
    omega
  all_goals
    rw [hsh, hC]
    try simp [e1, h3, sel_cell_attr, h23]

set_option maxHeartbeats 2000000 in
/-- The pass of the loop at the end of a line whose selection ends inside the
line, `g` being the state after the gutter part of the pass: the row is
handed to the grid as it is and the loop is left. -/
theorem sel_end (e : Env) (s g : LoopState) (he : PlainEnv e)
    (hg : gutter_phase e (iter_begin s) = (g, false)) (hs : SelBody g)
    (ha : g.area_attr = area_at g (g.wlv.vcol - 1))
    (hp : g.ptr = e.line.length) (hto : g.wlv.tocol ≤ g.wlv.vcol)
    (hend : e.utfc_ptr2len (bytesFrom e.line g.ptr) = 0)
    (hc0 : e.utf_char2cells 0 ≠ 2)
    (hvt : ∀ ch at_, e.draw_virt_text g.win_col_offset g.wlv.col e.wp.cols g.wlv.row ch at_
        = (ch, at_, g.wlv.col))
    (hpc : e.get_prevcol_hl_flag g.ptr = false)
    (hpcells : e.utf_ptr2cells (bytesFrom e.line g.ptr) ≤ 1)
    (hush : ∀ p l h, (e.update_search_hl p l h).search_attr = 0) :
    (win_line_iter e s).2 = true
    ∧ (win_line_iter e s).1.wlv.row = g.wlv.row + 1
    ∧ (win_line_iter e s).1.linebuf_char = g.linebuf_char
    ∧ (win_line_iter e s).1.linebuf_attr = g.linebuf_attr
    ∧ (win_line_iter e s).1.grid
        = GridCall.put ⟨g.wlv.row, 0, g.wlv.col, e.wp.cols, false, g.bg_attr, false,
            g.linebuf_char, g.linebuf_attr⟩ :: g.grid := by
  obtain ⟨b, m1, m2, m3, m4, p, hA⟩ := area_block_sel e g hs hpcells ha hush
  obtain ⟨e1, e2, e3, e4, e5, e6, e7, e8, e9⟩ := he
  obtain ⟨h1, h2, h3, h4, h5, h6, h7, h8, h9, h10, h11, h12, h13, h14, h15, h16, h17, h18,
    h19, h20, h21, h22, h23, h24, h25, h26, h27⟩ := hs
  have hb : byteAt e.line g.ptr = 0 := byteAt_out _ _ (by omega)
  have hfi : ¬ 0 < e.foldinfo.fi_lines := by omega
  have hcul : cul_screenline_apply e g = g := by
    simp [cul_screenline_apply, h6]
  have hdc : ¬ dollar_cond e g := by
    have : ¬ 0 ≤ e.dollar_vcol := by omega
    simp [dollar_cond, e8, this]
  have hfold : fold_truncate e (fold_fill e (fold_text e g)) = g := by
    simp [fold_text, fold_fill, fold_truncate, h5]
  have ht1 : ¬ g.wlv.vcol < g.wlv.tocol := by omega
  have ht2 : ¬ g.wlv.vcol = g.wlv.fromcol := by omega
  have hC : iter_choose_char e g
      = { g with
            area_attr := area_at g g.wlv.vcol,
            area_active := b,
            v := g.ptr,
            search_attr := 0,
            has_match_conc := m1,
            match_conc := m2,
            on_last_col := m3,
            search_attr_from_match := m4,
            attr_pri := p,
            wlv.char_attr := 0,
            c0 := 0,
            c := 0,
            mb_c := 0,
            mb_l := 1,
            mb_utf8 := false,
            ptr := g.ptr + 1,
            prev_syntax_id := 0,
            is_concealing := false,
            w_wcol := (iter_choose_char e g).w_wcol,
            w_wrow := (iter_choose_char e g).w_wrow,
            did_wcol := (iter_choose_char e g).did_wcol } := by
    simp only [iter_choose_char, hfold]
    rw [hA]
    have hin : ¬ (g.wlv.fromcol ≤ g.wlv.vcol ∧ g.wlv.vcol < g.wlv.tocol) := by omega
    by_cases hp0 : e.vim_isprintc 0 = true
    all_goals
      simp [next_char, h2, hfi, hin,
        next_from_buffer, buf_decode, hend, buf_special, hb, buf_overflow, hc0,
        buf_left_filler, h10, buf_advance, extra_check_block, h9, nonprint_block, hp0,
        nonprint_eol_cond, e2, ht1, nonprint_virtualedit_cond,
        conceal_block, conceal_cond, e3, buf_unstick]
      rw [cursor_wcol_shape]
      simp [extra_attr_combine, h14, lcs_prec_block, lcs_prec_cond, e2, eol_hl_block,
        eol_hl_cond, h25, hpc, h1, h2, ht2]
  generalize hCdef : iter_choose_char e g = C at hC
  have c1 : C.c = 0 := by rw [hC]
  have hit : win_line_iter e s = (end_of_line e C, true) := by
    simp [win_line_iter, hg, hcul, hdc, hCdef, c1]
  obtain ⟨r1, r2, r3, r4⟩ := end_of_line_plain e C e4 e5 (by rw [hC]; exact h4)
    (by rw [hC]; exact h11) (by rw [hC]; exact h12) (by rw [hC]; exact h22)
    (by rw [hC]; exact h23) (by rw [hC]; exact h24) (by rw [hC]; exact hvt)
  rw [hit]
  refine ⟨rfl, ?_, ?_, ?_, ?_⟩
  · rw [r1, hC]
  · rw [r2, hC]
  · rw [r3, hC]
  · rw [r4, hC]
    simp [e1]

theorem sel_cell_attr_congr (e : Env) (s t : LoopState) (v : Int)
    (h1 : t.wlv.fromcol = s.wlv.fromcol) (h2 : t.wlv.tocol = s.wlv.tocol)
    (h3 : t.vi_attr = s.vi_attr) : sel_cell_attr e t v = sel_cell_attr e s v := by
  simp [sel_cell_attr, h1, h2, h3]

theorem area_at_congr (s t : LoopState) (v : Int)
    (h1 : t.wlv.fromcol = s.wlv.fromcol) (h2 : t.wlv.tocol = s.wlv.tocol)
    (h3 : t.vi_attr = s.vi_attr) : area_at t v = area_at s v := by
  simp [area_at, h1, h2, h3]

theorem sel_body_iter_begin (s : LoopState) (h : SelBody s) : SelBody (iter_begin s) := h

set_option maxHeartbeats 1000000 in
/-- The loop over the rest of a line with a selection that fits in the row:
`n` bytes are left, `g` is the state after the gutter part of the first pass. -/
theorem sel_loop (e : Env) (he : PlainEnv e)
    (hlen : ∀ i : Nat, i < e.line.length → e.utfc_ptr2len (bytesFrom e.line i) = 1)
    (hend : e.utfc_ptr2len (bytesFrom e.line e.line.length) = 0)
    (hprint : ∀ b, 0x20 ≤ b → b < 0x7F → e.vim_isprintc b = true)
    (hcells : ∀ b, 0x20 ≤ b → b < 0x7F → e.utf_char2cells b = 1)
    (hc0 : e.utf_char2cells 0 ≠ 2)
    (hvt : ∀ a b c d ch at_, e.draw_virt_text a b c d ch at_ = (ch, at_, b))
    (hpc : ∀ p, e.get_prevcol_hl_flag p = false)
    (hpcells : ∀ i : Nat, i ≤ e.line.length → e.utf_ptr2cells (bytesFrom e.line i) ≤ 1)
    (hush : ∀ p l h, (e.update_search_hl p l h).search_attr = 0) (n : Nat) :
    ∀ (s g : LoopState), gutter_phase e (iter_begin s) = (g, false) → SelBody g →
      g.area_attr = area_at g (g.wlv.vcol - 1) →
      0 ≤ g.ptr → g.ptr + n = e.line.length → g.wlv.col + n ≤ e.wp.cols →
      g.wlv.tocol ≤ g.wlv.vcol + n →
      ∃ s', win_line_loop e (n + 1) s = some s'
        ∧ s'.wlv.row = g.wlv.row + 1
        ∧ (∀ j : Nat, j < n →
            s'.linebuf_attr (g.wlv.off + j) = sel_cell_attr e g (g.wlv.vcol + j))
        ∧ (∀ j : Nat, j < n →
            s'.linebuf_char (g.wlv.off + j) = schar_from_ascii (byteAt e.line (g.ptr + j)))
        ∧ (∀ k, k < g.wlv.off ∨ g.wlv.off + n ≤ k →
            s'.linebuf_attr k = g.linebuf_attr k ∧ s'.linebuf_char k = g.linebuf_char k)
        ∧ s'.grid = GridCall.put ⟨g.wlv.row, 0, g.wlv.col + n, e.wp.cols, false, g.bg_attr,
            false, s'.linebuf_char, s'.linebuf_attr⟩ :: g.grid := by
  induction n with
  | zero =>
    intro s g hg hs ha hp0 hp hfit hto
    have hp2 : g.ptr = e.line.length := by omega
    obtain ⟨r1, r2, r3, r4, r5⟩ := sel_end e s g he hg hs ha hp2 (by simpa using hto)
      (by rw [hp2]; exact hend) hc0 (fun ch at_ => hvt _ _ _ _ ch at_) (hpc _)
      (by rw [hp2]; exact hpcells _ (le_refl _)) hush
    refine ⟨(win_line_iter e s).1, ?_, r2, ?_, ?_, ?_, ?_⟩
    · simp [win_line_loop, r1]
    · intro j hj
      omega
    · intro j hj
      omega
    · intro k _
      rw [r3, r4]
      exact ⟨rfl, rfl⟩
    · rw [r5, r3, r4]
      simp
  | succ n ih =>
    intro s g hg hs ha hp0 hp hfit hto
    have hi : g.ptr < e.line.length := by omega
    have hb := he.2.2.2.2.2.2.2.2 _ (byteAt_mem e.line g.ptr hp0 hi)
    have hl : e.utfc_ptr2len (bytesFrom e.line g.ptr) = 1 := by
      have := hlen g.ptr.toNat (by omega)
      rwa [Int.toNat_of_nonneg hp0] at this
    have hpc1 : e.utf_ptr2cells (bytesFrom e.line g.ptr) ≤ 1 := by
      have := hpcells g.ptr.toNat (by omega)
      rwa [Int.toNat_of_nonneg hp0] at this
    obtain ⟨t1, t2, t3, t4, t5, t6, t7, t8, t9, t10, t11, t12, t13, t14, t15⟩ :=
      sel_step e s g he hg hs ha hp0 hi (by omega) hl (hprint _ hb.1 hb.2)
        (hcells _ hb.1 hb.2) hpc1 hush
    generalize hT : (win_line_iter e s).1 = T at *
    have hgT : gutter_phase e (iter_begin T) = (iter_begin T, false) :=
      gutter_phase_line e (iter_begin T) t2.1
    have haT : (iter_begin T).area_attr
        = area_at (iter_begin T) ((iter_begin T).wlv.vcol - 1) := by
      show T.area_attr = area_at (iter_begin T) (T.wlv.vcol - 1)
      rw [t5, t4, area_at_congr g (iter_begin T) _ t6 t7 t8]
      congr 1
      omega
    obtain ⟨s', q1, q2, q3, q4, q5, q6⟩ := ih T (iter_begin T) hgT (sel_body_iter_begin T t2)
      haT (by show 0 ≤ T.ptr; omega) (by show T.ptr + n = _; push_cast at hp; omega)
      (by show T.wlv.col + n ≤ _; push_cast at hfit; omega)
      (by show T.wlv.tocol ≤ T.wlv.vcol + n; push_cast at hto; omega)
    have i1 : (iter_begin T).wlv.row = g.wlv.row := t13
    have i2 : (iter_begin T).wlv.off = g.wlv.off + 1 := t9
    have i3 : (iter_begin T).wlv.col = g.wlv.col + 1 := t10
    have i4 : (iter_begin T).ptr = g.ptr + 1 := t3
    have i5 : (iter_begin T).linebuf_char
        = bufSet g.linebuf_char g.wlv.off (schar_from_ascii (byteAt e.line g.ptr)) := t11
    have i6 : (iter_begin T).grid = g.grid := t14
    have i7 : (iter_begin T).bg_attr = g.bg_attr := t15
    have i8 : (iter_begin T).linebuf_attr
        = bufSet g.linebuf_attr g.wlv.off (sel_cell_attr e g g.wlv.vcol) := t12
    have i9 : (iter_begin T).wlv.vcol = g.wlv.vcol + 1 := t4
    have i10 : ∀ v, sel_cell_attr e (iter_begin T) v = sel_cell_attr e g v :=
      fun v => sel_cell_attr_congr e g (iter_begin T) v t6 t7 t8
    rw [i1] at q2 q6
    rw [i2] at q3 q4 q5
    rw [i3, i6, i7] at q6
    rw [i4] at q4
    rw [i5, i8] at q5
    rw [i9] at q3
    simp only [i10] at q3
    refine ⟨s', ?_, q2, ?_, ?_, ?_, ?_⟩
    · rw [← q1]
      simp [win_line_loop, t1, hT]
    · intro j hj
      rcases Nat.eq_zero_or_pos j with rfl | hpos
      · have := (q5 g.wlv.off (Or.inl (by omega))).1
        simp [bufSet] at this
        simpa using this
      · obtain ⟨j', rfl⟩ : ∃ j', j = j' + 1 := ⟨j - 1, by omega⟩
        have := q3 j' (by omega)
        have e1 : g.wlv.off + ((j' + 1 : Nat) : Int) = g.wlv.off + 1 + (j' : Int) := by
          push_cast; ring
        have e2 : g.wlv.vcol + ((j' + 1 : Nat) : Int) = g.wlv.vcol + 1 + (j' : Int) := by
          push_cast; ring
        rw [e1, e2]
        exact this
    · intro j hj
      rcases Nat.eq_zero_or_pos j with rfl | hpos
      · have := (q5 g.wlv.off (Or.inl (by omega))).2
        simp [bufSet] at this
        simpa using this
      · obtain ⟨j', rfl⟩ : ∃ j', j = j' + 1 := ⟨j - 1, by omega⟩
        have := q4 j' (by omega)
        have e1 : g.wlv.off + ((j' + 1 : Nat) : Int) = g.wlv.off + 1 + (j' : Int) := by
          push_cast; ring
        have e2 : g.ptr + ((j' + 1 : Nat) : Int) = g.ptr + 1 + (j' : Int) := by
          push_cast; ring
        rw [e1, e2]
        exact this
    · intro k hk
      have hk2 : k < g.wlv.off + 1 ∨ g.wlv.off + 1 + (n : Int) ≤ k := by
        rcases hk with hk | hk
        · left; omega
        · right; push_cast at hk; omega
      have := q5 k hk2
      rw [this.1, this.2]
      have hne : k ≠ g.wlv.off := by
        rcases hk with hk | hk
        · omega
        · push_cast at hk; omega
      simp [bufSet, hne]
    · rw [q6]
      have e3 : g.wlv.col + 1 + (n : Int) = g.wlv.col + ((n + 1 : Nat) : Int) := by
        push_cast; ring
      rw [e3]

/-- Claim C19: `use_cursor_line_nr` is true exactly when 'cursorline' is set,
the line is the cursor line, 'cursorlineopt' has "number" and the row is the
first non-filler row of the line or a later row while 'cursorlineopt' has
"line"; it is false on the filler rows.  `get_line_number_attr` is then the
attribute of `CursorLineNr`; otherwise, under 'relativenumber', that of
`LineNrAbove` for a line before the cursor line and of `LineNrBelow` for a line
after it; and that of `LineNr` in every other case. -/
theorem line_number_attr_cases (e : Env) (wlv : winlinevars_T) :
    (use_cursor_line_nr e.wp wlv = true ↔
      (e.wp.w_p_cul = true ∧ wlv.lnum = e.wp.w_cursorline ∧ e.wp.culopt_nbr = true
        ∧ (wlv.row = wlv.startrow + wlv.filler_lines
            ∨ (wlv.row > wlv.startrow + wlv.filler_lines ∧ e.wp.culopt_line = true))))
    ∧ (wlv.row < wlv.startrow + wlv.filler_lines → use_cursor_line_nr e.wp wlv = false)
    ∧ (use_cursor_line_nr e.wp wlv = true →
        get_line_number_attr e wlv = e.win_hl_attr HLF_CLN)
    ∧ (use_cursor_line_nr e.wp wlv = false → e.wp.w_p_rnu = true →
        wlv.lnum < e.wp.w_cursor_lnum →
        get_line_number_attr e wlv = e.win_hl_attr HLF_LNA)
    ∧ (use_cursor_line_nr e.wp wlv = false → e.wp.w_p_rnu = true →
        wlv.lnum > e.wp.w_cursor_lnum →
        get_line_number_attr e wlv = e.win_hl_attr HLF_LNB)
    ∧ (use_cursor_line_nr e.wp wlv = false →
        (e.wp.w_p_rnu = false ∨ wlv.lnum = e.wp.w_cursor_lnum) →
        get_line_number_attr e wlv = e.win_hl_attr HLF_N) := by
  have hiff : use_cursor_line_nr e.wp wlv = true ↔
      (e.wp.w_p_cul = true ∧ wlv.lnum = e.wp.w_cursorline ∧ e.wp.culopt_nbr = true
        ∧ (wlv.row = wlv.startrow + wlv.filler_lines
            ∨ (wlv.row > wlv.startrow + wlv.filler_lines ∧ e.wp.culopt_line = true))) := by
    simp [use_cursor_line_nr, and_assoc]
  refine ⟨hiff, ?_, ?_, ?_, ?_, ?_⟩
  · intro h
    cases hu : use_cursor_line_nr e.wp wlv
    · rfl
    · obtain ⟨_, _, _, h4⟩ := hiff.mp hu
      omega
  · intro hu
    simp [get_line_number_attr, hu]
  · intro hu hr hl
    simp [get_line_number_attr, hu, hr, hl]
  · intro hu hr hl
    have : ¬ wlv.lnum < e.wp.w_cursor_lnum := by omega
    simp [get_line_number_attr, hu, hr, hl, this]
  · intro hu hr
    rcases hr with hr | hr
    · simp [get_line_number_attr, hu, hr]
    · simp [get_line_number_attr, hu, hr]

/-- The character code of a decimal digit. -/
theorem digitChar_code (d : Nat) (h : d < 10) :
    ((Nat.digitChar d).toNat : Int) = 48 + (d : Int) := by
  interval_cases d <;> rfl

/-- The digits produced by `natDigits` are those of `Nat.toDigits`. -/
theorem natDigits_toDigitsCore (f n : Nat) (acc : List Char) :
    natDigits f n (acc.map (fun c => (c.toNat : Int)))
      = (Nat.toDigitsCore 10 f n acc).map (fun c => (c.toNat : Int)) := by
  induction f generalizing n acc with
  | zero => simp [natDigits, Nat.toDigitsCore]
  | succ f ih =>
    have hd := digitChar_code (n % 10) (Nat.mod_lt _ (by norm_num))
    by_cases h : n / 10 = 0
    · simp [natDigits, Nat.toDigitsCore, h, hd]
    · have := ih (n / 10) (Nat.digitChar (n % 10) :: acc)
      simp only [List.map_cons, hd] at this
      simp only [natDigits, Nat.toDigitsCore, h, if_false]
      exact this

/-- The conversion `%ld` of a number that is not negative gives its decimal
digits. -/
theorem fmt_ld_nonneg (n : Int) (h : 0 ≤ n) :
    fmt_ld n = (Nat.toDigits 10 n.toNat).map (fun c => (c.toNat : Int)) := by
  have := natDigits_toDigitsCore (n.toNat + 1) n.toNat []
  simp only [List.map_nil] at this
  simp [fmt_ld, Nat.toDigits, this, not_lt.mpr h]

/-- The text written by `snprintf` for a number that is not negative, in a
buffer that holds it. -/
theorem snprintf_ld_nonneg (buf_len : Nat) (left : Bool) (width n : Int) (hw : 0 ≤ width)
    (h : 0 ≤ n)
    (hb : max width.toNat (Nat.toDigits 10 n.toNat).length + 2 ≤ buf_len) :
    snprintf_ld buf_len left width n =
      (if left then
        (Nat.toDigits 10 n.toNat).map (fun c => (c.toNat : Int))
          ++ List.replicate (width.toNat - (Nat.toDigits 10 n.toNat).length) 32
       else
        List.replicate (width.toNat - (Nat.toDigits 10 n.toNat).length) 32
          ++ (Nat.toDigits 10 n.toNat).map (fun c => (c.toNat : Int))) ++ [32] := by
  have hwn : ¬ width < 0 := not_lt.mpr hw
  have hna : width.natAbs = width.toNat := by omega
  unfold snprintf_ld
  simp only [fmt_ld_nonneg n h, hwn, decide_False, Bool.or_false, List.length_map, hna]
  apply List.take_of_length_le
  cases left <;> simp <;> omega

/-- Claim C18: `get_line_number_str` writes the number followed by one space,
the number padded with spaces to `number_width`: the line number, the digits
last, when 'number' is set without 'relativenumber'; otherwise the absolute
value of the distance to the cursor line, the digits last, except that with both
options set and a distance of 0 it is the line number, the digits first.  The
buffer is taken to hold the text and the line number not to be negative. -/
theorem line_number_str_format (e : Env) (lnum : Int) (buf_len : Nat)
    (hw : 0 ≤ e.number_width) (hl : 0 ≤ lnum)
    (hb : e.number_width.toNat + 2 ≤ buf_len)
    (hbl : (Nat.toDigits 10 lnum.toNat).length + 2 ≤ buf_len)
    (hbr : (Nat.toDigits 10 |e.get_cursor_rel_lnum lnum|.toNat).length + 2 ≤ buf_len) :
    get_line_number_str e lnum buf_len =
      (if e.wp.w_p_nu = true ∧ e.wp.w_p_rnu = false then
        List.replicate (e.number_width.toNat - (Nat.toDigits 10 lnum.toNat).length) 32
          ++ (Nat.toDigits 10 lnum.toNat).map (fun c => (c.toNat : Int))
       else if e.get_cursor_rel_lnum lnum = 0 ∧ e.wp.w_p_nu = true ∧ e.wp.w_p_rnu = true then
        (Nat.toDigits 10 lnum.toNat).map (fun c => (c.toNat : Int))
          ++ List.replicate (e.number_width.toNat - (Nat.toDigits 10 lnum.toNat).length) 32
       else
        List.replicate (e.number_width.toNat
            - (Nat.toDigits 10 |e.get_cursor_rel_lnum lnum|.toNat).length) 32
          ++ (Nat.toDigits 10 |e.get_cursor_rel_lnum lnum|.toNat).map
              (fun c => (c.toNat : Int))) ++ [32] := by
  have h1 := snprintf_ld_nonneg buf_len false e.number_width lnum hw hl (by omega)
  have h2 := snprintf_ld_nonneg buf_len true e.number_width lnum hw hl (by omega)
  have h3 := snprintf_ld_nonneg buf_len false e.number_width |e.get_cursor_rel_lnum lnum| hw
    (abs_nonneg _) (by omega)
  unfold get_line_number_str
  by_cases hn : e.wp.w_p_nu = true <;> by_cases hr : e.wp.w_p_rnu = true
    <;> by_cases h0 : e.get_cursor_rel_lnum lnum = 0
    <;> simp [hn, hr, h0, h1, h2, h3]
    <;> simp_all

set_option maxRecDepth 100000 in
/-- In line 12 with the cursor in line 1, 'number' and 'relativenumber' set and
a number column of 4 cells, the text is `"  11 "`. -/
theorem line_number_str_format_witness :
    get_line_number_str Sample.env_number 12 EXTRA_SIZE = [32, 32, 49, 49, 32] := by
  have h := line_number_str_format Sample.env_number 12 EXTRA_SIZE (by decide) (by decide)
    (by decide) (by decide) (by decide)
  rw [h]
  decide

theorem area_search_area_attr (e : Env) (s : LoopState) :
    (area_search e s).area_attr = s.area_attr
    ∧ (area_search e s).vi_attr = s.vi_attr := by
  unfold area_search
  split <;> exact ⟨rfl, rfl⟩

theorem area_diff_area_attr (e : Env) (s : LoopState) :
    (area_diff e s).area_attr = s.area_attr := by
  unfold area_diff
  lift_lets
  repeat (first
    | (intro t
       have ht : (t : LoopState).area_attr = s.area_attr := by
         simp only [t]
         repeat' split
         all_goals (first | rfl | assumption)
       clear_value t)
    | intro t)
  repeat' split
  all_goals (first | rfl | assumption)

/-- Claim C11: a selection boundary in the middle of a double-width character
is moved to cover the whole character.  When a character of width 2 is stored,
the virtual column advances over its first half (in the text of the line, when
no filler row is drawn) and `tocol`, if it equals the virtual column then, is
increased by one.  And when the selection starts on the second half of a
character of width 2 (`vcol + 1 == fromcol`, nothing pending, the character at
`ptr` takes more than one cell), the selection attribute is started at that
character: `area_attr` is `vi_attr`, and in the text of a line with area
highlighting the attribute of the character is the selection attribute combined
on top of the line attribute (under the search attribute unless an 'incsearch'
match is shown). -/
theorem selection_wide_boundary (e : Env) (s : LoopState) :
    (e.utf_char2cells s.mb_c > 1 →
      (store_char e s).wlv.vcol
          = (if s.wlv.draw_state > WL_STC ∧ s.wlv.filler_todo ≤ 0 then s.wlv.vcol + 1
             else s.wlv.vcol)
      ∧ (store_char e s).wlv.tocol
          = (if s.wlv.tocol = (store_char e s).wlv.vcol then s.wlv.tocol + 1
             else s.wlv.tocol))
    ∧ (s.wlv.vcol + 1 = s.wlv.fromcol → s.wlv.n_extra = 0 →
        e.utf_ptr2cells (bytesFrom e.line s.ptr) > 1 →
        (area_start_stop e s).area_attr = s.vi_attr
        ∧ (area_before_decide e s).area_attr = s.vi_attr
        ∧ (s.wlv.draw_state = WL_LINE → s.area_highlighting = true → ¬ s.vi_attr = 0 →
            (area_block e s).wlv.char_attr =
              (if e.highlight_match then
                e.hl_combine_attr (area_before_decide e s).wlv.line_attr s.vi_attr
               else
                e.hl_combine_attr (area_before_decide e s).search_attr
                  (e.hl_combine_attr (area_before_decide e s).wlv.line_attr s.vi_attr)))) := by
  constructor
  · intro hw
    by_cases hm : s.multi_attr = 0 <;>
    by_cases hd : s.wlv.draw_state > WL_STC ∧ s.wlv.filler_todo ≤ 0 <;>
    by_cases ht : s.wlv.tocol = s.wlv.vcol <;>
    by_cases ht1 : s.wlv.tocol = s.wlv.vcol + 1 <;>
    by_cases hrl : e.wp.w_p_rl = true <;>
    simp [store_char, hrl, hw, hm, hd, ht, ht1]
  · intro hv hn hc
    have h1 : (area_start_stop e s).area_attr = s.vi_attr := by
      unfold area_start_stop
      rw [if_pos (Or.inr (Or.inl ⟨hv, hn, hc⟩))]
    have h2 : (area_before_decide e s).area_attr = s.vi_attr := by
      unfold area_before_decide
      rw [area_diff_area_attr, (area_search_area_attr e _).1, h1]
    refine ⟨h1, h2, ?_⟩
    intro hd ha hvi
    have hb : area_block e s = decide_attr e (area_before_decide e s) := by
      simp [area_block, area_before_decide, hd, ha]
    rw [hb]
    have h3 : ¬ (area_before_decide e s).area_attr = 0 := by rw [h2]; exact hvi
    rw [← h2]
    generalize area_before_decide e s = t at h3 ⊢
    by_cases hm : e.highlight_match = true <;> simp [decide_attr, h3, hm]

set_option maxRecDepth 100000 in
/-- For the line "a中" with `tocol` on the second half of the double-width
character, storing the character moves `tocol` behind it. -/
theorem selection_wide_boundary_witness :
    (store_char Sample.env_wide Sample.state_wide_sel).wlv.vcol
        = Sample.state_wide_sel.wlv.vcol + 1
    ∧ (store_char Sample.env_wide Sample.state_wide_sel).wlv.tocol
        = Sample.state_wide_sel.wlv.vcol + 2 := by
  have h := (selection_wide_boundary Sample.env_wide Sample.state_wide_sel).1 (by decide)
  have h1 : (store_char Sample.env_wide Sample.state_wide_sel).wlv.vcol
      = Sample.state_wide_sel.wlv.vcol + 1 := by
    rw [h.1]; decide
  refine ⟨h1, ?_⟩
  rw [h.2, h1]
  decide

theorem take_length_takeWhile {α : Type} (p : α → Bool) (l : List α) :
    l.take (l.takeWhile p).length = l.takeWhile p := by
  induction l with
  | nil => rfl
  | cons a l ih =>
    by_cases h : p a = true
    · simp [List.takeWhile_cons, h, ih]
    · simp [List.takeWhile_cons, h]

theorem take_set_self {α : Type} (l : List α) (n : Nat) (a : α) :
    (l.set n a).take n = l.take n :=
  List.ext_getElem? fun i => by
    rw [List.getElem?_take, List.getElem?_take]
    split
    · rw [List.getElem?_set_ne (by omega)]
    · rfl

/-- Claim C17: the run prepared by `get_sign_display_info` for the sign column
(`nrcol` false).  On the first non-filler row, for a sign with a text of at
most `win_signcol_width` cells, the run is taken from the start of a buffer
that holds the text of the sign followed by spaces; it is `n_extra` bytes
long, the byte length of the text plus the width less the cells of the text, so
that it is the text followed by as many spaces as cells are missing, and a NUL
follows it.  On a row or for an index without a sign the run is
`win_signcol_width` times the character `' '`. -/
theorem sign_display_run (e : Env) (wlv : winlinevars_T) (sign_idx sign_cul_attr : Int) :
    (∀ sattr text,
      wlv.row = wlv.startrow + wlv.filler_lines → wlv.filler_todo ≤ 0 →
      e.sign_get_attr sign_idx wlv.sattrs e.wp.w_scwidth = some sattr →
      sattr.text = some text →
      0 ≤ e.mb_string2cells text → e.mb_string2cells text ≤ win_signcol_width e.wp →
      cstrlen text + win_signcol_width e.wp < EXTRA_SIZE →
      (get_sign_display_info e false wlv sign_idx sign_cul_attr).c_extra = NUL
      ∧ (get_sign_display_info e false wlv sign_idx sign_cul_attr).n_extra
          = cstrlen text + win_signcol_width e.wp - e.mb_string2cells text
      ∧ (get_sign_display_info e false wlv sign_idx sign_cul_attr).p_extra.pos = 0
      ∧ (get_sign_display_info e false wlv sign_idx sign_cul_attr).p_extra.buf.take
            (get_sign_display_info e false wlv sign_idx sign_cul_attr).n_extra.toNat
          = text.takeWhile (fun b => b ≠ 0)
              ++ List.replicate (win_signcol_width e.wp - e.mb_string2cells text).toNat 32
      ∧ byteAt (get_sign_display_info e false wlv sign_idx sign_cul_attr).p_extra.buf
            (get_sign_display_info e false wlv sign_idx sign_cul_attr).n_extra = NUL)
    ∧ ((¬ (wlv.row = wlv.startrow + wlv.filler_lines ∧ wlv.filler_todo ≤ 0)
          ∨ e.sign_get_attr sign_idx wlv.sattrs e.wp.w_scwidth = none) →
      (get_sign_display_info e false wlv sign_idx sign_cul_attr).c_extra = 32
      ∧ (get_sign_display_info e false wlv sign_idx sign_cul_attr).c_final = NUL
      ∧ (get_sign_display_info e false wlv sign_idx sign_cul_attr).n_extra
          = win_signcol_width e.wp) := by
  constructor
  · intro sattr text hrow hf hs ht hc0 hc hl
    have hlen : (text.takeWhile (fun b => b ≠ 0)).length ≤ text.length :=
      (List.takeWhile_sublist _).length_le
    have htake : text.take (cstrlen text).toNat = text.takeWhile (fun b => b ≠ 0) := by
      unfold cstrlen
      rw [Int.toNat_ofNat]
      exact take_length_takeWhile _ _
    have hw : win_signcol_width e.wp = 2 := rfl
    simp only [hw] at hc hl ⊢
    have hE : (EXTRA_SIZE : Int) = 57 := rfl
    have hcl : cstrlen text = ((text.takeWhile (fun b => b ≠ 0)).length : Int) := rfl
    simp [get_sign_display_info, hrow, hf, hs, ht, htake, hw, writeBytes]
    generalize hT : List.takeWhile (fun b => !decide (b = 0)) text = T
    have hLc : cstrlen text = (T.length : Int) := by
      rw [← hT]; simp [cstrlen]
    rw [hLc] at hl ⊢
    generalize e.mb_string2cells text = c at hc0 hc ⊢
    obtain ⟨k, hk⟩ : ∃ k : Nat, (2 - c).toNat = k := ⟨_, rfl⟩
    have hn : ((T.length : Int) + 2 - c).toNat = T.length + k := by omega
    have hk2 : k ≤ 2 := by omega
    have hL : T.length + 2 < 57 := by
      have : ((EXTRA_SIZE : Nat) : Int) = 57 := rfl
      omega
    have hES : EXTRA_SIZE = 57 := rfl
    rw [hn, hk, hES]
    constructor
    · rw [take_set_self, List.take_append]
      have h1 : List.take (T.length + k) T = T := List.take_of_length_le (by omega)
      have h2 : min k (57 - T.length) = k := by omega
      simp [h1, h2]
    · have hlt : T.length + k < (T ++ List.replicate (57 - T.length) (32 : Int)).length := by
        simp; omega
      have h0 : (0 : Int) ≤ (T.length : Int) + 2 - c := by omega
      simp only [byteAt, h0, if_true, hn, List.getD_eq_getElem?_getD,
        List.getElem?_set_self hlt]
      rfl
  · intro h
    rcases h with h | h
    · simp [get_sign_display_info, h]
    · by_cases hr : wlv.row = wlv.startrow + wlv.filler_lines ∧ wlv.filler_todo ≤ 0
      · simp [get_sign_display_info, hr, h]
      · simp [get_sign_display_info, hr]

set_option maxRecDepth 100000 in
/-- For the sign "é" (two bytes, one cell) the run is three bytes long: the
sign and one space. -/
theorem sign_display_run_witness :
    (get_sign_display_info Sample.env_sign false Sample.wlv_sign 0 0).c_extra = NUL
    ∧ (get_sign_display_info Sample.env_sign false Sample.wlv_sign 0 0).n_extra = 3
    ∧ (get_sign_display_info Sample.env_sign false Sample.wlv_sign 0 0).p_extra.buf.take
          (get_sign_display_info Sample.env_sign false Sample.wlv_sign 0 0).n_extra.toNat
        = [0xC3, 0xA9, 32] := by
  have h := (sign_display_run Sample.env_sign Sample.wlv_sign 0 0).1
    ⟨some [0xC3, 0xA9], 7⟩ [0xC3, 0xA9] (by decide) (by decide) (by decide) rfl (by decide)
    (by decide) (by decide)
  exact ⟨h.1, h.2.1.trans (by decide), h.2.2.2.1.trans (by decide)⟩

theorem eol_hl_block_c (e : Env) (t : LoopState) : (eol_hl_block e t).c = t.c := by
  unfold eol_hl_block
  lift_lets
  repeat (first
    | (intro u
       have hu : (u : LoopState).c = t.c := by
         simp only [u]
         repeat' split
         all_goals (first | rfl | assumption)
       clear_value u)
    | intro u)
  repeat' split
  all_goals (first | rfl | assumption)

theorem eol_hl_block_fires (e : Env) (t : LoopState) (h : eol_hl_block e t ≠ t) :
    (t.c = NUL ∧ t.eol_hl_off = 0) ∧ eol_hl_cond e t := by
  by_cases h1 : t.c = NUL ∧ t.eol_hl_off = 0
  · by_cases h2 : eol_hl_cond e t
    · exact ⟨h1, h2⟩
    · exact absurd (by rw [eol_hl_block, if_pos h1, if_neg h2]) h
  · exact absurd (by rw [eol_hl_block, if_neg h1]) h

theorem fold_glyphs_succ (e : Env) (fi : foldinfo_T) (lnum first_level : Int) (k : Nat) :
    fold_glyphs e fi lnum first_level (k + 1)
      = fold_glyphs e fi lnum first_level k
        ++ e.utf_char2bytes (fold_symbol e fi lnum first_level (k : Int)) := by
  simp [fold_glyphs, List.range_succ]

theorem fold_glyphs_length (e : Env) (fi : foldinfo_T) (lnum first_level : Int)
    (hlen : ∀ c, 1 ≤ (e.utf_char2bytes c).length ∧ (e.utf_char2bytes c).length ≤ MAX_MCO)
    (k : Nat) :
    k ≤ (fold_glyphs e fi lnum first_level k).length
    ∧ (fold_glyphs e fi lnum first_level k).length ≤ MAX_MCO * k := by
  induction k with
  | zero => simp [fold_glyphs]
  | succ k ih =>
    rw [fold_glyphs_succ, List.length_append]
    have := hlen (fold_symbol e fi lnum first_level (k : Int))
    have h6 : MAX_MCO = 6 := rfl
    rw [h6] at this ih ⊢
    constructor <;> omega

theorem writeBytes_at_end (G b : List Int) (m : Nat) :
    writeBytes (G ++ List.replicate m 32) G.length b
      = (G ++ b) ++ List.replicate (m - b.length) 32 := by
  simp [writeBytes, List.drop_append]

/-- The loop of `fill_foldcolumn` from column `k` on, when the loop is left
for the level not before the last column. -/
theorem fill_foldcolumn_loop_run (e : Env) (fi : foldinfo_T)
    (lnum first_level level fdc : Int) (N M : Nat)
    (hM : (M : Int) = max (min fdc level) 0)
    (hbreak : ∀ j : Nat, first_level + j ≥ level → (j : Int) + 1 ≥ min fdc level) (n : Nat) :
    ∀ (k : Nat) (st : FoldFill), k ≤ M → M ≤ k + n →
      st.i = k →
      st.char_counter = ((fold_glyphs e fi lnum first_level k).length : Int) →
      st.p = fold_glyphs e fi lnum first_level k
          ++ List.replicate (N - (fold_glyphs e fi lnum first_level k).length) 32 →
      (∀ k', k = k' + 1 →
        st.symbol = fold_symbol e fi lnum first_level (k' : Int)
        ∧ st.len = ((e.utf_char2bytes st.symbol).length : Int)) →
      (k = 0 → st.symbol = 0) →
      (fill_foldcolumn_loop e fi lnum first_level level fdc n st).i = M
      ∧ (fill_foldcolumn_loop e fi lnum first_level level fdc n st).char_counter
          = ((fold_glyphs e fi lnum first_level M).length : Int)
      ∧ (fill_foldcolumn_loop e fi lnum first_level level fdc n st).p
          = fold_glyphs e fi lnum first_level M
            ++ List.replicate (N - (fold_glyphs e fi lnum first_level M).length) 32
      ∧ (∀ k', M = k' + 1 →
          (fill_foldcolumn_loop e fi lnum first_level level fdc n st).symbol
              = fold_symbol e fi lnum first_level (k' : Int)
          ∧ (fill_foldcolumn_loop e fi lnum first_level level fdc n st).len
              = ((e.utf_char2bytes
                  (fill_foldcolumn_loop e fi lnum first_level level fdc n st).symbol).length
                  : Int))
      ∧ (M = 0 → (fill_foldcolumn_loop e fi lnum first_level level fdc n st).symbol = 0) := by
  induction n with
  | zero =>
    intro k st hk hfuel hi hcc hp hsym h0
    have hkM : k = M := by omega
    subst hkM
    simp only [fill_foldcolumn_loop]
    exact ⟨hi, hcc, hp, hsym, h0⟩
  | succ n ih =>
    intro k st hk hfuel hi hcc hp hsym h0
    by_cases hlt : st.i < min fdc level
    · have hkM : k < M := by omega
      have hccn : st.char_counter.toNat = (fold_glyphs e fi lnum first_level k).length := by
        omega
      have hp' : writeBytes st.p st.char_counter.toNat
            (e.utf_char2bytes (fold_symbol e fi lnum first_level st.i))
          = fold_glyphs e fi lnum first_level (k + 1)
            ++ List.replicate (N - (fold_glyphs e fi lnum first_level (k + 1)).length) 32 := by
        rw [hp, hccn, writeBytes_at_end, fold_glyphs_succ, hi, List.length_append]
        congr 2
        omega
      have hcc' : st.char_counter
            + ((e.utf_char2bytes (fold_symbol e fi lnum first_level st.i)).length : Int)
          = ((fold_glyphs e fi lnum first_level (k + 1)).length : Int) := by
        rw [fold_glyphs_succ, List.length_append, hcc, hi]
        push_cast
        rfl
      by_cases hb : first_level + st.i ≥ level
      · have hkM1 : k + 1 = M := by
          have := hbreak k (by rw [hi] at hb; exact hb)
          omega
        subst hkM1
        simp only [fill_foldcolumn_loop, hlt, if_true, hb]
        refine ⟨by rw [hi]; push_cast; rfl, hcc', hp', ?_, ?_⟩
        · intro k' hk'
          have : k' = k := by omega
          subst this
          exact ⟨by rw [hi], trivial⟩
        · intro h; omega
      · simp only [fill_foldcolumn_loop, hlt, if_true, hb, if_false]
        apply ih (k + 1) _ (by omega) (by omega)
        · show st.i + 1 = ((k + 1 : Nat) : Int)
          rw [hi]; push_cast; rfl
        · exact hcc'
        · exact hp'
        · intro k' hk'
          have : k' = k := by omega
          subst this
          exact ⟨by rw [hi], rfl⟩
        · intro h; omega
    · have hkM : k = M := by omega
      subst hkM
      simp only [fill_foldcolumn_loop, hlt, if_false]
      exact ⟨hi, hcc, hp, hsym, h0⟩

theorem writeBytes_mid (G b R x : List Int) (hx : x.length = b.length) :
    writeBytes ((G ++ b) ++ R) G.length x = (G ++ x) ++ R := by
  simp [writeBytes, List.drop_append, hx, List.take_append]

theorem fold_symbol_ne_zero (e : Env) (fi : foldinfo_T) (lnum first_level i : Int)
    (hopen : e.wp.w_p_fcs_chars.foldopen ≠ 0) (hsep : e.wp.w_p_fcs_chars.foldsep ≠ 0)
    (h1 : 1 ≤ first_level) (hi : 0 ≤ i) : fold_symbol e fi lnum first_level i ≠ 0 := by
  unfold fold_symbol
  split
  · exact hopen
  · split
    · exact hsep
    · split <;> omega

/-- The bytes that `fill_foldcolumn` reports as added. -/
theorem fill_foldcolumn_bytes (e : Env) (fi : foldinfo_T) (lnum : Int)
    (hfdc : 0 < e.compute_foldcolumn)
    (hlen : ∀ c, 1 ≤ (e.utf_char2bytes c).length ∧ (e.utf_char2bytes c).length ≤ MAX_MCO)
    (hopen : e.wp.w_p_fcs_chars.foldopen ≠ 0) (hsep : e.wp.w_p_fcs_chars.foldsep ≠ 0)
    (hclosed : fi.fi_lines > 0 → 1 ≤ fi.fi_level) :
    (fill_foldcolumn e fi lnum).1.take (fill_foldcolumn e fi lnum).2.toNat
      = (if fi.fi_lines > 0 then
          fold_glyphs e fi lnum (max 1 (fi.fi_level - e.compute_foldcolumn))
              ((min e.compute_foldcolumn fi.fi_level).toNat - 1)
            ++ e.utf_char2bytes e.wp.w_p_fcs_chars.foldclosed
         else
          fold_glyphs e fi lnum (max 1 (fi.fi_level - e.compute_foldcolumn + 1))
            (min e.compute_foldcolumn fi.fi_level).toNat)
        ++ List.replicate
            (e.compute_foldcolumn.toNat - (min e.compute_foldcolumn fi.fi_level).toNat) 32 := by
  have h6 : MAX_MCO = 6 := rfl
  obtain ⟨M, hM⟩ : ∃ M : Nat, (M : Int) = max (min e.compute_foldcolumn fi.fi_level) 0 :=
    ⟨(max (min e.compute_foldcolumn fi.fi_level) 0).toNat, by omega⟩
  have hMt : (min e.compute_foldcolumn fi.fi_level).toNat = M := by omega
  obtain ⟨F, hF⟩ : ∃ F : Nat, (F : Int) = e.compute_foldcolumn := ⟨_, Int.toNat_of_nonneg hfdc.le⟩
  have hFt : e.compute_foldcolumn.toNat = F := by omega
  by_cases hc : fi.fi_lines > 0
  · have hl := hclosed hc
    unfold fill_foldcolumn
    simp only [hc, decide_True, if_true, hMt, hFt]
    have hfl : (if fi.fi_level - e.compute_foldcolumn - 1 + 1 < 1 then 1
        else fi.fi_level - e.compute_foldcolumn - 1 + 1)
        = max 1 (fi.fi_level - e.compute_foldcolumn) := by
      split <;> omega
    rw [hfl]
    generalize hfv : max 1 (fi.fi_level - e.compute_foldcolumn) = fl
    have hloop := fill_foldcolumn_loop_run e fi lnum fl fi.fi_level e.compute_foldcolumn
      (MAX_MCO * F + 1) M hM (by intro j hj; omega) M 0
      ⟨0, 0, 0, 0, List.replicate (MAX_MCO * F + 1) 32⟩ (by omega) (by omega) rfl
      (by simp [fold_glyphs]) (by simp [fold_glyphs]) (by intro k' h; omega) (fun _ => rfl)
    generalize fill_foldcolumn_loop e fi lnum fl fi.fi_level e.compute_foldcolumn M
      ⟨0, 0, 0, 0, List.replicate (MAX_MCO * F + 1) 32⟩ = st at hloop ⊢
    obtain ⟨hi, hcc, hp, hsym, -⟩ := hloop
    obtain ⟨k', hk'⟩ : ∃ k', M = k' + 1 := ⟨M - 1, by omega⟩
    obtain ⟨hs1, hs2⟩ := hsym k' hk'
    have hne : st.symbol ≠ 0 := by
      rw [hs1]
      exact fold_symbol_ne_zero e fi lnum fl _ hopen hsep (by omega) (by omega)
    obtain ⟨hg1, hg2⟩ := fold_glyphs_length e fi lnum fl hlen k'
    have hb := hlen st.symbol
    have hbc := hlen e.wp.w_p_fcs_chars.foldclosed
    rw [h6] at hg2 hp hb hbc
    have hk1 : M - 1 = k' := by omega
    rw [hk1]
    rw [hk', fold_glyphs_succ, ← hs1] at hcc hp
    generalize fold_glyphs e fi lnum fl k' = G at hcc hp hg1 hg2 ⊢
    generalize e.utf_char2bytes st.symbol = b at hcc hp hs2 hb
    generalize e.utf_char2bytes e.wp.w_p_fcs_chars.foldclosed = bc at hbc ⊢
    have hMF : M ≤ F := by omega
    rw [List.length_append] at hcc hp
    have h1 : (st.char_counter - st.len).toNat = G.length := by omega
    have h2 : st.len.toNat = b.length := by omega
    have hroll : writeBytes st.p G.length (List.replicate b.length 32)
        = G ++ List.replicate (6 * F + 1 - G.length) 32 := by
      rw [hp, writeBytes_mid G b _ _ (by simp), List.append_assoc, ← List.replicate_add]
      congr 2
      omega
    simp only [hne, ne_eq, not_false_eq_true, if_true, h1, h2, hroll]
    have h3 : (st.char_counter - st.len).toNat = G.length := h1
    have h4 : st.char_counter - st.len = (G.length : Int) := by omega
    rw [h4, writeBytes_at_end]
    have hn : (max ((G.length : Int) + (bc.length : Int) + (e.compute_foldcolumn - st.i))
        e.compute_foldcolumn).toNat = (G ++ bc).length + (F - M) := by
      rw [List.length_append]; omega
    rw [hn, List.take_append]
    simp
    omega
  · unfold fill_foldcolumn
    simp only [hc, decide_False, Bool.false_eq_true, if_false, sub_zero, hMt, hFt]
    have hfl : (if fi.fi_level - e.compute_foldcolumn + 1 < 1 then 1
        else fi.fi_level - e.compute_foldcolumn + 1)
        = max 1 (fi.fi_level - e.compute_foldcolumn + 1) := by
      split <;> omega
    rw [hfl]
    generalize hfv : max 1 (fi.fi_level - e.compute_foldcolumn + 1) = fl
    have hloop := fill_foldcolumn_loop_run e fi lnum fl fi.fi_level e.compute_foldcolumn
      (MAX_MCO * F + 1) M hM (by intro j hj; omega) M 0
      ⟨0, 0, 0, 0, List.replicate (MAX_MCO * F + 1) 32⟩ (by omega) (by omega) rfl
      (by simp [fold_glyphs]) (by simp [fold_glyphs]) (by intro k' h; omega) (fun _ => rfl)
    generalize fill_foldcolumn_loop e fi lnum fl fi.fi_level e.compute_foldcolumn M
      ⟨0, 0, 0, 0, List.replicate (MAX_MCO * F + 1) 32⟩ = st at hloop ⊢
    obtain ⟨hi, hcc, hp, -, -⟩ := hloop
    obtain ⟨hg1, hg2⟩ := fold_glyphs_length e fi lnum fl hlen M
    rw [h6] at hg2 hp
    generalize fold_glyphs e fi lnum fl M = G at hcc hp hg1 hg2 ⊢
    have hMF : M ≤ F := by omega
    have hn : (max (st.char_counter + (e.compute_foldcolumn - st.i)) e.compute_foldcolumn).toNat
        = G.length + (F - M) := by omega
    rw [hn, hp, List.take_append]
    simp
    omega

theorem statuscol_estimate_grid (e : Env) (s : LoopState) :
    (statuscol_estimate e s).grid = s.grid
    ∧ (statuscol_estimate e s).w_redr_statuscol = s.w_redr_statuscol
    ∧ (statuscol_estimate e s).wlv = s.wlv := by
  unfold statuscol_estimate
  lift_lets
  intro t1 b t2 addwidth
  split
  · split <;> exact ⟨rfl, rfl, rfl⟩
  · exact ⟨rfl, rfl, rfl⟩

theorem get_statuscol_str_rebuild (e : Env) (lnum virtnum : Int) (s : LoopState) :
    ((byteAt (statuscol_built e lnum virtnum s).w_p_stc 0 = NUL
        ∨ ((statuscol_built e lnum virtnum s).truncate > 0
            ∧ (statuscol_estimate e s).w_nrwidth < MAX_NUMBERWIDTH)) →
      (get_statuscol_str e lnum virtnum s).w_redr_statuscol = true
      ∧ ((statuscol_built e lnum virtnum s).truncate ≠ 0 →
          (get_statuscol_str e lnum virtnum s).w_nrwidth
            = min MAX_NUMBERWIDTH
                ((statuscol_estimate e s).w_nrwidth + (statuscol_built e lnum virtnum s).truncate)))
    ∧ (¬ (byteAt (statuscol_built e lnum virtnum s).w_p_stc 0 = NUL
        ∨ ((statuscol_built e lnum virtnum s).truncate > 0
            ∧ (statuscol_estimate e s).w_nrwidth < MAX_NUMBERWIDTH)) →
      (get_statuscol_str e lnum virtnum s).w_redr_statuscol = s.w_redr_statuscol)
    ∧ (get_statuscol_str e lnum virtnum s).grid = s.grid
    ∧ (get_statuscol_str e lnum virtnum s).wlv = s.wlv := by
  obtain ⟨hg, hr, hw⟩ := statuscol_estimate_grid e s
  simp only [statuscol_built, get_statuscol_str]
  generalize statuscol_estimate e s = t at hg hr hw ⊢
  generalize e.build_statuscol_str t.statuscol.width lnum
    (if virtnum = 0 then |e.get_cursor_rel_lnum lnum| else -1) virtnum t.w_p_stc = b
  refine ⟨?_, ?_, ?_, ?_⟩
  · intro h
    simp only [h, if_true]
    constructor
    · trivial
    · intro hne
      simp [hne]
  · intro h
    simp only [h, if_false]
    rw [← hr]
    split <;> rfl
  · rw [← hg]
    by_cases h : byteAt b.w_p_stc 0 = NUL ∨ (b.truncate > 0 ∧ t.w_nrwidth < MAX_NUMBERWIDTH)
    · simp only [h, if_true]
      split <;> rfl
    · simp only [h, if_false]
      split <;> rfl
  · rw [← hw]
    by_cases h : byteAt b.w_p_stc 0 = NUL ∨ (b.truncate > 0 ∧ t.w_nrwidth < MAX_NUMBERWIDTH)
    · simp only [h, if_true]
      split <;> rfl
    · simp only [h, if_false]
      split <;> rfl

theorem iter_before_stc_grid (e : Env) (s : LoopState) :
    (iter_before_stc e s).grid = s.grid := by
  have h1 : ∀ t : LoopState, (gutter_cul_screenline t).grid = t.grid := by
    intro t; unfold gutter_cul_screenline; split <;> rfl
  have h2 : ∀ t : LoopState, (gutter_cmdline e t).grid = t.grid := by
    intro t
    unfold gutter_cmdline
    lift_lets
    repeat (first
      | (intro u
         have hu : (u : LoopState).grid = t.grid := by
           simp only [u]
           repeat' split
           all_goals (first | rfl | assumption)
         clear_value u)
      | intro u)
    repeat' split
    all_goals (first | rfl | assumption)
  have h3 : ∀ t : LoopState, (gutter_skip e t).grid = t.grid := by
    intro t
    unfold gutter_skip
    lift_lets
    repeat (first
      | (intro u
         have hu : (u : LoopState).grid = t.grid := by
           simp only [u]
           repeat' split
           all_goals (first | rfl | assumption)
         clear_value u)
      | intro u)
    repeat' split
    all_goals (first | rfl | assumption)
  have h4 : ∀ t : LoopState, (gutter_fold e t).grid = t.grid := by
    intro t
    unfold gutter_fold
    lift_lets
    repeat (first
      | (intro u
         have hu : (u : LoopState).grid = t.grid := by
           simp only [u]
           repeat' split
           all_goals (first | rfl | assumption)
         clear_value u)
      | intro u)
    repeat' split
    all_goals (first | rfl | assumption)
  have h5 : ∀ t : LoopState, (gutter_sign e t).grid = t.grid := by
    intro t
    unfold gutter_sign
    lift_lets
    repeat (first
      | (intro u
         have hu : (u : LoopState).grid = t.grid := by
           simp only [u]
           repeat' split
           all_goals (first | rfl | assumption)
         clear_value u)
      | intro u)
    repeat' split
    all_goals (first | rfl | assumption)
  have h6 : ∀ t : LoopState, (gutter_nr e t).grid = t.grid := by
    intro t
    unfold gutter_nr
    lift_lets
    repeat (first
      | (intro u
         have hu : (u : LoopState).grid = t.grid := by
           simp only [u]
           repeat' split
           all_goals (first | rfl | assumption)
         clear_value u)
      | intro u)
    repeat' split
    all_goals (first | rfl | assumption)
  unfold iter_before_stc
  rw [h6, h5, h4, h3, h2, h1]
  rfl

/-- Claim C20: the status column has to be rebuilt.  When the option
'statuscolumn' is empty after `build_statuscol_str` (it was reset for an
error), or the builder reports a truncation while `w_nrwidth` is less than
`MAX_NUMBERWIDTH`, `get_statuscol_str` sets `w_redr_statuscol`, and after a
truncation `w_nrwidth` is widened by the truncated width, to `MAX_NUMBERWIDTH`
at most; in every other case, also for a truncation when `w_nrwidth` is
`MAX_NUMBERWIDTH` already, it leaves `w_redr_statuscol` as it was.  And when
the 'statuscolumn' block of a pass of the loop calls `get_statuscol_str` with
that result, the loop is left in this pass with `w_redr_statuscol` set and
with no call to the grid layer in this pass. -/
theorem statuscol_rebuild (e : Env) :
    (∀ lnum virtnum s,
      ((byteAt (statuscol_built e lnum virtnum s).w_p_stc 0 = NUL
          ∨ ((statuscol_built e lnum virtnum s).truncate > 0
              ∧ (statuscol_estimate e s).w_nrwidth < MAX_NUMBERWIDTH)) →
        (get_statuscol_str e lnum virtnum s).w_redr_statuscol = true
        ∧ ((statuscol_built e lnum virtnum s).truncate ≠ 0 →
            (get_statuscol_str e lnum virtnum s).w_nrwidth
              = min MAX_NUMBERWIDTH ((statuscol_estimate e s).w_nrwidth
                  + (statuscol_built e lnum virtnum s).truncate)
            ∧ (get_statuscol_str e lnum virtnum s).w_nrwidth ≤ MAX_NUMBERWIDTH))
      ∧ (¬ (byteAt (statuscol_built e lnum virtnum s).w_p_stc 0 = NUL
          ∨ ((statuscol_built e lnum virtnum s).truncate > 0
              ∧ (statuscol_estimate e s).w_nrwidth < MAX_NUMBERWIDTH)) →
        (get_statuscol_str e lnum virtnum s).w_redr_statuscol = s.w_redr_statuscol))
    ∧ (∀ s, s.wlv.draw_state ≠ WL_LINE →
        (iter_before_stc e s).wlv.draw_state = WL_STC - 1 →
        (iter_before_stc e s).wlv.n_extra = 0 →
        (iter_before_stc e s).statuscol.draw = true →
        (iter_before_stc e s).statuscol.textp = none →
        (byteAt (statuscol_built e e.lnum
              ((iter_before_stc e s).wlv.row - e.startrow - (iter_before_stc e s).wlv.filler_lines)
              (stc_call_state (iter_before_stc e s))).w_p_stc 0 = NUL
          ∨ ((statuscol_built e e.lnum
              ((iter_before_stc e s).wlv.row - e.startrow - (iter_before_stc e s).wlv.filler_lines)
              (stc_call_state (iter_before_stc e s))).truncate > 0
              ∧ (statuscol_estimate e (stc_call_state (iter_before_stc e s))).w_nrwidth
                  < MAX_NUMBERWIDTH)) →
        (win_line_iter e s).2 = true
        ∧ (win_line_iter e s).1.w_redr_statuscol = true
        ∧ (win_line_iter e s).1.grid = s.grid
        ∧ (win_line_iter e s).1.wlv.row = (iter_before_stc e s).wlv.row
        ∧ ∀ fuel, win_line_loop e (fuel + 1) s = some (win_line_iter e s).1) := by
  constructor
  · intro lnum virtnum s
    obtain ⟨h1, h2, -, -⟩ := get_statuscol_str_rebuild e lnum virtnum s
    refine ⟨fun h => ⟨(h1 h).1, fun hne => ⟨(h1 h).2 hne, ?_⟩⟩, h2⟩
    rw [(h1 h).2 hne]
    exact min_le_left _ _
  · intro s hd hds hn hdraw htp hb
    obtain ⟨h1, -, h3, h4⟩ := get_statuscol_str_rebuild e e.lnum
      ((iter_before_stc e s).wlv.row - e.startrow - (iter_before_stc e s).wlv.filler_lines)
      (stc_call_state (iter_before_stc e s))
    have hr := (h1 hb).1
    have hgrid := iter_before_stc_grid e s
    have hstc : gutter_stc e (iter_before_stc e s)
        = (get_statuscol_str e e.lnum
            ((iter_before_stc e s).wlv.row - e.startrow - (iter_before_stc e s).wlv.filler_lines)
            (stc_call_state (iter_before_stc e s)), true) := by
      generalize iter_before_stc e s = u at hds hn hdraw htp hr
      unfold gutter_stc
      rw [if_pos ⟨hds, hn⟩]
      dsimp only
      rw [if_pos hdraw]
      split
      · split
        · rfl
        · rename_i h
          exact absurd hr h
      · rename_i h
        rw [htp] at h
        exact absurd rfl h
    have hgp : gutter_phase e (iter_begin s)
        = (get_statuscol_str e e.lnum
            ((iter_before_stc e s).wlv.row - e.startrow - (iter_before_stc e s).wlv.filler_lines)
            (stc_call_state (iter_before_stc e s)), true) := by
      have hd2 : (iter_begin s).wlv.draw_state ≠ WL_LINE := hd
      unfold gutter_phase
      rw [if_pos hd2]
      have : gutter_stc e (gutter_nr e (gutter_sign e (gutter_fold e (gutter_skip e
          (gutter_cmdline e (gutter_cul_screenline (iter_begin s)))))))
          = gutter_stc e (iter_before_stc e s) := rfl
      simp only [this, hstc, if_true]
    have hit : win_line_iter e s
        = (get_statuscol_str e e.lnum
            ((iter_before_stc e s).wlv.row - e.startrow - (iter_before_stc e s).wlv.filler_lines)
            (stc_call_state (iter_before_stc e s)), true) := by
      unfold win_line_iter
      simp only [hgp, if_true]
    rw [hit]
    refine ⟨rfl, hr, ?_, ?_, ?_⟩
    · rw [h3]
      exact hgrid
    · rw [h4]
      rfl
    · intro fuel
      simp [win_line_loop, hit]

set_option maxRecDepth 100000 in
/-- A status column truncated by three cells while `w_nrwidth` is 2: the loop
is left in the first pass, nothing is handed to the grid, and `w_nrwidth`
becomes 5. -/
theorem statuscol_rebuild_witness :
    (win_line_iter (Sample.env_stc 2) (Sample.state_stc 2)).2 = true
    ∧ (win_line_iter (Sample.env_stc 2) (Sample.state_stc 2)).1.w_redr_statuscol = true
    ∧ (win_line_iter (Sample.env_stc 2) (Sample.state_stc 2)).1.grid.length = 0
    ∧ (win_line_iter (Sample.env_stc 2) (Sample.state_stc 2)).1.w_nrwidth = 5
    ∧ (win_line (Sample.env_stc 2) 1).map (fun r => (r.1, r.2.length)) = some (0, 0) := by
  have h := (statuscol_rebuild (Sample.env_stc 2)).2 (Sample.state_stc 2) (by decide)
    (by decide) (by decide) (by decide) (by decide) (Or.inr (by decide))
  exact ⟨h.1, h.2.1, (congrArg List.length h.2.2.1).trans (by decide), by decide, by decide⟩

set_option maxRecDepth 100000 in
/-- A status column truncated by three cells while `w_nrwidth` is
`MAX_NUMBERWIDTH`: the builder reports the truncation, `w_redr_statuscol` is
not set, the loop goes on and the row is drawn with the truncated status
column. -/
theorem statuscol_rebuild_counterexample :
    (statuscol_built (Sample.env_stc 20) 2 0
        (stc_call_state (iter_before_stc (Sample.env_stc 20) (Sample.state_stc 20)))).truncate = 3
    ∧ (get_statuscol_str (Sample.env_stc 20) 2 0
        (stc_call_state (iter_before_stc (Sample.env_stc 20) (Sample.state_stc 20)))
        ).w_redr_statuscol = false
    ∧ (win_line_iter (Sample.env_stc 20) (Sample.state_stc 20)).2 = false
    ∧ (win_line_iter (Sample.env_stc 20) (Sample.state_stc 20)).1.w_redr_statuscol = false
    ∧ (win_line_final (Sample.env_stc 20) 30).map
        (fun s => (s.wlv.row, s.grid.length, Sample.cells s.linebuf_char 3))
        = some (1, 1, [[49], [50], [97]]) := by
  decide

/-- What `row_commit` changes: one row more is handed to the grid, the row
counter advances. -/
theorem row_commit_shape (e : Env) (t : LoopState) :
    (row_commit e t).wlv.row = t.wlv.row + 1
    ∧ (row_commit e t).ptr = t.ptr
    ∧ (row_commit e t).wlv.filler_todo = t.wlv.filler_todo
    ∧ (row_commit e t).lcs_eol_one = t.lcs_eol_one
    ∧ (row_commit e t).wlv.draw_state = t.wlv.draw_state
    ∧ ∃ c, (row_commit e t).grid = GridCall.put c :: t.grid ∧ c.row = t.wlv.row
        ∧ c.wrap = row_wrap_flag e t := by
  unfold row_commit
  by_cases hv : t.virt_line_offset ≥ 0
  · simp only [hv, if_true, grid_put_linebuf]
    exact ⟨trivial, trivial, trivial, trivial, trivial, _, rfl, rfl, rfl⟩
  · simp only [hv, if_false, grid_put_linebuf]
    exact ⟨trivial, trivial, trivial, trivial, trivial, _, rfl, rfl, rfl⟩

theorem row_end_break (e : Env) (t : LoopState) (hc : row_end_cond e t)
    (hb : (e.wp.w_p_wrap = false ∧ t.wlv.filler_todo ≤ 0) ∨ t.lcs_eol_one = -1) :
    row_end e t = (row_commit e t, true) := by
  obtain ⟨-, -, h3, h4, -, -⟩ := row_commit_shape e t
  have hb2 : (¬ e.wp.w_p_wrap = true ∧ (row_commit e t).wlv.filler_todo ≤ 0)
      ∨ (row_commit e t).lcs_eol_one = -1 := by
    rw [h3, h4]
    rcases hb with h | h
    · exact Or.inl ⟨by simp [h.1], h.2⟩
    · exact Or.inr h
  unfold row_end
  rw [if_pos hc]
  exact if_pos hb2

theorem row_end_endrow (e : Env) (t : LoopState) (hc : row_end_cond e t)
    (hb : ¬ ((e.wp.w_p_wrap = false ∧ t.wlv.filler_todo ≤ 0) ∨ t.lcs_eol_one = -1))
    (hr : t.wlv.row + 1 = e.endrow ∨ (t.wlv.draw_state ≠ WL_LINE ∧ t.wlv.filler_todo ≤ 0)) :
    (row_end e t).2 = true ∧ (row_end e t).1.wlv.row = e.endrow + 1
    ∧ (row_end e t).1.ptr = t.ptr
    ∧ ((row_end e t).1.grid = (row_commit e t).grid
        ∨ (row_end e t).1.grid = GridCall.draw_end (t.wlv.row + 1) :: (row_commit e t).grid) := by
  obtain ⟨h1, h2, h3, h4, h5, -⟩ := row_commit_shape e t
  have hb2 : ¬ ((¬ e.wp.w_p_wrap = true ∧ (row_commit e t).wlv.filler_todo ≤ 0)
      ∨ (row_commit e t).lcs_eol_one = -1) := by
    rw [h3, h4]
    intro h
    apply hb
    rcases h with h | h
    · exact Or.inl ⟨by simpa using h.1, h.2⟩
    · exact Or.inr h
  unfold row_end
  rw [if_pos hc]
  simp only []
  rw [if_neg hb2]
  generalize row_commit e t = p at h1 h2 h3 h4 h5 ⊢
  by_cases hn : p.wlv.draw_state ≠ WL_LINE ∧ p.wlv.filler_todo ≤ 0
  · have hq : (row_too_narrow e p).wlv.row = e.endrow := by
      unfold row_too_narrow; rw [if_pos hn]
    rw [if_pos hq]
    refine ⟨rfl, ?_, ?_, Or.inr ?_⟩
    · show (row_too_narrow e p).wlv.row + 1 = e.endrow + 1
      rw [hq]
    · show (row_too_narrow e p).ptr = t.ptr
      unfold row_too_narrow; rw [if_pos hn]; exact h2
    · show (row_too_narrow e p).grid = _
      unfold row_too_narrow; rw [if_pos hn, ← h1]
  · have hq : row_too_narrow e p = p := by
      unfold row_too_narrow; rw [if_neg hn]
    have hr2 : p.wlv.row = e.endrow := by
      rw [h3, h5] at hn
      rcases hr with h | h
      · rw [h1]; exact h
      · exact absurd h hn
    rw [hq, if_pos hr2]
    exact ⟨rfl, by show p.wlv.row + 1 = e.endrow + 1; rw [hr2], h2, Or.inl rfl⟩

/-- A pass of the loop that reaches the test at the end of the screen line and
is left there is the last pass. -/
theorem win_line_iter_row_end (e : Env) (s : LoopState) (hr : reaches_row_end e s) :
    win_line_iter e s = row_end e (iter_before_row_end e s) := by
  obtain ⟨hg, hd, hc⟩ := hr
  unfold iter_before_row_end
  generalize hG : gutter_phase e (iter_begin s) = G at hg hd hc ⊢
  generalize hU : cul_screenline_apply e G.1 = U at hd hc ⊢
  generalize hC : iter_choose_char e U = C at hc ⊢
  simp [win_line_iter, hG, hg, hU, hd, hC, hc]

/-- Claim C13: the end of a screen row.  Without 'wrap' and with no filler row
left, when the screen column has reached the width of the grid and there is
more to come (`row_end_cond`), the row is handed to the grid with the flag
`wrap` off, the row counter advances by one, `ptr` stays where it is (the rest
of the line is not drawn) and the loop is left, so that this is the only text
row of the line.  Likewise, when the loop is not left for that reason and the
row counter reaches `endrow`, the loop is left with the row counter at
`endrow + 1` and no further row handed to the grid (the rows of `'@'` are
drawn when the gutter alone fills the window).  A pass in which the loop is
left at this test is the last pass of the loop. -/
theorem nowrap_one_row (e : Env) :
    (∀ t, e.wp.w_p_wrap = false → t.wlv.filler_todo ≤ 0 → row_end_cond e t →
      (row_end e t).2 = true
      ∧ (row_end e t).1.wlv.row = t.wlv.row + 1
      ∧ (row_end e t).1.ptr = t.ptr
      ∧ ∃ c, (row_end e t).1.grid = GridCall.put c :: t.grid ∧ c.row = t.wlv.row
          ∧ c.wrap = false)
    ∧ (∀ t, row_end_cond e t →
      ¬ ((e.wp.w_p_wrap = false ∧ t.wlv.filler_todo ≤ 0) ∨ t.lcs_eol_one = -1) →
      (t.wlv.row + 1 = e.endrow ∨ (t.wlv.draw_state ≠ WL_LINE ∧ t.wlv.filler_todo ≤ 0)) →
      (row_end e t).2 = true
      ∧ (row_end e t).1.wlv.row = e.endrow + 1
      ∧ (row_end e t).1.ptr = t.ptr
      ∧ ∃ c, c.row = t.wlv.row
          ∧ ((row_end e t).1.grid = GridCall.put c :: t.grid
              ∨ (row_end e t).1.grid
                  = GridCall.draw_end (t.wlv.row + 1) :: GridCall.put c :: t.grid))
    ∧ (∀ s fuel, reaches_row_end e s → (row_end e (iter_before_row_end e s)).2 = true →
      win_line_loop e (fuel + 1) s = some (row_end e (iter_before_row_end e s)).1) := by
  refine ⟨?_, ?_, ?_⟩
  · intro t hw hf hc
    rw [row_end_break e t hc (Or.inl ⟨hw, hf⟩)]
    obtain ⟨h1, h2, -, -, -, c, h6, h7, h8⟩ := row_commit_shape e t
    refine ⟨rfl, h1, h2, c, h6, h7, ?_⟩
    rw [h8]
    simp [row_wrap_flag, hw]
  · intro t hc hb hr
    obtain ⟨h1, h2, h3, h4⟩ := row_end_endrow e t hc hb hr
    obtain ⟨-, -, -, -, -, c, h6, h7, -⟩ := row_commit_shape e t
    refine ⟨h1, h2, h3, c, h7, ?_⟩
    rcases h4 with h | h
    · exact Or.inl (h.trans h6)
    · exact Or.inr (by rw [h, h6])
  · intro s fuel hr hf
    have hit := win_line_iter_row_end e s hr
    simp [win_line_loop, hit, hf]

set_option maxRecDepth 100000 in
/-- The line "abc" in a window of two columns without 'wrap': the pass that
writes the second column hands row 0 to the grid and is the last; the third
byte is not drawn. -/
theorem nowrap_one_row_witness :
    (row_end Sample.env_abc_nowrap
        (iter_before_row_end Sample.env_abc_nowrap Sample.state_abc_nowrap)).1.wlv.row = 1
    ∧ (row_end Sample.env_abc_nowrap
        (iter_before_row_end Sample.env_abc_nowrap Sample.state_abc_nowrap)).1.ptr = 2
    ∧ (win_line_final Sample.env_abc_nowrap 2).map
        (fun s => (s.wlv.row, s.grid.length, Sample.cells s.linebuf_char 2))
        = some (1, 1, [[97], [98]]) := by
  have h := (nowrap_one_row Sample.env_abc_nowrap).1
    (iter_before_row_end Sample.env_abc_nowrap Sample.state_abc_nowrap) rfl (by decide)
    (by decide)
  exact ⟨h.2.1.trans (by decide), h.2.2.1.trans (by decide), by decide⟩

theorem eol_fill_loop_row_grid (e : Env) (f : EolFill) (n : Nat) :
    ∀ s : LoopState, (eol_fill_loop e f n s).wlv.row = s.wlv.row
      ∧ (eol_fill_loop e f n s).grid = s.grid := by
  induction n with
  | zero => intro s; exact ⟨rfl, rfl⟩
  | succ n ih =>
    intro s
    unfold eol_fill_loop
    lift_lets
    repeat (first
      | (intro u
         have hu : (u : LoopState).wlv.row = s.wlv.row ∧ u.grid = s.grid := by
           simp only [u]
           repeat' split
           all_goals (first | exact ⟨rfl, rfl⟩ | assumption)
         clear_value u)
      | intro u)
    repeat' split
    all_goals
      first
        | exact ⟨rfl, rfl⟩
        | assumption
        | exact ⟨(ih _).1.trans hu.1, (ih _).2.trans hu.2⟩

theorem eol_term_loop_row_grid (e : Env) (n : Nat) :
    ∀ s : LoopState, (eol_term_loop e n s).wlv.row = s.wlv.row
      ∧ (eol_term_loop e n s).grid = s.grid := by
  induction n with
  | zero => intro s; exact ⟨rfl, rfl⟩
  | succ n ih =>
    intro s
    unfold eol_term_loop
    split
    · lift_lets
      intro d
      exact ih _
    · exact ⟨rfl, rfl⟩

theorem eol_margin_row_grid (e : Env) (t : LoopState) :
    (eol_margin e t).wlv.row = t.wlv.row ∧ (eol_margin e t).grid = t.grid := by
  unfold eol_margin
  lift_lets
  repeat (first
    | (intro u
       have hu : (u : LoopState).wlv.row = t.wlv.row ∧ u.grid = t.grid := by
         simp only [u]
         repeat' split
         all_goals (first | exact ⟨rfl, rfl⟩ | assumption)
       clear_value u)
    | intro u)
  repeat' split
  all_goals (first | exact ⟨rfl, rfl⟩ | assumption)

theorem eol_highlight_row_grid (e : Env) (t : LoopState) :
    (eol_highlight e t).wlv.row = t.wlv.row ∧ (eol_highlight e t).grid = t.grid := by
  unfold eol_highlight
  lift_lets
  repeat (first
    | (intro u
       have hu : (u : LoopState).wlv.row = t.wlv.row ∧ u.grid = t.grid := by
         simp only [u]
         repeat' split
         all_goals
           first
             | exact ⟨rfl, rfl⟩
             | assumption
             | exact ⟨(eol_fill_loop_row_grid e _ _ _).1.trans hu.1,
                 (eol_fill_loop_row_grid e _ _ _).2.trans hu.2⟩
       clear_value u)
    | intro u)
  repeat' split
  all_goals
    first
      | exact ⟨rfl, rfl⟩
      | assumption
      | exact ⟨(eol_term_loop_row_grid e _ _).1.trans hu.1,
          (eol_term_loop_row_grid e _ _).2.trans hu.2⟩

theorem eol_commit_row_grid (e : Env) (t : LoopState) :
    (eol_commit e t).wlv.row = t.wlv.row + 1
    ∧ ∃ c, (eol_commit e t).grid = GridCall.put c :: t.grid ∧ c.row = t.wlv.row := by
  unfold eol_commit
  by_cases h : e.wp.is_curwin = true ∧ e.lnum = e.curwin_cursor.lnum
  · simp only [h, and_self, if_true, grid_put_linebuf]
    exact ⟨trivial, _, rfl, rfl⟩
  · simp only [h, if_false, grid_put_linebuf]
    exact ⟨trivial, _, rfl, rfl⟩

/-- At the end of the line one row is handed to the grid and the row counter
is advanced by one. -/
theorem end_of_line_row_grid (e : Env) (t : LoopState) :
    (end_of_line e t).wlv.row = t.wlv.row + 1
    ∧ ∃ c, (end_of_line e t).grid = GridCall.put c :: t.grid ∧ c.row = t.wlv.row := by
  unfold end_of_line
  obtain ⟨h1, c, h2, h3⟩ := eol_commit_row_grid e (eol_highlight e (eol_margin e t))
  obtain ⟨h4, h5⟩ := eol_highlight_row_grid e (eol_margin e t)
  obtain ⟨h6, h7⟩ := eol_margin_row_grid e t
  refine ⟨by rw [h1, h4, h6], c, by rw [h2, h5, h7], by rw [h3, h4, h6]⟩

theorem win_line_start_row (wp : win_T) (wlv : winlinevars_T) (b : Bool) :
    (win_line_start wp wlv b).row = wlv.row := by
  unfold win_line_start
  lift_lets
  intro w1 w2
  have h2 : w2.row = wlv.row := by
    simp only [w2]
    split <;> rfl
  clear_value w2
  split
  · exact h2
  · exact h2

theorem row_next_row_grid (e : Env) (t : LoopState) :
    (row_next e t).wlv.row = t.wlv.row ∧ (row_next e t).grid = t.grid := by
  unfold row_next
  lift_lets
  intro u1
  have h1 : u1.wlv.row = t.wlv.row ∧ u1.grid = t.grid :=
    ⟨win_line_start_row e.wp t.wlv true, rfl⟩
  clear_value u1
  repeat (first
    | (intro u
       have hu : (u : LoopState).wlv.row = t.wlv.row ∧ u.grid = t.grid := by
         simp only [u]
         repeat' split
         all_goals
           first
             | exact ⟨rfl, rfl⟩
             | assumption
             | (rw [row_next_statuscol_shape]; assumption)
       clear_value u)
    | intro u)
  repeat' split
  all_goals (first | exact ⟨rfl, rfl⟩ | assumption)

/-- How the loop is left at the end of a screen row. -/
theorem row_end_exit (e : Env) (t : LoopState) (h : (row_end e t).2 = true) :
    (∃ c rest, (row_end e t).1.grid = GridCall.put c :: rest
        ∧ (row_end e t).1.wlv.row = c.row + 1)
    ∨ (row_end e t).1.wlv.row = e.endrow + 1 := by
  by_cases hc : row_end_cond e t
  swap
  · rw [row_end, if_neg hc] at h
    exact absurd h (by simp)
  obtain ⟨h1, -, h3, h4, h5, c, h6, h7, -⟩ := row_commit_shape e t
  by_cases hb : (e.wp.w_p_wrap = false ∧ t.wlv.filler_todo ≤ 0) ∨ t.lcs_eol_one = -1
  · rw [row_end_break e t hc hb]
    exact Or.inl ⟨c, _, h6, by rw [h1, h7]⟩
  by_cases hr : t.wlv.row + 1 = e.endrow ∨ (t.wlv.draw_state ≠ WL_LINE ∧ t.wlv.filler_todo ≤ 0)
  · exact Or.inr (row_end_endrow e t hc hb hr).2.1
  have hb2 : ¬ ((¬ e.wp.w_p_wrap = true ∧ (row_commit e t).wlv.filler_todo ≤ 0)
      ∨ (row_commit e t).lcs_eol_one = -1) := by
    rw [h3, h4]
    intro h
    apply hb
    rcases h with h | h
    · exact Or.inl ⟨by simpa using h.1, h.2⟩
    · exact Or.inr h
  have hn : ¬ ((row_commit e t).wlv.draw_state ≠ WL_LINE ∧ (row_commit e t).wlv.filler_todo ≤ 0) := by
    rw [h3, h5]
    exact fun h => hr (Or.inr h)
  have hq : row_too_narrow e (row_commit e t) = row_commit e t := by
    unfold row_too_narrow; rw [if_neg hn]
  have hre : ¬ (row_commit e t).wlv.row = e.endrow := by
    rw [h1]
    exact fun h => hr (Or.inl h)
  obtain ⟨n1, n2⟩ := row_next_row_grid e (row_commit e t)
  unfold row_end at h ⊢
  rw [if_pos hc] at h ⊢
  simp only [] at h ⊢
  rw [if_neg hb2, hq, if_neg hre] at h ⊢
  left
  split
  · exact ⟨c, _, n2.trans h6, by rw [n1, h1, h7]⟩
  · rename_i hx
    rw [if_neg hx] at h
    exact absurd h (by simp)

theorem gutter_stc_stop (e : Env) (s : LoopState) (h : (gutter_stc e s).2 = true) :
    (gutter_stc e s).1.w_redr_statuscol = true := by
  by_cases h1 : s.wlv.draw_state = WL_STC - 1 ∧ s.wlv.n_extra = 0
  · rw [gutter_stc, if_pos h1] at h ⊢
    dsimp only at h ⊢
    by_cases h2 : s.statuscol.draw = true
    · rw [if_pos h2] at h ⊢
      by_cases h3 : s.statuscol.textp.isNone = true
      · rw [if_pos h3] at h ⊢
        split
        · assumption
        · rename_i hx
          rw [if_neg hx] at h
          exact absurd h (by simp)
      · rw [if_neg h3] at h
        exact absurd h (by simp)
    · rw [if_neg h2] at h
      exact absurd h (by simp)
  · rw [gutter_stc, if_neg h1] at h
    exact absurd h (by simp)

theorem gutter_phase_stop (e : Env) (s : LoopState) (h : (gutter_phase e s).2 = true) :
    (gutter_phase e s).1.w_redr_statuscol = true := by
  by_cases h1 : s.wlv.draw_state ≠ WL_LINE
  · rw [gutter_phase, if_pos h1] at h ⊢
    have hr := gutter_stc_stop e (gutter_nr e (gutter_sign e (gutter_fold e (gutter_skip e
      (gutter_cmdline e (gutter_cul_screenline s))))))
    generalize gutter_stc e (gutter_nr e (gutter_sign e (gutter_fold e (gutter_skip e
      (gutter_cmdline e (gutter_cul_screenline s)))))) = r at h hr ⊢
    by_cases h2 : r.2 = true
    · simp only [h2, if_true]
      exact hr h2
    · simp only [h2] at h
      exact absurd h (by simp)
  · rw [gutter_phase, if_neg h1] at h
    exact absurd h (by simp)

theorem dollar_block_row (e : Env) (s : LoopState) :
    (dollar_block e s).wlv.row
      = (if e.wp.w_p_cuc then e.wp.w_cline_row + e.wp.w_cline_height else e.wp.rows) := by
  unfold dollar_block
  lift_lets
  intro r s1 s2
  split <;> rfl

/-- How a pass of the loop in which the loop is left leaves the row counter. -/
theorem win_line_iter_exit (e : Env) (s : LoopState) (h : (win_line_iter e s).2 = true) :
    (∃ c rest, (win_line_iter e s).1.grid = GridCall.put c :: rest
        ∧ (win_line_iter e s).1.wlv.row = c.row + 1)
    ∨ (win_line_iter e s).1.wlv.row = e.endrow + 1
    ∨ ((e.dollar_vcol ≥ 0 ∨ e.number_only = true)
        ∧ (win_line_iter e s).1.wlv.row
          = (if e.wp.w_p_cuc then e.wp.w_cline_row + e.wp.w_cline_height else e.wp.rows))
    ∨ (win_line_iter e s).1.w_redr_statuscol = true := by
  by_cases hg : (gutter_phase e (iter_begin s)).2 = true
  · have hs := gutter_phase_stop e _ hg
    generalize hG : gutter_phase e (iter_begin s) = G at hg hs
    have hit : win_line_iter e s = G := by
      simp [win_line_iter, hG, hg]
    rw [hit]
    exact Or.inr (Or.inr (Or.inr hs))
  · by_cases hd : dollar_cond e (cul_screenline_apply e (gutter_phase e (iter_begin s)).1)
    · have hdv : e.dollar_vcol ≥ 0 ∨ e.number_only = true := by
        unfold dollar_cond at hd
        rcases hd.1 with h1 | h1
        · exact Or.inl h1.1
        · exact Or.inr h1.1
      generalize hG : gutter_phase e (iter_begin s) = G at hg hd
      generalize hU : cul_screenline_apply e G.1 = U at hd
      have hit : win_line_iter e s = (dollar_block e U, true) := by
        simp [win_line_iter, hG, hg, hU, hd]
      rw [hit]
      exact Or.inr (Or.inr (Or.inl ⟨hdv, dollar_block_row e U⟩))
    · by_cases hc : (iter_choose_char e
          (cul_screenline_apply e (gutter_phase e (iter_begin s)).1)).c = NUL
      · generalize hG : gutter_phase e (iter_begin s) = G at hg hd hc
        generalize hU : cul_screenline_apply e G.1 = U at hd hc
        generalize hC : iter_choose_char e U = C at hc
        have hit : win_line_iter e s = (end_of_line e C, true) := by
          simp [win_line_iter, hG, hg, hU, hd, hC, hc]
        rw [hit]
        obtain ⟨h1, c, h2, h3⟩ := end_of_line_row_grid e C
        exact Or.inl ⟨c, _, h2, by rw [h1, h3]⟩
      · have hit := win_line_iter_row_end e s ⟨by simpa using hg, hd, hc⟩
        rw [hit] at h ⊢
        rcases row_end_exit e _ h with h1 | h1
        · exact Or.inl h1
        · exact Or.inr (Or.inl h1)

theorem win_line_loop_exit (e : Env) (n : Nat) :
    ∀ s t, win_line_loop e n s = some t → ∃ s', win_line_iter e s' = (t, true) := by
  induction n with
  | zero => intro s t h; simp [win_line_loop] at h
  | succ n ih =>
    intro s t h
    simp only [win_line_loop] at h
    split at h
    · rename_i h2
      refine ⟨s, ?_⟩
      have h3 : (win_line_iter e s).1 = t := by simpa using h
      exact Prod.ext h3 h2
    · exact ih _ _ h

/-- Claim C14, what the code returns: the value returned by `win_line` when
`startrow <= endrow`.  It is the row counter `wlv.row` at the time the loop is left, and then one of
these holds: the row handed last to the grid is the row before it (the value
is the number of the last row of the line plus one); or it is `endrow + 1`
(the line got too long for the screen); or the loop was left for the `'$'`
of a change command or for `number_only`, and it is the end of the cursor line
with 'cursorcolumn' and the height of the grid without; or the status column
has to be rebuilt (`w_redr_statuscol`).  And for a plain line that fits in the
row the loop is left within `length + 1` passes with the row counter one more
than the row handed to the grid. -/
theorem win_line_return_value (e : Env) (hse : e.startrow ≤ e.endrow) :
    (∀ fuel t, win_line_final e fuel = some t →
      win_line e fuel = some (t.wlv.row, t.grid)
      ∧ ((∃ c rest, t.grid = GridCall.put c :: rest ∧ t.wlv.row = c.row + 1)
          ∨ t.wlv.row = e.endrow + 1
          ∨ ((e.dollar_vcol ≥ 0 ∨ e.number_only = true)
              ∧ t.wlv.row
                = (if e.wp.w_p_cuc then e.wp.w_cline_row + e.wp.w_cline_height
                   else e.wp.rows))
          ∨ t.w_redr_statuscol = true))
    ∧ (∀ (s g : LoopState) (fuel : Nat), PlainEnv e →
        gutter_phase e (iter_begin s) = (g, false) → PlainBody g → g.ptr = 0 →
        g.wlv.col + e.line.length ≤ e.wp.cols →
        (∀ i : Nat, i < e.line.length → e.utfc_ptr2len (bytesFrom e.line i) = 1) →
        e.utfc_ptr2len (bytesFrom e.line e.line.length) = 0 →
        (∀ b, 0x20 ≤ b → b < 0x7F → e.vim_isprintc b = true) →
        (∀ b, 0x20 ≤ b → b < 0x7F → e.utf_char2cells b = 1) →
        e.utf_char2cells 0 ≠ 2 →
        (∀ a b c d ch at_, e.draw_virt_text a b c d ch at_ = (ch, at_, b)) →
        (∀ p, e.get_prevcol_hl_flag p = false) →
        e.line.length + 1 ≤ fuel →
        ∃ t c, win_line_loop e fuel s = some t ∧ t.grid = GridCall.put c :: g.grid
          ∧ c.row = g.wlv.row ∧ t.wlv.row = c.row + 1) := by
  constructor
  · intro fuel t h
    have hse2 : ¬ e.startrow > e.endrow := by omega
    unfold win_line_final at h
    constructor
    · unfold win_line
      rw [if_neg hse2]
      cases h0 : win_line_init e with
      | none => rw [h0] at h; exact absurd h (by simp)
      | some s0 =>
        rw [h0] at h
        simp only [] at h ⊢
        rw [h]
    · cases h0 : win_line_init e with
      | none => rw [h0] at h; exact absurd h (by simp)
      | some s0 =>
        rw [h0] at h
        obtain ⟨s', hs'⟩ := win_line_loop_exit e fuel s0 t h
        have h1 := win_line_iter_exit e s' (by rw [hs'])
        rw [hs'] at h1
        exact h1
  · intro s g fuel he hg hs hp hfit hlen hend hprint hcells hc0 hvt hpc hfuel
    obtain ⟨t, q1, q2, -, -, q5⟩ := plain_loop e he hlen hend hprint hcells hc0 hvt hpc
      e.line.length s g hg hs (by omega) (by omega) hfit
    exact ⟨t, _, win_line_loop_mono e _ s t fuel q1 hfuel, q5, rfl, q2⟩

set_option maxRecDepth 100000 in
/-- For the line "abc" the loop is left within four passes, and the value
returned is as the theorem tells. -/
theorem win_line_return_value_witness :
    ∃ t, win_line_final Sample.env_abc 4 = some t
      ∧ win_line Sample.env_abc 4 = some (t.wlv.row, t.grid)
      ∧ ((∃ c rest, t.grid = GridCall.put c :: rest ∧ t.wlv.row = c.row + 1)
          ∨ t.wlv.row = Sample.env_abc.endrow + 1
          ∨ ((Sample.env_abc.dollar_vcol ≥ 0 ∨ Sample.env_abc.number_only = true)
              ∧ t.wlv.row
                = (if Sample.env_abc.wp.w_p_cuc then
                    Sample.env_abc.wp.w_cline_row + Sample.env_abc.wp.w_cline_height
                   else Sample.env_abc.wp.rows))
          ∨ t.w_redr_statuscol = true) := by
  have hs : (win_line_final Sample.env_abc 4).isSome = true := by decide
  obtain ⟨t, ht⟩ := Option.isSome_iff_exists.mp hs
  exact ⟨t, ht, (win_line_return_value Sample.env_abc (by decide)).1 4 t ht⟩

set_option maxRecDepth 100000 in
/-- C14 does not hold: the line "abc" is drawn from row 0 on, the only row
handed to the grid is row 0, the last row that the line occupies, and the
value returned is 1. -/
theorem win_line_return_counterexample :
    Sample.env_abc.startrow ≤ Sample.env_abc.endrow
    ∧ (win_line Sample.env_abc 4).map (fun r => (r.1, r.2.map GridCall.row))
        = some (1, [0]) := by
  decide

theorem next_char_fold (e : Env) (s : LoopState) (hf : e.foldinfo.fi_lines > 0) :
    next_char e s = if s.wlv.n_extra > 0 then next_extra e s else { s with c := NUL } := by
  unfold next_char
  by_cases h : s.wlv.n_extra > 0
  · rw [if_pos h, if_pos h]
  · rw [if_neg h, if_neg h, if_pos hf]

theorem row_end_fold (e : Env) (t : LoopState) (hf : t.has_fold = true)
    (hv : t.virt_line_offset < 0) : row_end e t = (t, false) := by
  have hc : ¬ row_end_cond e t := by
    unfold row_end_cond
    intro h
    rcases h.2.1 with h1 | h1
    · exact h1 hf
    · omega
  rw [row_end, if_neg hc]

theorem fold_text_keeps (e : Env) (u : LoopState) :
    (fold_text e u).wlv.draw_state = u.wlv.draw_state
    ∧ (fold_text e u).has_fold = u.has_fold
    ∧ (fold_text e u).wlv.row = u.wlv.row
    ∧ (fold_text e u).wlv.filler_lines = u.wlv.filler_lines
    ∧ (fold_text e u).wlv.col = u.wlv.col := by
  unfold fold_text
  split <;> exact ⟨rfl, rfl, rfl, rfl, rfl⟩

/-- At the edge of the grid the blocks for a closed fold leave no pending run. -/
theorem fold_blocks_edge (e : Env) (u : LoopState) (hd : u.wlv.draw_state = WL_LINE)
    (hf : u.has_fold = true) (hrow : u.wlv.row = e.startrow + u.wlv.filler_lines)
    (hcol : u.wlv.col ≥ e.wp.cols) :
    (fold_truncate e (fold_fill e (fold_text e u))).wlv.n_extra = 0 := by
  obtain ⟨t1, t2, t3, t4, t5⟩ := fold_text_keeps e u
  generalize fold_text e u = T at t1 t2 t3 t4 t5
  have hfill : fold_fill e T = T := by
    unfold fold_fill
    rw [if_neg]
    intro h
    have := h.2.2.1
    omega
  rw [hfill]
  unfold fold_truncate
  by_cases hn : T.wlv.n_extra = 0
  · rw [if_neg (fun h => h.2.2.2.1 hn)]
    exact hn
  · rw [if_pos ⟨by rw [t1, hd], by rw [t2, hf], by omega, hn, by rw [t3, t4, hrow]⟩]

/-- After a character of the pending run of a closed fold has been taken, the
blocks up to the highlighting at the end of the line change the cursor
position only. -/
theorem fold_choose_rest (e : Env) (X : LoopState) (hb : FoldBody e X) (hc : X.c ≠ NUL) :
    eol_hl_block e (lcs_prec_block e (extra_attr_combine e (cursor_wcol e X)))
      = cursor_wcol e X := by
  have hW := cursor_wcol_shape e X
  generalize hWd : cursor_wcol e X = W at hW
  have w1 : W.n_attr = 0 := by rw [hW]; exact hb.2.2.2.2.2.2.2.2.2.2.2.2.2.2.2.2.1
  have w2 : W.lcs_prec_todo = NUL := by rw [hW]; exact hb.2.2.2.2.2.2.2.2.2.2.2.2.2.2.2.2.2.2.2
  have w3 : W.c ≠ NUL := by rw [hW]; exact hc
  have hE : extra_attr_combine e W = W := by
    simp [extra_attr_combine, w1]
  have hL : lcs_prec_block e W = W := by
    have hcnd : ¬ lcs_prec_cond e W := by
      unfold lcs_prec_cond
      intro h
      exact h.1 w2
    rw [lcs_prec_block, if_neg hcnd]
  have hH : eol_hl_block e W = W := by
    rw [eol_hl_block, if_neg (fun h => w3 h.1)]
  rw [hE, hL, hH]

set_option maxHeartbeats 2000000 in
/-- The part of a pass after the character has been taken from the pending run
of a closed fold: the character is stored with the attribute of the run and
the loop goes on. -/
theorem fold_tail (e : Env) (X : LoopState) (he : FoldEnv e) (hb : FoldBody e X)
    (hc : X.c ≠ NUL) (hw : e.utf_char2cells X.mb_c = 1)
    (hcomb : ∀ a, e.hl_combine_attr 0 a = a) :
    row_end e (iter_store e (iter_before_store e (eol_hl_block e (lcs_prec_block e
      (extra_attr_combine e (cursor_wcol e X))))))
    = ({ X with
          w_wcol := (cursor_wcol e X).w_wcol,
          w_wrow := (cursor_wcol e X).w_wrow,
          did_wcol := (cursor_wcol e X).did_wcol,
          wlv.vcol := X.wlv.vcol + 1,
          wlv.off := X.wlv.off + 1,
          wlv.col := X.wlv.col + 1,
          vcol_save_attr := -1,
          vcol_prev := X.wlv.vcol,
          linebuf_char := bufSet X.linebuf_char X.wlv.off
            (if X.mb_utf8 then schar_from_cc X.mb_c X.u8cc else schar_from_ascii X.c),
          linebuf_attr := bufSet X.linebuf_attr X.wlv.off X.wlv.char_attr }, false) := by
  obtain ⟨e1, e2, e3, e4, e5, e6⟩ := he
  obtain ⟨h1, h2, h3, h4, h5, h6, h7, h8, h9, h10, h11, h12, h13, h14, h15, h16, h17, h18,
    h19, h20⟩ := hb
  have hW := cursor_wcol_shape e X
  generalize hWd : cursor_wcol e X = W at hW
  have w1 : W.n_attr = 0 := by rw [hW]; exact h17
  have w2 : W.lcs_prec_todo = NUL := by rw [hW]; exact h20
  have w3 : W.c ≠ NUL := by rw [hW]; exact hc
  have hE : extra_attr_combine e W = W := by
    simp [extra_attr_combine, w1]
  have hL : lcs_prec_block e W = W := by
    have hcnd : ¬ lcs_prec_cond e W := by
      unfold lcs_prec_cond
      intro h
      exact h.1 w2
    rw [lcs_prec_block, if_neg hcnd]
  have hH : eol_hl_block e W = W := by
    rw [eol_hl_block, if_neg (fun h => w3 h.1)]
  rw [hE, hL, hH]
  have hx : ¬ lcs_ext_cond e W := by
    unfold lcs_ext_cond
    intro h
    have := h.2.2.2.2.2.2.1
    rw [hW] at this
    exact this h2
  have hS : iter_store e (iter_before_store e W)
      = { W with
            wlv.vcol := W.wlv.vcol + 1,
            wlv.off := W.wlv.off + 1,
            wlv.col := W.wlv.col + 1,
            vcol_save_attr := -1,
            vcol_prev := W.wlv.vcol,
            linebuf_char := bufSet W.linebuf_char W.wlv.off
              (if W.mb_utf8 then schar_from_cc W.mb_c W.u8cc else schar_from_ascii W.c),
            linebuf_attr := bufSet W.linebuf_attr W.wlv.off W.wlv.char_attr } := by
    have hw2 : ¬ e.utf_char2cells W.mb_c > 1 := by
      rw [hW]; simp [hw]
    have d1 : W.wlv.draw_state = WL_LINE := by rw [hW]; exact h1
    have d2 : W.draw_color_col = false := by rw [hW]; exact h11
    have d3 : W.n_skip = 0 := by rw [hW]; exact h10
    have d4 : W.wlv.line_attr_lowprio = 0 := by rw [hW]; exact h15
    have d5 : W.n_attr3 = 0 := by rw [hW]; exact h18
    have d6 : W.multi_attr = 0 := by rw [hW]; exact h19
    have d7 : W.wlv.filler_todo ≤ 0 := by rw [hW]; exact h5
    have hds : WL_STC < WL_LINE := by decide
    have h0 : lcs_ext_block e W = W := by simp [lcs_ext_block, hx]
    have hcc : color_col_advance W = W := color_col_advance_off W d2
    have hcu : cursorcolumn_attr e W = { W with vcol_save_attr := -1 } := by
      unfold cursorcolumn_attr
      simp [e2, d2]
    have hlo : lowprio_attr e { W with vcol_save_attr := -1 } = { W with vcol_save_attr := -1 } := by
      rw [lowprio_attr, if_pos d1]
      show { W with vcol_save_attr := -1,
                    wlv.char_attr := e.hl_combine_attr W.wlv.line_attr_lowprio W.wlv.char_attr } = _
      rw [d4, hcomb]
    have hp : put_char e { W with vcol_save_attr := -1 }
        = store_char e { W with vcol_save_attr := -1, vcol_prev := W.wlv.vcol } := by
      simp [put_char, d1, d3]
    simp only [iter_store, iter_before_store]
    rw [h0, hcc, hcu, hlo, hp, store_char_narrow _ _ (by simpa using hw2)]
    simp [after_put, d1, hds, d7, d5, w1, d6, e1]
  rw [hS]
  rw [row_end_fold]
  · rw [hW]
  · rw [hW]; exact h2
  · rw [hW]; exact h3

theorem fold_text_shape (e : Env) (g : LoopState) :
    fold_text e g
      = { g with
            wlv.char_attr := (fold_text e g).wlv.char_attr,
            wlv.p_extra := (fold_text e g).wlv.p_extra,
            wlv.n_extra := (fold_text e g).wlv.n_extra,
            wlv.c_extra := (fold_text e g).wlv.c_extra,
            wlv.c_final := (fold_text e g).wlv.c_final,
            ptr := (fold_text e g).ptr } := by
  unfold fold_text
  split <;> rfl

theorem fold_fill_shape (e : Env) (g : LoopState) :
    fold_fill e g
      = { g with
            wlv.n_extra := (fold_fill e g).wlv.n_extra,
            wlv.c_extra := (fold_fill e g).wlv.c_extra,
            wlv.c_final := (fold_fill e g).wlv.c_final } := by
  unfold fold_fill
  split <;> rfl

theorem fold_truncate_shape (e : Env) (g : LoopState) :
    fold_truncate e g = { g with wlv.n_extra := (fold_truncate e g).wlv.n_extra } := by
  unfold fold_truncate
  split <;> rfl

/-- The blocks for a closed fold change the pending run, the attribute and
`ptr` only. -/
theorem fold_prelude_shape (e : Env) (g : LoopState) :
    fold_truncate e (fold_fill e (fold_text e g))
      = { g with
            wlv.char_attr := (fold_truncate e (fold_fill e (fold_text e g))).wlv.char_attr,
            wlv.p_extra := (fold_truncate e (fold_fill e (fold_text e g))).wlv.p_extra,
            wlv.n_extra := (fold_truncate e (fold_fill e (fold_text e g))).wlv.n_extra,
            wlv.c_extra := (fold_truncate e (fold_fill e (fold_text e g))).wlv.c_extra,
            wlv.c_final := (fold_truncate e (fold_fill e (fold_text e g))).wlv.c_final,
            ptr := (fold_truncate e (fold_fill e (fold_text e g))).ptr } := by
  have hT := fold_text_shape e g
  generalize fold_text e g = T at hT
  have hF := fold_fill_shape e T
  generalize fold_fill e T = F at hF
  have hP := fold_truncate_shape e F
  generalize fold_truncate e F = P at hP
  rw [hP, hF, hT]

/-- The pending run after the blocks for a closed fold, before the edge of the
grid. -/
theorem fold_prelude (e : Env) (g : LoopState) (k : Nat) (he : FoldEnv e) (hb : FoldBody e g)
    (hr : FoldRun e g k) (hcol : g.wlv.col < e.wp.cols) :
    (fold_truncate e (fold_fill e (fold_text e g))).wlv.char_attr = e.win_hl_attr HLF_FL
    ∧ (fold_truncate e (fold_fill e (fold_text e g))).wlv.c_final = NUL
    ∧ (fold_truncate e (fold_fill e (fold_text e g))).ptr = g.v
    ∧ (k < (fold_text_bytes e).length →
        (fold_truncate e (fold_fill e (fold_text e g))).wlv.c_extra = NUL
        ∧ (fold_truncate e (fold_fill e (fold_text e g))).wlv.p_extra
            = ⟨PBuf.foldtext, fold_text_bytes e, k⟩
        ∧ (fold_truncate e (fold_fill e (fold_text e g))).wlv.n_extra
            = ((fold_text_bytes e).length : Int) - k)
    ∧ ((fold_text_bytes e).length ≤ k →
        (fold_truncate e (fold_fill e (fold_text e g))).wlv.c_extra = e.wp.w_p_fcs_chars.fold
        ∧ (fold_truncate e (fold_fill e (fold_text e g))).wlv.n_extra
            = e.wp.cols - g.wlv.col) := by
  obtain ⟨e1, e2, e3, e4, e5, e6⟩ := he
  obtain ⟨h1, h2, h3, h4, h5, h6, h7, h8, h9, h10, h11, h12, h13, h14, h15, h16, h17, h18,
    h19, h20⟩ := hb
  obtain ⟨r0, hr⟩ := hr
  have hlen : cstrlen e.get_foldtext = ((fold_text_bytes e).length : Int) := rfl
  rcases hr with ⟨rfl, r1⟩ | ⟨kpos, r1, r2, r3, hr⟩
  · -- the start of the text: the fold text becomes the pending run
    have hT : fold_text e g = { g with
        wlv.char_attr := e.win_hl_attr HLF_FL,
        wlv.p_extra := ⟨PBuf.foldtext, fold_text_bytes e, 0⟩,
        wlv.n_extra := ((fold_text_bytes e).length : Int),
        wlv.c_extra := NUL,
        wlv.c_final := NUL,
        ptr := g.v } := by
      rw [fold_text, if_pos ⟨h1, h2, by simpa using r0, r1, h4⟩]
      rfl
    by_cases hz : (fold_text_bytes e).length = 0
    · have hF : fold_fill e (fold_text e g) = { g with
          wlv.char_attr := e.win_hl_attr HLF_FL,
          wlv.p_extra := ⟨PBuf.foldtext, fold_text_bytes e, 0⟩,
          wlv.n_extra := e.wp.cols - g.wlv.col,
          wlv.c_extra := e.wp.w_p_fcs_chars.fold,
          wlv.c_final := NUL,
          ptr := g.v } := by
        rw [hT, fold_fill, if_pos ⟨h1, h2, hcol, by simp [hz], h4⟩]
        simp [e1]
      have hR : fold_truncate e (fold_fill e (fold_text e g)) = fold_fill e (fold_text e g) := by
        rw [hF, fold_truncate, if_neg]
        intro h
        have := h.2.2.1
        simp only at this
        omega
      rw [hR, hF]
      refine ⟨rfl, rfl, rfl, ?_, ?_⟩
      · intro h; omega
      · intro _; exact ⟨rfl, rfl⟩
    · have hF : fold_fill e (fold_text e g) = fold_text e g := by
        rw [hT, fold_fill, if_neg]
        intro h
        have := h.2.2.2.1
        simp only at this
        omega
      have hR : fold_truncate e (fold_fill e (fold_text e g)) = fold_text e g := by
        rw [hF, hT, fold_truncate, if_neg]
        intro h
        have := h.2.2.1
        simp only at this
        omega
      rw [hR, hT]
      refine ⟨rfl, rfl, rfl, ?_, ?_⟩
      · intro _; exact ⟨rfl, rfl, by simp⟩
      · intro h; omega
  · have hT : fold_text e g = g := by
      rw [fold_text, if_neg]
      intro h
      have := h.2.2.1
      rw [r0] at this
      omega
    rw [hT]
    rcases hr with ⟨t1, t2, t3, t4⟩ | ⟨t1, t2, t3⟩
    · by_cases hz : k = (fold_text_bytes e).length
      · have hF : fold_fill e g = { g with
            wlv.n_extra := e.wp.cols - g.wlv.col,
            wlv.c_extra := e.wp.w_p_fcs_chars.fold,
            wlv.c_final := NUL } := by
          rw [fold_fill, if_pos ⟨h1, h2, hcol, by rw [t4, hz]; simp, h4⟩]
          simp [e1]
        have hR : fold_truncate e (fold_fill e g) = fold_fill e g := by
          rw [hF, fold_truncate, if_neg]
          intro h
          have := h.2.2.1
          simp only at this
          omega
        rw [hR, hF]
        refine ⟨r1, rfl, r3, ?_, ?_⟩
        · intro h; omega
        · intro _; exact ⟨rfl, rfl⟩
      · have hF : fold_fill e g = g := by
          rw [fold_fill, if_neg]
          intro h
          have := h.2.2.2.1
          omega
        have hR : fold_truncate e g = g := by
          rw [fold_truncate, if_neg]
          intro h
          have := h.2.2.1
          omega
        rw [hF, hR]
        refine ⟨r1, r2, r3, ?_, ?_⟩
        · intro _; exact ⟨t2, t3, t4⟩
        · intro h; omega
    · have hF : fold_fill e g = g := by
        rw [fold_fill, if_neg]
        intro h
        have := h.2.2.2.1
        omega
      have hR : fold_truncate e g = g := by
        rw [fold_truncate, if_neg]
        intro h
        have := h.2.2.1
        omega
      rw [hF, hR]
      refine ⟨r1, r2, r3, ?_, ?_⟩
      · intro h; omega
      · intro _; exact ⟨t2, t3⟩

/-- The next character of a pending run of the character `c_extra`. -/
theorem next_extra_fill (e : Env) (u : LoopState) (hc : u.wlv.c_extra ≠ NUL)
    (hf : u.wlv.c_final = NUL) :
    next_extra e u
      = { u with
            mb_c := u.wlv.c_extra,
            c := (check_mb_utf8 e u.wlv.c_extra u.u8cc).1,
            u8cc := (check_mb_utf8 e u.wlv.c_extra u.u8cc).2.1,
            mb_utf8 := (check_mb_utf8 e u.wlv.c_extra u.u8cc).2.2,
            wlv.n_extra := u.wlv.n_extra - 1 } := by
  simp [next_extra, hc, hf]

/-- The next character of a pending run of the string `p_extra`, for a
character of one byte and one cell. -/
theorem next_extra_text (e : Env) (u : LoopState) (hc : u.wlv.c_extra = NUL)
    (hf : u.wlv.c_final = NUL) (hn : 1 ≤ u.wlv.n_extra)
    (hl : e.utfc_ptr2len u.wlv.p_extra.rest = 1)
    (hw : e.utf_char2cells u.wlv.p_extra.deref = 1) :
    next_extra e u
      = { u with
            c := u.wlv.p_extra.deref,
            mb_c := u.wlv.p_extra.deref,
            mb_l := 1,
            mb_utf8 := false,
            wlv.n_extra := u.wlv.n_extra - 1,
            wlv.p_extra := u.wlv.p_extra.add 1 } := by
  have h1 : ¬ 1 > u.wlv.n_extra := by omega
  simp [next_extra, next_extra_str, hc, hf, hl, hw, h1, CharPtr.add]

theorem fold_text_bytes_ne_zero (e : Env) (i : Nat) (h : i < (fold_text_bytes e).length) :
    (fold_text_bytes e).getD i 0 ≠ 0 := by
  have hm : (fold_text_bytes e).getD i 0 ∈ fold_text_bytes e := by
    rw [List.getD_eq_getElem _ _ h]
    exact List.getElem_mem _
  have := List.mem_takeWhile_imp hm
  simpa using this

set_option maxHeartbeats 1000000 in
/-- A pass of the loop for a closed fold in which the character `X.c` of the
pending run is stored: `X` is the state when the character has been taken. -/
theorem fold_pass_core (e : Env) (s g X : LoopState) (he : FoldEnv e)
    (hg : gutter_phase e (iter_begin s) = (g, false)) (hb : FoldBody e g)
    (hX : next_char e (area_block e (fold_truncate e (fold_fill e (fold_text e g)))) = X)
    (hbX : FoldBody e X) (xc : X.c ≠ NUL) (xw : e.utf_char2cells X.mb_c = 1)
    (hcomb : ∀ a, e.hl_combine_attr 0 a = a) :
    win_line_iter e s
      = ({ X with
            w_wcol := (cursor_wcol e X).w_wcol,
            w_wrow := (cursor_wcol e X).w_wrow,
            did_wcol := (cursor_wcol e X).did_wcol,
            wlv.vcol := X.wlv.vcol + 1,
            wlv.off := X.wlv.off + 1,
            wlv.col := X.wlv.col + 1,
            vcol_save_attr := -1,
            vcol_prev := X.wlv.vcol,
            linebuf_char := bufSet X.linebuf_char X.wlv.off
              (if X.mb_utf8 then schar_from_cc X.mb_c X.u8cc else schar_from_ascii X.c),
            linebuf_attr := bufSet X.linebuf_attr X.wlv.off X.wlv.char_attr }, false) := by
  have hcul : cul_screenline_apply e g = g := by
    simp [cul_screenline_apply, hb.2.2.2.2.2.2.1]
  have hdc : ¬ dollar_cond e g := by
    have : ¬ 0 ≤ e.dollar_vcol := by have := he.2.2.2.2.1; omega
    simp [dollar_cond, he.2.2.2.2.2, this]
  have hR := fold_choose_rest e X hbX xc
  have hC : iter_choose_char e g = cursor_wcol e X := by
    unfold iter_choose_char
    rw [hX, hR]
  have hc : (cursor_wcol e X).c ≠ NUL := by
    rw [cursor_wcol_shape]
    exact xc
  have hT := fold_tail e X he hbX xc xw hcomb
  rw [hR] at hT
  rw [← hT]
  simp [win_line_iter, hg, hcul, hdc, hC, hc]

set_option maxHeartbeats 2000000 in
/-- One pass of the loop for a closed fold before the edge of the grid, `g`
being the state after the gutter part of the pass and `k` the number of cells
of the text part written so far: the next cell of the row is stored with the
attribute of `HLF_FL` and the loop goes on. -/
theorem fold_pass (e : Env) (s g : LoopState) (k : Nat) (he : FoldEnv e)
    (hg : gutter_phase e (iter_begin s) = (g, false)) (hb : FoldBody e g)
    (hr : FoldRun e g k) (hcol : g.wlv.col < e.wp.cols)
    (htext : ∀ i : Nat, i < (fold_text_bytes e).length →
        e.utfc_ptr2len ((fold_text_bytes e).drop i) = 1
        ∧ e.utf_char2cells ((fold_text_bytes e).getD i 0) = 1)
    (hfill : e.wp.w_p_fcs_chars.fold ≠ NUL ∧ e.utf_char2cells e.wp.w_p_fcs_chars.fold = 1)
    (hcomb : ∀ a, e.hl_combine_attr 0 a = a) :
    (win_line_iter e s).2 = false
    ∧ FoldBody e (win_line_iter e s).1
    ∧ FoldRun e (win_line_iter e s).1 (k + 1)
    ∧ (win_line_iter e s).1.wlv.off = g.wlv.off + 1
    ∧ (win_line_iter e s).1.wlv.col = g.wlv.col + 1
    ∧ (win_line_iter e s).1.linebuf_char = bufSet g.linebuf_char g.wlv.off (fold_row_cell e k)
    ∧ (win_line_iter e s).1.linebuf_attr
        = bufSet g.linebuf_attr g.wlv.off (e.win_hl_attr HLF_FL)
    ∧ (win_line_iter e s).1.wlv.row = g.wlv.row
    ∧ (win_line_iter e s).1.grid = g.grid
    ∧ (win_line_iter e s).1.bg_attr = g.bg_attr
    ∧ (win_line_iter e s).1.v = g.v := by
  have hP := fold_prelude_shape e g
  obtain ⟨p1, p2, p3, p4, p5⟩ := fold_prelude e g k he hb hr hcol
  have hXdef : next_char e (area_block e (fold_truncate e (fold_fill e (fold_text e g))))
      = next_char e (area_block e (fold_truncate e (fold_fill e (fold_text e g)))) := rfl
  generalize hPd : fold_truncate e (fold_fill e (fold_text e g)) = P at hP p1 p2 p3 p4 p5 hXdef
  have hbP : FoldBody e P := by rw [hP]; exact hb
  have hA : area_block e P = P := by
    rw [area_block, if_neg]
    intro h
    rcases h.2 with h3 | h3
    · rw [hbP.2.2.2.2.2.2.2.1] at h3; exact absurd h3 (by simp)
    · rw [hbP.2.2.2.2.2.2.2.2.1] at h3; exact absurd h3 (by simp)
  have pcol : P.wlv.col = g.wlv.col := by rw [hP]
  have pwco : P.win_col_offset = g.win_col_offset := by rw [hP]
  have poff : P.wlv.off = g.wlv.off := by rw [hP]
  have pv : P.v = g.v := by rw [hP]
  have plc : P.linebuf_char = g.linebuf_char := by rw [hP]
  have pla : P.linebuf_attr = g.linebuf_attr := by rw [hP]
  have prow : P.wlv.row = g.wlv.row := by rw [hP]
  have pgrid : P.grid = g.grid := by rw [hP]
  have pbg : P.bg_attr = g.bg_attr := by rw [hP]
  have r0 := hr.1
  by_cases hk : k < (fold_text_bytes e).length
  · obtain ⟨q1, q2, q3⟩ := p4 hk
    have hn : 1 ≤ P.wlv.n_extra := by rw [q3]; omega
    have hrest : P.wlv.p_extra.rest = (fold_text_bytes e).drop k := by
      rw [q2]; simp [CharPtr.rest, bytesFrom]
    have hderef : P.wlv.p_extra.deref = (fold_text_bytes e).getD k 0 := by
      rw [q2]; simp [CharPtr.deref, byteAt]
    have hX := next_extra_text e P q1 p2 hn (by rw [hrest]; exact (htext k hk).1)
      (by rw [hderef]; exact (htext k hk).2)
    have hN : next_char e P = next_extra e P := by
      rw [next_char_fold e P he.2.2.2.1, if_pos (by omega)]
    generalize hXd : next_extra e P = X at hX
    have hbX : FoldBody e X := by rw [hX]; exact hbP
    have x1 : X.c = (fold_text_bytes e).getD k 0 := by rw [hX]; exact hderef
    have x2 : X.mb_c = (fold_text_bytes e).getD k 0 := by rw [hX]; exact hderef
    have x3 : X.mb_utf8 = false := by rw [hX]
    have hit := fold_pass_core e s g X he hg hb (by rw [hPd, hA, hN, hXd]) hbX
      (by rw [x1]; exact fold_text_bytes_ne_zero e k hk) (by rw [x2]; exact (htext k hk).2) hcomb
    rw [hit]
    refine ⟨rfl, hbX, ?_, ?_, ?_, ?_, ?_, ?_, ?_, ?_, ?_⟩
    · refine ⟨?_, Or.inr ⟨by omega, ?_, ?_, ?_, Or.inl ⟨by omega, ?_, ?_, ?_⟩⟩⟩
      · show X.wlv.col + 1 = X.win_col_offset + ((k + 1 : Nat) : Int)
        rw [hX]
        show P.wlv.col + 1 = P.win_col_offset + ((k + 1 : Nat) : Int)
        rw [pcol, pwco, r0]; push_cast; ring
      · show X.wlv.char_attr = _
        rw [hX]; exact p1
      · show X.wlv.c_final = _
        rw [hX]; exact p2
      · show X.ptr = X.v
        rw [hX]; show P.ptr = P.v
        rw [p3, pv]
      · show X.wlv.c_extra = _
        rw [hX]; exact q1
      · show X.wlv.p_extra = _
        rw [hX]; show P.wlv.p_extra.add 1 = _
        rw [q2]; simp [CharPtr.add]
      · show X.wlv.n_extra = _
        rw [hX]; show P.wlv.n_extra - 1 = _
        rw [q3]; push_cast; ring
    · show X.wlv.off + 1 = _
      rw [hX]; show P.wlv.off + 1 = _
      rw [poff]
    · show X.wlv.col + 1 = _
      rw [hX]; show P.wlv.col + 1 = _
      rw [pcol]
    · show bufSet X.linebuf_char X.wlv.off _ = _
      rw [x3, x1]
      rw [hX]
      show bufSet P.linebuf_char P.wlv.off _ = _
      rw [plc, poff]
      simp [fold_row_cell, hk]
    · show bufSet X.linebuf_attr X.wlv.off X.wlv.char_attr = _
      rw [hX]
      show bufSet P.linebuf_attr P.wlv.off P.wlv.char_attr = _
      rw [pla, poff, p1]
    · show X.wlv.row = _
      rw [hX]; exact prow
    · show X.grid = _
      rw [hX]; exact pgrid
    · show X.bg_attr = _
      rw [hX]; exact pbg
    · show X.v = _
      rw [hX]; exact pv
  · obtain ⟨q1, q3⟩ := p5 (by omega)
    have hn : 1 ≤ P.wlv.n_extra := by rw [q3]; omega
    have hX := next_extra_fill e P (by rw [q1]; exact hfill.1) p2
    have hN : next_char e P = next_extra e P := by
      rw [next_char_fold e P he.2.2.2.1, if_pos (by omega)]
    generalize hXd : next_extra e P = X at hX
    have hbX : FoldBody e X := by rw [hX]; exact hbP
    have x1 : X.c = (check_mb_utf8 e e.wp.w_p_fcs_chars.fold P.u8cc).1 := by rw [hX, q1]
    have x2 : X.mb_c = e.wp.w_p_fcs_chars.fold := by rw [hX]; exact q1
    have x3 : X.mb_utf8 = (check_mb_utf8 e e.wp.w_p_fcs_chars.fold P.u8cc).2.2 := by rw [hX, q1]
    have x4 : X.u8cc = (check_mb_utf8 e e.wp.w_p_fcs_chars.fold P.u8cc).2.1 := by rw [hX, q1]
    have xc : X.c ≠ NUL := by
      rw [x1]
      unfold check_mb_utf8
      split
      · decide
      · exact hfill.1
    have hit := fold_pass_core e s g X he hg hb (by rw [hPd, hA, hN, hXd]) hbX
      xc (by rw [x2]; exact hfill.2) hcomb
    rw [hit]
    refine ⟨rfl, hbX, ?_, ?_, ?_, ?_, ?_, ?_, ?_, ?_, ?_⟩
    · refine ⟨?_, Or.inr ⟨by omega, ?_, ?_, ?_, Or.inr ⟨by omega, ?_, ?_⟩⟩⟩
      · show X.wlv.col + 1 = X.win_col_offset + ((k + 1 : Nat) : Int)
        rw [hX]
        show P.wlv.col + 1 = P.win_col_offset + ((k + 1 : Nat) : Int)
        rw [pcol, pwco, r0]; push_cast; ring
      · show X.wlv.char_attr = _
        rw [hX]; exact p1
      · show X.wlv.c_final = _
        rw [hX]; exact p2
      · show X.ptr = X.v
        rw [hX]; show P.ptr = P.v
        rw [p3, pv]
      · show X.wlv.c_extra = _
        rw [hX]; exact q1
      · show X.wlv.n_extra = e.wp.cols - (X.wlv.col + 1)
        rw [hX]; show P.wlv.n_extra - 1 = e.wp.cols - (P.wlv.col + 1)
        rw [q3, pcol]; ring
    · show X.wlv.off + 1 = _
      rw [hX]; show P.wlv.off + 1 = _
      rw [poff]
    · show X.wlv.col + 1 = _
      rw [hX]; show P.wlv.col + 1 = _
      rw [pcol]
    · show bufSet X.linebuf_char X.wlv.off _ = _
      rw [x3, x1, x2, x4]
      rw [hX]
      show bufSet P.linebuf_char P.wlv.off _ = _
      rw [plc, poff]
      unfold check_mb_utf8
      by_cases hl : e.utf_char2len e.wp.w_p_fcs_chars.fold > 1
      · simp [fold_row_cell, hk, hl]
      · simp [fold_row_cell, hk, hl]
    · show bufSet X.linebuf_attr X.wlv.off X.wlv.char_attr = _
      rw [hX]
      show bufSet P.linebuf_attr P.wlv.off P.wlv.char_attr = _
      rw [pla, poff, p1]
    · show X.wlv.row = _
      rw [hX]; exact prow
    · show X.grid = _
      rw [hX]; exact pgrid
    · show X.bg_attr = _
      rw [hX]; exact pbg
    · show X.v = _
      rw [hX]; exact pv

set_option maxHeartbeats 1000000 in
/-- At the end of a line with nothing to fill in, `ptr` stays where it is. -/
theorem end_of_line_plain_ptr (e : Env) (t : LoopState)
    (e4 : e.wp.w_p_cuc = false) (e5 : e.wp.b_terminal = false)
    (h4 : t.wlv.boguscols = 0) (h11 : t.draw_color_col = false) (h12 : t.has_decor = false)
    (h17 : t.wlv.line_attr = 0) (h18 : t.wlv.line_attr_lowprio = 0)
    (h19 : t.wlv.diff_hlf = HLF_8)
    (hvt : ∀ ch at_, e.draw_virt_text t.win_col_offset t.wlv.col e.wp.cols t.wlv.row ch at_
        = (ch, at_, t.wlv.col)) :
    (end_of_line e t).ptr = t.ptr := by
  by_cases hcw : e.wp.is_curwin = true ∧ e.lnum = e.curwin_cursor.lnum <;>
  by_cases hvc : t.wlv.vcol
      < (if e.wp.w_p_wrap then e.wp.w_skipcol else e.wp.w_leftcol) + t.wlv.col - e.win_col_off
  all_goals
    simp only [end_of_line, eol_margin, eol_highlight, eol_commit]
    simp [hvc, h4, h11, h12, h17, h18, h19, e4, e5, hvt, grid_put_linebuf, hcw]

set_option maxHeartbeats 2000000 in
/-- The pass of the loop for a closed fold that begins with the row full, `g`
being the state after the gutter part of the pass: nothing more is stored, the
row is handed to the grid as it is and the loop is left. -/
theorem fold_edge_cells (e : Env) (s g : LoopState) (k : Nat) (he : FoldEnv e)
    (hg : gutter_phase e (iter_begin s) = (g, false)) (hb : FoldBody e g)
    (hr : FoldRun e g k) (hcol : g.wlv.col ≥ e.wp.cols)
    (hvt : ∀ ch at_, e.draw_virt_text g.win_col_offset g.wlv.col e.wp.cols g.wlv.row ch at_
        = (ch, at_, g.wlv.col))
    (hpc : ∀ p, e.get_prevcol_hl_flag p = false) :
    (win_line_iter e s).2 = true
    ∧ (win_line_iter e s).1.wlv.row = g.wlv.row + 1
    ∧ (win_line_iter e s).1.ptr = g.v
    ∧ (win_line_iter e s).1.linebuf_char = g.linebuf_char
    ∧ (win_line_iter e s).1.linebuf_attr = g.linebuf_attr
    ∧ (win_line_iter e s).1.grid
        = GridCall.put ⟨g.wlv.row, 0, g.wlv.col, e.wp.cols, false, g.bg_attr, false,
            g.linebuf_char, g.linebuf_attr⟩ :: g.grid := by
  have hbg := hb
  obtain ⟨e1, e2, e3, e4, e5, e6⟩ := he
  obtain ⟨h1, h2, h3, h4, h5, h6, h7, h8, h9, h10, h11, h12, h13, h14, h15, h16, h17, h18,
    h19, h20⟩ := hb
  have hcul : cul_screenline_apply e g = g := by
    simp [cul_screenline_apply, h7]
  have hdc : ¬ dollar_cond e g := by
    have : ¬ 0 ≤ e.dollar_vcol := by omega
    simp [dollar_cond, e6, this]
  have hP := fold_prelude_shape e g
  have hn := fold_blocks_edge e g h1 h2 h4 hcol
  have hptr : (fold_truncate e (fold_fill e (fold_text e g))).ptr = g.v := by
    rw [fold_truncate_shape, fold_fill_shape]
    show (fold_text e g).ptr = g.v
    obtain ⟨r0, hr⟩ := hr
    rcases hr with ⟨rfl, r1⟩ | ⟨kpos, r1, r2, r3, hr⟩
    · rw [fold_text, if_pos ⟨h1, h2, by simpa using r0, r1, h4⟩]
    · rw [fold_text, if_neg]
      · exact r3
      · intro h
        have := h.2.2.1
        rw [r0] at this
        omega
  generalize hPd : fold_truncate e (fold_fill e (fold_text e g)) = P at hP hn hptr
  have hbP : FoldBody e P := by rw [hP]; exact hbg
  have hA : area_block e P = P := by
    rw [area_block, if_neg]
    intro h
    rcases h.2 with h3 | h3
    · rw [hbP.2.2.2.2.2.2.2.1] at h3; exact absurd h3 (by simp)
    · rw [hbP.2.2.2.2.2.2.2.2.1] at h3; exact absurd h3 (by simp)
  have hN : next_char e P = { P with c := NUL } := by
    rw [next_char_fold e P e4, if_neg (by omega)]
  have hW := cursor_wcol_shape e { P with c := NUL }
  generalize hWd : cursor_wcol e { P with c := NUL } = W at hW
  have hbW : FoldBody e W := by rw [hW]; exact hbP
  have w1 : W.c = NUL := by rw [hW]
  have hE : extra_attr_combine e W = W := by
    simp [extra_attr_combine, hbW.2.2.2.2.2.2.2.2.2.2.2.2.2.2.2.2.1]
  have hL : lcs_prec_block e W = W := by
    have hcnd : ¬ lcs_prec_cond e W := by
      unfold lcs_prec_cond
      intro h
      exact h.2.2.2.2.2 w1
    rw [lcs_prec_block, if_neg hcnd]
  have hH : eol_hl_block e W = W := by
    have hcnd : ¬ eol_hl_cond e W := by
      unfold eol_hl_cond
      intro h
      rcases h.2 with h3 | h3
      · exact h3.1 hbW.2.2.2.2.2.2.2.2.2.2.2.2.1
      · rw [hpc] at h3; exact absurd h3 (by simp)
    by_contra h
    exact hcnd (eol_hl_block_fires e W h).2
  have hC : iter_choose_char e g = W := by
    unfold iter_choose_char
    rw [hPd, hA, hN, hWd, hE, hL, hH]
  have hit : win_line_iter e s = (end_of_line e W, true) := by
    simp [win_line_iter, hg, hcul, hdc, hC, w1]
  have wv : ∀ ch at_, e.draw_virt_text W.win_col_offset W.wlv.col e.wp.cols W.wlv.row ch at_
      = (ch, at_, W.wlv.col) := by
    rw [hW]
    show ∀ ch at_, e.draw_virt_text P.win_col_offset P.wlv.col e.wp.cols P.wlv.row ch at_
      = (ch, at_, P.wlv.col)
    rw [hP]
    exact hvt
  obtain ⟨r1, r2, r3, r4⟩ := end_of_line_plain e W e2 e3 hbW.2.2.2.2.2.1
    hbW.2.2.2.2.2.2.2.2.2.2.1 hbW.2.2.2.2.2.2.2.2.2.2.2.1 hbW.2.2.2.2.2.2.2.2.2.2.2.2.2.1
    hbW.2.2.2.2.2.2.2.2.2.2.2.2.2.2.1 hbW.2.2.2.2.2.2.2.2.2.2.2.2.2.2.2.1 wv
  have r5 := end_of_line_plain_ptr e W e2 e3 hbW.2.2.2.2.2.1
    hbW.2.2.2.2.2.2.2.2.2.2.1 hbW.2.2.2.2.2.2.2.2.2.2.2.1 hbW.2.2.2.2.2.2.2.2.2.2.2.2.2.1
    hbW.2.2.2.2.2.2.2.2.2.2.2.2.2.2.1 hbW.2.2.2.2.2.2.2.2.2.2.2.2.2.2.2.1 wv
  have wrow : W.wlv.row = g.wlv.row := by rw [hW]; show P.wlv.row = _; rw [hP]
  have wcol : W.wlv.col = g.wlv.col := by rw [hW]; show P.wlv.col = _; rw [hP]
  have wlc : W.linebuf_char = g.linebuf_char := by rw [hW]; show P.linebuf_char = _; rw [hP]
  have wla : W.linebuf_attr = g.linebuf_attr := by rw [hW]; show P.linebuf_attr = _; rw [hP]
  have wgrid : W.grid = g.grid := by rw [hW]; show P.grid = _; rw [hP]
  have wbg : W.bg_attr = g.bg_attr := by rw [hW]; show P.bg_attr = _; rw [hP]
  have wptr : W.ptr = g.v := by rw [hW]; exact hptr
  rw [hit]
  refine ⟨rfl, ?_, ?_, ?_, ?_, ?_⟩
  · rw [r1, wrow]
  · show (end_of_line e W).ptr = _
    rw [r5, wptr]
  · rw [r2, wlc]
  · rw [r3, wla]
  · rw [r4, wrow, wcol, wlc, wla, wgrid, wbg, e1]

theorem fold_body_iter_begin (e : Env) (s : LoopState) (h : FoldBody e s) :
    FoldBody e (iter_begin s) := h

theorem fold_run_iter_begin (e : Env) (s : LoopState) (k : Nat) (h : FoldRun e s k) :
    FoldRun e (iter_begin s) k := h

set_option maxHeartbeats 1000000 in
/-- The loop over the rest of the row of a closed fold: `k` cells of the text
part are written, `n` columns are left, `g` is the state after the gutter part
of the first pass. -/
theorem fold_loop (e : Env) (he : FoldEnv e)
    (htext : ∀ i : Nat, i < (fold_text_bytes e).length →
        e.utfc_ptr2len ((fold_text_bytes e).drop i) = 1
        ∧ e.utf_char2cells ((fold_text_bytes e).getD i 0) = 1)
    (hfill : e.wp.w_p_fcs_chars.fold ≠ NUL ∧ e.utf_char2cells e.wp.w_p_fcs_chars.fold = 1)
    (hcomb : ∀ a, e.hl_combine_attr 0 a = a)
    (hvt : ∀ a b c d ch at_, e.draw_virt_text a b c d ch at_ = (ch, at_, b))
    (hpc : ∀ p, e.get_prevcol_hl_flag p = false) (n : Nat) :
    ∀ (s g : LoopState) (k : Nat), gutter_phase e (iter_begin s) = (g, false) →
      FoldBody e g → FoldRun e g k → g.wlv.col + n = e.wp.cols →
      ∃ t, win_line_loop e (n + 1) s = some t
        ∧ t.wlv.row = g.wlv.row + 1
        ∧ t.ptr = g.v
        ∧ (∀ j : Nat, j < n →
            t.linebuf_char (g.wlv.off + j) = fold_row_cell e (k + j)
            ∧ t.linebuf_attr (g.wlv.off + j) = e.win_hl_attr HLF_FL)
        ∧ (∀ i, i < g.wlv.off ∨ g.wlv.off + n ≤ i →
            t.linebuf_char i = g.linebuf_char i ∧ t.linebuf_attr i = g.linebuf_attr i)
        ∧ t.grid = GridCall.put ⟨g.wlv.row, 0, e.wp.cols, e.wp.cols, false, g.bg_attr,
            false, t.linebuf_char, t.linebuf_attr⟩ :: g.grid := by
  induction n with
  | zero =>
    intro s g k hg hb hr hn
    have hcol : g.wlv.col = e.wp.cols := by simpa using hn
    obtain ⟨r1, r2, r3, r4, r5, r6⟩ := fold_edge_cells e s g k he hg hb hr (by omega)
      (fun ch at_ => hvt _ _ _ _ ch at_) hpc
    refine ⟨(win_line_iter e s).1, ?_, r2, r3, ?_, ?_, ?_⟩
    · simp [win_line_loop, r1]
    · intro j hj
      omega
    · intro i _
      rw [r4, r5]
      exact ⟨rfl, rfl⟩
    · rw [r6, r4, r5, hcol]
  | succ n ih =>
    intro s g k hg hb hr hn
    have hcol : g.wlv.col < e.wp.cols := by push_cast at hn; omega
    obtain ⟨t1, t2, t3, t4, t5, t6, t7, t8, t9, t10, t11⟩ :=
      fold_pass e s g k he hg hb hr hcol htext hfill hcomb
    generalize hT : (win_line_iter e s).1 = T at *
    have hgT : gutter_phase e (iter_begin T) = (iter_begin T, false) :=
      gutter_phase_line e (iter_begin T) t2.1
    obtain ⟨t, q1, q2, q3, q4, q5, q6⟩ := ih T (iter_begin T) (k + 1) hgT
      (fold_body_iter_begin e T t2) (fold_run_iter_begin e T (k + 1) t3)
      (by show T.wlv.col + n = _; push_cast at hn; omega)
    have i1 : (iter_begin T).wlv.row = g.wlv.row := t8
    have i2 : (iter_begin T).wlv.off = g.wlv.off + 1 := t4
    have i4 : (iter_begin T).v = g.v := t11
    have i5 : (iter_begin T).linebuf_char
        = bufSet g.linebuf_char g.wlv.off (fold_row_cell e k) := t6
    have i6 : (iter_begin T).grid = g.grid := t9
    have i7 : (iter_begin T).bg_attr = g.bg_attr := t10
    have i8 : (iter_begin T).linebuf_attr
        = bufSet g.linebuf_attr g.wlv.off (e.win_hl_attr HLF_FL) := t7
    rw [i1] at q2 q6
    rw [i2] at q4 q5
    rw [i6, i7] at q6
    rw [i4] at q3
    rw [i5, i8] at q5
    refine ⟨t, ?_, q2, q3, ?_, ?_, q6⟩
    · rw [← q1]
      simp [win_line_loop, t1, hT]
    · intro j hj
      rcases Nat.eq_zero_or_pos j with rfl | hpos
      · have := q5 g.wlv.off (Or.inl (by omega))
        simpa [bufSet] using this
      · obtain ⟨j', rfl⟩ : ∃ j', j = j' + 1 := ⟨j - 1, by omega⟩
        have := q4 j' (by omega)
        have e1 : g.wlv.off + ((j' + 1 : Nat) : Int) = g.wlv.off + 1 + (j' : Int) := by
          push_cast; ring
        have e2 : k + (j' + 1) = k + 1 + j' := by ring
        rw [e1, e2]
        exact this
    · intro i hi
      have hi2 : i < g.wlv.off + 1 ∨ g.wlv.off + 1 + (n : Int) ≤ i := by
        rcases hi with hi | hi
        · left; omega
        · right; push_cast at hi; omega
      have := q5 i hi2
      have hne : i ≠ g.wlv.off := by
        rcases hi with hi | hi
        · omega
        · push_cast at hi; omega
      simpa [bufSet, hne] using this

/-- One call of `margin_columns_win` with valid statics: the result is the one
of the computation without the cache, and the statics are valid afterwards. -/
theorem margin_columns_win_valid (W O2 : Nat → Int) (st : MarginStatics) (c : MarginCall)
    (hv : StaticsValid W O2 st) (hw : c.w_width_inner = W c.wp) (ho : c.col_off2 = O2 c.wp) :
    (margin_columns_win st c.wp c.w_virtcol c.w_width_inner c.col_off c.col_off2).map (·.1)
      = margin_uncached c
    ∧ ∀ r, margin_columns_win st c.wp c.w_virtcol c.w_width_inner c.col_off c.col_off2 = some r →
        StaticsValid W O2 r.2 := by
  unfold margin_columns_win margin_uncached
  by_cases hc : st.saved_w_virtcol = c.w_virtcol ∧ st.prev_wp = some c.wp
      ∧ st.prev_col_off = c.col_off
  · rw [if_pos hc]
    have := hv c.wp hc.2.1
    rw [hc.1, hc.2.2, ← hw, ← ho] at this
    refine ⟨by rw [this]; rfl, ?_⟩
    intro r hr
    cases hr
    exact hv
  · rw [if_neg hc]
    cases hm : margin_columns c.w_virtcol c.w_width_inner c.col_off c.col_off2 with
    | none => exact ⟨rfl, fun r hr => by cases hr⟩
    | some m =>
      refine ⟨rfl, ?_⟩
      intro r hr
      cases hr
      intro p hp
      cases hp
      show margin_columns c.w_virtcol (W c.wp) c.col_off (O2 c.wp) = some (m.1, m.2)
      rw [← hw, ← ho, hm]

theorem margin_calls_valid (W O2 : Nat → Int) (cs : List MarginCall) :
    ∀ st, StaticsValid W O2 st →
      (∀ c ∈ cs, c.w_width_inner = W c.wp ∧ c.col_off2 = O2 c.wp) →
      (∀ l, margin_calls st cs = some l → cs.map margin_uncached = l.map some)
      ∧ (margin_calls st cs = none → ∃ c ∈ cs, margin_uncached c = none) := by
  induction cs with
  | nil =>
    intro st _ _
    refine ⟨?_, ?_⟩
    · intro l hl
      simp [margin_calls] at hl
      subst hl
      rfl
    · intro h
      simp [margin_calls] at h
  | cons c cs ih =>
    intro st hv hcs
    have hc := hcs c (List.mem_cons_self _ _)
    obtain ⟨h1, h2⟩ := margin_columns_win_valid W O2 st c hv hc.1 hc.2
    cases hr : margin_columns_win st c.wp c.w_virtcol c.w_width_inner c.col_off c.col_off2 with
    | none =>
      rw [hr] at h1
      refine ⟨?_, ?_⟩
      · intro l hl
        simp [margin_calls, hr] at hl
      · intro _
        exact ⟨c, List.mem_cons_self _ _, h1.symm⟩
    | some r =>
      rw [hr] at h1
      obtain ⟨i1, i2⟩ := ih r.2 (h2 r hr) (fun c' hc' => hcs c' (List.mem_cons_of_mem _ hc'))
      refine ⟨?_, ?_⟩
      · intro l hl
        simp only [margin_calls, hr] at hl
        cases hm : margin_calls r.2 cs with
        | none => simp [hm] at hl
        | some l' =>
          simp [hm] at hl
          subst hl
          simp only [List.map_cons, ← i1 l' hm, ← h1]
          rfl
      · intro hn
        simp only [margin_calls, hr] at hn
        cases hm : margin_calls r.2 cs with
        | none =>
          obtain ⟨c', hc', hu⟩ := i2 hm
          exact ⟨c', List.mem_cons_of_mem _ hc', hu⟩
        | some l' => simp [hm] at hn

/-- Claim C21: the cache of `margin_columns_win`.  A call returns the values
stored in the statics when `w_virtcol`, the window and `win_col_off` are those
of the call that stored them, and else the margins computed from the window,
which it stores.  For a sequence of calls from the start of the program in
which the inner width and `win_col_off2` of each window do not change (they
are given by `W` and `O2`), every call returns the margins that the
computation without the cache gives for the window, and a call divides by
zero only where that computation does. -/
theorem margin_cache_transparent (W O2 : Nat → Int) (cs : List MarginCall)
    (hcs : ∀ c ∈ cs, c.w_width_inner = W c.wp ∧ c.col_off2 = O2 c.wp) :
    (∀ l, margin_calls MarginStatics.zero cs = some l → cs.map margin_uncached = l.map some)
    ∧ (margin_calls MarginStatics.zero cs = none → ∃ c ∈ cs, margin_uncached c = none)
    ∧ (∀ (st : MarginStatics) (c : MarginCall),
        (st.saved_w_virtcol = c.w_virtcol ∧ st.prev_wp = some c.wp
            ∧ st.prev_col_off = c.col_off →
          margin_columns_win st c.wp c.w_virtcol c.w_width_inner c.col_off c.col_off2
            = some ((st.prev_left_col, st.prev_right_col), st))
        ∧ (¬ (st.saved_w_virtcol = c.w_virtcol ∧ st.prev_wp = some c.wp
              ∧ st.prev_col_off = c.col_off) →
          margin_columns_win st c.wp c.w_virtcol c.w_width_inner c.col_off c.col_off2
            = (margin_uncached c).map (fun m =>
                (m, ⟨c.w_virtcol, some c.wp, m.1, m.2, c.col_off⟩)))) := by
  have hz : StaticsValid W O2 MarginStatics.zero := by
    intro p hp
    cases hp
  obtain ⟨h1, h2⟩ := margin_calls_valid W O2 cs MarginStatics.zero hz hcs
  refine ⟨h1, h2, ?_⟩
  intro st c
  refine ⟨fun h => ?_, fun h => ?_⟩
  · rw [margin_columns_win, if_pos h]
  · rw [margin_columns_win, if_neg h]
    unfold margin_uncached
    cases margin_columns c.w_virtcol c.w_width_inner c.col_off c.col_off2 <;> rfl

/-- Four calls for two windows of fixed widths 80 and 40: each returns the
margins computed from the window. -/
theorem margin_cache_transparent_witness :
    margin_calls MarginStatics.zero Sample.margin_calls_fixed
      = some [(0, 80), (80, 160), (80, 160), (72, 108)]
    ∧ Sample.margin_calls_fixed.map margin_uncached
        = [(0, 80), (80, 160), (80, 160), (72, 108)].map some :=
  ⟨by decide,
    (margin_cache_transparent (fun p => if p = 1 then 80 else 40) (fun _ => 0)
      Sample.margin_calls_fixed (by decide)).1 _ (by decide)⟩

/-- The cache is not transparent: the window 1 with the cursor in the virtual
column 0 is first 80 and then 40 columns wide.  The second call finds
`w_virtcol`, the window and `win_col_off` unchanged and returns the margins
`(0, 80)` of the first call, where the computation from the window gives
`(0, 40)`. -/
theorem margin_cache_stale :
    margin_calls MarginStatics.zero Sample.margin_calls_resized = some [(0, 80), (0, 80)]
    ∧ Sample.margin_calls_resized.map margin_uncached = [some (0, 80), some (0, 40)] := by
  decide

/-- Claim C22: `apply_cursorline_highlight` sets `cul_attr` to the attribute of
`CursorLine` and then changes exactly one of the two line attributes.  When the
attribute defines no foreground (`rgb_fg_color == -1` and
`cterm_fg_color == 0`) it is stored in `line_attr_lowprio` and `line_attr` is
left as it is; otherwise `line_attr` becomes
`hl_combine_attr(cul_attr, line_attr)` when the line is the current entry of
the quickfix list outside Insert mode, and `cul_attr` in every other case, and
`line_attr_lowprio` is left as it is.  No other field of the line context is
changed. -/
theorem cursorline_highlight_overlay (e : Env) (wlv : winlinevars_T) :
    (apply_cursorline_highlight e wlv).cul_attr = e.win_hl_attr HLF_CUL
    ∧ (((e.syn_attr2entry (e.win_hl_attr HLF_CUL)).rgb_fg_color = -1
          ∧ (e.syn_attr2entry (e.win_hl_attr HLF_CUL)).cterm_fg_color = 0) →
        apply_cursorline_highlight e wlv
          = { wlv with cul_attr := e.win_hl_attr HLF_CUL,
                       line_attr_lowprio := e.win_hl_attr HLF_CUL })
    ∧ (¬ ((e.syn_attr2entry (e.win_hl_attr HLF_CUL)).rgb_fg_color = -1
          ∧ (e.syn_attr2entry (e.win_hl_attr HLF_CUL)).cterm_fg_color = 0) →
        (e.mode_insert = false ∧ e.bt_quickfix = true ∧ e.qf_current_entry = wlv.lnum) →
        apply_cursorline_highlight e wlv
          = { wlv with cul_attr := e.win_hl_attr HLF_CUL,
                       line_attr := e.hl_combine_attr (e.win_hl_attr HLF_CUL) wlv.line_attr })
    ∧ (¬ ((e.syn_attr2entry (e.win_hl_attr HLF_CUL)).rgb_fg_color = -1
          ∧ (e.syn_attr2entry (e.win_hl_attr HLF_CUL)).cterm_fg_color = 0) →
        ¬ (e.mode_insert = false ∧ e.bt_quickfix = true ∧ e.qf_current_entry = wlv.lnum) →
        apply_cursorline_highlight e wlv
          = { wlv with cul_attr := e.win_hl_attr HLF_CUL,
                       line_attr := e.win_hl_attr HLF_CUL }) := by
  refine ⟨?_, ?_, ?_, ?_⟩
  · unfold apply_cursorline_highlight
    simp only []
    split
    · rfl
    · split <;> rfl
  · intro h
    unfold apply_cursorline_highlight
    simp only []
    rw [if_pos h]
  · intro h hq
    unfold apply_cursorline_highlight
    simp only []
    rw [if_neg h, if_pos (by simpa using hq)]
  · intro h hq
    unfold apply_cursorline_highlight
    simp only []
    rw [if_neg h, if_neg (by simpa using hq)]

/-- The three cases on a line context with the line attribute 7 and the
low-priority line attribute 9, `CursorLine` having the attribute 15: without a
foreground (15 goes to `line_attr_lowprio`), with one (15 goes to
`line_attr`), and with one on the current quickfix entry (`line_attr` is the
combination of 15 and 7). -/
theorem cursorline_highlight_overlay_witness :
    ((apply_cursorline_highlight (Sample.env (Sample.win 10) [97]) Sample.wlv_cul).cul_attr,
      (apply_cursorline_highlight (Sample.env (Sample.win 10) [97]) Sample.wlv_cul).line_attr,
      (apply_cursorline_highlight (Sample.env (Sample.win 10) [97])
        Sample.wlv_cul).line_attr_lowprio) = (15, 7, 15)
    ∧ ((apply_cursorline_highlight Sample.env_cul_fg Sample.wlv_cul).cul_attr,
        (apply_cursorline_highlight Sample.env_cul_fg Sample.wlv_cul).line_attr,
        (apply_cursorline_highlight Sample.env_cul_fg Sample.wlv_cul).line_attr_lowprio)
        = (15, 15, 9)
    ∧ ((apply_cursorline_highlight Sample.env_cul_qf Sample.wlv_cul).cul_attr,
        (apply_cursorline_highlight Sample.env_cul_qf Sample.wlv_cul).line_attr,
        (apply_cursorline_highlight Sample.env_cul_qf Sample.wlv_cul).line_attr_lowprio)
        = (15, 15007, 9)
    ∧ apply_cursorline_highlight Sample.env_cul_qf Sample.wlv_cul
        = { Sample.wlv_cul with
              cul_attr := Sample.env_cul_qf.win_hl_attr HLF_CUL,
              line_attr := Sample.env_cul_qf.hl_combine_attr
                (Sample.env_cul_qf.win_hl_attr HLF_CUL) Sample.wlv_cul.line_attr } :=
  ⟨by decide, by decide, by decide,
    (cursorline_highlight_overlay Sample.env_cul_qf Sample.wlv_cul).2.2.1 (by decide)
      (by decide)⟩

theorem getD_of_drop_nil {α : Type} (l : List α) (n : Nat) (d : α) (h : l.drop n = []) :
    l.getD n d = d := by
  have hl : l.length ≤ n := List.drop_eq_nil_iff.mp h
  simp [List.getD, List.getElem?_eq_none hl]

theorem getD_of_drop_cons {α : Type} (l : List α) (n : Nat) (d r : α) (rs : List α)
    (h : l.drop n = r :: rs) : l.getD n d = r ∧ l.drop (n + 1) = rs := by
  have h1 : l.drop (n + 1) = rs := by
    have := congrArg (List.drop 1) h
    simpa [List.drop_drop, Nat.add_comm] using this
  have h2 : l[n]? = some r := by
    have := congrArg List.head? h
    simpa [List.head?_drop] using this
  exact ⟨by simp [List.getD, h2], h1⟩

theorem stc_body_stay (e : Env) (stcp : statuscol_T) (wlv : winlinevars_T)
    (h : ¬ stcp.textp.getD 0 + ((stcp.hlrec.getD stcp.hlrecp ⟨none, 0⟩).start.getD stcp.text_end
      - stcp.textp.getD 0) < stcp.text_end) :
    get_statuscol_display_body e stcp wlv =
      (stcp, { wlv with
        draw_state := WL_STC, char_attr := stcp.cur_attr,
        p_extra := ⟨PBuf.transbuf, stcp.text, stcp.textp.getD 0⟩,
        n_extra := (stcp.hlrec.getD stcp.hlrecp ⟨none, 0⟩).start.getD stcp.text_end
          - stcp.textp.getD 0 }) := by
  unfold get_statuscol_display_body
  simp only []
  rw [if_neg h]

theorem stc_body_advance (e : Env) (stcp : statuscol_T) (wlv : winlinevars_T)
    (h : stcp.textp.getD 0 + ((stcp.hlrec.getD stcp.hlrecp ⟨none, 0⟩).start.getD stcp.text_end
      - stcp.textp.getD 0) < stcp.text_end) :
    get_statuscol_display_body e stcp wlv =
      ({ stcp with
          textp := (stcp.hlrec.getD stcp.hlrecp ⟨none, 0⟩).start,
          cur_attr := if (stcp.hlrec.getD stcp.hlrecp ⟨none, 0⟩).userhl < 0
            then e.syn_id2attr (-(stcp.hlrec.getD stcp.hlrecp ⟨none, 0⟩).userhl)
            else stcp.num_attr,
          hlrecp := stcp.hlrecp + 1 },
       { wlv with
        draw_state := WL_STC - 1, char_attr := stcp.cur_attr,
        p_extra := ⟨PBuf.transbuf, stcp.text, stcp.textp.getD 0⟩,
        n_extra := (stcp.hlrec.getD stcp.hlrecp ⟨none, 0⟩).start.getD stcp.text_end
          - stcp.textp.getD 0 }) := by
  unfold get_statuscol_display_body
  simp only []
  rw [if_pos h]

/-- One call of the loop of `get_statuscol_display_info`, on the records that
remain: it leaves the next piece in the line context and moves the status
column past it. -/
theorem stc_loop_next (e : Env) : ∀ (recs : List StlHlRec) (fuel : Nat) (stcp : statuscol_T)
    (wlv : winlinevars_T) (textp : Int),
    stcp.textp = some textp → stcp.hlrec.drop stcp.hlrecp = recs → recs.length < fuel →
    get_statuscol_display_loop e fuel (stcp, wlv) =
      ({ stcp with
          textp := some (stc_next_piece e stcp.text_end stcp.num_attr textp stcp.cur_attr recs).2.1,
          cur_attr := (stc_next_piece e stcp.text_end stcp.num_attr textp stcp.cur_attr recs).2.2.1,
          hlrecp := stcp.hlrecp
            + (stc_next_piece e stcp.text_end stcp.num_attr textp stcp.cur_attr recs).2.2.2 },
       { wlv with
          draw_state :=
            if (stc_next_piece e stcp.text_end stcp.num_attr textp stcp.cur_attr recs).1.more
            then WL_STC - 1 else WL_STC,
          char_attr := (stc_next_piece e stcp.text_end stcp.num_attr textp stcp.cur_attr recs).1.attr,
          p_extra := ⟨PBuf.transbuf, stcp.text,
            (stc_next_piece e stcp.text_end stcp.num_attr textp stcp.cur_attr recs).1.start⟩,
          n_extra := (stc_next_piece e stcp.text_end stcp.num_attr textp stcp.cur_attr recs).1.len })
  | [], fuel, stcp, wlv, textp, ht, hr, hf => by
    obtain ⟨f, rfl⟩ : ∃ f, fuel = f + 1 := ⟨fuel - 1, by simp at hf; omega⟩
    have hg := getD_of_drop_nil stcp.hlrec stcp.hlrecp ⟨none, 0⟩ hr
    have hb := stc_body_stay e stcp wlv (by rw [hg, ht]; simp)
    rw [get_statuscol_display_loop]
    simp only []
    rw [hb, hg, ht]
    simp only [Option.getD_none, Option.getD_some, stc_next_piece]
    rw [if_neg (by rintro ⟨h0, hlt⟩; omega)]
    cases stcp
    simp only at ht
    subst ht
    simp
  | r :: rs, fuel, stcp, wlv, textp, ht, hr, hf => by
    obtain ⟨f, rfl⟩ : ∃ f, fuel = f + 1 := ⟨fuel - 1, by simp at hf; omega⟩
    have hg := getD_of_drop_cons stcp.hlrec stcp.hlrecp ⟨none, 0⟩ r rs hr
    have hf2 : rs.length < f := by simp at hf; omega
    rw [get_statuscol_display_loop]
    simp only []
    by_cases h1 : textp + (r.start.getD stcp.text_end - textp) < stcp.text_end
    · have hb := stc_body_advance e stcp wlv (by rw [hg.1, ht]; exact h1)
      rw [hb, hg.1, ht]
      have hst : r.start = some (r.start.getD stcp.text_end) := by
        cases hs : r.start with
        | none => rw [hs] at h1; simp at h1
        | some v => rfl
      simp only [Option.getD_some, stc_next_piece]
      rw [if_pos h1]
      by_cases h0 : r.start.getD stcp.text_end - textp = 0
      · have hlt : r.start.getD stcp.text_end < stcp.text_end := by omega
        have heq : r.start.getD stcp.text_end = textp := by omega
        rw [if_pos ⟨h0, by rw [hst]; simpa using hlt⟩, if_pos h0]
        have ih := stc_loop_next e rs f
          { stcp with
            textp := r.start
            cur_attr := if r.userhl < 0 then e.syn_id2attr (-r.userhl) else stcp.num_attr
            hlrecp := stcp.hlrecp + 1 }
          { wlv with draw_state := WL_STC - 1, char_attr := stcp.cur_attr,
                     p_extra := ⟨PBuf.transbuf, stcp.text, textp⟩,
                     n_extra := r.start.getD stcp.text_end - textp }
          textp (by rw [hst, heq]) hg.2 hf2
        rw [ih]
        simp only [Nat.add_assoc, Nat.add_comm 1]
      · rw [if_neg (fun h => h0 h.1), if_neg h0]
        have : textp + (r.start.getD stcp.text_end - textp) = r.start.getD stcp.text_end := by ring
        rw [this]
        simp only [if_true]
        rw [← hst]
    · have hb := stc_body_stay e stcp wlv (by rw [hg.1, ht]; exact h1)
      rw [hb, hg.1, ht]
      simp only [Option.getD_some, stc_next_piece]
      rw [if_neg h1, if_neg (by rintro ⟨h0, hlt⟩; omega)]
      cases stcp
      simp only at ht
      subst ht
      simp

/-- One call of `get_statuscol_display_info` on the records that remain. -/
theorem stc_info_next (e : Env) (stcp : statuscol_T) (wlv : winlinevars_T) (textp : Int)
    (ht : stcp.textp = some textp) :
    (get_statuscol_display_info e stcp wlv).1 =
      { stcp with
          textp := some (stc_next_piece e stcp.text_end stcp.num_attr textp stcp.cur_attr
            (stcp.hlrec.drop stcp.hlrecp)).2.1,
          cur_attr := (stc_next_piece e stcp.text_end stcp.num_attr textp stcp.cur_attr
            (stcp.hlrec.drop stcp.hlrecp)).2.2.1,
          hlrecp := stcp.hlrecp + (stc_next_piece e stcp.text_end stcp.num_attr textp stcp.cur_attr
            (stcp.hlrec.drop stcp.hlrecp)).2.2.2 } ∧
    stc_shown (get_statuscol_display_info e stcp wlv).2 =
      (stc_next_piece e stcp.text_end stcp.num_attr textp stcp.cur_attr
        (stcp.hlrec.drop stcp.hlrecp)).1.shown e stcp.text ∧
    (get_statuscol_display_info e stcp wlv).2.c_extra = NUL ∧
    (get_statuscol_display_info e stcp wlv).2.c_final = NUL := by
  have hl := stc_loop_next e (stcp.hlrec.drop stcp.hlrecp) (stcp.hlrec.length + 2) stcp
    { wlv with c_extra := NUL, c_final := NUL } textp ht rfl
    (by rw [List.length_drop]; omega)
  unfold get_statuscol_display_info
  simp only []
  rw [hl]
  generalize stc_next_piece e stcp.text_end stcp.num_attr textp stcp.cur_attr
    (stcp.hlrec.drop stcp.hlrecp) = nx
  by_cases hpos : nx.1.len > 0
  · rw [if_pos hpos]
    refine ⟨rfl, ?_, rfl, rfl⟩
    have hp : (0 : Int) < nx.1.len := hpos
    simp only [stc_shown, stc_run, StcPiece.shown, StcPiece.bytes, CharPtr.rest, if_pos hp]
    simp [bytesFrom]
  · rw [if_neg hpos]
    refine ⟨rfl, ?_, rfl, rfl⟩
    have hp : ¬ (0 : Int) < nx.1.len := hpos
    have hz : nx.1.len.toNat = 0 := by omega
    simp only [stc_shown, stc_run, StcPiece.shown, if_neg hp, hz, List.take_zero]

/-- Repeated calls show the pieces one after the other. -/
theorem stc_calls_pieces (e : Env) : ∀ (fuel : Nat) (stcp : statuscol_T) (wlv : winlinevars_T)
    (textp : Int), stcp.textp = some textp →
    (stc_calls e fuel stcp wlv).map stc_shown =
      (stc_pieces e stcp.text_end stcp.num_attr fuel textp stcp.cur_attr
        (stcp.hlrec.drop stcp.hlrecp)).map (StcPiece.shown e stcp.text)
  | 0, _, _, _, _ => rfl
  | fuel + 1, stcp, wlv, textp, ht => by
    obtain ⟨h1, h2, -, -⟩ := stc_info_next e stcp wlv textp ht
    have hd : (get_statuscol_display_info e stcp wlv).2.draw_state =
        if (stc_next_piece e stcp.text_end stcp.num_attr textp stcp.cur_attr
          (stcp.hlrec.drop stcp.hlrecp)).1.more then WL_STC - 1 else WL_STC := by
      have := congrArg (fun x => x.2.2) h2
      simpa [stc_shown, StcPiece.shown] using this
    rw [stc_calls, stc_pieces]
    by_cases hm : (stc_next_piece e stcp.text_end stcp.num_attr textp stcp.cur_attr
          (stcp.hlrec.drop stcp.hlrecp)).1.more = true
    · rw [if_pos (by rw [hd, if_pos hm]), if_pos hm, List.map_cons, List.map_cons, h2]
      have ih := stc_calls_pieces e fuel (get_statuscol_display_info e stcp wlv).1
        (get_statuscol_display_info e stcp wlv).2 _ (by rw [h1])
      rw [ih, h1]
      simp only [List.drop_drop]
    · rw [if_neg (by rw [hd, if_neg hm]; decide), if_neg hm, List.map_singleton,
        List.map_singleton, h2]

theorem stc_next_piece_none (e : Env) (text_end num_attr textp cur : Int) (r : StlHlRec)
    (rs : List StlHlRec) (hs : r.start = none) :
    stc_next_piece e text_end num_attr textp cur (r :: rs) =
      (⟨textp, text_end - textp, cur, false⟩, textp, cur, 0) := by
  rw [stc_next_piece, hs]
  simp only [Option.getD_none]
  rw [if_neg (by omega)]

theorem stc_next_piece_last (e : Env) (text_end num_attr textp cur st : Int) (r : StlHlRec)
    (rs : List StlHlRec) (hs : r.start = some st) (h : ¬ st < text_end) :
    stc_next_piece e text_end num_attr textp cur (r :: rs) =
      (⟨textp, st - textp, cur, false⟩, textp, cur, 0) := by
  rw [stc_next_piece, hs]
  simp only [Option.getD_some]
  rw [if_neg (by omega)]

theorem stc_next_piece_skip (e : Env) (text_end num_attr textp cur : Int) (r : StlHlRec)
    (rs : List StlHlRec) (hs : r.start = some textp) (h : textp < text_end) :
    stc_next_piece e text_end num_attr textp cur (r :: rs) =
      ((stc_next_piece e text_end num_attr textp
          (if r.userhl < 0 then e.syn_id2attr (-r.userhl) else num_attr) rs).1,
       (stc_next_piece e text_end num_attr textp
          (if r.userhl < 0 then e.syn_id2attr (-r.userhl) else num_attr) rs).2.1,
       (stc_next_piece e text_end num_attr textp
          (if r.userhl < 0 then e.syn_id2attr (-r.userhl) else num_attr) rs).2.2.1,
       (stc_next_piece e text_end num_attr textp
          (if r.userhl < 0 then e.syn_id2attr (-r.userhl) else num_attr) rs).2.2.2 + 1) := by
  rw [stc_next_piece, hs]
  simp only [Option.getD_some]
  rw [if_pos (by omega), if_pos (by omega)]

theorem stc_next_piece_emit (e : Env) (text_end num_attr textp cur st : Int) (r : StlHlRec)
    (rs : List StlHlRec) (hs : r.start = some st) (h : st < text_end) (hne : st ≠ textp) :
    stc_next_piece e text_end num_attr textp cur (r :: rs) =
      (⟨textp, st - textp, cur, true⟩, st,
        if r.userhl < 0 then e.syn_id2attr (-r.userhl) else num_attr, 1) := by
  rw [stc_next_piece, hs]
  simp only [Option.getD_some]
  rw [if_pos (by omega), if_neg (by omega)]
  have : textp + (st - textp) = st := by ring
  rw [this]

/-- The next piece when the records are in ascending order. -/
theorem stc_next_piece_ascending (e : Env) (text_end num_attr : Int) :
    ∀ (recs : List StlHlRec) (textp cur : Int), textp ≤ text_end →
    RecsAscending text_end textp recs →
    (stc_next_piece e text_end num_attr textp cur recs).1.start = textp ∧
    0 ≤ (stc_next_piece e text_end num_attr textp cur recs).1.len ∧
    ((stc_next_piece e text_end num_attr textp cur recs).1.more = true ↔
      textp + (stc_next_piece e text_end num_attr textp cur recs).1.len < text_end) ∧
    ((stc_next_piece e text_end num_attr textp cur recs).1.more = false →
      textp + (stc_next_piece e text_end num_attr textp cur recs).1.len = text_end) ∧
    ((stc_next_piece e text_end num_attr textp cur recs).1.more = true →
      (stc_next_piece e text_end num_attr textp cur recs).2.1 =
        textp + (stc_next_piece e text_end num_attr textp cur recs).1.len ∧
      0 < (stc_next_piece e text_end num_attr textp cur recs).1.len ∧
      0 < (stc_next_piece e text_end num_attr textp cur recs).2.2.2 ∧
      (stc_next_piece e text_end num_attr textp cur recs).2.2.2 ≤ recs.length ∧
      RecsAscending text_end (stc_next_piece e text_end num_attr textp cur recs).2.1
        (recs.drop (stc_next_piece e text_end num_attr textp cur recs).2.2.2))
  | [], textp, cur, hle, _ => by
    rw [show stc_next_piece e text_end num_attr textp cur []
      = (⟨textp, text_end - textp, cur, false⟩, textp, cur, 0) from rfl]
    refine ⟨rfl, ?_, ?_, ?_, ?_⟩
    · show 0 ≤ text_end - textp
      omega
    · show false = true ↔ textp + (text_end - textp) < text_end
      constructor
      · intro h; cases h
      · intro h; omega
    · intro _
      show textp + (text_end - textp) = text_end
      ring
    · intro h; cases h
  | r :: rs, textp, cur, hle, hasc => by
    cases hs : r.start with
    | none =>
      rw [stc_next_piece_none e text_end num_attr textp cur r rs hs]
      refine ⟨rfl, ?_, ?_, ?_, ?_⟩
      · show 0 ≤ text_end - textp
        omega
      · show false = true ↔ textp + (text_end - textp) < text_end
        constructor
        · intro h; cases h
        · intro h; omega
      · intro _
        show textp + (text_end - textp) = text_end
        ring
      · intro h; cases h
    | some st =>
      have hasc2 : textp ≤ st ∧ st ≤ text_end ∧ RecsAscending text_end st rs := by
        simpa [RecsAscending, hs] using hasc
      by_cases h1 : st < text_end
      · by_cases h0 : st = textp
        · subst h0
          rw [stc_next_piece_skip e text_end num_attr st cur r rs hs h1]
          obtain ⟨i1, i2, i3, i4, i5⟩ := stc_next_piece_ascending e text_end num_attr rs st
            (if r.userhl < 0 then e.syn_id2attr (-r.userhl) else num_attr) hle hasc2.2.2
          refine ⟨i1, i2, i3, i4, ?_⟩
          intro hm
          obtain ⟨j1, j2, j3, j4, j5⟩ := i5 hm
          refine ⟨j1, j2, Nat.succ_pos _, ?_, ?_⟩
          · show _ + 1 ≤ rs.length + 1
            omega
          · exact j5
        · rw [stc_next_piece_emit e text_end num_attr textp cur st r rs hs h1 h0]
          refine ⟨rfl, ?_, ?_, ?_, ?_⟩
          · show 0 ≤ st - textp
            omega
          · show true = true ↔ textp + (st - textp) < text_end
            constructor
            · intro _; omega
            · intro _; rfl
          · intro h; cases h
          · intro _
            refine ⟨?_, ?_, Nat.one_pos, ?_, ?_⟩
            · show st = textp + (st - textp)
              ring
            · show 0 < st - textp
              omega
            · show 1 ≤ rs.length + 1
              omega
            · exact hasc2.2.2
      · rw [stc_next_piece_last e text_end num_attr textp cur st r rs hs h1]
        refine ⟨rfl, ?_, ?_, ?_, ?_⟩
        · show 0 ≤ st - textp
          omega
        · show false = true ↔ textp + (st - textp) < text_end
          constructor
          · intro h; cases h
          · intro h; omega
        · intro _
          show textp + (st - textp) = text_end
          omega
        · intro h; cases h

/-- The pieces of a text with ascending records follow one another from
`textp` to `text_end`. -/
theorem stc_pieces_cover (e : Env) (text : List Int) (text_end num_attr : Int)
    (hend : text_end ≤ text.length) :
    ∀ (fuel : Nat) (recs : List StlHlRec) (textp cur : Int), recs.length < fuel →
    0 ≤ textp → textp ≤ text_end → RecsAscending text_end textp recs →
    ((stc_pieces e text_end num_attr fuel textp cur recs).map
        (fun p => p.bytes text)).flatten = (bytesFrom text textp).take (text_end - textp).toNat ∧
    (∀ p ∈ stc_pieces e text_end num_attr fuel textp cur recs,
      (p.more = true ↔ p.start + p.len < text_end) ∧ (p.more = true → 0 < p.len)) ∧
    ((stc_pieces e text_end num_attr fuel textp cur recs).getLast?.map (fun p => p.more)
      = some false)
  | 0, _, _, _, hf, _, _, _ => by omega
  | fuel + 1, recs, textp, cur, hf, h0, hle, hasc => by
    obtain ⟨n1, n2, n3, n4, n5⟩ := stc_next_piece_ascending e text_end num_attr recs textp cur
      hle hasc
    rw [stc_pieces]
    by_cases hm : (stc_next_piece e text_end num_attr textp cur recs).1.more = true
    · rw [if_pos hm]
      obtain ⟨m1, m2, m3, m4, m5⟩ := n5 hm
      have hlt := n3.mp hm
      have ih := stc_pieces_cover e text text_end num_attr hend fuel
        (recs.drop (stc_next_piece e text_end num_attr textp cur recs).2.2.2)
        (stc_next_piece e text_end num_attr textp cur recs).2.1
        (stc_next_piece e text_end num_attr textp cur recs).2.2.1
        (by rw [List.length_drop]; omega) (by rw [m1]; omega) (by rw [m1]; omega) m5
      obtain ⟨i1, i2, i3⟩ := ih
      refine ⟨?_, ?_, ?_⟩
      · rw [List.map_cons, List.flatten_cons, i1, m1]
        simp only [StcPiece.bytes, n1, bytesFrom, if_pos h0,
          if_pos (show (0 : Int) ≤ textp + (stc_next_piece e text_end num_attr textp cur recs).1.len
            by omega)]
        generalize (stc_next_piece e text_end num_attr textp cur recs).1.len = len at *
        have e1 : (textp + len).toNat = textp.toNat + len.toNat := by omega
        have e2 : (text_end - textp).toNat = len.toNat + (text_end - (textp + len)).toNat := by
          omega
        rw [e1, e2, ← List.drop_drop, List.take_add]
      · intro p hp
        rcases List.mem_cons.mp hp with rfl | hp
        · exact ⟨by rw [n1]; exact n3, fun _ => m2⟩
        · exact i2 p hp
      · cases hl : stc_pieces e text_end num_attr fuel
            (stc_next_piece e text_end num_attr textp cur recs).2.1
            (stc_next_piece e text_end num_attr textp cur recs).2.2.1
            (recs.drop (stc_next_piece e text_end num_attr textp cur recs).2.2.2) with
        | nil => rw [hl] at i3; simp at i3
        | cons a l =>
          rw [hl] at i3
          rw [List.getLast?_cons_cons]
          exact i3
    · rw [if_neg hm]
      have hm2 : (stc_next_piece e text_end num_attr textp cur recs).1.more = false := by
        simpa using hm
      have hq := n4 hm2
      refine ⟨?_, ?_, ?_⟩
      · simp only [List.map_singleton, List.flatten_cons, List.flatten_nil, List.append_nil,
          StcPiece.bytes, n1]
        congr 2
        omega
      · intro p hp
        rw [List.mem_singleton] at hp
        subst hp
        refine ⟨by rw [n1]; exact n3, fun h => ?_⟩
        rw [hm2] at h; cases h
      · simp [hm2]

/-- Claim C26, amended: repeated calls of `get_statuscol_display_info`, from
a status column whose highlight records start in ascending order between
`textp` and `text_end`, go through the pieces `ps` of the text: sections of no
length before the end are passed over, the pieces follow one another and
their bytes put together are exactly the text from `textp` to `text_end`.
Each call leaves as its run the translation by `transstr_buf` of the bytes of
its piece, with the attribute of the section of the piece, and leaves
`draw_state` at `WL_STC - 1` if and only if text remains after the piece; the
last call leaves `WL_STC`.  Where `transstr_buf` leaves the bytes of every
piece as they are, the runs put together are exactly the text. -/
theorem statuscol_segments (e : Env) (stcp : statuscol_T) (wlv : winlinevars_T) (textp : Int)
    (fuel : Nat) (ht : stcp.textp = some textp) (h0 : 0 ≤ textp) (hle : textp ≤ stcp.text_end)
    (hend : stcp.text_end ≤ stcp.text.length)
    (hasc : RecsAscending stcp.text_end textp (stcp.hlrec.drop stcp.hlrecp))
    (hf : stcp.hlrec.length - stcp.hlrecp < fuel) :
    ∃ ps : List StcPiece,
      ps = stc_pieces e stcp.text_end stcp.num_attr fuel textp stcp.cur_attr
        (stcp.hlrec.drop stcp.hlrecp) ∧
      (stc_calls e fuel stcp wlv).map stc_shown = ps.map (StcPiece.shown e stcp.text) ∧
      (ps.map (fun p => p.bytes stcp.text)).flatten
        = (bytesFrom stcp.text textp).take (stcp.text_end - textp).toNat ∧
      (∀ p ∈ ps, (p.more = true ↔ p.start + p.len < stcp.text_end) ∧ (p.more = true → 0 < p.len)) ∧
      ps.getLast?.map (fun p => p.more) = some false ∧
      ((∀ p ∈ ps, e.transstr_buf (p.bytes stcp.text) = p.bytes stcp.text) →
        ((stc_calls e fuel stcp wlv).map stc_run).flatten
          = (bytesFrom stcp.text textp).take (stcp.text_end - textp).toNat) := by
  have hc := stc_calls_pieces e fuel stcp wlv textp ht
  obtain ⟨c1, c2, c3⟩ := stc_pieces_cover e stcp.text stcp.text_end stcp.num_attr hend fuel
    (stcp.hlrec.drop stcp.hlrecp) textp stcp.cur_attr (by rw [List.length_drop]; exact hf)
    h0 hle hasc
  refine ⟨_, rfl, hc, c1, c2, c3, ?_⟩
  intro hid
  have hr : (stc_calls e fuel stcp wlv).map stc_run
      = ((stc_calls e fuel stcp wlv).map stc_shown).map (fun x => x.1) := by
    rw [List.map_map]
    rfl
  rw [hr, hc, List.map_map, ← c1]
  congr 1
  apply List.map_congr_left
  intro p hp
  show (if 0 < p.len then e.transstr_buf (p.bytes stcp.text) else []) = p.bytes stcp.text
  by_cases hpos : 0 < p.len
  · rw [if_pos hpos, hid p hp]
  · rw [if_neg hpos]
    have hz : p.len.toNat = 0 := by omega
    simp [StcPiece.bytes, hz]

set_option maxRecDepth 100000 in
/-- The status column " 12 " with a highlight group on the number: the first
record starts an empty section and is passed over; three calls show the
blank, the number with the attribute of its group, and the blank. -/
theorem statuscol_segments_witness :
    (stc_calls (Sample.env (Sample.win 10) [97]) 5 Sample.stc_number
        (wlv_init (Sample.env (Sample.win 10) [97]))).map stc_shown
      = [([32], 9, WL_STC - 1), ([49, 50], 105, WL_STC - 1), ([32], 9, WL_STC)]
    ∧ ((stc_calls (Sample.env (Sample.win 10) [97]) 5 Sample.stc_number
        (wlv_init (Sample.env (Sample.win 10) [97]))).map stc_run).flatten = [32, 49, 50, 32] :=
  ⟨by decide,
    (statuscol_segments (Sample.env (Sample.win 10) [97]) Sample.stc_number
      (wlv_init (Sample.env (Sample.win 10) [97])) 0 5 rfl (by decide) (by decide) (by decide)
      (by simp [RecsAscending, Sample.stc_number]) (by decide)).choose_spec.2.2.2.2.2
      (fun _ _ => rfl)⟩

set_option maxRecDepth 100000 in
/-- The segments are not always the text itself: with a `transstr_buf` that
shows a control character as `^` and a letter, the text of the bytes 1 and 49
is emitted as the three bytes `^A1`. -/
theorem statuscol_segments_counterexample :
    (stc_calls Sample.env_trans 2 Sample.stc_ctrl (wlv_init Sample.env_trans)).map stc_shown
      = [([94, 65, 49], 0, WL_STC)]
    ∧ (bytesFrom Sample.stc_ctrl.text 0).take (Sample.stc_ctrl.text_end - 0).toNat = [1, 49] := by
  decide

theorem tab_list_linebreak_frame (e : Env) (s : LoopState) (tab_len : Int) :
    same_cols s (tab_list_linebreak e s tab_len).1 := by
  unfold tab_list_linebreak
  lift_lets
  intros
  split <;> exact ⟨rfl, rfl, rfl, rfl⟩

theorem tab_before_fix_frame (e : Env) (s : LoopState) :
    same_cols s (tab_before_fix e s) := by
  unfold tab_before_fix tab_run
  lift_lets
  intros
  split
  · exact ⟨rfl, rfl, rfl, rfl⟩
  · exact tab_list_linebreak_frame e s _

theorem nonprint_tab_fix (e : Env) (s : LoopState) :
    same_cols_run (FIX_FOR_BOGUSCOLS (tab_before_fix e s)) (nonprint_tab e s) := by
  unfold nonprint_tab
  lift_lets
  intros
  split <;> exact ⟨rfl, rfl, rfl, rfl, rfl, rfl⟩

/-- The length of the run of a TAB before the macro, without 'list' or without
'linebreak': the padding to the next tab stop less one, from the virtual
column of the TAB. -/
theorem tab_before_fix_plain (e : Env) (s : LoopState)
    (h : ¬ e.wp.w_p_lbr ∨ ¬ e.wp.w_p_list) :
    (tab_before_fix e s).wlv.n_extra
      = e.tabstop_padding (tab_vcol e s) e.wp.b_p_ts e.wp.b_p_vts_array - 1 := by
  unfold tab_before_fix tab_run tab_vcol
  simp only []
  rw [if_pos h]

/-- Claim C27: a TAB reconciles the columns concealed so far.  The macro
`FIX_FOR_BOGUSCOLS` sets `vcol_off` and `boguscols` to 0, adds the old
`vcol_off` to `n_extra` and takes it from `vcol`, so that `vcol + n_extra` is
unchanged, and takes the old `boguscols` from `col`.  The block for a TAB of
the body phase (a TAB that is not printable, without 'list' or with the "tab"
setting of 'listchars') runs the macro on the run it has prepared: after the
block `vcol_off` and `boguscols` are 0, `vcol` is less by the old `vcol_off`
and `n_extra` is more by it than the run prepared.  Without 'list' or without
'linebreak' the virtual column after the TAB, `vcol + n_extra + 1`, is the
virtual column of the TAB plus the padding to the next tab stop, whatever
`vcol_off` and `boguscols` were: it is the same in two states that differ in
what has been concealed only. -/
theorem tab_reconciles (e : Env) (s : LoopState) :
    (∀ t : LoopState,
      (FIX_FOR_BOGUSCOLS t).wlv.vcol_off = 0
      ∧ (FIX_FOR_BOGUSCOLS t).wlv.boguscols = 0
      ∧ (FIX_FOR_BOGUSCOLS t).wlv.n_extra = t.wlv.n_extra + t.wlv.vcol_off
      ∧ (FIX_FOR_BOGUSCOLS t).wlv.vcol = t.wlv.vcol - t.wlv.vcol_off
      ∧ (FIX_FOR_BOGUSCOLS t).wlv.vcol + (FIX_FOR_BOGUSCOLS t).wlv.n_extra
          = t.wlv.vcol + t.wlv.n_extra
      ∧ (FIX_FOR_BOGUSCOLS t).wlv.col = t.wlv.col - t.wlv.boguscols
      ∧ (FIX_FOR_BOGUSCOLS t).old_boguscols = t.wlv.boguscols)
    ∧ (e.vim_isprintc s.c = false → s.c = TAB →
        (e.wp.w_p_list = false ∨ e.wp.w_p_lcs_chars.tab1 ≠ 0) →
        nonprint_block e s = nonprint_tab e s)
    ∧ (nonprint_tab e s).wlv.vcol_off = 0
    ∧ (nonprint_tab e s).wlv.boguscols = 0
    ∧ (nonprint_tab e s).wlv.vcol = s.wlv.vcol - s.wlv.vcol_off
    ∧ (nonprint_tab e s).wlv.n_extra = (tab_before_fix e s).wlv.n_extra + s.wlv.vcol_off
    ∧ (nonprint_tab e s).wlv.vcol + (nonprint_tab e s).wlv.n_extra
        = s.wlv.vcol + (tab_before_fix e s).wlv.n_extra
    ∧ ((¬ e.wp.w_p_lbr ∨ ¬ e.wp.w_p_list) →
        (nonprint_tab e s).wlv.vcol + (nonprint_tab e s).wlv.n_extra + 1
          = s.wlv.vcol + e.tabstop_padding (tab_vcol e s) e.wp.b_p_ts e.wp.b_p_vts_array
        ∧ ∀ s' : LoopState, s'.wlv.vcol = s.wlv.vcol → s'.wlv.vcol_sbr = s.wlv.vcol_sbr →
            (nonprint_tab e s').wlv.vcol + (nonprint_tab e s').wlv.n_extra
              = (nonprint_tab e s).wlv.vcol + (nonprint_tab e s).wlv.n_extra) := by
  have hfix : ∀ t : LoopState,
      (FIX_FOR_BOGUSCOLS t).wlv.vcol_off = 0
      ∧ (FIX_FOR_BOGUSCOLS t).wlv.boguscols = 0
      ∧ (FIX_FOR_BOGUSCOLS t).wlv.n_extra = t.wlv.n_extra + t.wlv.vcol_off
      ∧ (FIX_FOR_BOGUSCOLS t).wlv.vcol = t.wlv.vcol - t.wlv.vcol_off
      ∧ (FIX_FOR_BOGUSCOLS t).wlv.vcol + (FIX_FOR_BOGUSCOLS t).wlv.n_extra
          = t.wlv.vcol + t.wlv.n_extra
      ∧ (FIX_FOR_BOGUSCOLS t).wlv.col = t.wlv.col - t.wlv.boguscols
      ∧ (FIX_FOR_BOGUSCOLS t).old_boguscols = t.wlv.boguscols := by
    intro t
    refine ⟨rfl, rfl, rfl, rfl, ?_, rfl, rfl⟩
    show t.wlv.vcol - t.wlv.vcol_off + (t.wlv.n_extra + t.wlv.vcol_off) = _
    ring
  have key : ∀ u : LoopState,
      (nonprint_tab e u).wlv.vcol_off = 0 ∧ (nonprint_tab e u).wlv.boguscols = 0
      ∧ (nonprint_tab e u).wlv.vcol = u.wlv.vcol - u.wlv.vcol_off
      ∧ (nonprint_tab e u).wlv.n_extra = (tab_before_fix e u).wlv.n_extra + u.wlv.vcol_off := by
    intro u
    obtain ⟨a1, a2, a3, a4, a5, a6⟩ := nonprint_tab_fix e u
    obtain ⟨b1, b2, b3, b4⟩ := tab_before_fix_frame e u
    obtain ⟨f1, f2, f3, f4, f5, f6, f7⟩ := hfix (tab_before_fix e u)
    exact ⟨a2.trans f1, a3.trans f2, by rw [a1, f4, b1, b2], by rw [a5, f3, b2]⟩
  obtain ⟨k1, k2, k3, k4⟩ := key s
  refine ⟨hfix, ?_, k1, k2, k3, k4, by rw [k3, k4]; ring, ?_⟩
  · intro hp hc hl
    have hl2 : ¬ e.wp.w_p_list = true ∨ e.wp.w_p_lcs_chars.tab1 ≠ 0 := by
      rcases hl with h | h
      · left; simp [h]
      · right; exact h
    rw [nonprint_block, if_pos (by simp [hp]), if_pos ⟨hc, hl2⟩]
  · intro h
    have hs := tab_before_fix_plain e s h
    refine ⟨by rw [k3, k4, hs]; ring, ?_⟩
    intro s' h1 h2
    obtain ⟨m1, m2, m3, m4⟩ := key s'
    have hs' := tab_before_fix_plain e s' h
    have hv : tab_vcol e s' = tab_vcol e s := by
      unfold tab_vcol
      rw [h1, h2]
    rw [m3, m4, k3, k4, hs, hs', hv, h1]
    ring

set_option maxRecDepth 100000 in
/-- The TAB of "xxxx<TAB>b" with 'tabstop' 4, the four bytes before it
concealed: before the block `vcol` is 4, `vcol_off` is 4 and `boguscols` is 4;
after it they are 0, 0 and 0 and the run is 7 blanks long, so that the text
after the TAB is at the virtual column 8 and `b` is stored in the cell of
column 8, as it is when nothing is concealed. -/
theorem tab_reconciles_witness :
    (Sample.state_conceal_tab.c, Sample.state_conceal_tab.wlv.vcol,
      Sample.state_conceal_tab.wlv.vcol_off, Sample.state_conceal_tab.wlv.boguscols)
      = (TAB, 4, 4, 4)
    ∧ ((nonprint_block Sample.env_conceal_tab Sample.state_conceal_tab).wlv.vcol,
        (nonprint_block Sample.env_conceal_tab Sample.state_conceal_tab).wlv.vcol_off,
        (nonprint_block Sample.env_conceal_tab Sample.state_conceal_tab).wlv.boguscols,
        (nonprint_block Sample.env_conceal_tab Sample.state_conceal_tab).wlv.n_extra)
        = (0, 0, 0, 7)
    ∧ nonprint_block Sample.env_conceal_tab Sample.state_conceal_tab
        = nonprint_tab Sample.env_conceal_tab Sample.state_conceal_tab
    ∧ (win_line_final Sample.env_conceal_tab 30).map (fun s => Sample.cells s.linebuf_char 9)
        = some [[32], [32], [32], [32], [32], [32], [32], [32], [98]] :=
  ⟨by decide, by decide,
    (tab_reconciles Sample.env_conceal_tab Sample.state_conceal_tab).2.1 (by decide)
      (by decide) (by decide),
    by decide⟩

/-- Claim C29: the margins that `margin_columns_win` computes for a window with
`w_virtcol >= 0`, with `width1 = w_width_inner - win_col_off` and
`width2 = width1 + win_col_off2`.  The computation divides by zero exactly when
`w_virtcol >= width1` and `width2 = 0`.  When `w_virtcol < width1` the margins
are `0` and `width1`; when `w_virtcol >= width1` and `width2 > 0` they are
`width2` apart; in both cases `left_col <= w_virtcol < right_col`.  The first
call of the program computes them in this way. -/
theorem margin_columns_bracket (v w o o2 : Int) (hv : 0 ≤ v) :
    (margin_columns v w o o2 = none ↔ (v ≥ w - o ∧ w - o + o2 = 0))
    ∧ (v < w - o →
        ∃ l r, margin_columns v w o o2 = some (l, r) ∧ l = 0 ∧ l ≤ v ∧ v < r ∧ r - l = w - o)
    ∧ (v ≥ w - o → w - o + o2 > 0 →
        ∃ l r, margin_columns v w o o2 = some (l, r) ∧ l ≤ v ∧ v < r ∧ r - l = w - o + o2)
    ∧ (∀ wp, margin_columns_win MarginStatics.zero wp v w o o2
        = (margin_columns v w o o2).map (fun m => (m, ⟨v, some wp, m.1, m.2, o⟩))) := by
  refine ⟨?_, ?_, ?_, ?_⟩
  · unfold margin_columns
    simp only []
    split
    · rename_i h
      exact ⟨fun _ => h, fun _ => rfl⟩
    · rename_i h
      exact ⟨fun h2 => (by cases h2), fun h2 => absurd h2 h⟩
  · intro h
    have h1 : ¬ v ≥ w - o := by omega
    unfold margin_columns
    simp only []
    rw [if_neg (fun hh => h1 hh.1), if_neg h1, if_neg (fun hh => h1 hh.1)]
    exact ⟨0, w - o, rfl, rfl, hv, h, by ring⟩
  · intro h h2
    have h3 : ¬ (v ≥ w - o ∧ w - o + o2 = 0) := fun hh => by omega
    unfold margin_columns
    simp only []
    rw [if_neg h3, if_pos h, if_pos ⟨h, h2⟩]
    have hd : Int.tdiv (v - (w - o)) (w - o + o2) = (v - (w - o)) / (w - o + o2) :=
      Int.tdiv_eq_ediv (by omega) (by omega)
    rw [hd]
    have e1 := Int.emod_add_ediv (v - (w - o)) (w - o + o2)
    have e2 := Int.emod_nonneg (v - (w - o)) (show w - o + o2 ≠ 0 by omega)
    have e3 := Int.emod_lt_of_pos (v - (w - o)) h2
    generalize (v - (w - o)) / (w - o + o2) = q at e1
    generalize (v - (w - o)) % (w - o + o2) = r at e1 e2 e3
    refine ⟨_, _, rfl, ?_, ?_, ?_⟩
    · nlinarith
    · nlinarith
    · ring
  · intro wp
    rw [margin_columns_win, if_neg (by simp [MarginStatics.zero])]
    cases margin_columns v w o o2 <;> rfl

/-- A window of 80 columns with a gutter of 4 columns, the cursor in the
virtual column 200: the margins are 152 and 228. -/
theorem margin_columns_bracket_witness :
    margin_columns 200 80 4 0 = some (152, 228)
    ∧ ∃ l r, margin_columns 200 80 4 0 = some (l, r) ∧ l ≤ 200 ∧ 200 < r
        ∧ r - l = 80 - 4 + 0 :=
  ⟨by decide, (margin_columns_bracket 200 80 4 0 (by decide)).2.2.1 (by decide) (by decide)⟩

/-- C29 as stated does not hold.  In a window as wide as its gutter
(`w_width_inner = 4`, `win_col_off = 4`, `win_col_off2 = 0`) with the cursor in
the virtual column 0, `width1` and `width2` are 0 and the computation of
`right_col` divides by zero.  In a window narrower than its gutter
(`w_width_inner = 1`) the margins computed are `0` and `-3`, which do not
bracket the virtual column 0. -/
theorem margin_columns_counterexample :
    margin_columns 0 4 4 0 = none
    ∧ margin_columns_win MarginStatics.zero 1 0 4 4 0 = none
    ∧ margin_columns 0 1 4 0 = some (0, -3) := by
  decide

theorem range_map_cast_length (f : Int → Int) (n : Nat) :
    ((List.range n).map (fun j => f (j : Int))).length = n := by
  simp [Function.comp_def]

/-- Claim C16: the bytes that `fill_foldcolumn` reports as added, for a fold
column of `fdc > 0` cells, `utf_char2bytes` giving 1 to `MAX_MCO` bytes, the
symbols of an open fold and of the separator not being NUL, and a fold info as
`win_line` is given it (a closed fold, `fi_lines > 0`, has a level of at least
1).  With `k` the smaller of `fdc` and the level, the run is the bytes of the
symbols chosen for the columns `0` to `k - 1` (the symbol of an open fold, the
separator, the digit of the level or `'>'`), the last of them replaced by the
symbol of a closed fold when the fold is closed, followed by `fdc - k`
spaces.  So the run is made of `fdc` symbols, `k` glyphs and `fdc - k` spaces,
which are `fdc` cells when each symbol takes one cell. -/
theorem fill_foldcolumn_run (e : Env) (fi : foldinfo_T) (lnum : Int)
    (hfdc : 0 < e.compute_foldcolumn)
    (hlen : ∀ c, 1 ≤ (e.utf_char2bytes c).length ∧ (e.utf_char2bytes c).length ≤ MAX_MCO)
    (hopen : e.wp.w_p_fcs_chars.foldopen ≠ 0) (hsep : e.wp.w_p_fcs_chars.foldsep ≠ 0)
    (hclosed : fi.fi_lines > 0 → 1 ≤ fi.fi_level) :
    (fill_foldcolumn e fi lnum).1.take (fill_foldcolumn e fi lnum).2.toNat
      = (if fi.fi_lines > 0 then
          fold_glyphs e fi lnum (max 1 (fi.fi_level - e.compute_foldcolumn))
              ((min e.compute_foldcolumn fi.fi_level).toNat - 1)
            ++ e.utf_char2bytes e.wp.w_p_fcs_chars.foldclosed
         else
          fold_glyphs e fi lnum (max 1 (fi.fi_level - e.compute_foldcolumn + 1))
            (min e.compute_foldcolumn fi.fi_level).toNat)
        ++ List.replicate
            (e.compute_foldcolumn.toNat - (min e.compute_foldcolumn fi.fi_level).toNat) 32
    ∧ ∃ glyphs : List Int,
        (fill_foldcolumn e fi lnum).1.take (fill_foldcolumn e fi lnum).2.toNat
          = glyphs.flatMap e.utf_char2bytes
            ++ List.replicate (e.compute_foldcolumn.toNat - glyphs.length) 32
        ∧ glyphs.length = (min e.compute_foldcolumn fi.fi_level).toNat
        ∧ glyphs.length + (e.compute_foldcolumn.toNat - glyphs.length)
            = e.compute_foldcolumn.toNat
        ∧ (fi.fi_lines > 0 → glyphs.getLast? = some e.wp.w_p_fcs_chars.foldclosed) := by
  have h := fill_foldcolumn_bytes e fi lnum hfdc hlen hopen hsep hclosed
  refine ⟨h, ?_⟩
  by_cases hc : fi.fi_lines > 0
  · have hl := hclosed hc
    refine ⟨(List.range ((min e.compute_foldcolumn fi.fi_level).toNat - 1)).map
        (fun j => fold_symbol e fi lnum (max 1 (fi.fi_level - e.compute_foldcolumn)) (j : Int))
        ++ [e.wp.w_p_fcs_chars.foldclosed], ?_, ?_, ?_, ?_⟩
    · rw [h, if_pos hc, List.length_append, range_map_cast_length, List.length_singleton]
      have : (min e.compute_foldcolumn fi.fi_level).toNat - 1 + 1
          = (min e.compute_foldcolumn fi.fi_level).toNat := by omega
      rw [this]
      simp only [fold_glyphs, List.flatMap_append, List.flatMap_cons, List.flatMap_nil,
        List.append_nil]
    · rw [List.length_append, range_map_cast_length, List.length_singleton]
      omega
    · rw [List.length_append, range_map_cast_length, List.length_singleton]
      omega
    · intro _
      simp
  · refine ⟨(List.range (min e.compute_foldcolumn fi.fi_level).toNat).map
        (fun j => fold_symbol e fi lnum (max 1 (fi.fi_level - e.compute_foldcolumn + 1))
          (j : Int)), ?_, ?_, ?_, ?_⟩
    · rw [h, if_neg hc, range_map_cast_length]
      rfl
    · rw [range_map_cast_length]
    · rw [range_map_cast_length]
      omega
    · intro h'
      exact absurd h' hc

set_option maxRecDepth 100000 in
/-- For a closed fold of level 3 in a fold column of two cells the run is the
separator and the symbol of a closed fold. -/
theorem fill_foldcolumn_run_witness :
    (fill_foldcolumn Sample.env_foldcolumn ⟨2, 3, 3, 5⟩ 2).1.take
        (fill_foldcolumn Sample.env_foldcolumn ⟨2, 3, 3, 5⟩ 2).2.toNat
      = [124, 43] := by
  have h := (fill_foldcolumn_run Sample.env_foldcolumn ⟨2, 3, 3, 5⟩ 2 (by decide)
    (by
      intro c
      show 1 ≤ (Sample.utf_char2bytes c).length ∧ (Sample.utf_char2bytes c).length ≤ 6
      unfold Sample.utf_char2bytes
      split
      · simp
      · split
        · simp
        · split <;> simp)
    (by decide) (by decide) (by decide)).1
  rw [h]
  decide

theorem ec_syntax_shape (e : Env) (s : LoopState) :
    ∃ x0 x1 x2 x3 x4 x5 x6 x7 x8, ( ec_syntax e s) = { s with can_spell := x0, v := x1, syntax_attr := x2, syn_sub_char := x3, b_syn_error := x4, has_syntax := x5, wlv.char_attr := x6, syntax_flags_conceal := x7, syntax_seqnr := x8 } := by
  unfold ec_syntax
  lift_lets
  repeat (first
    | (intro t
       have ht : ∃ x0 x1 x2 x3 x4 x5 x6 x7 x8, (t : LoopState) = { s with can_spell := x0, v := x1, syntax_attr := x2, syn_sub_char := x3, b_syn_error := x4, has_syntax := x5, wlv.char_attr := x6, syntax_flags_conceal := x7, syntax_seqnr := x8 } := by
         simp only [t]
         repeat' split
         all_goals exact ⟨_, _, _, _, _, _, _, _, _, rfl⟩
       clear_value t
       obtain ⟨_, _, _, _, _, _, _, _, _, rfl⟩ := ht)
    | (intro t; fail_if_success (have _h : (t : LoopState) = t := rfl); try clear_value t)
    | intro t)
  repeat' split
  all_goals exact ⟨_, _, _, _, _, _, _, _, _, rfl⟩

theorem ec_decor_shape (e : Env) (s : LoopState) :
    ∃ x0 x1 x2 x3 x4, ec_decor e s = { s with wlv.char_attr := x0, decor_conceal := x1, decor_conceal_char := x2, decor_conceal_attr := x3, can_spell := x4 } := by
  unfold ec_decor
  lift_lets
  repeat (first
    | (intro t
       have ht : ∃ x0 x1 x2 x3 x4, (t : LoopState) = { s with wlv.char_attr := x0, decor_conceal := x1, decor_conceal_char := x2, decor_conceal_attr := x3, can_spell := x4 } := by
         simp only [t]
         repeat' split
         all_goals exact ⟨_, _, _, _, _, rfl⟩
       clear_value t
       obtain ⟨_, _, _, _, _, rfl⟩ := ht)
    | (intro t; fail_if_success (have _h : (t : LoopState) = t := rfl); try clear_value t)
    | intro t)
  repeat' split
  all_goals exact ⟨_, _, _, _, _, rfl⟩

theorem ec_spell_word_shape (e : Env) (s : LoopState) :
    ∃ x0 x1 x2 x3 x4 x5 x6 x7, ec_spell_word e s = { s with v := x0, cap_col := x1, word_end := x2, spell_redraw_lnum := x3, checked_lnum := x4, checked_col := x5, spell_attr := x6, capcol_lnum := x7 } := by
  unfold ec_spell_word
  lift_lets
  intro prev_ptr t
  have ht : ∃ x0 x1 x2 x3 x4 x5 x6 x7, (t : LoopState) = { s with v := x0, cap_col := x1, word_end := x2, spell_redraw_lnum := x3, checked_lnum := x4, checked_col := x5, spell_attr := x6, capcol_lnum := x7 } := ⟨_, _, _, _, _, _, _, _, rfl⟩
  clear_value t
  obtain ⟨_, _, _, _, _, _, _, _, rfl⟩ := ht
  intro use_nextline p_off r t
  have ht : ∃ x0 x1 x2 x3 x4 x5 x6 x7, (t : LoopState) = { s with v := x0, cap_col := x1, word_end := x2, spell_redraw_lnum := x3, checked_lnum := x4, checked_col := x5, spell_attr := x6, capcol_lnum := x7 } := ⟨_, _, _, _, _, _, _, _, rfl⟩
  clear_value t
  obtain ⟨_, _, _, _, _, _, _, _, rfl⟩ := ht
  intro hide spell_hlf t
  have ht : ∃ x0 x1 x2 x3 x4 x5 x6 x7, (t : LoopState) = { s with v := x0, cap_col := x1, word_end := x2, spell_redraw_lnum := x3, checked_lnum := x4, checked_col := x5, spell_attr := x6, capcol_lnum := x7 } := by
    simp only [t]
    split
    all_goals exact ⟨_, _, _, _, _, _, _, _, rfl⟩
  clear_value t
  obtain ⟨_, _, _, _, _, _, _, _, rfl⟩ := ht
  clear_value spell_hlf
  intro t
  have ht : ∃ x0 x1 x2 x3 x4 x5 x6 x7, (t : LoopState) = { s with v := x0, cap_col := x1, word_end := x2, spell_redraw_lnum := x3, checked_lnum := x4, checked_col := x5, spell_attr := x6, capcol_lnum := x7 } := by
    simp only [t]
    split
    all_goals exact ⟨_, _, _, _, _, _, _, _, rfl⟩
  clear_value t
  obtain ⟨_, _, _, _, _, _, _, _, rfl⟩ := ht
  intro t
  have ht : ∃ x0 x1 x2 x3 x4 x5 x6 x7, (t : LoopState) = { s with v := x0, cap_col := x1, word_end := x2, spell_redraw_lnum := x3, checked_lnum := x4, checked_col := x5, spell_attr := x6, capcol_lnum := x7 } := by
    simp only [t]
    split
    all_goals exact ⟨_, _, _, _, _, _, _, _, rfl⟩
  clear_value t
  obtain ⟨_, _, _, _, _, _, _, _, rfl⟩ := ht
  simp only []
  repeat' split
  all_goals exact ⟨_, _, _, _, _, _, _, _, rfl⟩
theorem ec_spell_word_shape2 (e : Env) (s : LoopState) :
    ec_spell_word e s = { s with
      v := (ec_spell_word e s).v,
      cap_col := (ec_spell_word e s).cap_col,
      word_end := (ec_spell_word e s).word_end,
      spell_redraw_lnum := (ec_spell_word e s).spell_redraw_lnum,
      checked_lnum := (ec_spell_word e s).checked_lnum,
      checked_col := (ec_spell_word e s).checked_col,
      spell_attr := (ec_spell_word e s).spell_attr,
      capcol_lnum := (ec_spell_word e s).capcol_lnum } := by
  obtain ⟨_, _, _, _, _, _, _, _, h⟩ := ec_spell_word_shape e s
  rw [h]

theorem ec_spell_shape (e : Env) (s : LoopState) :
    ∃ x0 x1 x2 x3 x4 x5 x6 x7 x8, ec_spell e s = { s with v := x0, cap_col := x1, word_end := x2, spell_redraw_lnum := x3, checked_lnum := x4, checked_col := x5, spell_attr := x6, capcol_lnum := x7, wlv.char_attr := x8 } := by
  unfold ec_spell
  lift_lets
  repeat (first
    | (intro t
       have ht : ∃ x0 x1 x2 x3 x4 x5 x6 x7 x8, (t : LoopState) = { s with v := x0, cap_col := x1, word_end := x2, spell_redraw_lnum := x3, checked_lnum := x4, checked_col := x5, spell_attr := x6, capcol_lnum := x7, wlv.char_attr := x8 } := by
         simp only [t]
         repeat' split
         all_goals (first | exact ⟨_, _, _, _, _, _, _, _, _, rfl⟩ | (rw [ec_spell_word_shape2]; exact ⟨_, _, _, _, _, _, _, _, _, rfl⟩))
       clear_value t
       obtain ⟨_, _, _, _, _, _, _, _, _, rfl⟩ := ht)
    | (intro t; fail_if_success (have _h : (t : LoopState) = t := rfl); try clear_value t)
    | intro t)
  repeat' split
  all_goals (first | exact ⟨_, _, _, _, _, _, _, _, _, rfl⟩ | (rw [ec_spell_word_shape2]; exact ⟨_, _, _, _, _, _, _, _, _, rfl⟩))

/-- The blocks for syntax, decorations and spelling of the block
`if (extra_check)` change the attribute and their own variables only. -/
theorem ec_attr_blocks_shape (e : Env) (s : LoopState) :
    ∃ x0 x1 x2 x3 x4 x5 x6 x7 x8 x9 x10 x11 x12 x13 x14 x15 x16 x17 x18, ec_spell e (ec_decor e ( ec_syntax e s))
      = { s with can_spell := x0, v := x1, syntax_attr := x2, syn_sub_char := x3, b_syn_error := x4, has_syntax := x5, wlv.char_attr := x6, syntax_flags_conceal := x7, syntax_seqnr := x8, decor_conceal := x9, decor_conceal_char := x10, decor_conceal_attr := x11, cap_col := x12, word_end := x13, spell_redraw_lnum := x14, checked_lnum := x15, checked_col := x16, spell_attr := x17, capcol_lnum := x18 } := by
  obtain ⟨_, _, _, _, _, _, _, _, _, h1⟩ := ec_syntax_shape e s
  rw [h1]
  obtain ⟨_, _, _, _, _, h2⟩ := ec_decor_shape e _
  rw [h2]
  obtain ⟨_, _, _, _, _, _, _, _, _, h3⟩ := ec_spell_shape e _
  rw [h3]
  exact ⟨_, _, _, _, _, _, _, _, _, _, _, _, _, _, _, _, _, _, _, rfl⟩

set_option maxHeartbeats 1000000 in
/-- What the 'linebreak' block does with a TAB when 'list' is off. -/
theorem ec_linebreak_tab (e : Env) (s : LoopState) (hc : s.c = TAB)
    (hl : e.wp.w_p_list = false)
    (hb : e.wp.w_p_lbr = true ∧ s.c0 = s.c ∧ e.vim_isbreak s.c = true
      ∧ ¬ e.vim_isbreak (byteAt e.line s.ptr) = true) :
    ec_linebreak e s
      = { s with
          wlv.n_extra := lbr_tab_run e s + s.wlv.vcol_off,
          wlv.vcol := s.wlv.vcol - s.wlv.vcol_off,
          wlv.vcol_off := 0,
          wlv.col := s.wlv.col - s.wlv.boguscols,
          old_boguscols := s.wlv.boguscols,
          wlv.boguscols := 0,
          wlv.c_extra := if e.utf_head_off e.line (s.ptr - 1) > 0 then MB_FILLER_CHAR else 32,
          wlv.c_final := NUL,
          c := 32 } := by
  have h9 : TAB = 9 := rfl
  obtain ⟨b1, b2, b3, b4⟩ := hb
  rw [hc] at b2 b3
  have b4f : e.vim_isbreak (byteAt e.line s.ptr) = false := by simpa using b4
  by_cases hs : s.wlv.vcol = s.wlv.vcol_sbr
  · replace hs := hs.symm
    by_cases hn : e.win_lbr_chartabsize s.wlv.vcol
        (s.ptr - (e.utf_head_off e.line (s.ptr - 1) + 1)) - 1 < e.mb_charlen e.showbreak
    · by_cases hcols : e.wp.cols < s.wlv.col
      · simp [ec_linebreak, lbr_tab_run, b1, b2, b3, b4f, hc, h9, hs, hn, hcols, ascii_iswhite,
          hl, FIX_FOR_BOGUSCOLS]
      · simp [ec_linebreak, lbr_tab_run, b1, b2, b3, b4f, hc, h9, hs, hn, hcols, ascii_iswhite,
          hl, FIX_FOR_BOGUSCOLS]
    · by_cases hcols : e.wp.cols < e.win_lbr_chartabsize s.wlv.vcol
        (s.ptr - (e.utf_head_off e.line (s.ptr - 1) + 1)) - 1 - e.mb_charlen e.showbreak
          + s.wlv.col
      · simp [ec_linebreak, lbr_tab_run, b1, b2, b3, b4f, hc, h9, hs, hn, hcols, ascii_iswhite,
          hl, FIX_FOR_BOGUSCOLS]
      · simp [ec_linebreak, lbr_tab_run, b1, b2, b3, b4f, hc, h9, hs, hn, hcols, ascii_iswhite,
          hl, FIX_FOR_BOGUSCOLS]
  · by_cases hcols : e.wp.cols < e.win_lbr_chartabsize s.wlv.vcol
        (s.ptr - (e.utf_head_off e.line (s.ptr - 1) + 1)) - 1 + s.wlv.col
    · simp [ec_linebreak, lbr_tab_run, b1, b2, b3, b4f, hc, h9, hs, hcols, ascii_iswhite,
        hl, FIX_FOR_BOGUSCOLS]
    · simp [ec_linebreak, lbr_tab_run, b1, b2, b3, b4f, hc, h9, hs, hcols, ascii_iswhite,
        hl, FIX_FOR_BOGUSCOLS]

/-- The cells of a TAB that the 'linebreak' block takes, from that block to the
end of "handling of non-printable characters". -/
theorem tab_lbr_cells (e : Env) (P : LoopState) (hc : P.c = TAB)
    (hl : e.wp.w_p_list = false)
    (hb : e.wp.w_p_lbr = true ∧ P.c0 = P.c ∧ e.vim_isbreak P.c = true
      ∧ ¬ e.vim_isbreak (byteAt e.line P.ptr) = true)
    (h32 : e.vim_isprintc 32 = true) (htc : P.trailcol = MAXCOL) (hlc : P.leadcol = 0) :
    (nonprint_block e (ec_lead_trail e (ec_list_space e (ec_multispace e
        (ec_linebreak e P))))).c = 32
    ∧ (nonprint_block e (ec_lead_trail e (ec_list_space e (ec_multispace e
        (ec_linebreak e P))))).wlv.c_extra
        = (if e.utf_head_off e.line (P.ptr - 1) > 0 then MB_FILLER_CHAR else 32)
    ∧ (nonprint_block e (ec_lead_trail e (ec_list_space e (ec_multispace e
        (ec_linebreak e P))))).wlv.c_final = NUL
    ∧ (nonprint_block e (ec_lead_trail e (ec_list_space e (ec_multispace e
        (ec_linebreak e P))))).wlv.n_extra = lbr_tab_run e P + P.wlv.vcol_off
    ∧ (nonprint_block e (ec_lead_trail e (ec_list_space e (ec_multispace e
        (ec_linebreak e P))))).wlv.vcol_off = 0
    ∧ (nonprint_block e (ec_lead_trail e (ec_list_space e (ec_multispace e
        (ec_linebreak e P))))).wlv.vcol = P.wlv.vcol - P.wlv.vcol_off
    ∧ (nonprint_block e (ec_lead_trail e (ec_list_space e (ec_multispace e
        (ec_linebreak e P))))).wlv.col = P.wlv.col - P.wlv.boguscols
    ∧ (nonprint_block e (ec_lead_trail e (ec_list_space e (ec_multispace e
        (ec_linebreak e P))))).wlv.boguscols = 0 := by
  rw [ec_linebreak_tab e P hc hl hb]
  simp [ec_multispace, ec_list_space, hl, ec_lead_trail, htc, hlc, nonprint_block, h32]

/-- The cells of a TAB that the 'linebreak' block does not take, from that
block to the end of "handling of non-printable characters". -/
theorem tab_plain_cells (e : Env) (P : LoopState) (hc : P.c = TAB)
    (hp : e.vim_isprintc TAB = false) (hl : e.wp.w_p_list = false)
    (hb : ¬ (e.wp.w_p_lbr = true ∧ P.c0 = P.c ∧ e.vim_isbreak P.c = true
      ∧ ¬ e.vim_isbreak (byteAt e.line P.ptr) = true)) :
    (nonprint_block e (ec_lead_trail e (ec_list_space e (ec_multispace e
        (ec_linebreak e P))))).c = 32
    ∧ (nonprint_block e (ec_lead_trail e (ec_list_space e (ec_multispace e
        (ec_linebreak e P))))).wlv.c_extra = 32
    ∧ (nonprint_block e (ec_lead_trail e (ec_list_space e (ec_multispace e
        (ec_linebreak e P))))).wlv.c_final = NUL
    ∧ (nonprint_block e (ec_lead_trail e (ec_list_space e (ec_multispace e
        (ec_linebreak e P))))).wlv.n_extra
        = e.tabstop_padding (tab_vcol e P) e.wp.b_p_ts e.wp.b_p_vts_array - 1 + P.wlv.vcol_off
    ∧ (nonprint_block e (ec_lead_trail e (ec_list_space e (ec_multispace e
        (ec_linebreak e P))))).wlv.vcol_off = 0
    ∧ (nonprint_block e (ec_lead_trail e (ec_list_space e (ec_multispace e
        (ec_linebreak e P))))).wlv.vcol = P.wlv.vcol - P.wlv.vcol_off
    ∧ (nonprint_block e (ec_lead_trail e (ec_list_space e (ec_multispace e
        (ec_linebreak e P))))).wlv.col = P.wlv.col - P.wlv.boguscols
    ∧ (nonprint_block e (ec_lead_trail e (ec_list_space e (ec_multispace e
        (ec_linebreak e P))))).wlv.boguscols = 0 := by
  have h9 : TAB = 9 := rfl
  have h1 : ec_linebreak e P = P := by
    unfold ec_linebreak
    rw [if_neg hb]
  rw [h1]
  simp [ec_multispace, ec_list_space, hl, ec_lead_trail, nonprint_block, hc, hp, h9,
    nonprint_tab, FIX_FOR_BOGUSCOLS, tab_vcol]

/-- The cells of a TAB when the block `if (extra_check)` is not entered. -/
theorem tab_block_cells (e : Env) (P : LoopState) (hc : P.c = TAB)
    (hp : e.vim_isprintc TAB = false) (hl : e.wp.w_p_list = false) :
    (nonprint_block e P).c = 32
    ∧ (nonprint_block e P).wlv.c_extra = 32
    ∧ (nonprint_block e P).wlv.c_final = NUL
    ∧ (nonprint_block e P).wlv.n_extra
        = e.tabstop_padding (tab_vcol e P) e.wp.b_p_ts e.wp.b_p_vts_array - 1 + P.wlv.vcol_off
    ∧ (nonprint_block e P).wlv.vcol_off = 0
    ∧ (nonprint_block e P).wlv.vcol = P.wlv.vcol - P.wlv.vcol_off
    ∧ (nonprint_block e P).wlv.col = P.wlv.col - P.wlv.boguscols
    ∧ (nonprint_block e P).wlv.boguscols = 0 := by
  have h9 : TAB = 9 := rfl
  simp [nonprint_block, hc, hp, h9, nonprint_tab, hl, FIX_FOR_BOGUSCOLS, tab_vcol]

theorem tab_list_linebreak_lcs_eol (e : Env) (s : LoopState) (tab_len : Int) :
    (tab_list_linebreak e s tab_len).1.lcs_eol_one = s.lcs_eol_one := by
  unfold tab_list_linebreak
  lift_lets
  intros
  split <;> rfl

theorem nonprint_tab_lcs_eol (e : Env) (t : LoopState) :
    (nonprint_tab e t).lcs_eol_one = t.lcs_eol_one := by
  unfold nonprint_tab
  lift_lets
  repeat (first
    | (intro u
       have hu : (u : LoopState).lcs_eol_one = t.lcs_eol_one := by
         simp only [u]
         repeat' split
         all_goals (first | rfl | assumption | (simp only [FIX_FOR_BOGUSCOLS]; assumption))
       clear_value u)
    | (intro u
       have hu : (u : LoopState × Int).1.lcs_eol_one = t.lcs_eol_one := by
         simp only [u]
         split
         · rfl
         · exact tab_list_linebreak_lcs_eol e t _
       clear_value u)
    | intro u)
  repeat' split
  all_goals (first | rfl | assumption)

theorem nonprint_ctrl_lcs_eol (e : Env) (t : LoopState) :
    (nonprint_ctrl e t).lcs_eol_one = t.lcs_eol_one := by
  unfold nonprint_ctrl
  lift_lets
  repeat (first
    | (intro u
       have hu : (u : LoopState).lcs_eol_one = t.lcs_eol_one := by
         simp only [u]
         repeat' split
         all_goals (first | rfl | assumption)
       clear_value u)
    | intro u)
  repeat' split
  all_goals (first | rfl | assumption)

/-- The block `if (extra_check)` for a character that is no blank and that
'linebreak' does not take: it changes the attribute and the variables of the
syntax, decoration, spelling and multispace blocks only. -/
theorem extra_check_plain_shape (e : Env) (P : LoopState)
    (hlbr : P.c0 ≠ P.c) (h32 : P.c ≠ 32) (h160 : P.c ≠ 160) (hu : P.mb_utf8 = false) :
    ∃ x0 x1 x2 x3 x4 x5 x6 x7 x8 x9 x10 x11 x12 x13 x14 x15 x16 x17 x18 x19 x20, extra_check_block e P
      = { P with can_spell := x0, v := x1, syntax_attr := x2, syn_sub_char := x3, b_syn_error := x4, has_syntax := x5, wlv.char_attr := x6, syntax_flags_conceal := x7, syntax_seqnr := x8, decor_conceal := x9, decor_conceal_char := x10, decor_conceal_attr := x11, cap_col := x12, word_end := x13, spell_redraw_lnum := x14, checked_lnum := x15, checked_col := x16, spell_attr := x17, capcol_lnum := x18, in_multispace := x19, multispace_pos := x20 } := by
  by_cases hx : P.extra_check = true
  · obtain ⟨x0, x1, x2, x3, x4, x5, x6, x7, x8, x9, x10, x11, x12, x13, x14, x15, x16, x17, x18, hP⟩ := ec_attr_blocks_shape e P
    have hE : extra_check_block e P
        = ec_lead_trail e (ec_list_space e (ec_multispace e (ec_linebreak e
            (ec_spell e (ec_decor e ( ec_syntax e P)))))) := by
      simp [extra_check_block, hx]
    rw [hE, hP]
    simp only [ec_linebreak, hlbr, false_and, and_false, if_false]
    simp only [ec_multispace, ec_list_space, ec_lead_trail, h32, h160, hu, false_and, and_false,
      or_false, false_or, if_false, Bool.false_eq_true, decide_False, Bool.false_and]
    exact ⟨_, _, _, _, _, _, _, _, _, _, _, _, _, _, _, _, _, _, _, _, _, rfl⟩
  · have hE : extra_check_block e P = P := by
      simp [extra_check_block, hx]
    rw [hE]
    exact ⟨_, _, _, _, _, _, _, _, _, _, _, _, _, _, _, _, _, _, _, _, _, rfl⟩

/-- The tail of "get the next character" for a character of the buffer path
that is printable, no blank, not taken by 'linebreak', not concealed and not
replaced by "precedes": from the block `if (extra_check)` to the end-of-line
test the character, the pending run and the position are left alone, and the
attribute of the special run is combined on top of the attribute resolved by
the syntax, decoration and spelling blocks. -/
theorem choose_tail_plain (e : Env) (P : LoopState)
    (hlbr : P.c0 ≠ P.c) (h32 : P.c ≠ 32) (h160 : P.c ≠ 160) (h0 : P.c ≠ NUL)
    (hu : P.mb_utf8 = false) (hp : e.vim_isprintc P.c = true)
    (hn : ¬ (P.n_skip > 0 ∧ P.did_decrement_ptr = true))
    (hconc : ¬ conceal_cond e (extra_check_block e P))
    (hprec : ¬ lcs_prec_cond e P) :
    (∃ x0 x1 x2 x3 x4 x5 x6 x7 x8 x9 x10 x11 x12 x13 x14 x15 x16 x17 x18 x19 x20 x21 x22 x23 x24 x25,
      eol_hl_block e (lcs_prec_block e (extra_attr_combine e (cursor_wcol e (buf_unstick
        (conceal_block e (nonprint_block e (extra_check_block e P)))))))
        = { P with can_spell := x0, v := x1, syntax_attr := x2, syn_sub_char := x3, b_syn_error := x4, has_syntax := x5, wlv.char_attr := x6, syntax_flags_conceal := x7, syntax_seqnr := x8, decor_conceal := x9, decor_conceal_char := x10, decor_conceal_attr := x11, cap_col := x12, word_end := x13, spell_redraw_lnum := x14, checked_lnum := x15, checked_col := x16, spell_attr := x17, capcol_lnum := x18, in_multispace := x19, multispace_pos := x20, prev_syntax_id := x21, is_concealing := x22, w_wcol := x23, w_wrow := x24, did_wcol := x25 })
    ∧ (eol_hl_block e (lcs_prec_block e (extra_attr_combine e (cursor_wcol e (buf_unstick
        (conceal_block e (nonprint_block e (extra_check_block e P)))))))).wlv.char_attr
      = (if P.n_attr > 0 ∧ P.wlv.draw_state = WL_LINE ∧ ¬ P.search_attr_from_match then
          e.hl_combine_attr (extra_check_block e P).wlv.char_attr P.wlv.extra_attr
         else (extra_check_block e P).wlv.char_attr) := by
  obtain ⟨y0, y1, y2, y3, y4, y5, y6, y7, y8, y9, y10, y11, y12, y13, y14, y15, y16, y17, y18, y19, y20, hE⟩ := extra_check_plain_shape e P hlbr h32 h160 hu
  generalize extra_check_block e P = E at hE hconc ⊢
  have f1 : E.c = P.c := by rw [hE]
  have f2 : E.n_skip = P.n_skip := by rw [hE]
  have f3 : E.did_decrement_ptr = P.did_decrement_ptr := by rw [hE]
  have f4 : E.n_attr = P.n_attr := by rw [hE]
  have f5 : E.wlv.draw_state = P.wlv.draw_state := by rw [hE]
  have f6 : E.search_attr_from_match = P.search_attr_from_match := by rw [hE]
  have f7 : E.wlv.extra_attr = P.wlv.extra_attr := by rw [hE]
  have f8 : E.lcs_prec_todo = P.lcs_prec_todo := by rw [hE]
  have f9 : E.wlv.row = P.wlv.row := by rw [hE]
  have f10 : E.wlv.filler_todo = P.wlv.filler_todo := by rw [hE]
  have hN : nonprint_block e E = E := by
    unfold nonprint_block
    rw [if_neg (by rw [f1, hp]; simp)]
  have hC : conceal_block e E = { E with prev_syntax_id := 0, is_concealing := false } := by
    unfold conceal_block
    rw [if_neg hconc]
  have hU : buf_unstick { E with prev_syntax_id := 0, is_concealing := false }
      = { E with prev_syntax_id := 0, is_concealing := false } := by
    unfold buf_unstick
    rw [if_neg (by simpa [f2, f3] using hn)]
  rw [hN, hC, hU, cursor_wcol_shape]
  generalize hW1 : (cursor_wcol e { E with prev_syntax_id := 0, is_concealing := false }).w_wcol
    = W1
  generalize hW2 : (cursor_wcol e { E with prev_syntax_id := 0, is_concealing := false }).w_wrow
    = W2
  generalize hW3 : (cursor_wcol e { E with prev_syntax_id := 0, is_concealing := false }).did_wcol
    = W3
  have hprec2 : ∀ X : LoopState, X.lcs_prec_todo = P.lcs_prec_todo → X.wlv.row = P.wlv.row →
      X.wlv.filler_todo = P.wlv.filler_todo → X.wlv.draw_state = P.wlv.draw_state →
      X.c = P.c → lcs_prec_block e X = X := by
    intro X a1 a2 a3 a4 a5
    unfold lcs_prec_block
    rw [if_neg]
    intro h
    apply hprec
    unfold lcs_prec_cond at h ⊢
    rw [a1, a2, a3, a4, a5] at h
    exact h
  have heol : ∀ X : LoopState, X.c = P.c → eol_hl_block e X = X := by
    intro X a
    unfold eol_hl_block
    rw [if_neg (by rw [a]; exact fun h => h0 h.1)]
  by_cases hc : P.n_attr > 0 ∧ P.wlv.draw_state = WL_LINE ∧ ¬ P.search_attr_from_match = true
  · rw [if_pos hc]
    unfold extra_attr_combine
    rw [if_pos (by simpa [f4, f5, f6] using hc)]
    rw [hprec2 _ (by exact f8) (by exact f9) (by exact f10) (by exact f5) (by exact f1),
      heol _ (by exact f1)]
    refine ⟨?_, ?_⟩
    · rw [hE]
      exact ⟨_, _, _, _, _, _, _, _, _, _, _, _, _, _, _, _, _, _, _, _, _, _, _, _, _, _, rfl⟩
    · show e.hl_combine_attr E.wlv.char_attr E.wlv.extra_attr = _
      rw [f7]
  · rw [if_neg hc]
    unfold extra_attr_combine
    rw [if_neg (by simpa [f4, f5, f6] using hc)]
    rw [hprec2 _ (by exact f8) (by exact f9) (by exact f10) (by exact f5) (by exact f1),
      heol _ (by exact f1)]
    refine ⟨?_, rfl⟩
    rw [hE]
    exact ⟨_, _, _, _, _, _, _, _, _, _, _, _, _, _, _, _, _, _, _, _, _, _, _, _, _, _, rfl⟩

set_option maxHeartbeats 1000000 in
/-- The fetch of an illegal byte: the character is the first byte of the
escape run, the rest of the run is pending, the position is one byte further,
and the run gets the attribute of `HLF_8` unless a selection or search
attribute is active. -/
theorem buf_fetch_illegal (e : Env) (s : LoopState) (r0 r1 r2 r3 : Int)
    (hb : 0x80 ≤ byteAt e.line s.ptr)
    (hl : e.utfc_ptr2len (bytesFrom e.line s.ptr) = 1)
    (hR : illegal_run e (byteAt e.line s.ptr) = [r0, r1, r2, r3])
    (h1 : r1 ≠ 0) (h2 : r2 ≠ 0) (h3 : r3 ≠ 0) (hlt0 : r0 < 0x80)
    (hlt : e.utfc_ptr2len [r0, r1, r2, r3] = 1)
    (hch : e.utf_ptr2char [r0, r1, r2, r3] = r0)
    (hcells : e.utf_char2cells r0 = 1) :
    buf_fetch e s
      = { s with
          c0 := byteAt e.line s.ptr,
          c := r0,
          mb_c := r0,
          mb_l := 1,
          mb_utf8 := false,
          ptr := s.ptr + 1,
          n_attr := if s.area_attr = 0 ∧ s.search_attr = 0 then 4 else s.n_attr,
          saved_attr2 :=
            if s.area_attr = 0 ∧ s.search_attr = 0 then s.wlv.char_attr else s.saved_attr2,
          wlv.p_extra := ⟨PBuf.extra, [r0, r1, r2, r3], 1⟩,
          wlv.n_extra := 3,
          wlv.c_extra := NUL,
          wlv.c_final := NUL,
          wlv.extra_attr :=
            if s.area_attr = 0 ∧ s.search_attr = 0 then e.win_hl_attr HLF_8
            else s.wlv.extra_attr } := by
  have hnz : ¬ byteAt e.line s.ptr = 0 := by omega
  have hR2 : (if e.wp.w_p_rl = true then rl_mirror_ascii (e.transchar_hex (byteAt e.line s.ptr))
      else e.transchar_hex (byteAt e.line s.ptr)) = [r0, r1, r2, r3] := hR
  have hc2 : ¬ e.utf_char2cells r0 = 2 := by omega
  have hlt0b : ¬ 128 ≤ r0 := by omega
  by_cases ha : s.area_attr = 0 ∧ s.search_attr = 0
  · simp [buf_fetch, buf_advance, buf_left_filler, buf_overflow, buf_special, buf_decode, hl, hb,
      CharPtr.rest, CharPtr.add, CharPtr.deref, hlt, hch, hc2, ha, hR2, hnz, hlt0b,
      cstrlen, h1, h2, h3, NUL, byteAt_cons_zero, bytesFrom_zero, bytesFrom_cons_one]
  · simp [buf_fetch, buf_advance, buf_left_filler, buf_overflow, buf_special, buf_decode, hl, hb,
      CharPtr.rest, CharPtr.add, CharPtr.deref, hlt, hch, hc2, ha, hR2, hnz, hlt0b,
      cstrlen, h1, h2, h3, NUL, byteAt_cons_zero, bytesFrom_zero, bytesFrom_cons_one]

/-- The decoding of the next character of a pending string leaves the
attributes and the draw state alone. -/
theorem next_extra_str_attrs (e : Env) (u : LoopState) :
    same_attrs u (next_extra_str e u) := by
  unfold next_extra_str
  lift_lets
  repeat (first
    | (intro t
       have ht : same_attrs u (t : LoopState) := by
         simp only [t]
         repeat' split
         all_goals (first | exact ⟨rfl, rfl, rfl, rfl, rfl⟩ | assumption)
       clear_value t)
    | intro t)
  repeat' split
  all_goals (first | exact ⟨rfl, rfl, rfl, rfl, rfl⟩ | assumption)

/-- The next character of a pending run leaves the attributes and the draw
state alone. -/
theorem next_extra_attrs (e : Env) (u : LoopState) :
    same_attrs u (next_extra e u) := by
  unfold next_extra
  lift_lets
  repeat (first
    | (intro t
       have ht : same_attrs u (t : LoopState) := by
         simp only [t]
         repeat' split
         all_goals (first | exact ⟨rfl, rfl, rfl, rfl, rfl⟩ | assumption | exact next_extra_str_attrs e u)
       clear_value t)
    | intro t)
  repeat' split
  all_goals (first | exact ⟨rfl, rfl, rfl, rfl, rfl⟩ | assumption | exact next_extra_str_attrs e u)

/-- The attribute of a cell of a pending run: in the body phase, while the
attribute of the run is to be used (`n_attr > 0`) and the search attribute
does not come from a match, the attribute of the run is combined on top of the
cell attribute. -/
theorem run_cell_attr (e : Env) (u : LoopState) (hd : u.wlv.draw_state = WL_LINE)
    (hn : u.wlv.n_extra > 0) (ha : u.n_attr > 0) (hm : u.search_attr_from_match = false) :
    (extra_attr_combine e (cursor_wcol e (next_char e u))).wlv.char_attr
      = e.hl_combine_attr u.wlv.char_attr u.wlv.extra_attr := by
  have h1 : next_char e u = next_extra e u := by
    unfold next_char
    rw [if_pos hn]
  obtain ⟨a1, a2, a3, a4, a5⟩ := next_extra_attrs e u
  rw [h1, cursor_wcol_shape]
  generalize next_extra e u = N at a1 a2 a3 a4 a5 ⊢
  unfold extra_attr_combine
  rw [if_pos]
  · show e.hl_combine_attr N.wlv.char_attr N.wlv.extra_attr = _
    rw [a1, a3]
  · refine ⟨?_, ?_, ?_⟩
    · show N.n_attr > 0
      rw [a2]; exact ha
    · show N.wlv.draw_state = WL_LINE
      rw [a4]; exact hd
    · show ¬ N.search_attr_from_match = true
      rw [a5, hm]; simp

/-- Claim C10: an illegal byte of the buffer line, a byte `b >= 0x80` with
decoded length 1.  With `r0 r1 r2 r3` the escape run for `b` (the form `<xx>`
that `transchar_hex` gives, reversed in a right-to-left window: `illegal_run`),
bytes that are single characters of one cell, `r0` printable and no blank:
(1) the fetch yields `r0` as the character to display and the rest of the run
as the pending run of `n_extra = 3` bytes, and advances the source position by
exactly one byte; the run gets the attribute of `HLF_8` for `n_attr = 4` cells
only when neither a selection attribute nor a search attribute is active,
otherwise the attribute fields are left alone.  (2) In the body phase with no
pending run, neither attribute active and the search attribute not from a
match, the character not skipped, concealed or replaced by "precedes" or
"extends" of 'listchars': the cell stored at the row offset holds `r0`, and its
attribute is `stored_attr` of a state whose cell attribute is the attribute
resolved by the syntax, decoration and spelling blocks with `HLF_8` combined on
top; without 'cursorcolumn', 'colorcolumn' and a pending attribute of a
double-width character that is the low-priority line attribute combined under
it.  After the store the run of three bytes is pending with `n_attr = 3` and
the attribute of the run `HLF_8`.  (3) In every later pass of the body phase
that takes its character from a pending run while `n_attr > 0`, the search
attribute not from a match, the attribute of the run is combined on top of the
cell attribute. -/
theorem illegal_byte_escape (e : Env) (s : LoopState) (r0 r1 r2 r3 : Int)
    (hb : 0x80 ≤ byteAt e.line s.ptr)
    (hl : e.utfc_ptr2len (bytesFrom e.line s.ptr) = 1)
    (hR : illegal_run e (byteAt e.line s.ptr) = [r0, r1, r2, r3])
    (h1 : r1 ≠ 0) (h2 : r2 ≠ 0) (h3 : r3 ≠ 0) (h32 : 32 < r0) (hlt0 : r0 < 0x80)
    (hlt : e.utfc_ptr2len [r0, r1, r2, r3] = 1)
    (hch : e.utf_ptr2char [r0, r1, r2, r3] = r0)
    (hcells : e.utf_char2cells r0 = 1)
    (hpr : e.vim_isprintc r0 = true) :
    ((buf_fetch e s).c = r0
      ∧ (buf_fetch e s).mb_c = r0
      ∧ (buf_fetch e s).mb_utf8 = false
      ∧ (buf_fetch e s).wlv.p_extra.rest = [r1, r2, r3]
      ∧ (buf_fetch e s).wlv.n_extra = 3
      ∧ (buf_fetch e s).wlv.c_extra = NUL
      ∧ (buf_fetch e s).wlv.c_final = NUL
      ∧ (buf_fetch e s).ptr = s.ptr + 1
      ∧ (s.area_attr = 0 ∧ s.search_attr = 0 →
          (buf_fetch e s).n_attr = 4
          ∧ (buf_fetch e s).wlv.extra_attr = e.win_hl_attr HLF_8
          ∧ (buf_fetch e s).saved_attr2 = s.wlv.char_attr)
      ∧ (¬ (s.area_attr = 0 ∧ s.search_attr = 0) →
          (buf_fetch e s).n_attr = s.n_attr
          ∧ (buf_fetch e s).wlv.extra_attr = s.wlv.extra_attr))
    ∧ (s.wlv.draw_state = WL_LINE → ¬ s.wlv.n_extra > 0 → ¬ e.foldinfo.fi_lines > 0 →
        s.area_attr = 0 ∧ s.search_attr = 0 → s.search_attr_from_match = false →
        s.n_skip ≤ 0 → ¬ conceal_cond e (extra_check_block e (buf_fetch e s)) →
        ¬ lcs_prec_cond e (buf_fetch e s) → ¬ lcs_ext_cond e (choose_from_area e s) →
        (choose_from_area e s).c = r0
        ∧ (choose_from_area e s).wlv.char_attr
            = e.hl_combine_attr (extra_check_block e (buf_fetch e s)).wlv.char_attr
                (e.win_hl_attr HLF_8)
        ∧ (iter_store e (iter_before_store e (choose_from_area e s))).linebuf_char s.wlv.off
            = schar_from_ascii r0
        ∧ (iter_store e (iter_before_store e (choose_from_area e s))).linebuf_attr s.wlv.off
            = stored_attr e (choose_from_area e s)
        ∧ (e.wp.w_p_cuc = false → s.draw_color_col = false → s.multi_attr = 0 →
            stored_attr e (choose_from_area e s)
              = e.hl_combine_attr s.wlv.line_attr_lowprio
                  (e.hl_combine_attr (extra_check_block e (buf_fetch e s)).wlv.char_attr
                    (e.win_hl_attr HLF_8)))
        ∧ (iter_store e (iter_before_store e (choose_from_area e s))).n_attr = 3
        ∧ (iter_store e (iter_before_store e (choose_from_area e s))).wlv.extra_attr
            = e.win_hl_attr HLF_8
        ∧ (iter_store e (iter_before_store e (choose_from_area e s))).wlv.n_extra = 3
        ∧ (iter_store e (iter_before_store e (choose_from_area e s))).wlv.p_extra.rest
            = [r1, r2, r3]
        ∧ (iter_store e (iter_before_store e (choose_from_area e s))).wlv.draw_state
            = WL_LINE)
    ∧ (∀ u : LoopState, u.wlv.draw_state = WL_LINE → u.wlv.n_extra > 0 → u.n_attr > 0 →
        u.search_attr_from_match = false →
        (extra_attr_combine e (cursor_wcol e (next_char e u))).wlv.char_attr
          = e.hl_combine_attr u.wlv.char_attr u.wlv.extra_attr) := by
  have hF := buf_fetch_illegal e s r0 r1 r2 r3 hb hl hR h1 h2 h3 hlt0 hlt hch hcells
  refine ⟨?_, ?_, fun u => run_cell_attr e u⟩
  · rw [hF]
    refine ⟨rfl, rfl, rfl, ?_, rfl, rfl, rfl, rfl, ?_, ?_⟩
    · simp [CharPtr.rest, bytesFrom]
    · intro ha
      simp [ha]
    · intro ha
      simp [ha]
  · intro hd hne hfi ha hm hn hconc hprec hext
    have hnc : choose_from_area e s
        = eol_hl_block e (lcs_prec_block e (extra_attr_combine e (cursor_wcol e (buf_unstick
            (conceal_block e (nonprint_block e (extra_check_block e (buf_fetch e s)))))))) := by
      unfold choose_from_area next_char
      rw [if_neg hne, if_neg hfi]
      rfl
    rw [hnc] at hext ⊢
    rw [if_pos ha, if_pos ha, if_pos ha] at hF
    generalize buf_fetch e s = F at hF hconc hprec hext ⊢
    have g1 : F.c = r0 := by rw [hF]
    have g2 : F.c0 = byteAt e.line s.ptr := by rw [hF]
    have g3 : F.mb_utf8 = false := by rw [hF]
    have g4 : F.n_skip = s.n_skip := by rw [hF]
    have g5 : F.n_attr = 4 := by rw [hF]
    have g6 : F.wlv.draw_state = s.wlv.draw_state := by rw [hF]
    have g7 : F.search_attr_from_match = s.search_attr_from_match := by rw [hF]
    have g8 : F.wlv.extra_attr = e.win_hl_attr HLF_8 := by rw [hF]
    have g9 : F.mb_c = r0 := by rw [hF]
    have g10 : F.wlv.off = s.wlv.off := by rw [hF]
    have g11 : F.wlv.n_extra = 3 := by rw [hF]
    have g12 : F.wlv.p_extra.rest = [r1, r2, r3] := by
      rw [hF]
      simp [CharPtr.rest, bytesFrom]
    have g13 : F.draw_color_col = s.draw_color_col := by rw [hF]
    have g14 : F.multi_attr = s.multi_attr := by rw [hF]
    have g15 : F.wlv.line_attr_lowprio = s.wlv.line_attr_lowprio := by rw [hF]
    clear hF
    have h0F : (0 : Int) = NUL := rfl
    obtain ⟨⟨x0, x1, x2, x3, x4, x5, x6, x7, x8, x9, x10, x11, x12, x13, x14, x15, x16, x17,
      x18, x19, x20, x21, x22, x23, x24, x25, hC⟩, hCa⟩ :=
      choose_tail_plain e F (by rw [g1, g2]; omega) (by rw [g1]; omega) (by rw [g1]; omega)
        (by rw [g1, ← h0F]; omega) g3 (by rw [g1]; exact hpr)
        (by rw [g4]; intro h; omega) hconc hprec
    rw [if_pos (by rw [g5, g6, g7, hm]; exact ⟨by omega, hd, by simp⟩), g8] at hCa
    generalize eol_hl_block e (lcs_prec_block e (extra_attr_combine e (cursor_wcol e (buf_unstick
      (conceal_block e (nonprint_block e (extra_check_block e F))))))) = C at hC hCa hext ⊢
    have c1 : C.c = r0 := by rw [hC]; exact g1
    have c2 : C.mb_c = r0 := by rw [hC]; exact g9
    have c3 : C.mb_utf8 = false := by rw [hC]; exact g3
    have c4 : C.n_skip ≤ 0 := by rw [hC]; show F.n_skip ≤ 0; rw [g4]; exact hn
    have c5 : C.wlv.draw_state = WL_LINE := by rw [hC]; show F.wlv.draw_state = _; rw [g6, hd]
    have c6 : C.wlv.off = s.wlv.off := by rw [hC]; exact g10
    have c7 : C.n_attr = 4 := by rw [hC]; exact g5
    have c8 : C.wlv.extra_attr = e.win_hl_attr HLF_8 := by rw [hC]; exact g8
    have c9 : C.wlv.n_extra = 3 := by rw [hC]; exact g11
    have c10 : C.wlv.p_extra.rest = [r1, r2, r3] := by rw [hC]; exact g12
    have c11 : C.draw_color_col = s.draw_color_col := by rw [hC]; exact g13
    have c12 : C.multi_attr = s.multi_attr := by rw [hC]; exact g14
    have c13 : C.wlv.line_attr_lowprio = s.wlv.line_attr_lowprio := by rw [hC]; exact g15
    clear hC
    have hS := iter_store_narrow e C c5 c4 (by rw [c2, hcells]; decide) hext
    refine ⟨c1, hCa, ?_, ?_, ?_, ?_, ?_, ?_, ?_, ?_⟩
    · rw [hS]
      simp [bufSet, c6, c3, c1]
    · rw [hS]
      simp [bufSet, c6]
    · intro hcuc hcc hma
      rw [stored_attr_plain e C c5 hext hcuc (by rw [c11]; exact hcc) (by rw [c12]; exact hma),
        c13, hCa]
    · rw [hS]
      simp [c7]
    · rw [hS]
      exact c8
    · rw [hS]
      exact c9
    · rw [hS]
      exact c10
    · rw [hS]
      exact c5

set_option maxRecDepth 100000 in
/-- The line "a", 0x80, "b": the pass that reaches the illegal byte stores `<`
with the attribute of `HLF_8`, and the row holds the run `<80>`; in a
right-to-left window the run is reversed. -/
theorem illegal_byte_escape_witness :
    byteAt Sample.env_illegal.line Sample.state_illegal_next.ptr = 0x80
    ∧ illegal_run Sample.env_illegal 0x80 = [60, 56, 48, 62]
    ∧ illegal_run Sample.env_illegal_rl 0x80 = [62, 48, 56, 60]
    ∧ (buf_fetch Sample.env_illegal Sample.state_illegal_next).wlv.p_extra.rest = [56, 48, 62]
    ∧ (buf_fetch Sample.env_illegal Sample.state_illegal_next).ptr
        = Sample.state_illegal_next.ptr + 1
    ∧ (iter_store Sample.env_illegal (iter_before_store Sample.env_illegal
        (choose_from_area Sample.env_illegal Sample.state_illegal_next))).linebuf_char
          Sample.state_illegal_next.wlv.off = schar_from_ascii 60
    ∧ stored_attr Sample.env_illegal
        (choose_from_area Sample.env_illegal Sample.state_illegal_next)
        = Sample.env_illegal.hl_combine_attr Sample.state_illegal_next.wlv.line_attr_lowprio
            (Sample.env_illegal.hl_combine_attr
              (extra_check_block Sample.env_illegal
                (buf_fetch Sample.env_illegal Sample.state_illegal_next)).wlv.char_attr
              (Sample.env_illegal.win_hl_attr HLF_8))
    ∧ (win_line_final Sample.env_illegal 20).map
          (fun s => (Sample.cells s.linebuf_char 6, (Sample.cells s.linebuf_attr 6).take 2))
        = some ([[97], [60], [56], [48], [62], [98]], [0, Sample.win_hl_attr HLF_8]) :=
  have h := illegal_byte_escape Sample.env_illegal Sample.state_illegal_next 60 56 48 62
    (by decide) (by decide) (by decide) (by decide) (by decide) (by decide) (by decide)
    (by decide) (by decide) (by decide) (by decide) (by decide)
  have h2 := h.2.1 (by decide) (by decide) (by decide) (by decide) (by decide) (by decide)
    (by decide) (by decide) (by decide)
  ⟨by decide, by decide, by decide, h.1.2.2.2.1, h.1.2.2.2.2.2.2.2.1, h2.2.2.1,
    h2.2.2.2.2.1 (by decide) (by decide) (by decide), by decide⟩

set_option maxRecDepth 100000 in
/-- C10 as stated does not hold: the byte 0x80 of the line "a\x80b" is an
illegal byte (decoded length 1) and is displayed as the escape run `<80>`, but
inside a linewise Visual selection the four cells of the run carry attribute 4,
the attribute of the selection, which is not a combination with attribute 1,
the attribute of `HLF_8`.  And in a right-to-left window the cells of the run,
in the order in which they are written (from column 8 down to column 5), hold
`>`, `0`, `8`, `<`. -/
theorem illegal_byte_counterexample :
    byteAt Sample.env_illegal_visual.line 1 = 0x80
    ∧ Sample.env_illegal_visual.utfc_ptr2len (bytesFrom Sample.env_illegal_visual.line 1) = 1
    ∧ (win_line_final Sample.env_illegal_visual 20).map
          (fun s => (Sample.cells s.linebuf_char 6, Sample.cells s.linebuf_attr 6))
        = some ([[97], [60], [56], [48], [62], [98]], [4, 4, 4, 4, 4, 4])
    ∧ Sample.env_illegal_visual.win_hl_attr HLF_8 = 1
    ∧ Sample.env_illegal_visual.win_hl_attr HLF_V = 4
    ∧ (∀ a, 0 ≤ a →
        Sample.env_illegal_visual.hl_combine_attr a
            (Sample.env_illegal_visual.win_hl_attr HLF_8) ≠ 4
        ∧ Sample.env_illegal_visual.hl_combine_attr
            (Sample.env_illegal_visual.win_hl_attr HLF_8) a ≠ 4)
    ∧ (win_line_final Sample.env_illegal_rl 20).map
          (fun s => (Sample.cells s.linebuf_char 10).reverse.take 6)
        = some [[97], [62], [48], [56], [60], [98]] := by
  refine ⟨by decide, by decide, by decide, by decide, by decide, ?_, by decide⟩
  intro a ha
  show Sample.hl_combine_attr a 1 ≠ 4 ∧ Sample.hl_combine_attr 1 a ≠ 4
  unfold Sample.hl_combine_attr
  constructor <;> split_ifs <;> omega

theorem area_start_stop_shape (e : Env) (s : LoopState) :
    ∃ x0 x1, area_start_stop e s = { s with area_active := x0, area_attr := x1 } := by
  unfold area_start_stop
  lift_lets
  repeat (first
    | (intro t
       have ht : ∃ x0 x1, (t : LoopState) = { s with area_active := x0, area_attr := x1 } := by
         simp only [t]
         repeat' split
         all_goals exact ⟨_, _, rfl⟩
       clear_value t
       obtain ⟨_, _, rfl⟩ := ht)
    | (intro t; fail_if_success (have _h : (t : LoopState) = t := rfl); try clear_value t)
    | intro t)
  repeat' split
  all_goals exact ⟨_, _, rfl⟩

theorem area_search_shape (e : Env) (s : LoopState) :
    ∃ x0 x1 x2 x3 x4 x5, area_search e s = { s with match_conc := x0, on_last_col := x1, search_attr := x2, search_attr_from_match := x3, v := x4, has_match_conc := x5 } := by
  unfold area_search
  lift_lets
  repeat (first
    | (intro t
       have ht : ∃ x0 x1 x2 x3 x4 x5, (t : LoopState) = { s with match_conc := x0, on_last_col := x1, search_attr := x2, search_attr_from_match := x3, v := x4, has_match_conc := x5 } := by
         simp only [t]
         repeat' split
         all_goals exact ⟨_, _, _, _, _, _, rfl⟩
       clear_value t
       obtain ⟨_, _, _, _, _, _, rfl⟩ := ht)
    | (intro t; fail_if_success (have _h : (t : LoopState) = t := rfl); try clear_value t)
    | intro t)
  repeat' split
  all_goals exact ⟨_, _, _, _, _, _, rfl⟩

theorem area_diff_shape (e : Env) (s : LoopState) :
    ∃ x0 x1, area_diff e s = { s with wlv.diff_hlf := x0, wlv.line_attr := x1 } := by
  unfold area_diff
  lift_lets
  repeat (first
    | (intro t
       have ht : ∃ x0 x1, (t : LoopState) = { s with wlv.diff_hlf := x0, wlv.line_attr := x1 } := by
         simp only [t]
         repeat' split
         all_goals exact ⟨_, _, rfl⟩
       clear_value t
       obtain ⟨_, _, rfl⟩ := ht)
    | (intro t; fail_if_success (have _h : (t : LoopState) = t := rfl); try clear_value t)
    | intro t)
  repeat' split
  all_goals exact ⟨_, _, rfl⟩

theorem decide_attr_shape (e : Env) (s : LoopState) :
    ∃ x0 x1, decide_attr e s = { s with attr_pri := x0, wlv.char_attr := x1 } := by
  unfold decide_attr
  lift_lets
  repeat (first
    | (intro t
       have ht : ∃ x0 x1, (t : LoopState) = { s with attr_pri := x0, wlv.char_attr := x1 } := by
         simp only [t]
         repeat' split
         all_goals exact ⟨_, _, rfl⟩
       clear_value t
       obtain ⟨_, _, rfl⟩ := ht)
    | (intro t; fail_if_success (have _h : (t : LoopState) = t := rfl); try clear_value t)
    | intro t)
  repeat' split
  all_goals exact ⟨_, _, rfl⟩

/-- The highlighting block changes the variables of the selection, search and
diff highlighting and the attribute only. -/
theorem area_block_shape (e : Env) (s : LoopState) :
    ∃ x0 x1 x2 x3 x4 x5 x6 x7 x8 x9 x10 x11, area_block e s
      = { s with area_active := x0, area_attr := x1, match_conc := x2, on_last_col := x3, search_attr := x4, search_attr_from_match := x5, v := x6, has_match_conc := x7, wlv.diff_hlf := x8, wlv.line_attr := x9, attr_pri := x10, wlv.char_attr := x11 } := by
  unfold area_block
  split
  · obtain ⟨_, _, h1⟩ := area_start_stop_shape e s
    rw [h1]
    obtain ⟨_, _, _, _, _, _, h2⟩ := area_search_shape e _
    rw [h2]
    obtain ⟨_, _, h3⟩ := area_diff_shape e _
    rw [h3]
    obtain ⟨_, _, h4⟩ := decide_attr_shape e _
    rw [h4]
    exact ⟨_, _, _, _, _, _, _, _, _, _, _, _, rfl⟩
  · exact ⟨_, _, _, _, _, _, _, _, _, _, _, _, rfl⟩

set_option maxHeartbeats 1000000 in
/-- The fetch of a double-width character of the buffer line in the last column
of a row: the character is the marker `>`, and the position is left on the
character. -/
theorem buf_fetch_wide_last (e : Env) (s : LoopState)
    (h9 : 1 < e.utfc_ptr2len (bytesFrom e.line s.ptr))
    (h11 : 0x80 ≤ (e.utfc_ptr2char (bytesFrom e.line s.ptr)).1)
    (h12 : e.utf_iscomposing (e.utfc_ptr2char (bytesFrom e.line s.ptr)).1 = false)
    (h13 : e.vim_isprintc (e.utfc_ptr2char (bytesFrom e.line s.ptr)).1 = true)
    (h14 : ARABIC_CHAR (e.utfc_ptr2char (bytesFrom e.line s.ptr)).1 = false)
    (h15 : e.utf_char2cells (e.utfc_ptr2char (bytesFrom e.line s.ptr)).1 = 2)
    (h16 : at_last_col e s = true) :
    buf_fetch e s
      = { s with
          c0 := byteAt e.line s.ptr,
          c := 62,
          mb_c := 62,
          mb_l := 1,
          mb_utf8 := false,
          u8cc := (e.utfc_ptr2char (bytesFrom e.line s.ptr)).2,
          prev_c := (e.utfc_ptr2char (bytesFrom e.line s.ptr)).1,
          multi_attr := e.win_hl_attr HLF_AT,
          did_decrement_ptr := true } := by
  have hmb0 : ¬ (e.utfc_ptr2char (bytesFrom e.line s.ptr)).1 < 128 := by omega
  have hmb1 : ¬ (e.utfc_ptr2char (bytesFrom e.line s.ptr)).1 = 0 := by omega
  have hl1 : ¬ e.utfc_ptr2len (bytesFrom e.line s.ptr) = 1 := by omega
  have hl0 : ¬ e.utfc_ptr2len (bytesFrom e.line s.ptr) = 0 := by omega
  by_cases hrl : e.wp.w_p_rl = true
  all_goals
    simp [at_last_col, hrl] at h16
    simp [buf_fetch, buf_decode, h9, hmb0, h12, buf_special, hmb1, h13, h14, hl1, hl0,
      buf_overflow, at_last_col, hrl, h16, h15, buf_left_filler, buf_advance]

/-- The pass up to "get the next character" stays at the place of the state at
the top of the loop, in the body phase without a closed fold. -/
theorem iter_to_area_place (e : Env) (s : LoopState) (hd : s.wlv.draw_state = WL_LINE)
    (hf : s.has_fold = false) :
    (gutter_phase e (iter_begin s)) = (iter_begin s, false)
    ∧ same_place s (area_block e (fold_truncate e (fold_fill e (fold_text e
        (cul_screenline_apply e (iter_begin s)))))) := by
  have hg : gutter_phase e (iter_begin s) = (iter_begin s, false) :=
    gutter_phase_line e (iter_begin s) hd
  refine ⟨hg, ?_⟩
  have hU := cul_screenline_apply_shape e (iter_begin s)
  generalize cul_screenline_apply e (iter_begin s) = U at hU
  have u1 : U.has_fold = false := by rw [hU]; exact hf
  have hff : fold_truncate e (fold_fill e (fold_text e U)) = U := by
    simp [fold_text, fold_fill, fold_truncate, u1]
  rw [hff]
  obtain ⟨x0, x1, x2, x3, x4, x5, x6, x7, x8, x9, x10, x11, hA⟩ := area_block_shape e U
  rw [hA, hU]
  exact ⟨rfl, rfl, rfl, rfl, rfl, rfl, rfl, rfl, rfl, rfl, rfl, rfl, rfl, rfl⟩

set_option maxRecDepth 100000 in
/-- The hypothesis `WideLast` holds with 'cursorline' set, that is
with area highlighting active. -/
theorem wide_at_last_cul :
    WideLast Sample.env_wide_cul Sample.state_wide_cul_head
    ∧ Sample.env_wide_cul.wp.w_p_cul = true := by
  decide

/-- The loop run for `k` passes that do not leave it and then for `n` more. -/
theorem loop_passes_loop (e : Env) (k : Nat) :
    ∀ (s s' : LoopState) (n : Nat), loop_passes e k s = some s' →
      win_line_loop e (k + n) s = win_line_loop e n s' := by
  induction k with
  | zero =>
    intro s s' n h
    simp only [loop_passes, Option.some.injEq] at h
    simp [h]
  | succ k ih =>
    intro s s' n h
    simp only [loop_passes] at h
    split at h
    · simp at h
    · rename_i h2
      rw [show k + 1 + n = (k + n) + 1 by omega]
      simp only [win_line_loop, h2]
      exact ih _ _ _ h

/-- The block "start highlighting / stop highlighting" in any state whose area
attribute is the one of the column before: when the cursor cell is not
excepted, no double-width character straddles `fromcol` and the row is not a
continuation of a selection, the area attribute after the block is the one of
the current column. -/
theorem area_start_stop_at (e : Env) (u : LoopState)
    (hni : u.noinvcur = false)
    (hw : ¬ (u.wlv.vcol + 1 = u.wlv.fromcol ∧ u.wlv.n_extra = 0
        ∧ e.utf_ptr2cells (bytesFrom e.line u.ptr) > 1))
    (hpv : ¬ (u.vcol_prev = u.fromcol_prev ∧ u.vcol_prev < u.wlv.vcol
        ∧ u.wlv.vcol < u.wlv.tocol))
    (hft : u.wlv.fromcol < u.wlv.tocol)
    (ha : u.area_attr = area_at u (u.wlv.vcol - 1)) :
    (area_start_stop e u).area_attr = area_at u u.wlv.vcol := by
  unfold area_start_stop
  by_cases hon : u.wlv.vcol = u.wlv.fromcol
  · rw [if_pos (Or.inl hon)]
    show u.vi_attr = _
    unfold area_at
    rw [if_pos ⟨by omega, by omega⟩]
  · have hn1 : ¬ (u.wlv.vcol = u.wlv.fromcol
        ∨ (u.wlv.vcol + 1 = u.wlv.fromcol ∧ u.wlv.n_extra = 0
            ∧ e.utf_ptr2cells (bytesFrom e.line u.ptr) > 1)
        ∨ (u.vcol_prev = u.fromcol_prev ∧ u.vcol_prev < u.wlv.vcol
            ∧ u.wlv.vcol < u.wlv.tocol)) := by
      rintro (h | h | h)
      · exact hon h
      · exact hw h
      · exact hpv h
    rw [if_neg hn1]
    by_cases hoff : u.area_attr ≠ 0 ∧ u.wlv.vcol = u.wlv.tocol
    · rw [if_pos ⟨hoff.1, Or.inl hoff.2⟩]
      show (0 : Int) = _
      unfold area_at
      rw [if_neg (by omega)]
    · have hn2 : ¬ (u.area_attr ≠ 0
          ∧ (u.wlv.vcol = u.wlv.tocol ∨ (u.noinvcur = true ∧ u.wlv.vcol = e.wp.w_virtcol))) := by
        rintro ⟨h1, h2 | h2⟩
        · exact hoff ⟨h1, h2⟩
        · rw [hni] at h2
          exact absurd h2.1 (by decide)
      rw [if_neg hn2, ha]
      unfold area_at at ha ⊢
      by_cases hin : u.wlv.fromcol ≤ u.wlv.vcol - 1 ∧ u.wlv.vcol - 1 < u.wlv.tocol
      · rw [if_pos hin] at ha ⊢
        by_cases hz : u.vi_attr = 0
        · rw [hz]; split <;> rfl
        · have : u.wlv.vcol ≠ u.wlv.tocol := fun h => hoff ⟨by rw [ha]; exact hz, h⟩
          rw [if_pos ⟨by omega, by omega⟩]
      · rw [if_neg hin, if_neg (by omega)]

/-- The attribute decided for a cell inside the selection: the area attribute
on top of the line attribute, and the search attribute underneath unless an
incremental-search match is shown. -/
theorem decide_attr_area (e : Env) (u : LoopState) (h : u.area_attr ≠ 0) :
    (decide_attr e u).wlv.char_attr
      = (if e.highlight_match then e.hl_combine_attr u.wlv.line_attr u.area_attr
         else e.hl_combine_attr u.search_attr (e.hl_combine_attr u.wlv.line_attr u.area_attr)) := by
  unfold decide_attr
  by_cases hm : e.highlight_match = true <;> simp [h, hm]
end Drawline

namespace Fileio

theorem u8_lt (c : Nat) : u8 c < 256 := Nat.mod_lt _ (by decide)

/-- Claim C23: the value returned by `ucs2bytes` and the bytes it stores. -/
theorem ucs2bytes_error (c : Nat) (flags : Int) :
    (band flags FIO_UCS4 = true → (ucs2bytes c flags).2 = false)
    ∧ (band flags FIO_UCS4 = false → band flags (Int.lor FIO_UCS2 FIO_UTF16) = true →
        band flags FIO_UTF16 = false → ((ucs2bytes c flags).2 = true ↔ c ≥ 0x10000))
    ∧ (band flags FIO_UCS4 = false → band flags (Int.lor FIO_UCS2 FIO_UTF16) = false →
        ((ucs2bytes c flags).2 = true ↔ c ≥ 0x100))
    ∧ (band flags FIO_UCS4 = false → band flags (Int.lor FIO_UCS2 FIO_UTF16) = true →
        band flags FIO_UTF16 = true → c ≥ 0x10000 →
        ((ucs2bytes c flags).2 = true ↔ c ≥ 0x110000)
        ∧ ((ucs2bytes c flags).2 = false →
            ∃ w1 w2 : Nat,
              0xd800 ≤ w1 ∧ w1 ≤ 0xdbff ∧ 0xdc00 ≤ w2 ∧ w2 ≤ 0xdfff
              ∧ (w1 - 0xd800) * 0x400 + (w2 - 0xdc00) + 0x10000 = c
              ∧ (ucs2bytes c flags).1
                  = (if band flags FIO_ENDIAN_L then [w1 % 256, w1 / 256, w2 % 256, w2 / 256]
                     else [w1 / 256, w1 % 256, w2 / 256, w2 % 256])
              ∧ (ucs2bytes c flags).1.length = 4)) := by
  refine ⟨?_, ?_, ?_, ?_⟩
  · intro h4
    unfold ucs2bytes
    rw [if_pos h4]
    split <;> rfl
  · intro h4 h2 h16
    unfold ucs2bytes
    simp only [h4, h2, h16, Bool.false_eq_true, if_false, if_true]
    by_cases h : c ≥ 0x10000
    · simp [h]
    · simp [h]
  · intro h4 h2
    unfold ucs2bytes
    simp only [h4, h2, Bool.false_eq_true, if_false]
    by_cases h : c ≥ 0x100
    · simp [h]
    · simp [h]
  · intro h4 h2 h16 h
    have ha : ∀ x : Nat, x &&& 0x3ff = x % 1024 := fun x => Nat.and_pow_two_sub_one_eq_mod x 10
    have hs : ∀ x : Nat, x >>> 10 = x / 1024 := fun x => Nat.shiftRight_eq_div_pow x 10
    have hs8 : ∀ x : Nat, x >>> 8 = x / 256 := fun x => Nat.shiftRight_eq_div_pow x 8
    unfold ucs2bytes
    rw [if_neg (by rw [h4]; decide), if_pos h2, if_pos h, if_pos h16]
    simp only [ha, hs, hs8, u8]
    refine ⟨?_, ?_⟩
    · simp only [decide_eq_true_eq]
      omega
    · intro he
      simp only [decide_eq_false_iff_not] at he
      refine ⟨(c - 0x10000) / 1024 % 1024 + 0xd800, (c - 0x10000) % 1024 + 0xdc00, ?_, ?_, ?_, ?_, ?_,
        ?_, ?_⟩
      · omega
      · omega
      · omega
      · omega
      · omega
      · have e1 : ((c - 0x10000) / 1024 % 1024 + 0xd800) / 256 % 256
            = ((c - 0x10000) / 1024 % 1024 + 0xd800) / 256 := Nat.mod_eq_of_lt (by omega)
        have e2 : ((c - 0x10000) % 1024 + 0xdc00) / 256 % 256
            = ((c - 0x10000) % 1024 + 0xdc00) / 256 := Nat.mod_eq_of_lt (by omega)
        rw [e1, e2]
        by_cases hl : band flags FIO_ENDIAN_L = true
        · rw [if_pos hl, if_pos hl, if_pos hl]
          rfl
        · rw [if_neg hl, if_neg hl, if_neg hl]
          rfl
      · by_cases hl : band flags FIO_ENDIAN_L = true
        · rw [if_pos hl, if_pos hl]
          rfl
        · rw [if_neg hl, if_neg hl]
          rfl

/-- The character U+1F600 in UTF-16: no error, the words 0xd83d 0xde00, high
byte first without `FIO_ENDIAN_L` and low byte first with it; in UCS-2 and in
Latin1 it is an error, in UCS-4 it is not. -/
theorem ucs2bytes_error_witness :
    ucs2bytes 0x1F600 FIO_UTF16 = ([0xd8, 0x3d, 0xde, 0x00], false)
    ∧ ucs2bytes 0x1F600 (Int.lor FIO_UTF16 FIO_ENDIAN_L) = ([0x3d, 0xd8, 0x00, 0xde], false)
    ∧ (ucs2bytes 0x110000 FIO_UTF16).2 = true
    ∧ (ucs2bytes 0x1F600 FIO_UCS2).2 = true
    ∧ (ucs2bytes 0x1F600 FIO_LATIN1).2 = true
    ∧ ucs2bytes 0x1F600 FIO_UCS4 = ([0x00, 0x01, 0xf6, 0x00], false)
    ∧ ((ucs2bytes 0x1F600 FIO_UTF16).2 = true ↔ 0x1F600 ≥ 0x110000) :=
  ⟨by decide, by decide, by decide, by decide, by decide, by decide,
    ((ucs2bytes_error 0x1F600 FIO_UTF16).2.2.2 (by decide) (by decide) (by decide)
      (by decide)).1⟩

/-- The nine values of `get_fio_flags`. -/
theorem get_fio_flags_cases (E : EncEnv) (name : String) :
    get_fio_flags E name = FIO_LATIN1 ∨ get_fio_flags E name = 0
    ∨ get_fio_flags E name = FIO_UTF8
    ∨ get_fio_flags E name = FIO_UCS2 ∨ get_fio_flags E name = Int.lor FIO_UCS2 FIO_ENDIAN_L
    ∨ get_fio_flags E name = FIO_UCS4 ∨ get_fio_flags E name = Int.lor FIO_UCS4 FIO_ENDIAN_L
    ∨ get_fio_flags E name = FIO_UTF16
    ∨ get_fio_flags E name = Int.lor FIO_UTF16 FIO_ENDIAN_L := by
  unfold get_fio_flags
  simp only []
  repeat' split
  all_goals simp

/-- The BOM made for the flags `f` and what `check_for_bom` finds in it. -/
theorem make_bom_flags (E : EncEnv) (name : String) :
    make_bom E name
      = (if get_fio_flags E name = FIO_LATIN1 ∨ get_fio_flags E name = 0 then ([], 0)
         else if get_fio_flags E name = FIO_UTF8 then ([0xef, 0xbb, 0xbf], 3)
         else ((ucs2bytes 0xfeff (get_fio_flags E name)).1,
               ((ucs2bytes 0xfeff (get_fio_flags E name)).1.length : Int))) := rfl

/-- Claim C28: the BOM that `make_bom` generates for an encoding is recognised
by `check_for_bom` called on these bytes with their number as the size and
with the flags of the encoding.  For an encoding whose flags are those of
Latin1 or 0 (not Unicode), `make_bom` returns the length 0.  For every other
encoding (its flags are those of UTF-8, UCS-2, UCS-4 or UTF-16, big or little
endian) `check_for_bom` returns a name and stores the length of the BOM in
`*lenp`, and when `enc_canon_props` gives the names "utf-8", "ucs-2",
"ucs-2le", "ucs-4", "ucs-4le", "utf-16" and "utf-16le" their properties, the
flags of the name returned are the flags of the encoding. -/
theorem bom_round_trip (E : EncEnv) (name : String) :
    ((get_fio_flags E name = FIO_LATIN1 ∨ get_fio_flags E name = 0) →
      (make_bom E name).2 = 0)
    ∧ (¬ (get_fio_flags E name = FIO_LATIN1 ∨ get_fio_flags E name = 0) →
      ∃ nm, check_for_bom (make_bom E name).1 (make_bom E name).2 (get_fio_flags E name)
          = (some nm, (make_bom E name).2)
        ∧ ((make_bom E name).1.length : Int) = (make_bom E name).2
        ∧ (CanonProps E → get_fio_flags E nm = get_fio_flags E name)) := by
  rw [make_bom_flags]
  refine ⟨fun h => by rw [if_pos h], fun h => ?_⟩
  rw [if_neg h]
  have hc := get_fio_flags_cases E name
  generalize get_fio_flags E name = f at h hc
  have hflags : ∀ nm pr, nm ≠ "" → E.enc_canon_props nm = pr →
      get_fio_flags E nm = get_fio_flags ⟨fun _ => pr, ""⟩ "x" := by
    intro nm pr hne hp
    simp [get_fio_flags, hne, hp]
  rcases hc with hc | hc | hc | hc | hc | hc | hc | hc | hc
  · exact absurd (Or.inl hc) h
  · exact absurd (Or.inr hc) h
  · subst hc
    exact ⟨"utf-8", by decide, by decide,
      fun hp => (hflags _ _ (by decide) hp.1).trans (by decide)⟩
  · subst hc
    exact ⟨"ucs-2", by decide, by decide,
      fun hp => (hflags _ _ (by decide) hp.2.1).trans (by decide)⟩
  · subst hc
    exact ⟨"ucs-2le", by decide, by decide,
      fun hp => (hflags _ _ (by decide) hp.2.2.1).trans (by decide)⟩
  · subst hc
    exact ⟨"ucs-4", by decide, by decide,
      fun hp => (hflags _ _ (by decide) hp.2.2.2.1).trans (by decide)⟩
  · subst hc
    exact ⟨"ucs-4le", by decide, by decide,
      fun hp => (hflags _ _ (by decide) hp.2.2.2.2.1).trans (by decide)⟩
  · subst hc
    exact ⟨"utf-16", by decide, by decide,
      fun hp => (hflags _ _ (by decide) hp.2.2.2.2.2.1).trans (by decide)⟩
  · subst hc
    exact ⟨"utf-16le", by decide, by decide,
      fun hp => (hflags _ _ (by decide) hp.2.2.2.2.2.2).trans (by decide)⟩

/-- The BOM of "utf-16le" is FF FE, and `check_for_bom` finds "utf-16le" in it
with the flags of UTF-16 little endian; "latin1" gets no BOM. -/
theorem bom_round_trip_witness :
    make_bom Sample.enc_env "utf-16le" = ([0xff, 0xfe], 2)
    ∧ get_fio_flags Sample.enc_env "utf-16le" = Int.lor FIO_UTF16 FIO_ENDIAN_L
    ∧ check_for_bom [0xff, 0xfe] 2 (Int.lor FIO_UTF16 FIO_ENDIAN_L) = (some "utf-16le", 2)
    ∧ make_bom Sample.enc_env "ucs-4" = ([0, 0, 0xfe, 0xff], 4)
    ∧ check_for_bom [0, 0, 0xfe, 0xff] 4 FIO_UCS4 = (some "ucs-4", 4)
    ∧ (make_bom Sample.enc_env "latin1").2 = 0
    ∧ ∃ nm, check_for_bom (make_bom Sample.enc_env "ucs-2le").1
          (make_bom Sample.enc_env "ucs-2le").2 (get_fio_flags Sample.enc_env "ucs-2le")
          = (some nm, (make_bom Sample.enc_env "ucs-2le").2)
        ∧ ((make_bom Sample.enc_env "ucs-2le").1.length : Int)
            = (make_bom Sample.enc_env "ucs-2le").2
        ∧ (CanonProps Sample.enc_env →
            get_fio_flags Sample.enc_env nm = get_fio_flags Sample.enc_env "ucs-2le") :=
  ⟨by decide, by decide, by decide, by decide, by decide, by decide,
    (bom_round_trip Sample.enc_env "ucs-2le").2 (by decide)⟩

theorem byteAt_ne_zero (mem : List Nat) (i : Nat) (h : byteAt mem i ≠ 0) : i < mem.length := by
  by_contra hc
  apply h
  unfold byteAt
  simp [List.getD, List.getElem?_eq_none (Nat.le_of_not_lt hc)]

theorem takeWhile_length_le {α : Type} (p : α → Bool) (l : List α) :
    (l.takeWhile p).length ≤ l.length :=
  (List.takeWhile_sublist p).length_le

theorem pat_sep_iff (E : PatEnv) (nb : Bool) (c : Nat) :
    pat_sep E nb c = true ↔
      (E.BACKSLASH_IN_FILENAME = true ∧ ¬ nb = true
        ∧ ((E.vim_isfilec c = true ∨ c = 42 ∨ c = 63) ∧ c ≠ 43)) := by
  simp [pat_sep, and_assoc, or_assoc]

theorem pat_size_of_pos (E : PatEnv) (c : Nat) : 1 ≤ pat_size_of E c := by
  unfold pat_size_of
  split_ifs <;> omega

theorem pat_size_of_two (E : PatEnv) (c : Nat)
    (h : c = 42 ∨ c = 46 ∨ c = 44 ∨ c = 123 ∨ c = 125 ∨ c = 126) : pat_size_of E c = 2 := by
  unfold pat_size_of
  rw [if_pos h]

theorem pat_size_of_four (E : PatEnv) (c : Nat) (hb : E.BACKSLASH_IN_FILENAME = true)
    (h : c = 92 ∨ c = 47) : pat_size_of E c = 4 := by
  unfold pat_size_of
  rw [if_neg (by omega), if_pos ⟨hb, h⟩]

theorem pat_rest_lt (E : PatEnv) (mem : List Nat) (pe p : Nat) (h : p < pe) :
    pat_rest E mem pe p = pat_size_of E (byteAt mem p) + pat_rest E mem pe (p + 1) := by
  unfold pat_rest
  rw [List.drop_eq_getElem_cons (by simpa using h)]
  simp

theorem pat_rest_anti (E : PatEnv) (mem : List Nat) (pe p : Nat) :
    ∀ n : Nat, pat_rest E mem pe (p + n) ≤ pat_rest E mem pe p
  | 0 => Nat.le_refl _
  | n + 1 => by
    have ih := pat_rest_anti E mem pe p n
    by_cases h : p + n < pe
    · have := pat_rest_lt E mem pe (p + n) h
      rw [← Nat.add_assoc]
      omega
    · have : pat_rest E mem pe (p + (n + 1)) = 0 := by
        unfold pat_rest
        rw [List.drop_eq_nil_of_le (by simp; omega)]
        rfl
      omega

theorem pat_rest_two (E : PatEnv) (mem : List Nat) (pe p n : Nat) (h : p < pe) :
    pat_rest E mem pe (p + 1 + n) + pat_size_of E (byteAt mem p) ≤ pat_rest E mem pe p := by
  have h1 := pat_rest_lt E mem pe p h
  have h2 := pat_rest_anti E mem pe (p + 1) n
  omega

theorem pat_body_star (E : PatEnv) (mem : List Nat) (nb ad : Bool) (s : PatState)
    (hc : byteAt mem s.p = 42) :
    pat_body E mem nb ad s =
      { s with reg_pat := s.reg_pat ++ [46, 42],
               p := s.p + ((mem.drop (s.p + 1)).takeWhile (fun b => b = 42)).length + 1 } := by
  unfold pat_body
  simp only []
  rw [if_pos hc]

theorem pat_body_open (E : PatEnv) (mem : List Nat) (nb ad : Bool) (s : PatState)
    (hc : byteAt mem s.p = 123) :
    pat_body E mem nb ad s =
      { s with reg_pat := s.reg_pat ++ [92, 40], nested := s.nested + 1, p := s.p + 1 } := by
  unfold pat_body
  simp only []
  rw [if_neg (by omega), if_neg (by omega), if_neg (by omega), if_neg (by omega),
    if_neg (by omega), if_pos hc]

theorem pat_body_close (E : PatEnv) (mem : List Nat) (nb ad : Bool) (s : PatState)
    (hc : byteAt mem s.p = 125) :
    pat_body E mem nb ad s =
      { s with reg_pat := s.reg_pat ++ [92, 41], nested := s.nested - 1, p := s.p + 1 } := by
  unfold pat_body
  simp only []
  rw [if_neg (by omega), if_neg (by omega), if_neg (by omega), if_neg (by omega),
    if_neg (by omega), if_neg (by omega), if_pos hc]

/-- A byte that is no star, backslash or brace: `nested` stays, `p` moves by
one, and no more bytes are stored than the first loop has counted. -/
theorem pat_body_plain (E : PatEnv) (mem : List Nat) (nb ad : Bool) (s : PatState)
    (h1 : byteAt mem s.p ≠ 42) (h2 : byteAt mem s.p ≠ 92) (h3 : byteAt mem s.p ≠ 123)
    (h4 : byteAt mem s.p ≠ 125) :
    (pat_body E mem nb ad s).nested = s.nested ∧ (pat_body E mem nb ad s).p = s.p + 1
    ∧ (pat_body E mem nb ad s).reg_pat.length
        ≤ s.reg_pat.length + pat_size_of E (byteAt mem s.p) := by
  generalize hb : pat_body E mem nb ad s = t
  unfold pat_body at hb
  simp only [] at hb
  rw [if_neg h1] at hb
  by_cases c2 : byteAt mem s.p = 46 ∨ byteAt mem s.p = 126
  · rw [if_pos c2] at hb
    subst hb
    have := pat_size_of_two E (byteAt mem s.p) (by omega)
    refine ⟨rfl, rfl, ?_⟩
    simp only [List.length_append, List.length_cons, List.length_nil]
    omega
  rw [if_neg c2] at hb
  have hpos := pat_size_of_pos E (byteAt mem s.p)
  by_cases c3 : byteAt mem s.p = 63
  · rw [if_pos c3] at hb
    subst hb
    refine ⟨rfl, rfl, ?_⟩
    simp only [List.length_append, List.length_cons, List.length_nil]
    omega
  rw [if_neg c3, if_neg h2] at hb
  by_cases c5 : E.BACKSLASH_IN_FILENAME = true ∧ byteAt mem s.p = 47
  · rw [if_pos c5] at hb
    subst hb
    have := pat_size_of_four E (byteAt mem s.p) c5.1 (Or.inr c5.2)
    refine ⟨rfl, rfl, ?_⟩
    simp only [List.length_append, List.length_cons, List.length_nil]
    omega
  rw [if_neg c5, if_neg h3, if_neg h4] at hb
  by_cases c6 : byteAt mem s.p = 44
  · rw [if_pos c6] at hb
    have := pat_size_of_two E (byteAt mem s.p) (by omega)
    by_cases c7 : s.nested ≠ 0
    · rw [if_pos c7] at hb
      subst hb
      refine ⟨rfl, rfl, ?_⟩
      simp only [List.length_append, List.length_cons, List.length_nil]
      omega
    · rw [if_neg c7] at hb
      subst hb
      refine ⟨rfl, rfl, ?_⟩
      simp only [List.length_append, List.length_cons, List.length_nil]
      omega
  rw [if_neg c6] at hb
  subst hb
  refine ⟨rfl, rfl, ?_⟩
  simp only [List.length_append, List.length_cons, List.length_nil]
  omega

/-- A backslash before the NUL: nothing is stored. -/
theorem pat_body_bslash_nul (E : PatEnv) (mem : List Nat) (nb ad : Bool) (s : PatState)
    (hc : byteAt mem s.p = 92) (hn : byteAt mem (s.p + 1) = 0) :
    pat_body E mem nb ad s = { s with p := s.p + 1 } := by
  unfold pat_body
  simp only []
  rw [if_neg (by omega), if_neg (by omega), if_neg (by omega), if_pos hc, if_pos hn]

/-- A backslash that is taken as a path separator. -/
theorem pat_body_bslash_sep (E : PatEnv) (mem : List Nat) (nb ad : Bool) (s : PatState)
    (hc : byteAt mem s.p = 92) (hn : byteAt mem (s.p + 1) ≠ 0)
    (hs : pat_sep E nb (byteAt mem (s.p + 1)) = true) :
    pat_body E mem nb ad s =
      { s with reg_pat := s.reg_pat ++ [91, 92, 47, 93],
               allow_dirs := if ad then true else s.allow_dirs,
               p := s.p + 1 } := by
  unfold pat_body
  simp only []
  rw [if_neg (by omega), if_neg (by omega), if_neg (by omega), if_pos hc, if_neg hn,
    if_pos ((pat_sep_iff E nb _).mp hs)]

/-- A backslash that escapes the byte after it: `nested` stays, `p` moves
past the escaped byte (past four bytes for a backslash before `\\{`), and at
most two bytes are stored, one when the escaped byte is one of those stored as
a single byte. -/
theorem pat_body_bslash_esc (E : PatEnv) (mem : List Nat) (nb ad : Bool) (s : PatState)
    (hc : byteAt mem s.p = 92) (hn : byteAt mem (s.p + 1) ≠ 0)
    (hs : pat_sep E nb (byteAt mem (s.p + 1)) = false) :
    (pat_body E mem nb ad s).nested = s.nested
    ∧ ((pat_body E mem nb ad s).p = s.p + 2
       ∨ ((pat_body E mem nb ad s).p = s.p + 4 ∧ byteAt mem (s.p + 1) = 92
          ∧ byteAt mem (s.p + 2) = 92 ∧ byteAt mem (s.p + 3) = 123))
    ∧ (pat_body E mem nb ad s).reg_pat.length ≤ s.reg_pat.length + 2
    ∧ (pat_end_single E (byteAt mem (s.p + 1)) →
        (pat_body E mem nb ad s).reg_pat.length ≤ s.reg_pat.length + 1) := by
  generalize hb : pat_body E mem nb ad s = t
  unfold pat_body at hb
  simp only [] at hb
  rw [if_neg (by omega), if_neg (by omega), if_neg (by omega), if_pos hc, if_neg hn,
    if_neg (fun h => by rw [(pat_sep_iff E nb _).mpr h] at hs; cases hs)] at hb
  by_cases c1 : byteAt mem (s.p + 1) = 63 ∧ (¬ E.BACKSLASH_IN_FILENAME = true ∨ nb = true)
  · rw [if_pos c1] at hb
    subst hb
    refine ⟨rfl, Or.inl rfl, ?_, fun _ => ?_⟩ <;>
      simp only [List.length_append, List.length_cons, List.length_nil] <;> omega
  rw [if_neg c1] at hb
  by_cases c2 : byteAt mem (s.p + 1) = 44 ∨ byteAt mem (s.p + 1) = 37 ∨ byteAt mem (s.p + 1) = 35
      ∨ E.ascii_isspace (byteAt mem (s.p + 1)) = true ∨ byteAt mem (s.p + 1) = 123
      ∨ byteAt mem (s.p + 1) = 125
  · rw [if_pos c2] at hb
    subst hb
    refine ⟨rfl, Or.inl rfl, ?_, fun _ => ?_⟩ <;>
      simp only [List.length_append, List.length_cons, List.length_nil] <;> omega
  rw [if_neg c2] at hb
  have hsingle : ¬ pat_end_single E (byteAt mem (s.p + 1)) := by
    intro h
    rcases h with h | h | h | h | h | h | h | h
    · exact hn h
    · apply c1
      refine ⟨h, ?_⟩
      by_contra hcon
      have hb1 : E.BACKSLASH_IN_FILENAME = true := by
        by_contra h1; exact hcon (Or.inl h1)
      have hb2 : nb = false := by
        cases nb with
        | false => rfl
        | true => exact absurd (Or.inr rfl) hcon
      rw [h] at hs
      simp [pat_sep, hb1, hb2] at hs
    · exact c2 (Or.inl h)
    · exact c2 (Or.inr (Or.inl h))
    · exact c2 (Or.inr (Or.inr (Or.inl h)))
    · exact c2 (Or.inr (Or.inr (Or.inr (Or.inl h))))
    · exact c2 (Or.inr (Or.inr (Or.inr (Or.inr (Or.inl h)))))
    · exact c2 (Or.inr (Or.inr (Or.inr (Or.inr (Or.inr h)))))
  by_cases c3 : byteAt mem (s.p + 1) = 92 ∧ byteAt mem (s.p + 1 + 1) = 92
      ∧ byteAt mem (s.p + 1 + 2) = 123
  · rw [if_pos c3] at hb
    subst hb
    refine ⟨rfl, Or.inr ⟨rfl, c3.1, c3.2.1, c3.2.2⟩, ?_, fun h => absurd h hsingle⟩
    simp only [List.length_append, List.length_cons, List.length_nil]
    omega
  rw [if_neg c3] at hb
  subst hb
  refine ⟨rfl, Or.inl rfl, ?_, fun h => absurd h hsingle⟩
  simp only [List.length_append, List.length_cons, List.length_nil]
  omega

/-- A pass of the second loop moves `p` forward, not past the NUL, and stores
no more bytes than the first loop has counted for the bytes it passes. -/
theorem pat_body_bound (E : PatEnv) (mem : List Nat) (nb ad : Bool) (s : PatState) (pe : Nat)
    (hp : s.p < pe) (hz : byteAt mem s.p ≠ 0)
    (hsafe : E.BACKSLASH_IN_FILENAME = true ∨ pat_end_single E (byteAt mem pe)) :
    (pat_body E mem nb ad s).reg_pat.length + pat_rest E mem pe (pat_body E mem nb ad s).p
      ≤ s.reg_pat.length + pat_rest E mem pe s.p
    ∧ s.p < (pat_body E mem nb ad s).p ∧ (pat_body E mem nb ad s).p ≤ mem.length := by
  have hlen := byteAt_ne_zero mem s.p hz
  have h1 := pat_rest_lt E mem pe s.p hp
  have hpos := pat_size_of_pos E (byteAt mem s.p)
  have ha1 := pat_rest_anti E mem pe (s.p + 1)
  by_cases c1 : byteAt mem s.p = 42
  · rw [pat_body_star E mem nb ad s c1]
    simp only [List.length_append, List.length_cons, List.length_nil]
    have h2 := pat_size_of_two E _ (Or.inl c1)
    have h3 := ha1 ((mem.drop (s.p + 1)).takeWhile (fun b => b = 42)).length
    have h4 : ((mem.drop (s.p + 1)).takeWhile (fun b => decide (b = 42))).length
        ≤ mem.length - (s.p + 1) := by
      have := takeWhile_length_le (fun b => decide (b = 42)) (mem.drop (s.p + 1))
      simpa using this
    rw [show s.p + ((mem.drop (s.p + 1)).takeWhile (fun b => decide (b = 42))).length + 1
      = s.p + 1 + ((mem.drop (s.p + 1)).takeWhile (fun b => decide (b = 42))).length by omega]
    omega
  by_cases c2 : byteAt mem s.p = 123
  · rw [pat_body_open E mem nb ad s c2]
    simp only [List.length_append, List.length_cons, List.length_nil]
    have h2 := pat_size_of_two E (byteAt mem s.p) (by omega)
    omega
  by_cases c3 : byteAt mem s.p = 125
  · rw [pat_body_close E mem nb ad s c3]
    simp only [List.length_append, List.length_cons, List.length_nil]
    have h2 := pat_size_of_two E (byteAt mem s.p) (by omega)
    omega
  by_cases c4 : byteAt mem s.p = 92
  · by_cases c5 : byteAt mem (s.p + 1) = 0
    · rw [pat_body_bslash_nul E mem nb ad s c4 c5]
      simp only []
      omega
    have hlen1 := byteAt_ne_zero mem (s.p + 1) c5
    cases c6 : pat_sep E nb (byteAt mem (s.p + 1)) with
    | true =>
      rw [pat_body_bslash_sep E mem nb ad s c4 c5 c6]
      simp only [List.length_append, List.length_cons, List.length_nil]
      have hb : E.BACKSLASH_IN_FILENAME = true := by
        simp only [pat_sep, Bool.and_eq_true] at c6
        exact c6.1.1
      have h2 := pat_size_of_four E (byteAt mem s.p) hb (Or.inl c4)
      omega
    | false =>
      obtain ⟨-, e2, e3, e4⟩ := pat_body_bslash_esc E mem nb ad s c4 c5 c6
      have h5 := ha1 1
      have h6 := ha1 3
      have hcost : (pat_body E mem nb ad s).reg_pat.length + pat_rest E mem pe (s.p + 1 + 1)
          ≤ s.reg_pat.length + pat_rest E mem pe s.p := by
        by_cases hin : s.p + 1 < pe
        · have h7 := pat_rest_lt E mem pe (s.p + 1) hin
          have h8 := pat_size_of_pos E (byteAt mem (s.p + 1))
          omega
        · have hpe : s.p + 1 = pe := by omega
          rcases hsafe with hb | hsingle
          · have h2 := pat_size_of_four E (byteAt mem s.p) hb (Or.inl c4)
            omega
          · rw [← hpe] at hsingle
            have := e4 hsingle
            omega
      rcases e2 with e2 | ⟨e2, -, -, e5⟩
      · rw [e2]
        refine ⟨?_, by omega, by omega⟩
        exact hcost
      · rw [e2]
        have hlen3 := byteAt_ne_zero mem (s.p + 3) (by rw [e5]; decide)
        refine ⟨?_, by omega, by omega⟩
        have h9 := pat_rest_anti E mem pe (s.p + 1 + 1) 2
        have : s.p + 4 = s.p + 1 + 1 + 2 := by omega
        rw [this]
        omega
  obtain ⟨-, e2, e3⟩ := pat_body_plain E mem nb ad s c1 c4 c2 c3
  rw [e2]
  refine ⟨?_, by omega, by omega⟩
  omega
/-- The second loop comes to its end and stores no more bytes than the first
loop has counted for the bytes it passes. -/
theorem pat_loop_bound (E : PatEnv) (mem : List Nat) (nb ad : Bool) (endp pe : Nat)
    (hendp : endp < pe)
    (hsafe : E.BACKSLASH_IN_FILENAME = true ∨ pat_end_single E (byteAt mem pe)) :
    ∀ (fuel : Nat) (s : PatState), mem.length + 1 ≤ fuel + s.p → s.p ≤ mem.length →
    ∃ t, pat_loop E mem nb ad endp fuel s = some t
      ∧ t.reg_pat.length + pat_rest E mem pe t.p ≤ s.reg_pat.length + pat_rest E mem pe s.p
  | 0, s, hf, hp => by omega
  | fuel + 1, s, hf, hp => by
    rw [pat_loop]
    by_cases hc : byteAt mem s.p ≠ 0 ∧ s.nested ≥ 0 ∧ s.p ≤ endp
    · rw [if_pos hc]
      obtain ⟨b1, b2, b3⟩ := pat_body_bound E mem nb ad s pe (by omega) hc.1 hsafe
      obtain ⟨t, h1, h2⟩ := pat_loop_bound E mem nb ad endp pe hendp hsafe fuel
        (pat_body E mem nb ad s) (by omega) b3
      exact ⟨t, h1, by omega⟩
    · rw [if_neg hc]
      exact ⟨s, rfl, Nat.le_refl _⟩

theorem pat_trim_le (mem : List Nat) (pat : Nat) : ∀ e : Nat, pat_trim mem pat e ≤ e
  | 0 => Nat.le_refl _
  | e + 1 => by
    rw [pat_trim]
    split
    · exact Nat.le_succ_of_le (pat_trim_le mem pat e)
    · exact Nat.le_refl _

theorem byteAt_strlen (mem : List Nat) :
    byteAt mem (mem.takeWhile (fun b => b ≠ 0)).length = 0 := by
  induction mem with
  | nil => rfl
  | cons a l ih =>
    by_cases h : a = 0
    · subst h
      simp [byteAt]
    · rw [List.takeWhile_cons_of_pos (by simpa using h)]
      simpa [byteAt] using ih

theorem pat_size_eq (E : PatEnv) (mem : List Nat) (pe : Nat) :
    pat_size E mem pe = 2 + pat_rest E mem pe 0 := by
  simp [pat_size, pat_rest]

/-- The leading stars that are skipped lie inside the memory. -/
theorem pat_start_le (mem : List Nat) (pe : Nat) :
    (if byteAt mem 0 = 42 then ((mem.take (pe - 1)).takeWhile (fun b => b = 42)).length else 0)
      ≤ mem.length := by
  split
  · have h1 := takeWhile_length_le (fun b => decide (b = 42)) (mem.take (pe - 1))
    have h2 : (mem.take (pe - 1)).length ≤ mem.length := by
      rw [List.length_take]; omega
    omega
  · omega

/-- The bound for the part of the function after `pat_end` has been set. -/
theorem reg_pat_to_bound (E : PatEnv) (mem : List Nat) (pe : Nat) (ad nb : Bool)
    (hsafe : E.BACKSLASH_IN_FILENAME = true ∨ pat_end_single E (byteAt mem pe)) :
    ∃ r, reg_pat_to E mem pe ad nb = some r ∧ r.written ≤ r.allocated
      ∧ r.allocated = if pe = 0 then 3 else pat_size E mem pe + 1 := by
  unfold reg_pat_to
  by_cases h0 : pe = 0
  · rw [if_pos h0, if_pos h0]
    exact ⟨_, rfl, Nat.le_refl _, rfl⟩
  rw [if_neg h0, if_neg h0]
  simp only []
  have hst := pat_start_le mem pe
  generalize (if byteAt mem 0 = 42 then
    ((mem.take (pe - 1)).takeWhile (fun b => b = 42)).length else 0) = pat at *
  generalize hd : decide (pe - 1 ≥ pat ∧ byteAt mem (pe - 1) = 42) = trim
  have hendp : (if trim = true then pat_trim mem pat (pe - 1) else pe - 1) < pe := by
    split
    · have := pat_trim_le mem pat (pe - 1)
      omega
    · omega
  obtain ⟨t, h1, h2⟩ := pat_loop_bound E mem nb ad _ pe hendp hsafe (mem.length + 1)
    ⟨pat, if byteAt mem 0 = 42 then [] else [94], 0, false⟩ (by simp) hst
  rw [h1]
  refine ⟨_, rfl, ?_, rfl⟩
  simp only []
  have h3 : (if byteAt mem 0 = 42 then ([] : List Nat) else [94]).length ≤ 1 := by
    split <;> simp
  have h4 := pat_rest_anti E mem pe 0 pat
  rw [Nat.zero_add] at h4
  have h5 : (if (!trim) = true then t.reg_pat ++ [36] else t.reg_pat).length
      ≤ t.reg_pat.length + 1 := by
    split <;> simp
  rw [pat_size_eq]
  simp only [] at h2
  omega

/-- Claim C30: `file_pat_to_reg_pat` comes to its end, and the number of bytes
it stores in the result, the anchors and the terminating NUL included, is at
most the size of the buffer it has allocated, which is one more than the size
computed by the first loop (3 for the empty pattern).  The pattern ends where
the string ends or before a byte that is stored as a single byte after a
backslash: this holds when `pat_end` is NULL, as in the call of the function
in this file, when the byte at `pat_end` is NUL or one of `? , % # { }` or
white space, and on every build with `BACKSLASH_IN_FILENAME`. -/
theorem reg_pat_written_bound (E : PatEnv) (mem : List Nat) (pat_end : Option Nat)
    (ad nb : Bool)
    (hend : ∀ n, pat_end = some n →
      E.BACKSLASH_IN_FILENAME = true ∨ pat_end_single E (byteAt mem n)) :
    ∃ r, file_pat_to_reg_pat E mem pat_end ad nb = some r ∧ r.written ≤ r.allocated
      ∧ r.allocated = (if pat_end_of mem pat_end = 0 then 3
          else pat_size E mem (pat_end_of mem pat_end) + 1) := by
  unfold file_pat_to_reg_pat
  apply reg_pat_to_bound
  cases pat_end with
  | none => exact Or.inr (Or.inl (byteAt_strlen mem))
  | some n => exact hend n rfl

/-- The pattern `a\` before a comma: five bytes are allocated and five are
stored. -/
theorem reg_pat_written_bound_witness :
    file_pat_to_reg_pat Sample.pat_env [97, 92, 44, 98] (some 2) true true
      = some ⟨some [94, 97, 44, 36], false, none, 5, 5⟩
    ∧ ∃ r, file_pat_to_reg_pat Sample.pat_env [97, 92, 44, 98] (some 2) true true = some r
      ∧ r.written ≤ r.allocated
      ∧ r.allocated = (if pat_end_of [97, 92, 44, 98] (some 2) = 0 then 3
          else pat_size Sample.pat_env [97, 92, 44, 98] (pat_end_of [97, 92, 44, 98] (some 2)) + 1) :=
  ⟨by decide,
    reg_pat_written_bound Sample.pat_env [97, 92, 44, 98] (some 2) true true
      (fun n h => Or.inr (by cases h; simp [pat_end_single, byteAt]))⟩

/-- The hypothesis on `pat_end` is needed: for the pattern `\` of one byte
that is followed in memory by `x`, the first loop computes the size 3 and four
bytes are allocated, and the second loop stores `^`, `\`, `x`, `$` and the NUL,
five bytes.  No call in this file passes such a `pat_end`. -/
theorem reg_pat_overrun :
    file_pat_to_reg_pat Sample.pat_env [92, 120] (some 1) true true
      = some ⟨some [94, 92, 120, 36], false, none, 4, 5⟩
    ∧ pat_size Sample.pat_env [92, 120] 1 = 3 := by
  decide
/-! ### The braces -/

theorem take_drop_cons (mem : List Nat) (pe p : Nat) (hp : p < pe) (hpe : pe ≤ mem.length) :
    (mem.take pe).drop p = byteAt mem p :: (mem.take pe).drop (p + 1) := by
  have hl : p < (mem.take pe).length := by rw [List.length_take]; omega
  rw [List.drop_eq_getElem_cons hl]
  congr 1
  rw [List.getElem_take]
  unfold byteAt
  simp [List.getD, List.getElem?_eq_getElem (show p < mem.length by omega)]

theorem take_drop_nil (mem : List Nat) (pe p : Nat) (hp : pe ≤ p) :
    (mem.take pe).drop p = [] := by
  apply List.drop_eq_nil_of_le
  rw [List.length_take]
  omega

theorem unescaped_braces_nil (E : PatEnv) (nb b : Bool) : unescaped_braces E nb b [] = [] := by
  cases b <;> rfl

/-- Stars hold no braces. -/
theorem braces_skip_stars (E : PatEnv) (nb : Bool) (mem : List Nat) (pe p : Nat)
    (hpe : pe ≤ mem.length) :
    ∀ n : Nat, (∀ k, p ≤ k → k < p + n → k < pe → byteAt mem k = 42) →
    unescaped_braces E nb false ((mem.take pe).drop (p + n))
      = unescaped_braces E nb false ((mem.take pe).drop p)
  | 0, _ => rfl
  | n + 1, h => by
    have ih := braces_skip_stars E nb mem pe p hpe n (fun k h1 h2 h3 => h k h1 (by omega) h3)
    rw [← ih]
    by_cases hin : p + n < pe
    · rw [take_drop_cons mem pe (p + n) hin hpe, h (p + n) (by omega) (by omega) hin]
      rw [unescaped_braces]
      rw [if_neg (by decide), if_neg (by decide)]
      rfl
    · rw [take_drop_nil mem pe (p + n) (by omega), take_drop_nil mem pe (p + (n + 1)) (by omega)]

/-- The bytes that the loop `while (p[1] == '*')` passes are stars. -/
theorem takeWhile_stars (l : List Nat) :
    ∀ k, k < (l.takeWhile (fun b => b = 42)).length → l.getD k 0 = 42 := by
  induction l with
  | nil => intro k hk; simp at hk
  | cons a l ih =>
    intro k hk
    by_cases ha : a = 42
    · subst ha
      rw [List.takeWhile_cons_of_pos (by simp)] at hk
      cases k with
      | zero => rfl
      | succ k =>
        simp only [List.length_cons] at hk
        have := ih k (by omega)
        simpa using this
    · rw [List.takeWhile_cons_of_neg (by simpa using ha)] at hk
      simp at hk

theorem byteAt_drop (mem : List Nat) (p k : Nat) : (mem.drop p).getD k 0 = byteAt mem (p + k) := by
  unfold byteAt
  simp [List.getD, List.getElem?_drop]

/-- The bytes after the offset that `pat_trim` returns are stars. -/
theorem pat_trim_stars (mem : List Nat) (pat : Nat) :
    ∀ e k : Nat, pat_trim mem pat e < k → k ≤ e → byteAt mem k = 42
  | 0, k, h1, h2 => by
    rw [pat_trim] at h1
    omega
  | e + 1, k, h1, h2 => by
    rw [pat_trim] at h1
    by_cases hc : e + 1 - pat > 0 ∧ byteAt mem (e + 1) = 42
    · rw [if_pos hc] at h1
      by_cases hk : k = e + 1
      · rw [hk]; exact hc.2
      · exact pat_trim_stars mem pat e k h1 (by omega)
    · rw [if_neg hc] at h1
      omega

/-- The depth of the braces from the offset `p`, with `d` braces open. -/
theorem braces_step_plain (E : PatEnv) (nb : Bool) (mem : List Nat) (pe p : Nat)
    (hpe : pe ≤ mem.length) (hp : p < pe) (h2 : byteAt mem p ≠ 92) (h3 : byteAt mem p ≠ 123)
    (h4 : byteAt mem p ≠ 125) :
    unescaped_braces E nb false ((mem.take pe).drop p)
      = unescaped_braces E nb false ((mem.take pe).drop (p + 1)) := by
  rw [take_drop_cons mem pe p hp hpe, unescaped_braces, if_neg h2, if_neg (by omega)]

theorem braces_step_brace (E : PatEnv) (nb : Bool) (mem : List Nat) (pe p : Nat)
    (hpe : pe ≤ mem.length) (hp : p < pe) (h : byteAt mem p = 123 ∨ byteAt mem p = 125) :
    unescaped_braces E nb false ((mem.take pe).drop p)
      = byteAt mem p :: unescaped_braces E nb false ((mem.take pe).drop (p + 1)) := by
  rw [take_drop_cons mem pe p hp hpe, unescaped_braces, if_neg (by omega), if_pos h]

theorem braces_step_sep (E : PatEnv) (nb : Bool) (mem : List Nat) (pe p : Nat)
    (hpe : pe ≤ mem.length) (hp : p < pe) (h : byteAt mem p = 92)
    (hs : pat_sep E nb (byteAt mem (p + 1)) = true) :
    unescaped_braces E nb false ((mem.take pe).drop p)
      = unescaped_braces E nb false ((mem.take pe).drop (p + 1)) := by
  rw [take_drop_cons mem pe p hp hpe, unescaped_braces, if_pos h]
  by_cases hin : p + 1 < pe
  · rw [take_drop_cons mem pe (p + 1) hin hpe]
    simp only [List.headD_cons, hs]
    rfl
  · rw [take_drop_nil mem pe (p + 1) (by omega), unescaped_braces_nil]
    rfl

theorem braces_step_esc (E : PatEnv) (nb : Bool) (mem : List Nat) (pe p : Nat)
    (hpe : pe ≤ mem.length) (hp : p < pe) (h : byteAt mem p = 92)
    (hs : pat_sep E nb (byteAt mem (p + 1)) = false) :
    unescaped_braces E nb false ((mem.take pe).drop p)
      = unescaped_braces E nb false ((mem.take pe).drop (p + 2)) := by
  rw [take_drop_cons mem pe p hp hpe, unescaped_braces, if_pos h]
  by_cases hin : p + 1 < pe
  · rw [take_drop_cons mem pe (p + 1) hin hpe]
    simp only [List.headD_cons, hs]
    rfl
  · rw [take_drop_nil mem pe (p + 1) (by omega), take_drop_nil mem pe (p + 2) (by omega),
      unescaped_braces_nil]
    rfl

theorem pat_loop_exit (E : PatEnv) (mem : List Nat) (nb ad : Bool) (endp fuel : Nat)
    (s : PatState) (h : ¬ (byteAt mem s.p ≠ 0 ∧ s.nested ≥ 0 ∧ s.p ≤ endp)) :
    pat_loop E mem nb ad endp (fuel + 1) s = some s := by
  rw [pat_loop, if_neg h]

/-- The second loop follows the unescaped braces of the pattern: it ends with
`nested` negative when a closing brace comes without an open one, and with
the number of braces left open otherwise. -/
theorem pat_loop_braces (E : PatEnv) (mem : List Nat) (nb ad : Bool) (endp pe : Nat)
    (hendp : endp < pe) (hpe : pe ≤ mem.length) (hz : ∀ k, k < pe → byteAt mem k ≠ 0)
    (hstars : ∀ k, endp < k → k < pe → byteAt mem k = 42)
    (hfc : E.BACKSLASH_IN_FILENAME = true → nb = false → E.vim_isfilec 92 = true) :
    ∀ (fuel : Nat) (s : PatState), mem.length + 1 ≤ fuel + s.p → s.p ≤ mem.length →
    0 ≤ s.nested →
    ∃ t, pat_loop E mem nb ad endp fuel s = some t
      ∧ ((t.nested < 0
          ∧ braces_depth s.nested (unescaped_braces E nb false ((mem.take pe).drop s.p)) = none)
        ∨ (0 ≤ t.nested
          ∧ braces_depth s.nested (unescaped_braces E nb false ((mem.take pe).drop s.p))
            = some t.nested))
  | 0, s, hf, hp, hn => by omega
  | fuel + 1, s, hf, hp, hn => by
    by_cases hc : byteAt mem s.p ≠ 0 ∧ s.nested ≥ 0 ∧ s.p ≤ endp
    · have hin : s.p < pe := by omega
      obtain ⟨-, b2, b3⟩ := pat_body_bound E mem nb ad s mem.length
        (byteAt_ne_zero mem s.p hc.1) hc.1
        (Or.inr (Or.inl (by unfold byteAt; simp [List.getD])))
      have ih := pat_loop_braces E mem nb ad endp pe hendp hpe hz hstars hfc fuel
        (pat_body E mem nb ad s) (by omega) b3
      rw [pat_loop, if_pos hc]
      by_cases c1 : byteAt mem s.p = 42
      · rw [pat_body_star E mem nb ad s c1] at ih ⊢
        obtain ⟨t, h1, h2⟩ := ih hn
        refine ⟨t, h1, ?_⟩
        simp only [] at h2
        have hskip := braces_skip_stars E nb mem pe s.p hpe
          (((mem.drop (s.p + 1)).takeWhile (fun b => b = 42)).length + 1) (by
            intro k hk1 hk2 _
            by_cases hk : k = s.p
            · rw [hk]; exact c1
            · have := takeWhile_stars (mem.drop (s.p + 1)) (k - (s.p + 1)) (by omega)
              rw [byteAt_drop] at this
              rw [show s.p + 1 + (k - (s.p + 1)) = k by omega] at this
              exact this)
        rw [← Nat.add_assoc] at hskip
        rw [hskip] at h2
        exact h2
      by_cases c2 : byteAt mem s.p = 123
      · rw [pat_body_open E mem nb ad s c2] at ih ⊢
        obtain ⟨t, h1, h2⟩ := ih (by simp only []; omega)
        refine ⟨t, h1, ?_⟩
        simp only [] at h2
        rw [braces_step_brace E nb mem pe s.p hpe hin (Or.inl c2), braces_depth,
          if_pos c2]
        exact h2
      by_cases c3 : byteAt mem s.p = 125
      · rw [braces_step_brace E nb mem pe s.p hpe hin (Or.inr c3), braces_depth,
          if_neg (by omega)]
        by_cases hd : s.nested ≤ 0
        · rw [if_pos hd]
          have hex := pat_loop_exit E mem nb ad endp (fuel - 1) (pat_body E mem nb ad s) (by
            rw [pat_body_close E mem nb ad s c3]
            simp only []
            omega)
          rw [show fuel - 1 + 1 = fuel by omega] at hex
          refine ⟨_, hex, Or.inl ⟨?_, rfl⟩⟩
          rw [pat_body_close E mem nb ad s c3]
          simp only []
          omega
        · rw [if_neg hd]
          rw [pat_body_close E mem nb ad s c3] at ih ⊢
          obtain ⟨t, h1, h2⟩ := ih (by simp only []; omega)
          exact ⟨t, h1, h2⟩
      by_cases c4 : byteAt mem s.p = 92
      · by_cases c5 : byteAt mem (s.p + 1) = 0
        · rw [pat_body_bslash_nul E mem nb ad s c4 c5] at ih ⊢
          obtain ⟨t, h1, h2⟩ := ih hn
          refine ⟨t, h1, ?_⟩
          simp only [] at h2
          have hout : pe ≤ s.p + 1 := by
            by_contra hcon
            exact hz (s.p + 1) (by omega) c5
          rw [take_drop_nil mem pe (s.p + 1) hout] at h2
          rw [take_drop_cons mem pe s.p hin hpe, take_drop_nil mem pe (s.p + 1) hout,
            unescaped_braces, if_pos c4, unescaped_braces_nil]
          rw [unescaped_braces_nil] at h2
          exact h2
        cases c6 : pat_sep E nb (byteAt mem (s.p + 1)) with
        | true =>
          rw [pat_body_bslash_sep E mem nb ad s c4 c5 c6] at ih ⊢
          obtain ⟨t, h1, h2⟩ := ih hn
          refine ⟨t, h1, ?_⟩
          simp only [] at h2
          rw [braces_step_sep E nb mem pe s.p hpe hin c4 c6]
          exact h2
        | false =>
          obtain ⟨e1, e2, -, -⟩ := pat_body_bslash_esc E mem nb ad s c4 c5 c6
          obtain ⟨t, h1, h2⟩ := ih (by rw [e1]; exact hn)
          refine ⟨t, h1, ?_⟩
          rw [e1] at h2
          rw [braces_step_esc E nb mem pe s.p hpe hin c4 c6]
          rcases e2 with e2 | ⟨e2, e3, e4, e5⟩
          · rw [e2] at h2
            exact h2
          · rw [e2] at h2
            have hns : ∀ c, pat_sep E nb c = false := by
              intro c
              cases hsc : pat_sep E nb c with
              | false => rfl
              | true =>
                obtain ⟨g1, g2, -⟩ := (pat_sep_iff E nb c).mp hsc
                have g3 : nb = false := by
                  cases nb with
                  | false => rfl
                  | true => exact absurd rfl g2
                have g4 := hfc g1 g3
                have : pat_sep E nb 92 = true :=
                  (pat_sep_iff E nb 92).mpr ⟨g1, g2, Or.inl g4, by decide⟩
                rw [e3] at c6
                rw [c6] at this
                cases this
            have : unescaped_braces E nb false ((mem.take pe).drop (s.p + 2))
                = unescaped_braces E nb false ((mem.take pe).drop (s.p + 4)) := by
              by_cases hi2 : s.p + 2 < pe
              · exact braces_step_esc E nb mem pe (s.p + 2) hpe hi2 e4 (hns _)
              · rw [take_drop_nil mem pe (s.p + 2) (by omega),
                  take_drop_nil mem pe (s.p + 4) (by omega)]
            rw [this]
            exact h2
      obtain ⟨e1, e2, -⟩ := pat_body_plain E mem nb ad s c1 c4 c2 c3
      obtain ⟨t, h1, h2⟩ := ih (by rw [e1]; exact hn)
      refine ⟨t, h1, ?_⟩
      rw [e1, e2] at h2
      rw [braces_step_plain E nb mem pe s.p hpe hin c4 c2 c3]
      exact h2
    · rw [pat_loop_exit E mem nb ad endp fuel s hc]
      refine ⟨s, rfl, Or.inr ⟨hn, ?_⟩⟩
      have hnil : unescaped_braces E nb false ((mem.take pe).drop s.p) = [] := by
        by_cases hin : s.p < pe
        · have hgt : endp < s.p := by
            by_contra hcon
            exact hc ⟨hz s.p hin, hn, by omega⟩
          have := braces_skip_stars E nb mem pe s.p hpe (pe - s.p)
            (fun k h1 _ h3 => hstars k (by omega) h3)
          rw [← this, take_drop_nil mem pe _ (by omega)]
          rfl
        · rw [take_drop_nil mem pe s.p (by omega)]
          rfl
      rw [hnil]
      rfl
theorem byteAt_take (mem : List Nat) (n k : Nat) (h : k < n) :
    (mem.take n).getD k 0 = byteAt mem k := by
  unfold byteAt
  simp [List.getD, List.getElem?_take, h]

theorem byteAt_before_strlen (mem : List Nat) :
    ∀ k, k < (mem.takeWhile (fun b => b ≠ 0)).length → byteAt mem k ≠ 0 := by
  induction mem with
  | nil => intro k hk; simp at hk
  | cons a l ih =>
    intro k hk
    by_cases ha : a = 0
    · subst ha
      simp at hk
    · rw [List.takeWhile_cons_of_pos (by simpa using ha)] at hk
      cases k with
      | zero => simpa [byteAt] using ha
      | succ k =>
        simp only [List.length_cons] at hk
        have := ih k (by omega)
        simpa [byteAt] using this

/-- The result of the part of the function after `pat_end` has been set, for
a pattern that lies inside the string. -/
theorem reg_pat_to_braces (E : PatEnv) (mem : List Nat) (pe : Nat) (ad nb : Bool)
    (hpe : pe ≤ mem.length) (hz : ∀ k, k < pe → byteAt mem k ≠ 0)
    (hfc : E.BACKSLASH_IN_FILENAME = true → nb = false → E.vim_isfilec 92 = true) :
    ∃ r, reg_pat_to E mem pe ad nb = some r
      ∧ (r.reg_pat = none ↔
          braces_depth 0 (unescaped_braces E nb false (mem.take pe)) ≠ some 0)
      ∧ (r.emsg = some 219 ↔
          braces_depth 0 (unescaped_braces E nb false (mem.take pe)) = none)
      ∧ (r.emsg = some 220 ↔
          ∃ d, 0 < d ∧ braces_depth 0 (unescaped_braces E nb false (mem.take pe)) = some d)
      ∧ (pe = 0 → r.reg_pat = some [94, 36]) := by
  unfold reg_pat_to
  by_cases h0 : pe = 0
  · rw [if_pos h0]
    subst h0
    refine ⟨_, rfl, ?_, ?_, ?_, fun _ => rfl⟩
    · simp [unescaped_braces, braces_depth]
    · simp [unescaped_braces, braces_depth]
    · simp [unescaped_braces, braces_depth]
  rw [if_neg h0]
  simp only []
  have hst := pat_start_le mem pe
  have hlead : ∀ k, 0 ≤ k → k < 0 + (if byteAt mem 0 = 42 then
      ((mem.take (pe - 1)).takeWhile (fun b => b = 42)).length else 0) → k < pe →
      byteAt mem k = 42 := by
    intro k _ hk _
    by_cases hs : byteAt mem 0 = 42
    · rw [if_pos hs, Nat.zero_add] at hk
      have h1 := takeWhile_stars (mem.take (pe - 1)) k hk
      have h2 := takeWhile_length_le (fun b => decide (b = 42)) (mem.take (pe - 1))
      have h3 : (mem.take (pe - 1)).length ≤ pe - 1 := by
        rw [List.length_take]; omega
      rw [byteAt_take mem (pe - 1) k (by omega)] at h1
      exact h1
    · rw [if_neg hs] at hk
      omega
  have hskip := braces_skip_stars E nb mem pe 0 hpe _ hlead
  rw [List.drop_zero, Nat.zero_add] at hskip
  generalize (if byteAt mem 0 = 42 then
    ((mem.take (pe - 1)).takeWhile (fun b => b = 42)).length else 0) = pat at *
  generalize hd : decide (pe - 1 ≥ pat ∧ byteAt mem (pe - 1) = 42) = trim
  have hendp : (if trim = true then pat_trim mem pat (pe - 1) else pe - 1) < pe := by
    split
    · have := pat_trim_le mem pat (pe - 1)
      omega
    · omega
  have hstars : ∀ k, (if trim = true then pat_trim mem pat (pe - 1) else pe - 1) < k → k < pe →
      byteAt mem k = 42 := by
    intro k h1 h2
    by_cases ht : trim = true
    · rw [if_pos ht] at h1
      exact pat_trim_stars mem pat (pe - 1) k h1 (by omega)
    · rw [if_neg ht] at h1
      omega
  obtain ⟨t, h1, h2⟩ := pat_loop_braces E mem nb ad _ pe hendp hpe hz hstars hfc
    (mem.length + 1) ⟨pat, if byteAt mem 0 = 42 then [] else [94], 0, false⟩
    (by simp) hst (Int.le_refl 0)
  rw [h1]
  simp only [] at h2
  rw [hskip] at h2
  refine ⟨_, rfl, ?_, ?_, ?_, fun h => absurd h h0⟩
  · simp only []
    rcases h2 with ⟨g1, g2⟩ | ⟨g1, g2⟩
    · rw [g2, if_pos (by omega)]
      simp
    · rw [g2]
      by_cases hn : t.nested = 0
      · rw [if_neg (by simpa using hn), hn]
        simp
      · rw [if_pos hn]
        simp [hn]
  · simp only []
    rcases h2 with ⟨g1, g2⟩ | ⟨g1, g2⟩
    · rw [g2, if_pos (by omega), if_pos g1]
      simp
    · rw [g2]
      by_cases hn : t.nested = 0
      · rw [if_neg (by simpa using hn)]
        simp
      · rw [if_pos hn, if_neg (by omega)]
        simp
  · simp only []
    rcases h2 with ⟨g1, g2⟩ | ⟨g1, g2⟩
    · rw [g2, if_pos (by omega), if_pos g1]
      simp
    · rw [g2]
      by_cases hn : t.nested = 0
      · rw [if_neg (by simpa using hn), hn]
        simp
      · rw [if_pos hn, if_neg (by omega)]
        simp only [Option.some.injEq, true_iff]
        exact ⟨t.nested, by omega, rfl⟩

/-- Claim C25: for a pattern that lies inside the string at `pat`,
`file_pat_to_reg_pat` comes to its end, and it returns NULL exactly when the
unescaped braces of the pattern are not balanced: with the message E219 when a
closing brace comes without an open one, and with E220 when braces are left
open at the end.  For every other pattern it returns a regexp, and for the
empty pattern the regexp `^$`.  A backslash escapes the byte after it, unless
it is taken as a path separator (on a build with `BACKSLASH_IN_FILENAME` and
without `no_bslash`, where a backslash is taken to be a file name
character). -/
theorem reg_pat_null_iff (E : PatEnv) (mem : List Nat) (pat_end : Option Nat) (ad nb : Bool)
    (hin : ∀ n, pat_end = some n → n ≤ mem.length ∧ ∀ k, k < n → byteAt mem k ≠ 0)
    (hfc : E.BACKSLASH_IN_FILENAME = true → nb = false → E.vim_isfilec 92 = true) :
    ∃ r, file_pat_to_reg_pat E mem pat_end ad nb = some r
      ∧ (r.reg_pat = none ↔
          braces_depth 0 (unescaped_braces E nb false (pattern_of mem pat_end)) ≠ some 0)
      ∧ (r.emsg = some 219 ↔
          braces_depth 0 (unescaped_braces E nb false (pattern_of mem pat_end)) = none)
      ∧ (r.emsg = some 220 ↔
          ∃ d, 0 < d
            ∧ braces_depth 0 (unescaped_braces E nb false (pattern_of mem pat_end)) = some d)
      ∧ (pattern_of mem pat_end = [] → r.reg_pat = some [94, 36]) := by
  have hb : pat_end_of mem pat_end ≤ mem.length
      ∧ ∀ k, k < pat_end_of mem pat_end → byteAt mem k ≠ 0 := by
    cases pat_end with
    | none => exact ⟨takeWhile_length_le _ mem, byteAt_before_strlen mem⟩
    | some n => exact hin n rfl
  obtain ⟨r, h1, h2, h3, h4, h5⟩ := reg_pat_to_braces E mem (pat_end_of mem pat_end) ad nb
    hb.1 hb.2 hfc
  refine ⟨r, h1, h2, h3, h4, fun he => h5 ?_⟩
  have := congrArg List.length he
  unfold pattern_of at this
  rw [List.length_take, List.length_nil] at this
  omega

/-- The pattern `a{b,c}` before a comma becomes a regexp; `a{b` and `a}` give
NULL, the empty pattern gives `^$`, and an escaped brace is not counted. -/
theorem reg_pat_null_iff_witness :
    (∃ r, file_pat_to_reg_pat Sample.pat_env [97, 123, 98, 44, 99, 125, 44, 120] (some 6)
        true true = some r
      ∧ (r.reg_pat = none ↔
          braces_depth 0 (unescaped_braces Sample.pat_env true false
            (pattern_of [97, 123, 98, 44, 99, 125, 44, 120] (some 6))) ≠ some 0)
      ∧ (r.emsg = some 219 ↔
          braces_depth 0 (unescaped_braces Sample.pat_env true false
            (pattern_of [97, 123, 98, 44, 99, 125, 44, 120] (some 6))) = none)
      ∧ (r.emsg = some 220 ↔
          ∃ d, 0 < d
            ∧ braces_depth 0 (unescaped_braces Sample.pat_env true false
              (pattern_of [97, 123, 98, 44, 99, 125, 44, 120] (some 6))) = some d)
      ∧ (pattern_of [97, 123, 98, 44, 99, 125, 44, 120] (some 6) = [] →
          r.reg_pat = some [94, 36]))
    ∧ file_pat_to_reg_pat Sample.pat_env [97, 123, 98, 44, 99, 125, 44, 120] (some 6) true true
        = some ⟨some [94, 97, 92, 40, 98, 92, 124, 99, 92, 41, 36], false, none, 12, 12⟩
    ∧ file_pat_to_reg_pat Sample.pat_env [97, 123, 98] none true true
        = some ⟨none, false, some 220, 7, 7⟩
    ∧ file_pat_to_reg_pat Sample.pat_env [97, 125] none true true
        = some ⟨none, false, some 219, 6, 6⟩
    ∧ file_pat_to_reg_pat Sample.pat_env [] none true true
        = some ⟨some [94, 36], false, none, 3, 3⟩
    ∧ file_pat_to_reg_pat Sample.pat_env [97, 92, 123] none true true
        = some ⟨some [94, 97, 123, 36], false, none, 7, 5⟩ :=
  ⟨reg_pat_null_iff Sample.pat_env [97, 123, 98, 44, 99, 125, 44, 120] (some 6) true true
      (fun n h => by cases h; exact ⟨by decide, by decide⟩) (fun h => by cases h),
    by decide, by decide, by decide, by decide, by decide⟩

theorem getD_set_opt (b : List (Option Nat)) (i k : Nat) (v : Option Nat) :
    (b.set i v).getD k none = if k = i ∧ i < b.length then v else b.getD k none := by
  simp only [List.getD_eq_getElem?_getD, List.getElem?_set]
  by_cases h : i = k
  · subst h
    by_cases h2 : i < b.length
    · simp [h2]
    · simp [h2, List.getElem?_eq_none (Nat.le_of_not_lt h2)]
  · have : ¬ k = i := fun h' => h h'.symm
    simp [h, this]

theorem buf_store_length : ∀ (vs : List Nat) (b : List (Option Nat)) (i : Nat),
    (buf_store b i vs).length = b.length
  | [], _, _ => rfl
  | v :: vs, b, i => by
    rw [buf_store, buf_store_length vs]
    simp [buf_poke]

theorem buf_poke_length (b : List (Option Nat)) (i v : Nat) :
    (buf_poke b i v).length = b.length := by
  simp [buf_poke]

/-- The bytes of memory after a store that lies inside it. -/
theorem getD_buf_store : ∀ (vs : List Nat) (b : List (Option Nat)) (i k : Nat),
    i + vs.length ≤ b.length →
    (buf_store b i vs).getD k none
      = if i ≤ k ∧ k < i + vs.length then some (vs.getD (k - i) 0) else b.getD k none
  | [], b, i, k, _ => by
    rw [buf_store, if_neg (by simp)]
  | v :: vs, b, i, k, h => by
    simp only [List.length_cons] at h
    rw [buf_store, getD_buf_store vs _ (i + 1) k (by rw [buf_poke_length]; omega)]
    simp only [List.length_cons]
    by_cases h1 : i + 1 ≤ k ∧ k < i + 1 + vs.length
    · rw [if_pos h1, if_pos (by omega)]
      have : k - i = (k - (i + 1)) + 1 := by omega
      rw [this, List.getD_cons_succ]
    · rw [if_neg h1]
      unfold buf_poke
      rw [getD_set_opt]
      by_cases h2 : k = i
      · subst h2
        rw [if_pos ⟨rfl, by omega⟩, if_pos (by omega)]
        simp
      · rw [if_neg (by tauto), if_neg (by omega)]

theorem cstr_of_holds : ∀ (c : List Nat) (b : List (Option Nat)), Holds b c → cstr b = some c
  | [], b, h => by
    obtain ⟨-, -, h3⟩ := h
    cases b with
    | nil => simp at h3
    | cons a b =>
      simp only [List.length_nil, List.getD_cons_zero] at h3
      subst h3
      simp [cstr]
  | x :: c, b, h => by
    obtain ⟨h1, h2, h3⟩ := h
    cases b with
    | nil =>
      have := h2 0 (by simp)
      simp at this
    | cons a b =>
      have ha := h2 0 (by simp)
      simp only [List.getD_cons_zero] at ha
      subst ha
      have hx : x ≠ 0 := h1 x (by simp)
      have ih := cstr_of_holds c b ⟨fun y hy => h1 y (by simp [hy]), fun i hi => by
        have := h2 (i + 1) (by simp; omega)
        simpa using this, by simpa using h3⟩
      simp [cstr, hx, ih]

theorem getD_drop_opt (b : List (Option Nat)) (i k : Nat) :
    (b.drop i).getD k none = b.getD (i + k) none := by
  simp [List.getD_eq_getElem?_getD, List.getElem?_drop]

theorem getD_drop_nat (c : List Nat) (i k : Nat) :
    (c.drop i).getD k 0 = c.getD (i + k) 0 := by
  simp [List.getD_eq_getElem?_getD, List.getElem?_drop]

theorem getD_append_right_nat (l1 l2 : List Nat) (i : Nat) (h : l1.length ≤ i) :
    (l1 ++ l2).getD i 0 = l2.getD (i - l1.length) 0 := by
  simp [List.getD_eq_getElem?_getD, List.getElem?_append_right h]

theorem holds_drop (b : List (Option Nat)) (c : List Nat) (i : Nat) (h : Holds b c)
    (hi : i ≤ c.length) : Holds (b.drop i) (c.drop i) := by
  obtain ⟨h1, h2, h3⟩ := h
  refine ⟨fun x hx => h1 x (List.mem_of_mem_drop hx), fun k hk => ?_, ?_⟩
  · rw [List.length_drop] at hk
    rw [getD_drop_opt, getD_drop_nat]
    exact h2 (i + k) (by omega)
  · rw [getD_drop_opt, List.length_drop, show i + (c.length - i) = c.length by omega]
    exact h3

theorem cstr_at_holds (b : List (Option Nat)) (c : List Nat) (i : Nat) (h : Holds b c)
    (hi : i ≤ c.length) : cstr_at b i = some (c.drop i) :=
  cstr_of_holds _ _ (holds_drop b c i h hi)

theorem buf_byte_holds (b : List (Option Nat)) (c : List Nat) (i : Nat) (h : Holds b c)
    (hi : i ≤ c.length) : buf_byte b i = c.getD i 0 := by
  obtain ⟨-, h2, h3⟩ := h
  unfold buf_byte
  by_cases hlt : i < c.length
  · rw [h2 i hlt]
    rfl
  · have : i = c.length := by omega
    subst this
    rw [h3]
    simp [List.getD_eq_getElem?_getD]

theorem holds_length (b : List (Option Nat)) (c : List Nat) (h : Holds b c) :
    c.length < b.length := by
  obtain ⟨-, -, h3⟩ := h
  by_contra hc
  rw [List.getD_eq_getElem?_getD, List.getElem?_eq_none (by omega)] at h3
  simp at h3

/-- The memory that `modname` allocates holds the name after the `strcpy`. -/
theorem holds_init (c : List Nat) (k : Nat) (hc : ∀ x ∈ c, x ≠ 0) :
    Holds (buf_store (xmalloc (c.length + k + 1)) 0 (c ++ [0])) c := by
  have hl : 0 + (c ++ [0]).length ≤ (xmalloc (c.length + k + 1)).length := by
    simp [xmalloc]
  refine ⟨hc, fun i hi => ?_, ?_⟩
  · rw [getD_buf_store _ _ _ _ hl, if_pos (by simp; omega)]
    simp [List.getD_eq_getElem?_getD, List.getElem?_append_left hi]
  · rw [getD_buf_store _ _ _ _ hl, if_pos (by simp)]
    simp [List.getD_eq_getElem?_getD]

/-- The store `b[k] = NUL` inside a string cuts it. -/
theorem holds_truncate (b : List (Option Nat)) (c : List Nat) (k : Nat) (h : Holds b c)
    (hk : k ≤ c.length) : Holds (buf_poke b k 0) (c.take k) := by
  have hlen := holds_length b c h
  obtain ⟨h1, h2, h3⟩ := h
  have hl : (c.take k).length = k := by rw [List.length_take]; omega
  refine ⟨fun x hx => h1 x (List.mem_of_mem_take hx), fun i hi => ?_, ?_⟩
  · rw [hl] at hi
    unfold buf_poke
    rw [getD_set_opt, if_neg (by omega), h2 i (by omega)]
    simp [List.getD_eq_getElem?_getD, List.getElem?_take, hi]
  · rw [hl]
    unfold buf_poke
    rw [getD_set_opt, if_pos ⟨rfl, by omega⟩]

/-- The `strcpy` of a string to the end of a string appends it. -/
theorem holds_append (b : List (Option Nat)) (c x : List Nat) (h : Holds b c)
    (hx : ∀ y ∈ x, y ≠ 0) (hl : c.length + x.length + 1 ≤ b.length) :
    Holds (buf_store b c.length (x ++ [0])) (c ++ x) := by
  obtain ⟨h1, h2, h3⟩ := h
  have hs : c.length + (x ++ [0]).length ≤ b.length := by simp; omega
  refine ⟨fun y hy => ?_, fun i hi => ?_, ?_⟩
  · rcases List.mem_append.mp hy with hy | hy
    · exact h1 y hy
    · exact hx y hy
  · rw [getD_buf_store _ _ _ _ hs]
    simp only [List.length_append] at hi
    by_cases hc : i < c.length
    · rw [if_neg (by omega), h2 i hc]
      simp [List.getD_eq_getElem?_getD, List.getElem?_append_left hc]
    · rw [if_pos (by simp; omega)]
      have hi2 : i - c.length < x.length := by omega
      simp [List.getD_eq_getElem?_getD, List.getElem?_append_left hi2,
        List.getElem?_append_right (Nat.le_of_not_lt hc)]
  · rw [getD_buf_store _ _ _ _ hs, if_pos (by simp)]
    simp [List.getD_eq_getElem?_getD]

/-- The store of a byte that is not NUL inside a string. -/
theorem holds_poke (b : List (Option Nat)) (c : List Nat) (j v : Nat) (h : Holds b c)
    (hj : j < c.length) (hv : v ≠ 0) : Holds (buf_poke b j v) (c.set j v) := by
  have hlen := holds_length b c h
  obtain ⟨h1, h2, h3⟩ := h
  refine ⟨fun y hy => ?_, fun i hi => ?_, ?_⟩
  · rcases List.mem_or_eq_of_mem_set hy with hy | hy
    · exact h1 y hy
    · rw [hy]; exact hv
  · rw [List.length_set] at hi
    unfold buf_poke
    rw [getD_set_opt]
    by_cases hij : i = j
    · subst hij
      rw [if_pos ⟨rfl, by omega⟩]
      simp [List.getD_eq_getElem?_getD, List.getElem?_set, hj]
    · rw [if_neg (by tauto), h2 i hi]
      have : ¬ j = i := fun h' => hij h'.symm
      simp [List.getD_eq_getElem?_getD, List.getElem?_set, this]
  · rw [List.length_set]
    unfold buf_poke
    rw [getD_set_opt, if_neg (by omega)]
    exact h3

/-- The `STRMOVE` by one byte and the store of the dot put a dot into the
string. -/
theorem holds_dot (b : List (Option Nat)) (c : List Nat) (e : Nat) (h : Holds b c)
    (he : e ≤ c.length) (hl : c.length + 2 ≤ b.length) :
    Holds (buf_poke (buf_store b (e + 1) (c.drop e ++ [0])) e 46)
      (c.take e ++ 46 :: c.drop e) := by
  obtain ⟨h1, h2, h3⟩ := h
  have hs : e + 1 + (c.drop e ++ [0]).length ≤ b.length := by
    simp [List.length_drop]; omega
  have hlt : (c.take e).length = e := by rw [List.length_take]; omega
  refine ⟨fun y hy => ?_, fun i hi => ?_, ?_⟩
  · rcases List.mem_append.mp hy with hy | hy
    · exact h1 y (List.mem_of_mem_take hy)
    · rcases List.mem_cons.mp hy with hy | hy
      · rw [hy]; decide
      · exact h1 y (List.mem_of_mem_drop hy)
  · simp only [List.length_append, List.length_cons, List.length_drop, hlt] at hi
    unfold buf_poke
    rw [getD_set_opt, buf_store_length]
    by_cases hie : i = e
    · subst hie
      rw [if_pos ⟨rfl, by omega⟩]
      congr 1
      rw [getD_append_right_nat _ _ _ (by omega), hlt, Nat.sub_self]
      rfl
    · rw [if_neg (by tauto), getD_buf_store _ _ _ _ hs]
      by_cases hlo : i < e
      · rw [if_neg (by omega), h2 i (by omega)]
        have : i < (c.take e).length := by omega
        simp [List.getD_eq_getElem?_getD, List.getElem?_append_left this, List.getElem?_take, hlo]
      · rw [if_pos (by simp [List.length_drop]; omega)]
        have hge : (c.take e).length ≤ i := by omega
        have h4 : i - (e + 1) < (c.drop e).length := by rw [List.length_drop]; omega
        have h5 : i - e = (i - (e + 1)) + 1 := by omega
        simp [List.getD_eq_getElem?_getD, List.getElem?_append_right hge, hlt, h5,
          List.getElem?_append_left h4]
  · simp only [List.length_append, List.length_cons, List.length_drop, hlt]
    unfold buf_poke
    rw [getD_set_opt, if_neg (by omega), getD_buf_store _ _ _ _ hs,
      if_pos (by
        simp only [List.length_append, List.length_drop, List.length_cons, List.length_nil]
        omega)]
    have h5 : e + (c.length - e + 1) - (e + 1) = (c.drop e).length := by
      rw [List.length_drop]; omega
    simp [List.getD_eq_getElem?_getD, h5]
/-- The search loop of `modname` comes to its end, at an offset that is at
most one more than where it starts, and not more when the byte there is no
path separator. -/
theorem modname_tail_some (E : ModEnv) (b : List (Option Nat)) (str : List Nat) :
    ∀ (fuel ptr : Nat), ptr < fuel →
    ∃ r, modname_tail E b str fuel ptr = some r ∧ r ≤ ptr + 1
      ∧ (E.vim_ispathsep (buf_byte b ptr) = false → r ≤ ptr)
  | 0, ptr, h => by omega
  | fuel + 1, ptr, h => by
    rw [modname_tail]
    by_cases h0 : ptr > 0
    · rw [if_pos h0]
      cases hs : E.vim_ispathsep (buf_byte b ptr) with
      | true =>
        rw [if_pos rfl]
        exact ⟨_, rfl, Nat.le_refl _, fun h => by cases h⟩
      | false =>
        rw [if_neg (by simp)]
        obtain ⟨r, h1, h2, -⟩ := modname_tail_some E b str fuel
          (ptr - (E.utf_head_off str (ptr - 1) + 1)) (by omega)
        exact ⟨r, h1, by omega, fun _ => by omega⟩
    · rw [if_neg h0]
      exact ⟨_, rfl, by omega, fun _ => Nat.le_refl _⟩

/-- The search loop reads the bytes up to the offset where it starts only. -/
theorem modname_tail_congr (E : ModEnv) (b b' : List (Option Nat)) (str : List Nat) (n : Nat)
    (hb : ∀ k, k ≤ n → buf_byte b k = buf_byte b' k) :
    ∀ (fuel ptr : Nat), ptr ≤ n →
    modname_tail E b str fuel ptr = modname_tail E b' str fuel ptr
  | 0, _, _ => rfl
  | fuel + 1, ptr, h => by
    rw [modname_tail, modname_tail, hb ptr h,
      modname_tail_congr E b b' str n hb fuel _ (by omega)]

theorem modname_differ_self (b : List (Option Nat)) (p : Nat) :
    modname_differ b p p = buf_poke b p 118 := by
  cases p with
  | zero => rfl
  | succ p =>
    rw [modname_differ, if_neg (by omega)]

/-- The loop that makes the name different stores one byte, inside the base
name when that is not empty, and the byte is not the one that was there. -/
theorem modname_differ_poke (b : List (Option Nat)) (c : List Nat) (p : Nat) (h : Holds b c) :
    ∀ s : Nat, p < s → s ≤ c.length →
    ∃ j v, p ≤ j ∧ j < s ∧ v ≠ 0 ∧ c.getD j 0 ≠ v ∧ modname_differ b p s = buf_poke b j v
  | 0, h1, _ => by omega
  | s + 1, h1, h2 => by
    rw [modname_differ, if_pos (by omega)]
    by_cases hb : buf_byte b s ≠ 95
    · rw [if_pos hb]
      refine ⟨s, 95, by omega, by omega, by decide, ?_, rfl⟩
      rw [← buf_byte_holds b c s h (by omega)]
      exact hb
    · rw [if_neg hb]
      have hb2 : c.getD s 0 = 95 := by
        rw [← buf_byte_holds b c s h (by omega)]
        simpa using hb
      by_cases hps : p < s
      · obtain ⟨j, v, g1, g2, g3, g4, g5⟩ := modname_differ_poke b c p h s hps (by omega)
        exact ⟨j, v, g1, by omega, g3, g4, g5⟩
      · have : s = p := by omega
        subst this
        rw [modname_differ_self]
        refine ⟨s, 118, Nat.le_refl _, by omega, by decide, ?_, rfl⟩
        rw [hb2]
        decide

theorem set_ne_self (c : List Nat) (j v : Nat) (hj : j < c.length) (hv : c.getD j 0 ≠ v) :
    c.set j v ≠ c := by
  intro h
  apply hv
  have h1 : (c.set j v).getD j 0 = v := by
    simp [List.getD_eq_getElem?_getD, List.getElem?_set, hj]
  rw [h] at h1
  exact h1
theorem getD_length_nat (c : List Nat) : c.getD c.length 0 = 0 := by
  simp [List.getD_eq_getElem?_getD]

/-- The offset that the search loop finds does not depend on the memory after
the name. -/
theorem modname_ptr_eq (E : ModEnv) (fname : List Nat) (b : List (Option Nat))
    (hfz : ∀ x ∈ fname, x ≠ 0) (H : Holds b fname) :
    modname_tail E b fname (fname.length + 1) fname.length = some (modname_ptr E fname) := by
  have H' : Holds (buf_store (xmalloc (fname.length + 3)) 0 (fname ++ [0])) fname := by
    have := holds_init fname 2 hfz
    exact this
  obtain ⟨r, h1, -, -⟩ := modname_tail_some E b fname (fname.length + 1) fname.length (by omega)
  have hc := modname_tail_congr E b (buf_store (xmalloc (fname.length + 3)) 0 (fname ++ [0]))
    fname fname.length
    (fun k hk => by rw [buf_byte_holds b fname k H hk, buf_byte_holds _ fname k H' hk])
    (fname.length + 1) fname.length (Nat.le_refl _)
  unfold modname_ptr
  rw [← hc, h1]
  rfl

theorem modname_ptr_le (E : ModEnv) (fname : List Nat) (hfz : ∀ x ∈ fname, x ≠ 0)
    (hsep : E.vim_ispathsep 0 = false) : modname_ptr E fname ≤ fname.length := by
  have H' : Holds (buf_store (xmalloc (fname.length + 3)) 0 (fname ++ [0])) fname :=
    holds_init fname 2 hfz
  obtain ⟨r, h1, -, h3⟩ := modname_tail_some E _ fname (fname.length + 1) fname.length
    (Nat.lt_succ_self _)
  have := modname_ptr_eq E fname _ hfz H'
  rw [h1] at this
  injection this with this
  rw [← this]
  apply h3
  rw [buf_byte_holds _ fname _ H' (Nat.le_refl _), getD_length_nat]
  exact hsep

/-- The part of `modname` after the name has been copied: the memory returned
holds a string that is made of a part `mid` and the extension, and that is
not the name. -/
theorem modname_rest_holds (E : ModEnv) (fname ext : List Nat) (b0 : List (Option Nat))
    (prepend_dot : Bool) (H0 : Holds b0 fname)
    (L0 : fname.length + ext.length + 3 ≤ b0.length)
    (hfz : ∀ x ∈ fname, x ≠ 0) (hx : ext ≠ []) (hxz : ∀ x ∈ ext, x ≠ 0)
    (hB : 0 < E.BASENAMELEN) (hsep : E.vim_ispathsep 0 = false)
    (hdot : prepend_dot = true →
      E.path_tail (fname.take (modname_end E fname) ++ ext) ≤ modname_end E fname) :
    ∃ b r mid, modname_rest E (some fname) ext b0 fname.length prepend_dot = some (some b)
      ∧ cstr_at b 0 = some r ∧ r = mid ++ ext ∧ r ≠ fname
      ∧ mid.length ≤ modname_end E fname + 1
      ∧ (prepend_dot = false →
          mid = fname.take (modname_end E fname)
          ∨ ∃ j v, modname_ptr E fname ≤ j ∧ j < modname_end E fname
              ∧ mid = (fname.take (modname_end E fname)).set j v) := by
  have hple := modname_ptr_le E fname hfz hsep
  have hptr := modname_ptr_eq E fname b0 hfz H0
  have hxl : 0 < ext.length := List.length_pos.mpr hx
  generalize hp : modname_ptr E fname = p at *
  have hend : modname_end E fname = min (p + E.BASENAMELEN) fname.length := by
    unfold modname_end
    rw [hp]
  generalize hs : modname_end E fname = s at *
  have hs1 : p ≤ s := by omega
  have hs2 : s ≤ fname.length := by omega
  -- the name is cut
  have H1 : Holds (if (fname.drop p).length > E.BASENAMELEN
      then buf_poke b0 (p + E.BASENAMELEN) 0 else b0) (fname.take s) := by
    rw [List.length_drop]
    by_cases hc : fname.length - p > E.BASENAMELEN
    · rw [if_pos hc]
      have : s = p + E.BASENAMELEN := by omega
      rw [this]
      exact holds_truncate b0 fname _ H0 (by omega)
    · rw [if_neg hc]
      have : s = fname.length := by omega
      rw [this, List.take_length]
      exact H0
  have L1 : (if (fname.drop p).length > E.BASENAMELEN
      then buf_poke b0 (p + E.BASENAMELEN) 0 else b0).length = b0.length := by
    split
    · rw [buf_poke_length]
    · rfl
  generalize hb1def : (if (fname.drop p).length > E.BASENAMELEN
      then buf_poke b0 (p + E.BASENAMELEN) 0 else b0) = b1 at H1 L1
  have hc1 : (fname.take s).length = s := by rw [List.length_take]; omega
  have hb1 : cstr_at b1 p = some ((fname.take s).drop p) :=
    cstr_at_holds b1 _ p H1 (by omega)
  have hsl : p + ((fname.take s).drop p).length = s := by
    rw [List.length_drop, hc1]; omega
  -- the extension is appended
  have H2 : Holds (buf_store b1 s (ext ++ [0])) (fname.take s ++ ext) := by
    have := holds_append b1 (fname.take s) ext H1 hxz (by rw [hc1]; omega)
    rw [hc1] at this
    exact this
  have L2 : (buf_store b1 s (ext ++ [0])).length = b0.length := by
    rw [buf_store_length, L1]
  generalize hb2def : buf_store b1 s (ext ++ [0]) = b2 at H2 L2
  have hr0 : (fname.take s ++ ext).length = s + ext.length := by
    rw [List.length_append, hc1]
  -- the dot is prepended
  have hstage : ∃ b3 mid, (if prepend_dot = true then
        (cstr_at b2 0).bind fun str =>
        if buf_byte b2 (E.path_tail str) ≠ 46 then
          (cstr_at b2 (E.path_tail str)).bind fun tail =>
          some (buf_poke (buf_store b2 (E.path_tail str + 1) (tail ++ [0])) (E.path_tail str) 46)
        else some b2
      else some b2) = some b3 ∧ Holds b3 (mid ++ ext) ∧ s ≤ mid.length ∧ mid.length ≤ s + 1
      ∧ (prepend_dot = false → mid = fname.take s) := by
    by_cases hd : prepend_dot = true
    · rw [if_pos hd]
      have he := hdot hd
      rw [cstr_at_holds b2 _ 0 H2 (Nat.zero_le _), List.drop_zero, Option.some_bind]
      generalize E.path_tail (fname.take s ++ ext) = e at *
      by_cases hne : buf_byte b2 e ≠ 46
      · rw [if_pos hne, cstr_at_holds b2 _ e H2 (by omega), Option.some_bind]
        have H3 := holds_dot b2 _ e H2 (by omega) (by omega)
        have e1 : (fname.take s ++ ext).take e = (fname.take s).take e := by
          rw [List.take_append_of_le_length (by omega)]
        have e2 : (fname.take s ++ ext).drop e = (fname.take s).drop e ++ ext := by
          rw [List.drop_append_of_le_length (by omega)]
        have hstr : ((fname.take s).take e ++ 46 :: (fname.take s).drop e) ++ ext
            = (fname.take s ++ ext).take e ++ 46 :: (fname.take s ++ ext).drop e := by
          rw [e1, e2]
          simp
        refine ⟨_, (fname.take s).take e ++ 46 :: (fname.take s).drop e, rfl, ?_, ?_, ?_,
          fun h => ?_⟩
        · rw [hstr]
          exact H3
        · simp only [List.length_append, List.length_cons, List.length_take, List.length_drop]
          omega
        · simp only [List.length_append, List.length_cons, List.length_take, List.length_drop]
          omega
        · rw [hd] at h
          exact absurd h (by decide)
      · rw [if_neg hne]
        exact ⟨b2, fname.take s, rfl, H2, by omega, by omega, fun _ => rfl⟩
    · rw [if_neg hd]
      exact ⟨b2, fname.take s, rfl, H2, by omega, by omega, fun _ => rfl⟩
  obtain ⟨b3, mid, hst, H3, hm1, hm2, hm3⟩ := hstage
  -- the whole
  unfold modname_rest
  rw [cstr_at_holds b0 fname 0 H0 (Nat.zero_le _), List.drop_zero, Option.some_bind, hptr,
    Option.some_bind, cstr_at_holds b0 fname p H0 hple, Option.some_bind]
  simp only []
  rw [hb1def, hb1, Option.some_bind, hsl, hb2def, hst, Option.some_bind,
    cstr_at_holds b3 _ 0 H3 (Nat.zero_le _), List.drop_zero, Option.some_bind]
  by_cases heq : fname = mid ++ ext
  · rw [if_pos ⟨by simp, by rw [← heq]⟩]
    have hlen : fname.length = mid.length + ext.length := by
      rw [heq, List.length_append]
    have hps : p < s := by omega
    obtain ⟨j, v, g1, g2, g3, g4, g5⟩ := modname_differ_poke b3 (mid ++ ext) p H3 s hps
      (by rw [List.length_append]; omega)
    have hj : j < (mid ++ ext).length := by rw [List.length_append]; omega
    have H4 := holds_poke b3 (mid ++ ext) j v H3 hj g3
    refine ⟨_, (mid ++ ext).set j v, mid.set j v, rfl, ?_, ?_, ?_, ?_, ?_⟩
    · rw [g5]
      exact cstr_at_holds _ _ 0 H4 (Nat.zero_le _)
    · rw [List.set_append, if_pos (by omega)]
    · rw [heq]
      exact set_ne_self _ j v hj g4
    · rw [List.length_set]
      exact hm2
    · intro hd
      rw [hm3 hd]
      exact Or.inr ⟨j, v, g1, g2, rfl⟩
  · rw [if_neg (fun h => heq (by injection h.2))]
    exact ⟨b3, mid ++ ext, mid, rfl, cstr_at_holds b3 _ 0 H3 (Nat.zero_le _), rfl,
      fun h => heq h.symm, hm2, fun hd => Or.inl (hm3 hd)⟩

/-- Claim C24: for a name `fname` and an extension `ext` that are not empty,
`modname` returns memory that holds a string `r`; `r` is a part `mid` followed
by `ext`, and `r` is not `fname`.  Where no dot is prepended, `mid` is the name
cut after at most `BASENAMELEN` bytes of the base name (the bytes from the
offset `modname_ptr`, which follows the last path separator that is not the
first byte), with at most one of the bytes of the base name replaced; where a
dot is prepended `mid` is one byte longer at most.  The extension is not empty
at any call of `modname` in this file (the backup extension is ".bak" when
'backupext' is empty, and 'patchmode' is used only when it is set), and no
call asks for a dot.  `BASENAMELEN` is not 0, NUL is no path separator, and,
when a dot is to be prepended, `path_tail` finds the tail of the new name
before the extension. -/
theorem modname_differs (E : ModEnv) (fname ext : List Nat) (prepend_dot : Bool)
    (hf : fname ≠ []) (hfz : ∀ x ∈ fname, x ≠ 0) (hx : ext ≠ []) (hxz : ∀ x ∈ ext, x ≠ 0)
    (hB : 0 < E.BASENAMELEN) (hsep : E.vim_ispathsep 0 = false)
    (hdot : prepend_dot = true →
      E.path_tail (fname.take (modname_end E fname) ++ ext) ≤ modname_end E fname) :
    ∃ b r mid, modname E (some fname) ext prepend_dot = some (some b)
      ∧ cstr_at b 0 = some r ∧ r = mid ++ ext ∧ r ≠ fname
      ∧ mid.length ≤ modname_end E fname + 1
      ∧ (prepend_dot = false →
          mid = fname.take (modname_end E fname)
          ∨ ∃ j v, modname_ptr E fname ≤ j ∧ j < modname_end E fname
              ∧ mid = (fname.take (modname_end E fname)).set j v)
      ∧ modname_end E fname ≤ modname_ptr E fname + E.BASENAMELEN
      ∧ modname_ptr E fname ≤ fname.length := by
  have H0 : Holds (buf_store (xmalloc (fname.length + ext.length + 3)) 0 (fname ++ [0])) fname := by
    have := holds_init fname (ext.length + 2) hfz
    rw [show fname.length + (ext.length + 2) + 1 = fname.length + ext.length + 3 by omega] at this
    exact this
  obtain ⟨b, r, mid, h1, h2, h3, h4, h5, h6⟩ := modname_rest_holds E fname ext _ prepend_dot H0
    (by rw [buf_store_length]; simp [xmalloc]) hfz hx hxz hB hsep hdot
  refine ⟨b, r, mid, ?_, h2, h3, h4, h5, h6, ?_, modname_ptr_le E fname hfz hsep⟩
  · unfold modname
    simp only []
    rw [if_neg (by simp [hf])]
    exact h1
  · unfold modname_end
    exact Nat.min_le_left _ _

set_option maxRecDepth 100000 in
/-- The name `dir/file.c` with the extension `.bak` and a dot becomes
`dir/.file.c.bak`; with base names of at most 8 bytes `dir/longfilename.c`
with `.c` becomes `dir/longfile.c`, and `abcdefgh.c` with `.c`, which would
stay as it is, becomes `abcdefg_.c`. -/
theorem modname_differs_witness :
    (∃ b r mid, modname Sample.mod_env (some [100, 105, 114, 47, 102, 105, 108, 101, 46, 99])
        [46, 98, 97, 107] true = some (some b)
      ∧ cstr_at b 0 = some r ∧ r = mid ++ [46, 98, 97, 107]
      ∧ r ≠ [100, 105, 114, 47, 102, 105, 108, 101, 46, 99]
      ∧ mid.length ≤ modname_end Sample.mod_env [100, 105, 114, 47, 102, 105, 108, 101, 46, 99] + 1
      ∧ (true = false →
          mid = List.take (modname_end Sample.mod_env
              [100, 105, 114, 47, 102, 105, 108, 101, 46, 99])
            [100, 105, 114, 47, 102, 105, 108, 101, 46, 99]
          ∨ ∃ j v, modname_ptr Sample.mod_env [100, 105, 114, 47, 102, 105, 108, 101, 46, 99] ≤ j
              ∧ j < modname_end Sample.mod_env [100, 105, 114, 47, 102, 105, 108, 101, 46, 99]
              ∧ mid = (List.take (modname_end Sample.mod_env
                  [100, 105, 114, 47, 102, 105, 108, 101, 46, 99])
                [100, 105, 114, 47, 102, 105, 108, 101, 46, 99]).set j v)
      ∧ modname_end Sample.mod_env [100, 105, 114, 47, 102, 105, 108, 101, 46, 99]
          ≤ modname_ptr Sample.mod_env [100, 105, 114, 47, 102, 105, 108, 101, 46, 99]
            + Sample.mod_env.BASENAMELEN
      ∧ modname_ptr Sample.mod_env [100, 105, 114, 47, 102, 105, 108, 101, 46, 99]
          ≤ [100, 105, 114, 47, 102, 105, 108, 101, 46, 99].length)
    ∧ (modname Sample.mod_env (some [100, 105, 114, 47, 102, 105, 108, 101, 46, 99])
        [46, 98, 97, 107] true).bind (fun o => o.bind (fun b => cstr_at b 0))
        = some [100, 105, 114, 47, 46, 102, 105, 108, 101, 46, 99, 46, 98, 97, 107]
    ∧ (modname Sample.mod_env_short
        (some [100, 105, 114, 47, 108, 111, 110, 103, 102, 105, 108, 101, 110, 97, 109, 101])
        [46, 99] false).bind (fun o => o.bind (fun b => cstr_at b 0))
        = some [100, 105, 114, 47, 108, 111, 110, 103, 102, 105, 108, 101, 46, 99]
    ∧ (modname Sample.mod_env_short (some [97, 98, 99, 100, 101, 102, 103, 104, 46, 99])
        [46, 99] false).bind (fun o => o.bind (fun b => cstr_at b 0))
        = some [97, 98, 99, 100, 101, 102, 103, 95, 46, 99] :=
  ⟨modname_differs Sample.mod_env [100, 105, 114, 47, 102, 105, 108, 101, 46, 99]
      [46, 98, 97, 107] true (by decide) (by decide) (by decide) (by decide) (by decide)
      (by decide) (fun _ => by decide),
    by decide, by decide, by decide⟩

/-- The extension has to be non-empty: with an empty extension a name that ends
in a path separator gives no string: for `a/` the byte `v` is stored over the
terminating NUL, and the two bytes of the memory after it have not been
written.  No call in this file passes an empty extension. -/
theorem modname_unterminated :
    modname Sample.mod_env (some [97, 47]) [] false
      = some (some [some 97, some 47, some 118, none, none])
    ∧ cstr_at [some 97, some 47, some 118, none, none] 0 = none := by
  decide

end Fileio
